import Mathlib

/-! # Lily parser: type collection, expressions and statements

A shallow embedding of `src/lily_parser.c` (with the declarations of
`src/lily_core_types.h` and `src/lily_parser.h`), of `src/lily_msgbuf.c`,
`src/lily_pkg_sys.c` and `src/lily_main.c`, and theorems about them.

Conventions of the embedding:

* a C pointer to a class is the class id, a pointer to a type is an
  `Option lily_type` (`none` is `NULL`);
* `lily_raise` is `Except.error (Stop.raised kind)`; an access outside an
  allocated block or through `NULL` is `Stop.undefined_behavior`;
* loops and recursion run on a fuel argument, `Stop.out_of_fuel` when spent;
* the lexer, symtab, AST pool and emitter live in files that are not part of
  `src/`; what the parser needs from them is modelled below, each such
  definition saying so.
-/

namespace Lily

/-! ## Constants of lily_core_types.h -/

def CLS_VALID_HASH_KEY : Nat := 0x01
def CLS_ENUM_CLASS : Nat := 0x02
def CLS_VARIANT_CLASS : Nat := 0x04
def CLS_ENUM_IS_SCOPED : Nat := 0x10

def TYPE_IS_VARARGS : Nat := 0x01

def SYM_OUT_OF_SCOPE : Nat := 0x010
def SYM_NOT_INITIALIZED : Nat := 0x020
def VAR_IS_READONLY : Nat := 0x100

def SYM_CLASS_INTEGER : Nat := 0
def SYM_CLASS_DOUBLE : Nat := 1
def SYM_CLASS_STRING : Nat := 2
def SYM_CLASS_FUNCTION : Nat := 3
def SYM_CLASS_ANY : Nat := 4
def SYM_CLASS_LIST : Nat := 5
def SYM_CLASS_HASH : Nat := 6
def SYM_CLASS_TUPLE : Nat := 7
def SYM_CLASS_TEMPLATE : Nat := 8
def SYM_CLASS_PACKAGE : Nat := 9

/-! ## Data model -/

/-- The struct lily_type: the class (by id), the ordered subtypes (a function
type has its return, or NULL, at index 0), the generic position and the
flags. -/
inductive lily_type where
  | mk (cls : Nat) (subtypes : List (Option lily_type)) (template_pos : Nat) (flags : Nat) : lily_type

namespace lily_type

def cls : lily_type → Nat
  | mk c _ _ _ => c

def subtypes : lily_type → List (Option lily_type)
  | mk _ s _ _ => s

def template_pos : lily_type → Nat
  | mk _ _ t _ => t

def flags : lily_type → Nat
  | mk _ _ _ f => f

def subtype_count (t : lily_type) : Nat := t.subtypes.length

end lily_type

mutual

/-- Equality of types is decidable. -/
def lily_type.decEq : (a b : lily_type) → Decidable (a = b)
  | lily_type.mk c1 s1 t1 f1, lily_type.mk c2 s2 t2 f2 =>
    if h1 : c1 = c2 then
      match subtypes_decEq s1 s2 with
      | isTrue h2 =>
        if h3 : t1 = t2 then
          if h4 : f1 = f2 then isTrue (by rw [h1, h2, h3, h4])
          else isFalse (fun e => h4 (lily_type.mk.inj e).2.2.2)
        else isFalse (fun e => h3 (lily_type.mk.inj e).2.2.1)
      | isFalse h2 => isFalse (fun e => h2 (lily_type.mk.inj e).2.1)
    else isFalse (fun e => h1 (lily_type.mk.inj e).1)
termination_by structural a => a

/-- Equality of subtype lists is decidable. -/
def subtypes_decEq : (a b : List (Option lily_type)) → Decidable (a = b)
  | [], [] => isTrue rfl
  | [], _ :: _ => isFalse (fun e => List.noConfusion e)
  | _ :: _, [] => isFalse (fun e => List.noConfusion e)
  | a :: as, b :: bs =>
    match slot_decEq a b with
    | isTrue h1 =>
      match subtypes_decEq as bs with
      | isTrue h2 => isTrue (by rw [h1, h2])
      | isFalse h2 => isFalse (fun e => h2 (List.cons.inj e).2)
    | isFalse h1 => isFalse (fun e => h1 (List.cons.inj e).1)
termination_by structural a => a

/-- Equality of type pointers is decidable. -/
def slot_decEq : (a b : Option lily_type) → Decidable (a = b)
  | none, none => isTrue rfl
  | none, some _ => isFalse (fun e => Option.noConfusion e)
  | some _, none => isFalse (fun e => Option.noConfusion e)
  | some a, some b =>
    match lily_type.decEq a b with
    | isTrue h => isTrue (by rw [h])
    | isFalse h => isFalse (fun e => h (Option.some.inj e))
termination_by structural a => a

end

instance : DecidableEq lily_type := lily_type.decEq

/-- Equality of results is decidable. -/
def except_decEq {ε α : Type} [DecidableEq ε] [DecidableEq α] : (a b : Except ε α) → Decidable (a = b)
  | .ok a, .ok b => if h : a = b then isTrue (by rw [h]) else isFalse (fun e => h (Except.ok.inj e))
  | .error a, .error b => if h : a = b then isTrue (by rw [h]) else isFalse (fun e => h (Except.error.inj e))
  | .ok _, .error _ => isFalse (fun e => Except.noConfusion e)
  | .error _, .ok _ => isFalse (fun e => Except.noConfusion e)

instance {ε α : Type} [DecidableEq ε] [DecidableEq α] : DecidableEq (Except ε α) := except_decEq

/-- The struct lily_prop_entry. -/
structure lily_prop_entry where
  name : String
  type : Option lily_type
  id : Nat
  flags : Nat

/-- The struct lily_var (the value and line number are left out). -/
structure lily_var where
  name : String
  type : Option lily_type
  flags : Nat
  reg_spot : Nat
  function_depth : Int
  parent : Option Nat
  package_vars : List (String × Option lily_type) := []

/-- The struct lily_class. Pointers to other classes are class ids; the
linked list of callables is a list. -/
structure lily_class where
  name : String
  id : Nat
  flags : Nat
  template_count : Int
  type : Option lily_type
  parent : Option Nat
  properties : List lily_prop_entry
  variant_members : List Nat
  variant_type : Option lily_type
  call_start : List lily_var

/-- Error kinds of the raiser (spec section 4.1). -/
inductive lily_error where
  | lily_SyntaxError
  | lily_ImportError
  | lily_EncodingError
  | lily_NoMemoryError
  | lily_DivisionByZeroError
  | lily_IndexError
  | lily_BadTypecastError
  | lily_NoReturnError
  | lily_ValueError
  | lily_RecursionError
  | lily_KeyError
  | lily_FormatError
deriving DecidableEq, Repr

/-- Why a run of the embedded code stops without a result. -/
inductive Stop where
  | raised (kind : lily_error)
  | undefined_behavior
  | out_of_fuel
deriving DecidableEq, Repr

/-- Modelled from the spec: the token classes of the lexer (section 4.2) under
the names lily_parser.c uses; lily_lexer.h is not under src/. -/
inductive lily_token where
  | tk_right_parenth | tk_comma | tk_left_curly | tk_right_curly
  | tk_left_bracket | tk_colon | tk_tilde
  | tk_bitwise_xor | tk_bitwise_xor_eq | tk_not | tk_not_eq
  | tk_modulo | tk_modulo_eq | tk_multiply | tk_multiply_eq
  | tk_divide | tk_divide_eq | tk_plus | tk_plus_eq | tk_minus | tk_minus_eq
  | tk_lt | tk_lt_eq | tk_left_shift | tk_left_shift_eq
  | tk_gt | tk_gt_eq | tk_right_shift | tk_right_shift_eq
  | tk_equal | tk_eq_eq | tk_left_parenth | tk_lambda
  | tk_tuple_open | tk_tuple_close | tk_right_bracket | tk_arrow
  | tk_word | tk_prop_word | tk_double_quote | tk_integer | tk_double
  | tk_dot | tk_colon_colon
  | tk_bitwise_and | tk_bitwise_and_eq | tk_logical_and
  | tk_bitwise_or | tk_bitwise_or_eq | tk_logical_or
  | tk_typecast_parenth | tk_three_dots
  | tk_invalid | tk_end_tag | tk_inner_eof | tk_final_eof
deriving DecidableEq, Repr

open lily_token

/-- One token of the input as the lexer delivers it: its class, the label
text of a word or property word (without the leading at-sign), and for a
number whether its text starts with a sign. -/
structure lex_item where
  token : lily_token
  label : String := ""
  signed : Option lily_token := none

/-- Modelled from the spec: the lexer state the parser reads (current token,
current label) over the tokens still to come; lily_lexer.c is not under
src/. -/
structure lily_lex_state where
  token : lily_token
  label : String
  signed : Option lily_token
  input : List lex_item

/-- Modelled from the spec: lily_lexer, the one-token advance. The label is
rewritten by a word or a property word and kept by every other token; past the
end of the input the token is tk_final_eof. -/
def lily_lexer (lex : lily_lex_state) : lily_lex_state :=
  match lex.input with
  | [] => { lex with token := tk_final_eof, signed := none }
  | it :: rest =>
    { token := it.token,
      label := if it.token = tk_word ∨ it.token = tk_prop_word then it.label else lex.label,
      signed := it.signed,
      input := rest }

/-- Modelled from the spec: the symtab (section 4.3): the classes, the chain of
vars (most recent first), how many of the generic slots A..Z are visible, the
type the constructor of the class being declared returns, the next register
spot, and the seed tables of the classes (the field seed_table of lily_class,
static data of files that are not under src/): for a class id and a name the
tokens of the declaration of the member; lily_symtab.c is not under src/. -/
structure lily_symtab where
  classes : List lily_class
  var_chain : List lily_var
  generic_count : Nat
  root_type : Option lily_type
  next_register_spot : Nat
  next_readonly_spot : Nat
  function_depth : Int
  seed_tables : List (Nat × String × List lex_item) := []

/-- Modelled from the spec: one block of the emitter (section 4.5): its kind,
the self of the enclosing class, the match subject and the variants already
covered, the generics in scope and the var of the function the block belongs
to; lily_emitter.c is not under src/. -/
structure lily_block where
  block_type : Nat
  self : Option (Option lily_type)
  match_sym : Option (Option lily_type)
  match_cases : List Nat
  generic_count : Nat
  function_var : Option lily_var
  var_start : Nat := 0
  function_ret : Option lily_type := none
  class_entry : Option Nat := none

/-- Modelled from the spec: the emitter state the parser reads: the stack of
blocks (innermost first), the function nesting depth, the return type of the
function being declared and the class being declared. -/
structure lily_emit_state where
  blocks : List lily_block
  function_depth : Int
  top_function_ret : Option lily_type
  current_class : Option Nat
  patch_pos : Nat
  top_var_name : String := "__main__"

/-- Tree kinds of the AST pool that the parser names. -/
inductive lily_tree_type where
  | tree_call | tree_subscript | tree_list | tree_hash | tree_parenth
  | tree_local_var | tree_defined_func | tree_global_var | tree_oo_access
  | tree_property | tree_variant | tree_lambda | tree_literal
  | tree_inherited_new | tree_typecast | tree_package | tree_tuple
  | tree_unary | tree_binary
deriving DecidableEq, Repr

open lily_tree_type

/-- An entered (saved) tree of the AST pool: its kind and how many arguments
it has collected. -/
structure lily_ast where
  tree_type : lily_tree_type
  args_collected : Nat

/-- Modelled from the spec: the AST pool (section 4.5) as far as the parser
observes it: the entered trees that are still open (innermost first, their
number is save_depth), whether a tree is active, and the log of what was
pushed; lily_ast.c is not under src/. -/
structure lily_ast_pool where
  saved : List lily_ast
  active : Bool
  pushed : List lily_tree_type
  last_value_type : Option lily_type := none
  root_assign : Bool := false

/-- The struct lily_parse_state. The type stack is the allocated block seen as
a map from index to cell; type_stack_size cells of it are allocated. -/
structure lily_parse_state where
  type_stack : Nat → Option lily_type
  type_stack_pos : Nat
  type_stack_size : Nat
  class_depth : Nat
  next_lambda_id : Nat
  default_call_type : Option lily_type
  ast_pool : lily_ast_pool
  lex : lily_lex_state
  emit : lily_emit_state
  symtab : lily_symtab

/-- The flags of collect_var_type (the CV_* defines), one field per bit. -/
structure cv_flags where
  CV_MAKE_VARS : Bool := false
  CV_TOPLEVEL : Bool := false
  CV_CLASS_INIT : Bool := false
  CV_VARIANT_FUNC : Bool := false

/-- The call lily_raise(parser->raiser, lily_SyntaxError, ...). -/
def raise_syntax {α : Type} : Except Stop α :=
  .error (.raised .lily_SyntaxError)

/-- The statement `if (c) lily_raise(parser->raiser, lily_SyntaxError, ...)`. -/
def raise_if (c : Prop) [Decidable c] : Except Stop Unit :=
  if c then raise_syntax else .ok ()

/-- A call of lily_raise whose format has a directive and no argument for it,
made when the condition holds: the read of the missing argument is undefined. -/
def raise_without_argument_if (c : Prop) [Decidable c] : Except Stop Unit :=
  if c then .error .undefined_behavior else .ok ()

/-- Reading through a pointer: NULL cannot be read through. -/
def deref {α : Type} (x : Option α) : Except Stop α :=
  match x with
  | some a => .ok a
  | none => .error .undefined_behavior

/-! ## Symtab operations the parser calls -/

/-- The type of the generic slot at a position: class template, no
subtypes. -/
def generic_type (pos : Nat) : lily_type :=
  lily_type.mk SYM_CLASS_TEMPLATE [] pos 0

/-- Reading through a class pointer. -/
def class_deref (symtab : lily_symtab) (cls : Nat) : Except Stop lily_class :=
  match symtab.classes.find? (fun c => c.id == cls) with
  | some c => .ok c
  | none => .error .undefined_behavior

/-- Writing a class through its pointer. -/
def class_update (symtab : lily_symtab) (cls : Nat) (f : lily_class → lily_class) :
    lily_symtab :=
  { symtab with classes := symtab.classes.map (fun c => if c.id == cls then f c else c) }

/-- Modelled from the spec: lily_class_by_id. -/
def lily_class_by_id (_symtab : lily_symtab) (id : Nat) : Nat := id

/-- Modelled from the spec: lily_class_by_name (section 4.3). A one-letter name
is a generic slot: when the slot is visible the template class is returned with
the type of that slot as its default type, and a hidden slot is not found.
Every other name is looked up among the classes. -/
def lily_class_by_name (symtab : lily_symtab) (name : String) : lily_symtab × Option Nat :=
  match name.toList with
  | [ch] =>
    if 65 ≤ ch.toNat ∧ ch.toNat - 65 < symtab.generic_count then
      (class_update symtab SYM_CLASS_TEMPLATE
          (fun c => { c with type := some (generic_type (ch.toNat - 65)) }),
        some SYM_CLASS_TEMPLATE)
    else (symtab, none)
  | _ => (symtab, (symtab.classes.find? (fun c => c.name == name)).map (fun c => c.id))

/-- Modelled from the spec: lily_var_by_name, the most recent var of that name
that is still in scope. -/
def lily_var_by_name (symtab : lily_symtab) (name : String) : Option lily_var :=
  symtab.var_chain.find? (fun v => v.name == name && (v.flags &&& SYM_OUT_OF_SCOPE) == 0)

/-- Modelled from the spec: lily_find_property, walking the class and its
ancestors (the fuel bounds the walk up the parent links). -/
def lily_find_property (symtab : lily_symtab) : Nat → Nat → String → Option lily_prop_entry
  | 0, _, _ => none
  | fuel + 1, cls, name =>
    match symtab.classes.find? (fun c => c.id == cls) with
    | none => none
    | some c =>
      match c.properties.find? (fun e => e.name == name) with
      | some e => some e
      | none =>
        match c.parent with
        | none => none
        | some parent => lily_find_property symtab fuel parent name

/-- Modelled from the spec: lily_try_new_var (section 4.3): the var goes on top
of the var chain and takes the next register spot of its scope; a readonly var
(a function) takes no register, its spot counts the functions declared and its
depth is -1. -/
def lily_try_new_var (symtab : lily_symtab) (type : Option lily_type) (name : String)
    (flags : Nat) : lily_var × lily_symtab :=
  if (flags &&& VAR_IS_READONLY) = 0 then
    let var : lily_var :=
      { name := name, type := type, flags := flags, reg_spot := symtab.next_register_spot,
        function_depth := symtab.function_depth, parent := none }
    (var, { symtab with var_chain := var :: symtab.var_chain,
                        next_register_spot := symtab.next_register_spot + 1 })
  else
    let var : lily_var :=
      { name := name, type := type, flags := flags, reg_spot := symtab.next_readonly_spot,
        function_depth := -1, parent := none }
    (var, { symtab with var_chain := var :: symtab.var_chain,
                        next_readonly_spot := symtab.next_readonly_spot + 1 })

/-- Modelled from the spec: lily_add_class_property, a new property entry at
the end of the properties of the class. -/
def lily_add_class_property (symtab : lily_symtab) (cls : Nat) (type : Option lily_type)
    (name : String) (flags : Nat) : lily_prop_entry × lily_symtab :=
  let id := match symtab.classes.find? (fun c => c.id == cls) with
    | some c => c.properties.length
    | none => 0
  let prop : lily_prop_entry := { name := name, type := type, id := id, flags := flags }
  (prop, class_update symtab cls (fun c => { c with properties := c.properties ++ [prop] }))

/-- Modelled from the spec: lily_build_ensure_type (section 4.3). Types are
interned on (class, flags, subtypes), so the canonical type is the value with
these three; the subtypes are the count cells of the stack from start on. -/
def lily_build_ensure_type (cls : Nat) (flags : Nat) (stack : Nat → Option lily_type)
    (start count : Nat) : lily_type :=
  lily_type.mk cls ((List.range count).map (fun j => stack (start + j))) 0 flags

/-! ## Type stack -/

/-- The cell write parser->type_stack[idx] = v. -/
def stack_write (parser : lily_parse_state) (idx : Nat) (v : Option lily_type) :
    Except Stop lily_parse_state :=
  if idx < parser.type_stack_size then
    .ok { parser with type_stack := fun j => if j = idx then v else parser.type_stack j }
  else .error .undefined_behavior

/-- The cell read parser->type_stack[idx]. -/
def stack_read (parser : lily_parse_state) (idx : Nat) : Except Stop (Option lily_type) :=
  if idx < parser.type_stack_size then .ok (parser.type_stack idx)
  else .error .undefined_behavior

/-- The read of count cells from start on that lily_build_ensure_type does. -/
def stack_check_range (parser : lily_parse_state) (start count : Nat) : Except Stop Unit :=
  if count = 0 ∨ start + count ≤ parser.type_stack_size then .ok ()
  else .error .undefined_behavior

/-- The function grow_type_stack: the 16-bit size doubles and the block is
reallocated to it. -/
def grow_type_stack (parser : lily_parse_state) : lily_parse_state :=
  { parser with type_stack_size := (parser.type_stack_size * 2) % 65536 }

/-- The statement parser->type_stack_pos++ on the 16-bit field. -/
def type_stack_pos_incr (parser : lily_parse_state) : lily_parse_state :=
  { parser with type_stack_pos := (parser.type_stack_pos + 1) % 65536 }

/-- The statements `parser->type_stack[parser->type_stack_pos] = v;
parser->type_stack_pos++`. -/
def push_type (parser : lily_parse_state) (v : Option lily_type) :
    Except Stop lily_parse_state :=
  match stack_write parser parser.type_stack_pos v with
  | .error e => .error e
  | .ok parser => .ok (type_stack_pos_incr parser)

/-- The current block of the emitter, parser->emit->block. -/
def current_block (parser : lily_parse_state) : Except Stop lily_block :=
  match parser.emit.blocks with
  | b :: _ => .ok b
  | [] => .error .undefined_behavior

/-- The read parser->emit->block->self->type. -/
def block_self_type (parser : lily_parse_state) : Except Stop (Option lily_type) := do
  let b ← current_block parser
  match b.self with
  | some t => .ok t
  | none => .error .undefined_behavior

/-- The macro NEED_CURRENT_TOK. -/
def NEED_CURRENT_TOK (parser : lily_parse_state) (expected : lily_token) : Except Stop Unit :=
  if parser.lex.token ≠ expected then raise_syntax else .ok ()

/-- The macro NEED_NEXT_TOK. -/
def NEED_NEXT_TOK (parser : lily_parse_state) (expected : lily_token) :
    Except Stop lily_parse_state :=
  let parser := { parser with lex := lily_lexer parser.lex }
  if parser.lex.token ≠ expected then raise_syntax else .ok parser

/-- The call lily_lexer(lex) on the lexer of the parser. -/
def next_token (parser : lily_parse_state) : lily_parse_state :=
  { parser with lex := lily_lexer parser.lex }

/-! ## Shared code of the parser -/

/-- The handle of a var of the chain: how many vars are below it. -/
def var_set_type (symtab : lily_symtab) (handle : Nat) (type : Option lily_type) :
    lily_symtab :=
  let chain := symtab.var_chain.modify (fun v => { v with type := type })
    (symtab.var_chain.length - 1 - handle)
  { symtab with var_chain := chain }

/-- The check of get_named_var for a function declared in a class: no property
of the class may have the name. -/
def method_name_check (parser : lily_parse_state) (flags : Nat) : Except Stop Unit :=
  if (flags &&& VAR_IS_READONLY) ≠ 0 ∧ parser.class_depth ≠ 0 then do
    let self_type ← block_self_type parser
    let self_type ← deref self_type
    let current_class := self_type.cls
    let entry := lily_find_property parser.symtab (parser.symtab.classes.length + 1)
      current_class parser.lex.label
    raise_if (entry.isSome)
  else .ok ()

/-- The function get_named_var: the label must not name a var yet (nor, for a
function declared in a class, a property of the class); the var is created and
the lexer advances. Returns the handle of the new var. -/
def get_named_var (parser : lily_parse_state) (var_type : Option lily_type) (flags : Nat) :
    Except Stop (Nat × lily_parse_state) := do
  let lex := parser.lex
  raise_if ((lily_var_by_name parser.symtab lex.label).isSome)
  method_name_check parser flags
  let handle := parser.symtab.var_chain.length
  let symtab := (lily_try_new_var parser.symtab var_type lex.label flags).2
  pure (handle, { parser with symtab := symtab, lex := lily_lexer lex })

mutual

/-- The function calculate_generics_used: nothing is done for NULL. -/
def calculate_generics_used :
    Option lily_type → (Nat → Bool) × Nat → Except Stop ((Nat → Bool) × Nat)
  | none, st => .ok st
  | some type, st => calculate_generics_used_type type st
termination_by structural type => type

/-- The function calculate_generics_used on a type that is not NULL: the
positions of the generics seen in the type are marked in the map of 32 cells,
generic_max becomes the highest position seen plus one. -/
def calculate_generics_used_type :
    lily_type → (Nat → Bool) × Nat → Except Stop ((Nat → Bool) × Nat)
  | lily_type.mk cls subtypes template_pos _, (generic_map, generic_max) =>
    if cls = SYM_CLASS_TEMPLATE then
      let generic_pos := template_pos
      if generic_pos < 32 then
        .ok (fun j => if j = generic_pos then true else generic_map j,
             if generic_pos + 1 > generic_max then generic_pos + 1 else generic_max)
      else .error .undefined_behavior
    else calculate_generics_used_subtypes subtypes (generic_map, generic_max)
termination_by structural type => type

/-- The loop of calculate_generics_used over type->subtypes. -/
def calculate_generics_used_subtypes :
    List (Option lily_type) → (Nat → Bool) × Nat → Except Stop ((Nat → Bool) × Nat)
  | [], st => .ok st
  | t :: rest, st =>
    match calculate_generics_used t st with
    | .ok st => calculate_generics_used_subtypes rest st
    | .error e => .error e
termination_by structural subtypes => subtypes

end

/-- The first loop of calculate_variant_return: the cells from i on, count of
them, are passed to calculate_generics_used. -/
def variant_scan (parser : lily_parse_state) :
    Nat → Nat → (Nat → Bool) × Nat → Except Stop ((Nat → Bool) × Nat)
  | _, 0, st => .ok st
  | i, count + 1, st => do
    let t ← stack_read parser i
    let st ← calculate_generics_used t st
    variant_scan parser (i + 1) count st

/-- The second loop of calculate_variant_return, from generic position i with
todo positions to go: the type of every marked position is written at j; k
counts them. The i-th type of the chain from template_type_start is the
generic at position i. -/
def variant_fill (generic_map : Nat → Bool) :
    Nat → Nat → Nat → Nat → lily_parse_state → Except Stop (Nat × lily_parse_state)
  | 0, _, _, k, parser => .ok (k, parser)
  | todo + 1, i, j, k, parser =>
    if generic_map i then do
      let parser ← stack_write parser j (some (generic_type i))
      variant_fill generic_map todo (i + 1) (j + 1) (k + 1) parser
    else variant_fill generic_map todo (i + 1) j k parser

/-- The function calculate_variant_return. -/
def calculate_variant_return (parser : lily_parse_state) (variant_class : Nat)
    (stack_start stack_top : Nat) : Except Stop (lily_type × lily_parse_state) := do
  let (generic_map, generic_max) ←
    variant_scan parser stack_start (stack_top - stack_start) (fun _ => false, 0)
  let parser :=
    if stack_top + generic_max > parser.type_stack_size then grow_type_stack parser
    else parser
  let (k, parser) ← variant_fill generic_map generic_max 0 (stack_top + 1) 0 parser
  stack_check_range parser (stack_top + 1) k
  let variant_return :=
    lily_build_ensure_type variant_class 0 parser.type_stack (stack_top + 1) k
  let _ ← class_deref parser.symtab variant_class
  let symtab := class_update parser.symtab variant_class
    (fun c => { c with template_count := (k : Int) })
  pure (variant_return, { parser with symtab := symtab })

/-! ## Type collection -/

def TC_DEMAND_VALUE : Nat := 1
def TC_WANT_VALUE : Nat := 2
def TC_WANT_OPERATOR : Nat := 3
def TC_BAD_TOKEN : Nat := 4
def TC_DONE : Nat := 5

/-- The locals of inner_type_collector that its loop changes. -/
structure tc_locals where
  state : Nat
  flags : cv_flags
  i : Nat
  type_flags : Nat
  have_arrow : Bool
  have_dots : Bool

/-- One pass of the loop of inner_type_collector on a token that is not a
word: the new locals (the state may be TC_DONE or TC_BAD_TOKEN). -/
def tc_operator (parser : lily_parse_state) (end_token : lily_token) (l : tc_locals) :
    Except Stop tc_locals :=
  let token := parser.lex.token
  if token = tk_comma then
    if l.have_arrow ∨ l.have_dots ∨ l.state ≠ TC_WANT_OPERATOR then
      .ok { l with state := TC_BAD_TOKEN }
    else .ok { l with state := TC_DEMAND_VALUE }
  else if token = tk_arrow then
    if l.state = TC_DEMAND_VALUE ∨ l.have_arrow ∨ end_token = tk_right_bracket ∨
        l.flags.CV_CLASS_INIT then
      .ok { l with state := TC_BAD_TOKEN, have_arrow := true }
    else if l.state = TC_WANT_VALUE ∨ l.state = TC_WANT_OPERATOR then
      .ok { l with state := TC_DEMAND_VALUE, have_arrow := true }
    else .ok { l with have_arrow := true }
  else if token = end_token then
    if l.state = TC_DEMAND_VALUE then .ok { l with state := TC_BAD_TOKEN }
    else .ok { l with state := TC_DONE }
  else if token = tk_three_dots then
    if l.have_dots ∨ end_token = tk_right_bracket ∨ l.state ≠ TC_WANT_OPERATOR then
      .ok { l with state := TC_BAD_TOKEN }
    else
      if parser.type_stack_pos = 0 then .error .undefined_behavior
      else
        match stack_read parser (parser.type_stack_pos - 1) with
        | .error e => .error e
        | .ok none => .error .undefined_behavior
        | .ok (some last_type) =>
          if last_type.cls ≠ SYM_CLASS_LIST then raise_syntax
          else .ok { l with have_dots := true, type_flags := l.type_flags ||| TYPE_IS_VARARGS,
                            state := TC_WANT_OPERATOR }
  else .ok { l with state := TC_BAD_TOKEN }

/-- The statement `if ((parser->type_stack_pos + 2) == parser->type_stack_size)
grow_type_stack(parser)` at the head of inner_type_collector. -/
def grow_for_return (parser : lily_parse_state) : lily_parse_state :=
  if parser.type_stack_pos + 2 = parser.type_stack_size then grow_type_stack parser else parser

/-- Whether inner_type_collector adds the implicit self: a function that is not
nested in another type, declared in a class, and not the constructor. -/
def adds_self (parser : lily_parse_state) (flags : cv_flags) : Prop :=
  flags.CV_TOPLEVEL ∧ parser.class_depth ≠ 0 ∧ flags.CV_CLASS_INIT = false

instance (parser : lily_parse_state) (flags : cv_flags) : Decidable (adds_self parser flags) := by
  unfold adds_self
  exact inferInstance

/-- The head of inner_type_collector, before its loop. For the function class
the cell of the return is pushed (the type of the class for a constructor,
NULL otherwise) and, for a function declared in a class, the cell of self.
Returns the parser, the end token and the count i. -/
def tc_enter (parser : lily_parse_state) (cls : Nat) (flags : cv_flags) :
    Except Stop (lily_parse_state × lily_token × Nat) :=
  if cls = SYM_CLASS_FUNCTION then
    match push_type (grow_for_return parser)
        (if flags.CV_CLASS_INIT then parser.symtab.root_type else none) with
    | .error e => .error e
    | .ok entered =>
      if adds_self parser flags then
        match block_self_type parser with
        | .error e => .error e
        | .ok self_type =>
          match push_type entered self_type with
          | .error e => .error e
          | .ok entered => .ok (entered, tk_right_parenth, 2)
      else .ok (entered, tk_right_parenth, 1)
  else .ok (parser, tk_right_bracket, 0)

/-- The check of inner_type_collector for a hash: the class of the key, the
first type, must be a valid hash key. -/
def check_hash_key (parser : lily_parse_state) (cls stack_start : Nat) : Except Stop Unit :=
  if cls = SYM_CLASS_HASH then do
    let check_type ← stack_read parser stack_start
    let check_type ← deref check_type
    let key_class ← class_deref parser.symtab check_type.cls
    raise_if ((key_class.flags &&& CLS_VALID_HASH_KEY) = 0)
  else .ok ()

/-- The flags of inner_type_collector when its loop starts: CV_TOPLEVEL turns
into CV_MAKE_VARS. -/
def tc_enter_flags (flags : cv_flags) : cv_flags :=
  if flags.CV_TOPLEVEL then { flags with CV_MAKE_VARS := true, CV_TOPLEVEL := false }
  else { flags with CV_MAKE_VARS := false }

/-- The statement `if (parser->type_stack_pos == parser->type_stack_size)
grow_type_stack(parser)` of the loop of inner_type_collector. -/
def grow_if_full (parser : lily_parse_state) : lily_parse_state :=
  if parser.type_stack_pos = parser.type_stack_size then grow_type_stack parser else parser

/-- The flags the loop of inner_type_collector collects a type with: after the
arrow no var is made. -/
def tc_word_flags (l : tc_locals) : cv_flags :=
  if l.have_arrow then { l.flags with CV_MAKE_VARS := false } else l.flags

/-- The statement `if (flags & CV_VARIANT_FUNC)` at the end of
inner_type_collector: the return type of the variant is calculated and written
at stack_start. -/
def tc_variant_return (parser : lily_parse_state) (flags : cv_flags)
    (variant_class stack_start i : Nat) : Except Stop lily_parse_state :=
  if flags.CV_VARIANT_FUNC then
    match calculate_variant_return parser variant_class stack_start i with
    | .error e => .error e
    | .ok (variant_return, parser) => stack_write parser stack_start (some variant_return)
  else .ok parser

/-- The head of collect_var_type: when the class is not given, the current
word must name one, and the lexer advances. -/
def collect_class (parser : lily_parse_state) (cls : Option Nat) :
    Except Stop (Nat × lily_parse_state) :=
  match cls with
  | none =>
    if parser.lex.token ≠ tk_word then raise_syntax
    else
      match lily_class_by_name parser.symtab parser.lex.label with
      | (_, none) => raise_syntax
      | (symtab, some cls) => .ok (cls, next_token { parser with symtab := symtab })
  | some cls => .ok (cls, parser)

/-- The statement `if (flags & CV_MAKE_VARS) call_var->type = call_type` of
collect_var_type; call_var is NULL when no var was made. -/
def set_call_var_type (parser : lily_parse_state) (call_var : Option Nat)
    (call_type : lily_type) : lily_parse_state :=
  match call_var with
  | some v => { parser with symtab := var_set_type parser.symtab v (some call_type) }
  | none => parser

mutual

/-- The loop `while (1)` of inner_type_collector. -/
def tc_loop : Nat → Nat → lily_token → tc_locals → lily_parse_state →
    Except Stop (tc_locals × lily_parse_state)
  | 0, _, _, _, _ => .error .out_of_fuel
  | fuel + 1, stack_start, end_token, l, parser =>
    if parser.lex.token = tk_word then
      let parser := grow_if_full parser
      let flags := tc_word_flags l
      match collect_var_type fuel parser none flags with
      | .error e => .error e
      | .ok (type, parser) =>
        if l.have_arrow = false then
          match push_type parser type with
          | .error e => .error e
          | .ok parser =>
            tc_loop fuel stack_start end_token
              { l with flags := flags, i := l.i + 1, state := TC_WANT_OPERATOR } parser
        else
          match stack_write parser stack_start type with
          | .error e => .error e
          | .ok parser =>
            tc_loop fuel stack_start end_token
              { l with flags := flags, state := TC_WANT_OPERATOR } parser
    else
      match tc_operator parser end_token l with
      | .error e => .error e
      | .ok l =>
        if l.state = TC_DONE then .ok (l, parser)
        else if l.state = TC_BAD_TOKEN then raise_syntax
        else tc_loop fuel stack_start end_token l (next_token parser)
termination_by structural fuel => fuel

/-- The function inner_type_collector. -/
def inner_type_collector : Nat → lily_parse_state → Nat → cv_flags →
    Except Stop (lily_type × lily_parse_state)
  | 0, _, _, _ => .error .out_of_fuel
  | fuel + 1, parser, cls, flags => do
    let stack_start := parser.type_stack_pos
    let variant_class := cls
    let cls :=
      if flags.CV_VARIANT_FUNC then lily_class_by_id parser.symtab SYM_CLASS_FUNCTION else cls
    let (parser, end_token, i) ← tc_enter parser cls flags
    let (l, parser) ← tc_loop fuel stack_start end_token
      { state := TC_WANT_VALUE, flags := tc_enter_flags flags, i := i, type_flags := 0,
        have_arrow := false, have_dots := false } parser
    let flags := l.flags
    let i := l.i
    let c ← class_deref parser.symtab cls
    raise_if (((parser.type_stack_pos : Int) - (stack_start : Int) ≠ c.template_count) ∧
        c.template_count ≠ -1)
    check_hash_key parser cls stack_start
    let parser ← tc_variant_return parser flags variant_class stack_start i
    stack_check_range parser stack_start i
    let result := lily_build_ensure_type cls l.type_flags parser.type_stack stack_start i
    pure (result, { parser with type_stack_pos := stack_start })
termination_by structural fuel => fuel

/-- The function collect_var_type. -/
def collect_var_type : Nat → lily_parse_state → Option Nat → cv_flags →
    Except Stop (Option lily_type × lily_parse_state)
  | 0, _, _, _ => .error .out_of_fuel
  | fuel + 1, parser, cls, flags => do
    let (cls, parser) ← collect_class parser cls
    let c ← class_deref parser.symtab cls
    raise_if ((c.flags &&& CLS_VARIANT_CLASS) ≠ 0)
    if c.template_count = 0 then
      let result := c.type
      if flags.CV_MAKE_VARS then do
        let (_, parser) ← get_named_var parser c.type 0
        pure (result, parser)
      else pure (result, parser)
    else if c.id ≠ SYM_CLASS_FUNCTION then do
      NEED_CURRENT_TOK parser tk_left_bracket
      let parser := next_token parser
      let (result, parser) ← inner_type_collector fuel parser cls flags
      let parser := next_token parser
      if flags.CV_MAKE_VARS then do
        let (_, parser) ← get_named_var parser (some result) 0
        pure (some result, parser)
      else pure (some result, parser)
    else do
      let call_type := parser.default_call_type
      let (call_var, parser) ←
        if flags.CV_MAKE_VARS then do
          let (v, parser) ← get_named_var parser call_type 0
          pure (some v, parser)
        else pure (none, parser)
      NEED_CURRENT_TOK parser tk_left_parenth
      let parser := next_token parser
      let (call_type, parser) ← inner_type_collector fuel parser cls flags
      let parser := set_call_var_type parser call_var call_type
      pure (some call_type, next_token parser)
termination_by structural fuel => fuel

end

/-! ## Reading of a parameter list

What a parameter list declares, read off the same run: the types the loop of
inner_type_collector collects, in the order it collects them, each with
whether it was written after `=>`. -/

/-- The types collected by the loop of inner_type_collector from a state on,
in order, each paired with have_arrow at the time. -/
def tc_collected : Nat → Nat → lily_token → tc_locals → lily_parse_state →
    Except Stop (List (Bool × Option lily_type))
  | 0, _, _, _, _ => .error .out_of_fuel
  | fuel + 1, stack_start, end_token, l, parser =>
    if parser.lex.token = tk_word then
      let parser := grow_if_full parser
      let flags := tc_word_flags l
      match collect_var_type fuel parser none flags with
      | .error e => .error e
      | .ok (type, parser) =>
        if l.have_arrow = false then
          match push_type parser type with
          | .error e => .error e
          | .ok parser =>
            match tc_collected fuel stack_start end_token
              { l with flags := flags, i := l.i + 1, state := TC_WANT_OPERATOR } parser with
            | .error e => .error e
            | .ok log => .ok ((false, type) :: log)
        else
          match stack_write parser stack_start type with
          | .error e => .error e
          | .ok parser =>
            match tc_collected fuel stack_start end_token
              { l with flags := flags, state := TC_WANT_OPERATOR } parser with
            | .error e => .error e
            | .ok log => .ok ((true, type) :: log)
    else
      match tc_operator parser end_token l with
      | .error e => .error e
      | .ok l =>
        if l.state = TC_DONE then .ok []
        else if l.state = TC_BAD_TOKEN then raise_syntax
        else tc_collected fuel stack_start end_token l (next_token parser)

/-- The types a list of types declares for a class, in the order they are
written, each with whether it stands after `=>`: the reading of
inner_type_collector on the same parser, class and flags. -/
def declared_types : Nat → lily_parse_state → Nat → cv_flags →
    Except Stop (List (Bool × Option lily_type))
  | 0, _, _, _ => .error .out_of_fuel
  | fuel + 1, parser, cls, flags => do
    let cls :=
      if flags.CV_VARIANT_FUNC then lily_class_by_id parser.symtab SYM_CLASS_FUNCTION else cls
    let (entered, end_token, i) ← tc_enter parser cls flags
    tc_collected fuel parser.type_stack_pos end_token
      { state := TC_WANT_VALUE, flags := tc_enter_flags flags, i := i, type_flags := 0,
        have_arrow := false, have_dots := false } entered

mutual

/-- The function calculate_decompose_type. -/
def calculate_decompose_type : lily_parse_state → Option lily_type → lily_type → Nat →
    Except Stop (Option lily_type × lily_parse_state)
  | parser, match_type, lily_type.mk cls subtypes template_pos flags, stack_offset =>
    if cls = SYM_CLASS_TEMPLATE then
      match match_type with
      | none => .error .undefined_behavior
      | some m =>
        match m.subtypes.get? template_pos with
        | none => .error .undefined_behavior
        | some result_type => .ok (result_type, parser)
    else
      match class_deref parser.symtab cls with
      | .error e => .error e
      | .ok c =>
        if c.template_count = 0 then
          .ok (some (lily_type.mk cls subtypes template_pos flags), parser)
        else
          let types_needed := subtypes.length
          let parser :=
            if stack_offset + types_needed > parser.type_stack_size then
              { parser with type_stack_size := (stack_offset + types_needed) % 65536 }
            else parser
          match decompose_subtypes parser (some (lily_type.mk cls subtypes template_pos flags))
              subtypes stack_offset with
          | .error e => .error e
          | .ok parser =>
            match stack_check_range parser stack_offset types_needed with
            | .error e => .error e
            | .ok _ =>
              .ok (some (lily_build_ensure_type cls (flags &&& TYPE_IS_VARARGS)
                    parser.type_stack stack_offset types_needed), parser)
termination_by structural _ _ input_type => input_type

/-- The loop of calculate_decompose_type over input_type->subtypes: the
subtypes still to do, the cell for the next one, and input_type itself, which
the recursive call is given as its match type. -/
def decompose_subtypes : lily_parse_state → Option lily_type → List (Option lily_type) → Nat →
    Except Stop lily_parse_state
  | parser, _, [], _ => .ok parser
  | parser, input_type, inner_type :: rest, cell =>
    match inner_type with
    | none => .error .undefined_behavior
    | some inner_type =>
      match calculate_decompose_type parser input_type inner_type cell with
      | .error e => .error e
      | .ok (inner_type, parser) =>
        match stack_write parser cell inner_type with
        | .error e => .error e
        | .ok parser => decompose_subtypes parser input_type rest (cell + 1)
termination_by structural _ _ subtypes => subtypes

end

/-! ## Keywords and the token table -/

/-- A char of a name converted to uint64_t (char is signed: a byte from 128 on
is sign-extended). -/
def uint64_of_char (ch : Nat) : Nat :=
  if ch < 128 then ch else 2 ^ 64 - 256 + ch

/-- The bytes of a C string. -/
def c_bytes (name : String) : List Nat :=
  name.toList.flatMap (fun c => (String.utf8EncodeChar c).map UInt8.toNat)

/-- The loop of shorthash_for_name over the bytes still to read. -/
def shorthash_loop : List Nat → Nat → Nat → Nat → Nat
  | [], _, _, ret => ret
  | ch :: rest, i, shift, ret =>
    if ch = 0 ∨ i = 8 then ret
    else shorthash_loop rest (i + 1) (shift + 8) (ret ||| ((uint64_of_char ch <<< shift) % 2 ^ 64))

/-- The function shorthash_for_name. -/
def shorthash_for_name (name : String) : Nat :=
  shorthash_loop (c_bytes name) 0 0 0

/-- The keyword table: the names in the order of the table of handlers, each
with its shorthash (lily_keyword_table.h is not under src/). -/
def keywords : List (String × Nat) :=
  ["if", "do", "var", "for", "try", "case", "else", "elif", "enum", "while", "raise",
   "match", "break", "class", "define", "return", "except", "__file__", "__line__",
   "continue", "__function__"].map (fun name => (name, shorthash_for_name name))

def KEY_IF : Int := 0
def KEY_DO : Int := 1
def KEY_VAR : Int := 2
def KEY_FOR : Int := 3
def KEY_TRY : Int := 4
def KEY_CASE : Int := 5
def KEY_ELSE : Int := 6
def KEY_ELIF : Int := 7
def KEY_ENUM : Int := 8
def KEY_WHILE : Int := 9
def KEY_RAISE : Int := 10
def KEY_MATCH : Int := 11
def KEY_BREAK : Int := 12
def KEY_CLASS : Int := 13
def KEY_DEFINE : Int := 14
def KEY_RETURN : Int := 15
def KEY_EXCEPT : Int := 16
def KEY__FILE__ : Int := 17
def KEY__LINE__ : Int := 18
def KEY_CONTINUE : Int := 19
def KEY__FUNCTION__ : Int := 20

/-- The loop of keyword_by_name from table index i on. -/
def keyword_loop (name : String) (shorthash : Nat) : List (String × Nat) → Nat → Int
  | [], _ => -1
  | (kname, khash) :: rest, i =>
    if khash = shorthash ∧ kname = name then (i : Int)
    else if khash > shorthash then -1
    else keyword_loop name shorthash rest (i + 1)

/-- The function keyword_by_name. -/
def keyword_by_name (name : String) : Int :=
  keyword_loop name (shorthash_for_name name) keywords 0

/-- Binary and unary operators of expressions, in the order of the enum: the
assignments come last (lily_ast.h is not under src/). -/
inductive lily_expr_op where
  | expr_plus | expr_minus | expr_eq_eq | expr_lt | expr_lt_eq | expr_gr | expr_gr_eq
  | expr_not_eq | expr_modulo | expr_multiply | expr_divide | expr_left_shift
  | expr_right_shift | expr_bitwise_and | expr_bitwise_or | expr_bitwise_xor
  | expr_unary_not | expr_unary_minus | expr_logical_and | expr_logical_or
  | expr_assign | expr_div_assign | expr_mul_assign | expr_modulo_assign
  | expr_plus_assign | expr_minus_assign | expr_left_shift_assign
  | expr_right_shift_assign
deriving DecidableEq, Repr

open lily_expr_op

/-- Modelled from the spec: the entry expr_op of parser_tok_table (section
4.4, the static token table): the binary operator of a token, none for -1. -/
def tok_expr_op : lily_token → Option lily_expr_op
  | tk_not_eq => some expr_not_eq
  | tk_modulo => some expr_modulo
  | tk_modulo_eq => some expr_modulo_assign
  | tk_multiply => some expr_multiply
  | tk_multiply_eq => some expr_mul_assign
  | tk_divide => some expr_divide
  | tk_divide_eq => some expr_div_assign
  | tk_plus => some expr_plus
  | tk_plus_eq => some expr_plus_assign
  | tk_minus => some expr_minus
  | tk_minus_eq => some expr_minus_assign
  | tk_lt => some expr_lt
  | tk_lt_eq => some expr_lt_eq
  | tk_left_shift => some expr_left_shift
  | tk_left_shift_eq => some expr_left_shift_assign
  | tk_gt => some expr_gr
  | tk_gt_eq => some expr_gr_eq
  | tk_right_shift => some expr_right_shift
  | tk_right_shift_eq => some expr_right_shift_assign
  | tk_equal => some expr_assign
  | tk_eq_eq => some expr_eq_eq
  | tk_bitwise_and => some expr_bitwise_and
  | tk_logical_and => some expr_logical_and
  | tk_bitwise_or => some expr_bitwise_or
  | tk_logical_or => some expr_logical_or
  | tk_bitwise_xor => some expr_bitwise_xor
  | _ => none

/-- Modelled from the spec: the entry val_or_end of parser_tok_table: the
tokens that start a value or end an expression. -/
def tok_val_or_end : lily_token → Bool
  | tk_right_curly | tk_colon | tk_comma | tk_three_dots | tk_lambda | tk_tuple_open
  | tk_word | tk_prop_word | tk_double_quote | tk_integer | tk_double
  | tk_end_tag | tk_inner_eof | tk_final_eof => true
  | _ => false

/-! ## AST pool -/

/-- Modelled from the spec: the pushes of a value or operator tree
(lily_ast_push_local_var, lily_ast_push_literal, lily_ast_push_binary_op and
the like): the tree becomes part of the active expression. -/
def lily_ast_push (ap : lily_ast_pool) (tt : lily_tree_type) : lily_ast_pool :=
  { ap with active := true, pushed := ap.pushed ++ [tt] }

/-- Modelled from the spec: lily_ast_enter_tree, one more open tree. -/
def lily_ast_enter_tree (ap : lily_ast_pool) (tt : lily_tree_type) : lily_ast_pool :=
  { ap with saved := { tree_type := tt, args_collected := 0 } :: ap.saved, active := false,
            pushed := ap.pushed ++ [tt] }

/-- Modelled from the spec: lily_ast_collect_arg, the active expression becomes
the next argument of the innermost open tree. -/
def lily_ast_collect_arg (ap : lily_ast_pool) : Except Stop lily_ast_pool :=
  match ap.saved with
  | t :: rest =>
    .ok { ap with saved := { t with args_collected := t.args_collected + 1 } :: rest,
                  active := false }
  | [] => .error .undefined_behavior

/-- Modelled from the spec: lily_ast_leave_tree, the innermost open tree is
closed and becomes a value of the expression around it. -/
def lily_ast_leave_tree (ap : lily_ast_pool) : Except Stop lily_ast_pool :=
  match ap.saved with
  | _ :: rest => .ok { ap with saved := rest, active := true }
  | [] => .error .undefined_behavior

/-- Modelled from the spec: lily_ast_get_saved_tree, the innermost open
tree. -/
def lily_ast_get_saved_tree (ap : lily_ast_pool) : Option lily_ast :=
  ap.saved.head?

/-- The field save_depth of the pool. -/
def save_depth (ap : lily_ast_pool) : Nat := ap.saved.length

/-- Modelled from the spec: lily_ast_enter_typecast, a typecast tree is opened
around the active value. -/
def lily_ast_enter_typecast (ap : lily_ast_pool) (_new_type : Option lily_type) :
    lily_ast_pool :=
  { ap with saved := { tree_type := tree_typecast, args_collected := 1 } :: ap.saved,
            active := false, pushed := ap.pushed ++ [tree_typecast] }

/-- Modelled from the spec: lily_ast_reset_pool, done after every statement. -/
def lily_ast_reset_pool (_ap : lily_ast_pool) : lily_ast_pool :=
  { saved := [], active := false, pushed := [] }

/-- Writing the tree kind of the innermost open tree. -/
def set_saved_tree_type (ap : lily_ast_pool) (tt : lily_tree_type) : lily_ast_pool :=
  match ap.saved with
  | t :: rest => { ap with saved := { t with tree_type := tt } :: rest }
  | [] => ap

/-- Modelled from the spec: a push of a var, which also tells the emitter the
type of the value. -/
def lily_ast_push_var (ap : lily_ast_pool) (tt : lily_tree_type) (var : lily_var) :
    lily_ast_pool :=
  { lily_ast_push ap tt with last_value_type := var.type }

/-! ## Emitter

Modelled from the spec (section 4.5): lily_emitter.c is not under src/. The
emitter keeps the stack of blocks and evaluates each finished expression; its
type checking and the bytecode it writes are not modelled. -/

def BLOCK_IF : Nat := 0x00001
def BLOCK_IF_ELIF : Nat := 0x00002
def BLOCK_IF_ELSE : Nat := 0x00004
def BLOCK_ANDOR : Nat := 0x00010
def BLOCK_WHILE : Nat := 0x00020
def BLOCK_DO_WHILE : Nat := 0x00040
def BLOCK_FOR_IN : Nat := 0x00100
def BLOCK_TRY : Nat := 0x00200
def BLOCK_TRY_EXCEPT : Nat := 0x00400
def BLOCK_CLASS : Nat := 0x01000
def BLOCK_MATCH : Nat := 0x02000
def BLOCK_LAMBDA : Nat := 0x04000
def BLOCK_FUNCTION : Nat := 0x10000

/-- Modelled from the spec: lily_emit_enter_block pushes a block of the kind it
is given. The block keeps the self and the generics of the block around it and
remembers the top of the var chain; a function block belongs to the most recent
var and is one function deeper. -/
def lily_emit_enter_block (parser : lily_parse_state) (block_type : Nat) : lily_parse_state :=
  let emit := parser.emit
  let outer := emit.blocks.head?
  let is_function := (block_type &&& BLOCK_FUNCTION) ≠ 0
  let block : lily_block :=
    { block_type := block_type,
      self := outer.bind (fun b => b.self),
      match_sym := none,
      match_cases := [],
      generic_count := (outer.map (fun b => b.generic_count)).getD 0,
      function_var :=
        if is_function then parser.symtab.var_chain.head?
        else outer.bind (fun b => b.function_var),
      var_start := parser.symtab.var_chain.length,
      function_ret := emit.top_function_ret }
  let depth : Int := if is_function then 1 else 0
  { parser with
      emit := { emit with blocks := block :: emit.blocks,
                          function_depth := emit.function_depth + depth },
      symtab := { parser.symtab with function_depth := parser.symtab.function_depth + depth } }

/-- Writing the current block of the emitter. -/
def update_block (parser : lily_parse_state) (f : lily_block → lily_block) : lily_parse_state :=
  match parser.emit.blocks with
  | b :: rest => { parser with emit := { parser.emit with blocks := f b :: rest } }
  | [] => parser

/-- Modelled from the spec: lily_emit_change_block_to, the current block takes
a new kind (if to elif or else, try to except). -/
def lily_emit_change_block_to (parser : lily_parse_state) (block_type : Nat) :
    lily_parse_state :=
  update_block parser (fun b => { b with block_type := block_type })

/-- Modelled from the spec: the scope unwind of a block that closes: the vars
declared in a function block leave the chain, the vars of any other block stay
and are marked out of scope. -/
def unwind_vars (symtab : lily_symtab) (block : lily_block) : lily_symtab :=
  let count := symtab.var_chain.length - block.var_start
  if (block.block_type &&& BLOCK_FUNCTION) ≠ 0 then
    { symtab with var_chain := symtab.var_chain.drop count }
  else
    let hidden := (symtab.var_chain.take count).map
      (fun v => { v with flags := v.flags ||| SYM_OUT_OF_SCOPE })
    { symtab with var_chain := hidden ++ symtab.var_chain.drop count }

/-- Modelled from the spec: lily_emit_leave_block. Closing a block where only
the main block is open is a SyntaxError, and so is closing a match block that
has no case for one of the variants of its subject. -/
def lily_emit_leave_block (parser : lily_parse_state) : Except Stop lily_parse_state :=
  match parser.emit.blocks with
  | [] => .error .undefined_behavior
  | [_] => raise_syntax
  | block :: outer :: rest =>
    let missing_case : Bool :=
      if block.block_type = BLOCK_MATCH then
        match block.match_sym with
        | some (some t) =>
          match parser.symtab.classes.find? (fun c => c.id == t.cls) with
          | some c => (List.range c.variant_members.length).any (fun i => !block.match_cases.contains i)
          | none => false
        | _ => false
      else false
    if missing_case then raise_syntax
    else
      let is_function := (block.block_type &&& BLOCK_FUNCTION) ≠ 0
      let depth : Int := if is_function then 1 else 0
      let symtab := unwind_vars parser.symtab block
      .ok { parser with
              emit := { parser.emit with
                          blocks := outer :: rest,
                          function_depth := parser.emit.function_depth - depth,
                          top_function_ret :=
                            if is_function then block.function_ret
                            else parser.emit.top_function_ret,
                          current_class :=
                            if (block.block_type &&& BLOCK_CLASS) ≠ 0 then outer.class_entry
                            else parser.emit.current_class },
              symtab := { symtab with function_depth := symtab.function_depth - depth } }

/-- Modelled from the spec: lily_emit_eval_expr and its siblings
(lily_emit_eval_condition, lily_emit_eval_expr_to_var): the emitter evaluates
the expression, a var being declared becomes initialized, and the pool is
reset. -/
def lily_emit_eval_expr (parser : lily_parse_state) : lily_parse_state :=
  let chain := parser.symtab.var_chain.map
    (fun v => { v with flags := v.flags &&& (0xFFFFFFFF - SYM_NOT_INITIALIZED) })
  { parser with
      ast_pool := lily_ast_reset_pool parser.ast_pool,
      symtab := { parser.symtab with var_chain := chain } }

/-- Modelled from the spec: lily_emit_eval_match_expr: the value of the
expression becomes the subject of the match block. -/
def lily_emit_eval_match_expr (parser : lily_parse_state) : lily_parse_state :=
  let subject := parser.ast_pool.last_value_type
  lily_emit_eval_expr (update_block parser (fun b => { b with match_sym := some subject }))

/-- Modelled from the spec: lily_emit_add_match_case: the block of a match
keeps the variants already covered; 0 is returned for a variant that is
covered already, otherwise the variant is recorded and 1 is returned. -/
def lily_emit_add_match_case (parser : lily_parse_state) (pos : Nat) :
    Nat × lily_parse_state :=
  match parser.emit.blocks with
  | b :: _ =>
    if b.match_cases.contains pos then (0, parser)
    else (1, update_block parser (fun b => { b with match_cases := b.match_cases ++ [pos] }))
  | [] => (0, parser)

/-- Modelled from the spec: lily_emit_update_function_block: the function block
learns its generics and its return type, and for a class its self. -/
def lily_emit_update_function_block (parser : lily_parse_state) (decl_class : Option Nat)
    (generic_count : Nat) (ret : Option lily_type) : lily_parse_state :=
  let parser := update_block parser (fun b =>
    { b with generic_count := generic_count,
             self := if decl_class.isSome then some parser.symtab.root_type else b.self,
             class_entry := parser.emit.current_class })
  { parser with emit := { parser.emit with
      top_function_ret := ret,
      current_class := if decl_class.isSome then decl_class else parser.emit.current_class } }

/-! ## Expression handling -/

def ST_DEMAND_VALUE : Nat := 1
def ST_WANT_OPERATOR : Nat := 2
def ST_WANT_VALUE : Nat := 3
def ST_MAYBE_END_ON_PARENTH : Nat := 4
def ST_DONE : Nat := 5
def ST_BAD_TOKEN : Nat := 6

/-- Whether an operator is expr_assign or comes after it in the enum. -/
def is_assign_op : lily_expr_op → Bool
  | expr_assign | expr_div_assign | expr_mul_assign | expr_modulo_assign
  | expr_plus_assign | expr_minus_assign | expr_left_shift_assign
  | expr_right_shift_assign => true
  | _ => false

/-- Modelled from the spec: lily_ast_push_binary_op. Assignment binds loosest,
so an assignment pushed while no tree is open is the root of the expression. -/
def lily_ast_push_binary_op (ap : lily_ast_pool) (op : lily_expr_op) : lily_ast_pool :=
  { lily_ast_push ap tree_binary with
      root_assign := ap.root_assign || (is_assign_op op && ap.saved.isEmpty) }

/-- The function collect_generics: the names must be A, B, ... in order;
returns how many there are. -/
def collect_generics : Nat → lily_parse_state → Nat → Except Stop (Nat × lily_parse_state)
  | 0, _, _ => .error .out_of_fuel
  | fuel + 1, parser, ch => do
    let parser ← NEED_NEXT_TOK parser tk_word
    raise_if (parser.lex.label.toList ≠ [Char.ofNat ((65 + ch) % 256)])
    let ch := ch + 1
    let parser := next_token parser
    if parser.lex.token = tk_right_bracket then pure (ch, next_token parser)
    else if parser.lex.token ≠ tk_comma then raise_syntax
    else collect_generics fuel parser ch

/-- Modelled from the spec: lily_update_symtab_generics (section 4.3): the
slots from position n on are hidden and the count is recorded on the class. -/
def lily_update_symtab_generics (symtab : lily_symtab) (cls : Option Nat) (n : Nat) :
    lily_symtab :=
  let symtab := { symtab with generic_count := n }
  match cls with
  | some cls => class_update symtab cls (fun c => { c with template_count := (n : Int) })
  | none => symtab

/-- Writing the parent field of the most recent var (call_var->parent). -/
def set_newest_var_parent (symtab : lily_symtab) (parent : Option Nat) : lily_symtab :=
  match symtab.var_chain with
  | v :: rest => { symtab with var_chain := { v with parent := parent } :: rest }
  | [] => symtab

/-- Modelled from the spec: lily_load_str and lily_load_copy_string on top of
an entry that is being read (section 4.2): the tokens of the string come first;
at their end the lexer delivers tk_inner_eof and is back in the entry below. -/
def lily_load_str_inner (lex : lily_lex_state) (source : List lex_item) : lily_lex_state :=
  { lex with input := source ++ { token := tk_inner_eof } :: lex.input }

/-- The function parse_prototype: the word `function` is skipped, the var of
the function is made readonly with the default call type, and its type is
collected; for a function of a class (cls is not NULL) the var is moved from
the chain of vars to the callables of the class. -/
def parse_prototype (fuel : Nat) (parser : lily_parse_state) (cls : Option Nat) :
    Except Stop lily_parse_state := do
  let save_var_top := parser.symtab.var_chain
  NEED_CURRENT_TOK parser tk_word
  let parser := next_token parser
  let call_type := parser.default_call_type
  let block ← current_block parser
  let save_generics := block.generic_count
  let call_var := parser.symtab.var_chain.length
  let (_, symtab) := lily_try_new_var parser.symtab call_type parser.lex.label VAR_IS_READONLY
  let symtab := set_newest_var_parent symtab cls
  let parser := next_token { parser with symtab := symtab }
  let (generics_used, parser) ←
    if parser.lex.token = tk_left_bracket then collect_generics fuel parser 0
    else pure (0, parser)
  let function_cls := lily_class_by_id parser.symtab SYM_CLASS_FUNCTION
  NEED_CURRENT_TOK parser tk_left_parenth
  let parser := next_token parser
  let parser :=
    { parser with symtab := lily_update_symtab_generics parser.symtab none generics_used }
  let (call_type, parser) ← inner_type_collector fuel parser function_cls {}
  let parser := { parser with symtab := var_set_type parser.symtab call_var (some call_type) }
  let parser :=
    { parser with symtab := lily_update_symtab_generics parser.symtab none save_generics }
  let parser := next_token parser
  match cls with
  | none => pure parser
  | some cls =>
    let new_var := parser.symtab.var_chain.take
      (parser.symtab.var_chain.length - save_var_top.length)
    let symtab := class_update parser.symtab cls
      (fun c => { c with call_start := c.call_start ++ new_var })
    pure { parser with symtab := { symtab with var_chain := save_var_top } }

/-- Modelled from the spec: lily_find_class_callable, the callable of that name
in the list of the class. -/
def lily_find_class_callable (symtab : lily_symtab) (cls : Nat) (name : String) :
    Option lily_var :=
  match symtab.classes.find? (fun c => c.id == cls) with
  | some c => c.call_start.find? (fun v => v.name == name)
  | none => none

/-- Modelled from the spec: lily_find_class_call_seed, the seed of that name in
the seed table of the class. -/
def lily_find_class_call_seed (symtab : lily_symtab) (cls : Nat) (name : String) :
    Option (List lex_item) :=
  (symtab.seed_tables.find? (fun s => s.1 == cls && s.2.1 == name)).map (fun s => s.2.2)

/-- The function lily_parser_dynamic_load: when the class has a seed for the
name, the declaration of the seed is loaded, the lexer is called and
parse_prototype reads it; the var made is returned, the newest callable of the
class. Without a seed NULL is returned and nothing is read. parse_prototype
runs on the tokens of the seed, twice their number and four being its fuel. -/
def lily_parser_dynamic_load (parser : lily_parse_state) (cls : Nat) (name : String) :
    Except Stop (Option lily_var × lily_parse_state) :=
  match lily_find_class_call_seed parser.symtab cls name with
  | some seed =>
    let parser := { parser with lex := lily_load_str_inner parser.lex seed }
    let parser := next_token parser
    match parse_prototype (2 * seed.length + 4) parser (some cls) with
    | .error e => .error e
    | .ok parser =>
      match class_deref parser.symtab cls with
      | .error e => .error e
      | .ok c => .ok (c.call_start.getLast?, parser)
  | none => .ok (none, parser)

/-- Modelled from the spec: lily_find_scoped_variant, the variant of that name
among the variants of the enum class. -/
def lily_find_scoped_variant (symtab : lily_symtab) (cls : lily_class) (name : String) :
    Option Nat :=
  cls.variant_members.find? (fun id =>
    match symtab.classes.find? (fun c => c.id == id) with
    | some v => v.name == name
    | none => false)

/-- The function expression_static_call. -/
def expression_static_call (parser : lily_parse_state) (cls : Nat) :
    Except Stop lily_parse_state := do
  let parser ← NEED_NEXT_TOK parser tk_word
  let label := parser.lex.label
  let (v, parser) ←
    match lily_find_class_callable parser.symtab cls label with
    | some v => pure (some v, parser)
    | none => lily_parser_dynamic_load parser cls label
  match v with
  | some _ => pure { parser with ast_pool := lily_ast_push parser.ast_pool tree_defined_func }
  | none =>
    let c ← class_deref parser.symtab cls
    let variant_cls :=
      if (c.flags &&& CLS_ENUM_CLASS) ≠ 0 then lily_find_scoped_variant parser.symtab c label
      else none
    match variant_cls with
    | none => raise_syntax
    | some _ => pure { parser with ast_pool := lily_ast_push parser.ast_pool tree_variant }

/-- The function expression_package. -/
def expression_package (parser : lily_parse_state) (package_var : lily_var) :
    Except Stop lily_parse_state := do
  let ap := lily_ast_enter_tree parser.ast_pool tree_package
  let ap := lily_ast_push_var ap tree_global_var package_var
  let ap ← lily_ast_collect_arg ap
  let parser ← NEED_NEXT_TOK { parser with ast_pool := ap } tk_colon_colon
  let parser ← NEED_NEXT_TOK parser tk_word
  match package_var.package_vars.find? (fun m => m.1 == parser.lex.label) with
  | none => raise_syntax
  | some inner_var =>
    let ap := { lily_ast_push parser.ast_pool tree_global_var with
                  last_value_type := inner_var.2 }
    let ap ← lily_ast_collect_arg ap
    let ap ← lily_ast_leave_tree ap
    pure { parser with ast_pool := ap }

/-- The function expression_word. Returns the parser and the new state. -/
def expression_word (parser : lily_parse_state) (_state : Nat) :
    Except Stop (lily_parse_state × Nat) :=
  let lex := parser.lex
  match lily_var_by_name parser.symtab lex.label with
  | some var =>
    if (var.flags &&& SYM_NOT_INITIALIZED) ≠ 0 then raise_syntax
    else if var.function_depth = 1 then
      match var.type with
      | none => .error .undefined_behavior
      | some t =>
        if t.cls = SYM_CLASS_PACKAGE then
          match expression_package parser var with
          | .ok parser => .ok (parser, ST_WANT_OPERATOR)
          | .error e => .error e
        else
          .ok ({ parser with ast_pool := lily_ast_push_var parser.ast_pool tree_global_var var },
               ST_WANT_OPERATOR)
    else if var.function_depth = parser.emit.function_depth then
      .ok ({ parser with ast_pool := lily_ast_push_var parser.ast_pool tree_local_var var },
           ST_WANT_OPERATOR)
    else if var.function_depth = -1 then
      .ok ({ parser with ast_pool := lily_ast_push_var parser.ast_pool tree_defined_func var },
           ST_WANT_OPERATOR)
    else raise_syntax
  | none =>
    let key_id := keyword_by_name lex.label
    if key_id ≠ -1 then
      .ok ({ parser with ast_pool := lily_ast_push parser.ast_pool tree_literal },
           ST_WANT_OPERATOR)
    else
      match lily_class_by_name parser.symtab lex.label with
      | (symtab, some cls) =>
        let parser := { parser with symtab := symtab }
        match class_deref parser.symtab cls with
        | .error e => .error e
        | .ok c =>
          if (c.flags &&& CLS_VARIANT_CLASS) ≠ 0 then
            .ok ({ parser with ast_pool := lily_ast_push parser.ast_pool tree_variant },
                 ST_WANT_OPERATOR)
          else
            match expression_static_call (next_token parser) cls with
            | .ok parser => .ok (parser, ST_WANT_OPERATOR)
            | .error e => .error e
      | (_, none) => raise_syntax

/-- The function expression_property. -/
def expression_property (parser : lily_parse_state) (_state : Nat) :
    Except Stop (lily_parse_state × Nat) := do
  raise_if (parser.emit.current_class = none)
  let name := parser.lex.label
  let self_type ← block_self_type parser
  let self_type ← deref self_type
  let current_class := self_type.cls
  let prop := lily_find_property parser.symtab (parser.symtab.classes.length + 1)
    current_class name
  raise_if (prop.isNone)
  pure ({ parser with ast_pool := lily_ast_push parser.ast_pool tree_property },
        ST_WANT_OPERATOR)

/-- The function check_valid_close_tok. -/
def check_valid_close_tok (parser : lily_parse_state) : Except Stop Unit :=
  let token := parser.lex.token
  match lily_ast_get_saved_tree parser.ast_pool with
  | none => .error .undefined_behavior
  | some ast =>
    let tt := ast.tree_type
    let expect :=
      if tt = tree_call ∨ tt = tree_parenth ∨ tt = tree_typecast then tk_right_parenth
      else if tt = tree_tuple then tk_tuple_close
      else tk_right_bracket
    if token ≠ expect then raise_syntax else .ok ()

/-- The functions maybe_digit_fixup and expression_literal. The sign the text
of the number starts with is lex.signed; after the rescan the token is the
number without it. -/
def expression_literal (parser : lily_parse_state) (state : Nat) : lily_parse_state × Nat :=
  let token := parser.lex.token
  if state = ST_WANT_OPERATOR ∧ token ≠ tk_double_quote then
    match parser.lex.signed with
    | some sign =>
      if sign = tk_minus ∨ sign = tk_plus then
        let expr_op := if sign = tk_minus then expr_minus else expr_plus
        let ap := lily_ast_push_binary_op parser.ast_pool expr_op
        let ap := lily_ast_push ap tree_literal
        ({ parser with ast_pool := ap, lex := { parser.lex with signed := none } }, state)
      else (parser, ST_DONE)
    | none => (parser, ST_DONE)
  else
    ({ parser with ast_pool := lily_ast_push parser.ast_pool tree_literal }, ST_WANT_OPERATOR)

/-- The function expression_comma_arrow. -/
def expression_comma_arrow (parser : lily_parse_state) (_state : Nat) :
    Except Stop (lily_parse_state × Nat) := do
  let lex := parser.lex
  raise_if (parser.ast_pool.active = false)
  let last_tree ← deref (lily_ast_get_saved_tree parser.ast_pool)
  let ap ←
    if lex.token = tk_comma then
      if last_tree.tree_type = tree_hash ∧ last_tree.args_collected % 2 = 0 then raise_syntax
      else pure parser.ast_pool
    else if lex.token = tk_arrow then
      if last_tree.tree_type = tree_list then
        if last_tree.args_collected = 0 then
          pure (set_saved_tree_type parser.ast_pool tree_hash)
        else raise_syntax
      else if last_tree.tree_type ≠ tree_hash ∨ last_tree.args_collected % 2 = 1 then
        raise_syntax
      else pure parser.ast_pool
    else pure parser.ast_pool
  let ap ← lily_ast_collect_arg ap
  pure ({ parser with ast_pool := ap }, ST_DEMAND_VALUE)

/-- The function expression_unary. -/
def expression_unary (parser : lily_parse_state) (state : Nat) : lily_parse_state × Nat :=
  if state = ST_WANT_OPERATOR then (parser, ST_BAD_TOKEN)
  else
    let token := parser.lex.token
    let ap :=
      if token = tk_minus then lily_ast_push parser.ast_pool tree_unary
      else if token = tk_not then lily_ast_push parser.ast_pool tree_unary
      else parser.ast_pool
    ({ parser with ast_pool := ap }, ST_DEMAND_VALUE)

/-- The function expression_dot. -/
def expression_dot (fuel : Nat) (parser : lily_parse_state) (state : Nat) :
    Except Stop (lily_parse_state × Nat) := do
  let parser := next_token parser
  if parser.lex.token = tk_word then
    pure ({ parser with ast_pool := lily_ast_push parser.ast_pool tree_oo_access },
          ST_WANT_OPERATOR)
  else if parser.lex.token = tk_typecast_parenth then
    let parser := next_token parser
    let (new_type, parser) ← collect_var_type fuel parser none {}
    let ap := lily_ast_enter_typecast parser.ast_pool new_type
    let ap ← lily_ast_leave_tree ap
    pure ({ parser with ast_pool := ap }, ST_WANT_OPERATOR)
  else pure (parser, state)

/-- One pass of the loop of expression_raw: the parser and the state after the
current token is handled. -/
def expression_token (fuel : Nat) (maybe_end_on_parenth : Bool) (parser : lily_parse_state)
    (state : Nat) : Except Stop (lily_parse_state × Nat) :=
  let token := parser.lex.token
  let ap := parser.ast_pool
  if token = tk_word then
    if state = ST_WANT_OPERATOR then .ok (parser, ST_DONE)
    else expression_word parser state
  else if (tok_expr_op token).isSome then
    if state = ST_WANT_OPERATOR then
      match tok_expr_op token with
      | some op =>
        .ok ({ parser with ast_pool := lily_ast_push_binary_op ap op }, ST_DEMAND_VALUE)
      | none => .ok (parser, state)
    else if token = tk_minus then .ok (expression_unary parser state)
    else .ok (parser, ST_BAD_TOKEN)
  else if token = tk_left_parenth then
    if state = ST_WANT_VALUE ∨ state = ST_DEMAND_VALUE then
      .ok ({ parser with ast_pool := lily_ast_enter_tree ap tree_parenth }, ST_DEMAND_VALUE)
    else if state = ST_WANT_OPERATOR then
      .ok ({ parser with ast_pool := lily_ast_enter_tree ap tree_call }, ST_WANT_VALUE)
    else .ok (parser, state)
  else if token = tk_left_bracket then
    if state = ST_WANT_VALUE ∨ state = ST_DEMAND_VALUE then
      .ok ({ parser with ast_pool := lily_ast_enter_tree ap tree_list }, ST_WANT_VALUE)
    else if state = ST_WANT_OPERATOR then
      .ok ({ parser with ast_pool := lily_ast_enter_tree ap tree_subscript }, ST_DEMAND_VALUE)
    else .ok (parser, state)
  else if token = tk_prop_word then
    if state = ST_WANT_OPERATOR then .ok (parser, ST_DONE)
    else expression_property parser state
  else if token = tk_tuple_open then
    if state = ST_WANT_OPERATOR then .ok (parser, ST_DONE)
    else .ok ({ parser with ast_pool := lily_ast_enter_tree ap tree_tuple }, ST_WANT_VALUE)
  else if token = tk_right_parenth ∨ token = tk_right_bracket ∨ token = tk_tuple_close then
    if state = ST_DEMAND_VALUE ∨ save_depth ap = 0 then .ok (parser, ST_BAD_TOKEN)
    else
      match check_valid_close_tok parser with
      | .error e => .error e
      | .ok _ =>
        match lily_ast_leave_tree ap with
        | .error e => .error e
        | .ok ap =>
          let parser := { parser with ast_pool := ap }
          if maybe_end_on_parenth = false ∨ token ≠ tk_right_parenth ∨ save_depth ap ≠ 0 then
            .ok (parser, ST_WANT_OPERATOR)
          else .ok (parser, ST_DONE)
  else if token = tk_integer ∨ token = tk_double ∨ token = tk_double_quote then
    .ok (expression_literal parser state)
  else if token = tk_dot then expression_dot fuel parser state
  else if token = tk_minus ∨ token = tk_not then .ok (expression_unary parser state)
  else if tok_val_or_end token ∧ save_depth ap = 0 ∧ state = ST_WANT_OPERATOR then
    .ok (parser, ST_DONE)
  else if token = tk_comma ∨ token = tk_arrow then expression_comma_arrow parser state
  else if token = tk_lambda then
    .ok ({ parser with ast_pool := lily_ast_push ap tree_lambda }, ST_WANT_OPERATOR)
  else .ok (parser, ST_BAD_TOKEN)

/-- The loop `while (1)` of expression_raw. -/
def expression_loop : Nat → Bool → lily_parse_state → Nat → Except Stop lily_parse_state
  | 0, _, _, _ => .error .out_of_fuel
  | fuel + 1, maybe_end_on_parenth, parser, state =>
    match expression_token fuel maybe_end_on_parenth parser state with
    | .error e => .error e
    | .ok (parser, state) =>
      if state = ST_DONE then .ok parser
      else if state = ST_BAD_TOKEN then raise_syntax
      else expression_loop fuel maybe_end_on_parenth (next_token parser) state

/-- The function expression_raw. -/
def expression_raw (fuel : Nat) (parser : lily_parse_state) (state : Nat) :
    Except Stop lily_parse_state :=
  if state = ST_MAYBE_END_ON_PARENTH then expression_loop fuel true parser ST_WANT_VALUE
  else expression_loop fuel false parser state

/-- The function expression. -/
def expression (fuel : Nat) (parser : lily_parse_state) : Except Stop lily_parse_state :=
  expression_raw fuel parser ST_DEMAND_VALUE

/-! ## Declarations -/

/-- The function get_named_property. -/
def get_named_property (parser : lily_parse_state) (prop_type : Option lily_type)
    (_flags : Nat) : Except Stop (lily_prop_entry × lily_parse_state) := do
  let name := parser.lex.label
  let self_type ← block_self_type parser
  let self_type ← deref self_type
  let current_class := self_type.cls
  let prop := lily_find_property parser.symtab (parser.symtab.classes.length + 1)
    current_class name
  raise_if (prop.isSome)
  let block ← current_block parser
  let function_var ← deref block.function_var
  let lookup_var := lily_var_by_name parser.symtab name
  raise_if ((lookup_var.map (fun v => decide (v.reg_spot > function_var.reg_spot))).getD false)
  let (prop, symtab) := lily_add_class_property parser.symtab current_class prop_type name 0
  pure (prop, next_token { parser with symtab := symtab })

/-- The loop of parse_decl. The var of an earlier pass of the loop is kept in
var. -/
def parse_decl_loop : Nat → lily_parse_state → Option lily_type → Option Nat →
    Except Stop lily_parse_state
  | 0, _, _, _ => .error .out_of_fuel
  | fuel + 1, parser, type, var => do
    let flags := SYM_NOT_INITIALIZED
    let block ← current_block parser
    let want_token := if (block.block_type &&& BLOCK_CLASS) ≠ 0 then tk_prop_word else tk_word
    let other_token := if (block.block_type &&& BLOCK_CLASS) ≠ 0 then tk_word else tk_prop_word
    raise_if (parser.lex.token = other_token)
    NEED_CURRENT_TOK parser want_token
    let (var, parser) ←
      if parser.lex.token = tk_word then do
        let (v, parser) ← get_named_var parser type flags
        pure (some v, parser)
      else do
        let (_, parser) ← get_named_property parser type flags
        pure (var, parser)
    raise_if (parser.lex.token ≠ tk_equal)
    let ap :=
      match var with
      | some _ =>
        if parser.emit.function_depth = 1 then lily_ast_push parser.ast_pool tree_global_var
        else lily_ast_push parser.ast_pool tree_local_var
      | none => lily_ast_push parser.ast_pool tree_property
    let ap := lily_ast_push_binary_op ap expr_assign
    let parser := next_token { parser with ast_pool := ap }
    let parser ← expression fuel parser
    let parser := lily_emit_eval_expr parser
    let token := parser.lex.token
    if token = tk_word ∨ token = tk_prop_word ∨ token = tk_end_tag ∨ token = tk_inner_eof ∨
        token = tk_right_curly ∨ token = tk_final_eof ∨ type.isNone then
      pure parser
    else if token ≠ tk_comma then raise_syntax
    else parse_decl_loop fuel (next_token parser) type var

/-- The function parse_decl. -/
def parse_decl (fuel : Nat) (parser : lily_parse_state) (type : Option lily_type) :
    Except Stop lily_parse_state :=
  parse_decl_loop fuel parser type none

/-- The function parse_for_range_value. -/
def parse_for_range_value (fuel : Nat) (parser : lily_parse_state) (name : String) :
    Except Stop lily_parse_state := do
  let parser ← expression fuel parser
  raise_if (parser.ast_pool.root_assign)
  let cls ← class_deref parser.symtab (lily_class_by_id parser.symtab SYM_CLASS_INTEGER)
  let (_, symtab) := lily_try_new_var parser.symtab cls.type name 0
  pure (lily_emit_eval_expr { parser with symtab := symtab })

/-- Modelled from the spec: lily_make_constructor_return_type (section 4.3):
the self type of the most recent class, built from the class and the generics
in scope; it becomes root_type and the default type of the class. -/
def lily_make_constructor_return_type (symtab : lily_symtab) : lily_symtab :=
  match symtab.classes.getLast? with
  | some c =>
    let t := lily_type.mk c.id
      ((List.range symtab.generic_count).map (fun i => some (generic_type i))) 0 0
    { class_update symtab c.id (fun c => { c with type := some t }) with root_type := some t }
  | none => symtab

/-- Modelled from the spec: lily_new_class (section 4.3): the class is
registered with the next id. -/
def lily_new_class (symtab : lily_symtab) (name : String) : Nat × lily_symtab :=
  let id := symtab.classes.length
  let c : lily_class :=
    { name := name, id := id, flags := 0, template_count := 0,
      type := some (lily_type.mk id [] 0 0), parent := none, properties := [],
      variant_members := [], variant_type := none, call_start := [] }
  (id, { symtab with classes := symtab.classes ++ [c] })

/-- Modelled from the spec: lily_new_variant_class: a class with the next id,
flagged as a variant, its parent the enum class. -/
def lily_new_variant_class (symtab : lily_symtab) (enum_class : Nat) (name : String) :
    Nat × lily_symtab :=
  let id := symtab.classes.length
  let c : lily_class :=
    { name := name, id := id, flags := CLS_VARIANT_CLASS, template_count := 0,
      type := some (lily_type.mk id [] 0 0), parent := some enum_class, properties := [],
      variant_members := [], variant_type := none, call_start := [] }
  let symtab := { symtab with classes := symtab.classes ++ [c] }
  (id, class_update symtab enum_class
    (fun e => { e with variant_members := e.variant_members ++ [id] }))

/-- Modelled from the spec: lily_finish_variant_class: the variant keeps the
type of its constructor, or its default type when it takes no values. -/
def lily_finish_variant_class (symtab : lily_symtab) (variant_class : Nat)
    (variant_type : Option lily_type) : lily_symtab :=
  class_update symtab variant_class (fun c =>
    { c with variant_type := match variant_type with
                             | some t => some t
                             | none => c.type })

/-- Modelled from the spec: lily_finish_enum_class: the class is flagged as an
enum (and as scoped) and takes the result type as its default type. -/
def lily_finish_enum_class (symtab : lily_symtab) (enum_class : Nat) (is_scoped : Bool)
    (result_type : Option lily_type) : lily_symtab :=
  class_update symtab enum_class (fun c =>
    { c with flags := c.flags ||| CLS_ENUM_CLASS ||| (if is_scoped then CLS_ENUM_IS_SCOPED else 0),
             type := result_type })

/-- Whether a var is the constructor of a class: the function named new that
returns the type of the class. -/
def is_constructor_of (cls : Nat) (v : lily_var) : Bool :=
  v.name == "new" &&
    match v.type with
    | some t =>
      match t.subtypes.head? with
      | some (some ret) => ret.cls == cls
      | _ => false
    | none => false

/-- Modelled from the spec: lily_finish_class: the constructor of the class and
the functions declared in its body become its callables, the constructor first
(parse_inheritance takes a class without callables for an incomplete one and
looks for new among them). -/
def lily_finish_class (symtab : lily_symtab) (cls : Nat) : lily_symtab :=
  let methods := symtab.var_chain.filter
    (fun v => decide ((v.flags &&& VAR_IS_READONLY) ≠ 0) &&
      (decide (v.parent = some cls) || is_constructor_of cls v))
  class_update symtab cls (fun c => { c with call_start := c.call_start ++ methods.reverse })

/-- Modelled from the spec: lily_change_parent_class. -/
def lily_change_parent_class (symtab : lily_symtab) (super_class : Nat) (cls : Nat) :
    lily_symtab :=
  class_update symtab cls (fun c => { c with parent := some super_class })

/-- Modelled from the spec: lily_check_right_inherits_or_is, walking up the
parents of the right class (the fuel bounds the walk). -/
def lily_check_right_inherits_or_is (symtab : lily_symtab) : Nat → Option Nat → Nat → Bool
  | 0, _, _ => false
  | fuel + 1, left, right =>
    if left = some right then true
    else
      match symtab.classes.find? (fun c => c.id == right) with
      | some c =>
        match c.parent with
        | some parent => lily_check_right_inherits_or_is symtab fuel left parent
        | none => false
      | none => false

/-- The function parse_function. -/
def parse_function (fuel : Nat) (parser : lily_parse_state) (decl_class : Option Nat) :
    Except Stop lily_parse_state := do
  let call_type := parser.default_call_type
  let (call_var, parser, block_type, flags) ←
    match decl_class with
    | some _ =>
      let handle := parser.symtab.var_chain.length
      let (_, symtab) := lily_try_new_var parser.symtab call_type "new" VAR_IS_READONLY
      let flags : cv_flags := { CV_MAKE_VARS := true, CV_TOPLEVEL := true, CV_CLASS_INIT := true }
      pure (handle, next_token { parser with symtab := symtab },
            BLOCK_FUNCTION ||| BLOCK_CLASS, flags)
    | none => do
      let (handle, parser) ← get_named_var parser call_type VAR_IS_READONLY
      let symtab := set_newest_var_parent parser.symtab parser.emit.current_class
      let flags : cv_flags := { CV_MAKE_VARS := true, CV_TOPLEVEL := true }
      pure (handle, { parser with symtab := symtab }, BLOCK_FUNCTION, flags)
  let (generics_used, parser) ←
    if parser.lex.token = tk_left_bracket then collect_generics fuel parser 0
    else do
      let block ← current_block parser
      pure (block.generic_count, parser)
  let parser := lily_emit_enter_block parser block_type
  let parser :=
    { parser with symtab := lily_update_symtab_generics parser.symtab decl_class generics_used }
  let parser ←
    if decl_class.isSome then
      pure { parser with symtab := lily_make_constructor_return_type parser.symtab }
    else if parser.class_depth ≠ 0 then do
      let self_type ← block_self_type parser
      let (_, symtab) := lily_try_new_var parser.symtab self_type "(self)" 0
      pure (update_block { parser with symtab := symtab } (fun b => { b with self := some self_type }))
    else pure parser
  NEED_CURRENT_TOK parser tk_left_parenth
  let parser := next_token parser
  let (call_type, parser) ←
    inner_type_collector fuel parser (lily_class_by_id parser.symtab SYM_CLASS_FUNCTION) flags
  let parser := { parser with symtab := var_set_type parser.symtab call_var (some call_type) }
  let parser := lily_emit_update_function_block parser decl_class generics_used
    (call_type.subtypes.head?.bind id)
  pure (next_token parser)

/-! ## Statement handling -/

/-- The function return_handler. -/
def return_handler (fuel : Nat) (parser : lily_parse_state) (multi : Nat) :
    Except Stop lily_parse_state := do
  let block ← current_block parser
  raise_if ((block.block_type &&& BLOCK_CLASS) ≠ 0)
  let ret_type := parser.emit.top_function_ret
  let (parser, ast) ←
    if ret_type.isSome then do
      let parser ← expression fuel parser
      pure (parser, true)
    else pure (parser, false)
  let parser :=
    if ast then { parser with ast_pool := lily_ast_reset_pool parser.ast_pool } else parser
  raise_if (multi ≠ 0 ∧ parser.lex.token ≠ tk_right_curly)
  pure parser

/-- The function continue_handler (lily_emit_continue is not modelled). -/
def continue_handler (parser : lily_parse_state) (multi : Nat) : Except Stop lily_parse_state :=
  if multi ≠ 0 ∧ parser.lex.token ≠ tk_right_curly then raise_syntax else .ok parser

/-- The function break_handler (lily_emit_break is not modelled). -/
def break_handler (parser : lily_parse_state) (multi : Nat) : Except Stop lily_parse_state :=
  if multi ≠ 0 ∧ parser.lex.token ≠ tk_right_curly then raise_syntax else .ok parser

/-- The function do_keyword, behind line_kw_handler, file_kw_handler and
function_kw_handler. -/
def do_keyword (fuel : Nat) (parser : lily_parse_state) (_key_id : Int) :
    Except Stop lily_parse_state := do
  let parser := { parser with ast_pool := lily_ast_push parser.ast_pool tree_literal }
  let parser ← expression_raw fuel parser ST_WANT_OPERATOR
  pure (lily_emit_eval_expr parser)

/-- The function raise_handler. -/
def raise_handler (fuel : Nat) (parser : lily_parse_state) (_multi : Nat) :
    Except Stop lily_parse_state := do
  let parser ← expression fuel parser
  pure { parser with ast_pool := lily_ast_reset_pool parser.ast_pool }

/-- The function var_handler. -/
def var_handler (fuel : Nat) (parser : lily_parse_state) (_multi : Nat) :
    Except Stop lily_parse_state :=
  parse_decl fuel parser none

/-- The function ensure_valid_class. -/
def ensure_valid_class (parser : lily_parse_state) (name : String) : Except Stop Unit := do
  raise_if ((c_bytes name).length = 1)
  let block ← current_block parser
  raise_if ((block.block_type &&& BLOCK_CLASS) = 0 ∧ parser.emit.blocks.length > 1)
  raise_if ((lily_class_by_name parser.symtab name).2.isSome)

/-- The function parse_inheritance. -/
def parse_inheritance (fuel : Nat) (parser : lily_parse_state) (cls : Nat) :
    Except Stop lily_parse_state := do
  let parser ← NEED_NEXT_TOK parser tk_word
  let (symtab, super_class) := lily_class_by_name parser.symtab parser.lex.label
  let parser := { parser with symtab := symtab }
  let super_class ← match super_class with
    | none => raise_syntax
    | some s => pure s
  let super ← class_deref parser.symtab super_class
  if super_class = cls then raise_syntax
  else if super.id ≤ SYM_CLASS_TEMPLATE then raise_syntax
  else if super.call_start.isEmpty then raise_syntax
  let class_new := lily_find_class_callable parser.symtab super_class "new"
  raise_if (class_new.isNone)
  let parser ← NEED_NEXT_TOK parser tk_left_parenth
  let ap := lily_ast_enter_tree parser.ast_pool tree_call
  let ap := lily_ast_push ap tree_inherited_new
  let ap ← lily_ast_collect_arg ap
  let parser := next_token { parser with ast_pool := ap }
  let parser ← expression_raw fuel parser ST_MAYBE_END_ON_PARENTH
  let parser := lily_emit_eval_expr parser
  let parser := { parser with symtab := lily_change_parent_class parser.symtab super_class cls }
  pure (next_token parser)

/-- The loop of enum_handler over the variants; inner_class_count counts
them. -/
def enum_variants : Nat → lily_parse_state → Nat → Bool → Nat →
    Except Stop (Nat × lily_parse_state)
  | 0, _, _, _, _ => .error .out_of_fuel
  | fuel + 1, parser, enum_class, is_scoped, inner_class_count => do
    let parser ←
      if is_scoped then do
        NEED_CURRENT_TOK parser tk_colon_colon
        pure (next_token parser)
      else pure parser
    NEED_CURRENT_TOK parser tk_word
    let (symtab, found) := lily_class_by_name parser.symtab parser.lex.label
    raise_if (found.isSome)
    let (variant_class, symtab) := lily_new_variant_class symtab enum_class parser.lex.label
    let parser := next_token { parser with symtab := symtab }
    let (variant_type, parser) ←
      if parser.lex.token = tk_left_parenth then do
        let parser := next_token parser
        raise_if (parser.lex.token = tk_right_parenth)
        let (t, parser) ← inner_type_collector fuel parser variant_class
          { CV_VARIANT_FUNC := true }
        pure (some t, next_token parser)
      else pure (none, parser)
    let parser :=
      { parser with symtab := lily_finish_variant_class parser.symtab variant_class variant_type }
    let inner_class_count := inner_class_count + 1
    if parser.lex.token = tk_comma then
      enum_variants fuel (next_token parser) enum_class is_scoped inner_class_count
    else if parser.lex.token = tk_right_curly then pure (inner_class_count, parser)
    else enum_variants fuel parser enum_class is_scoped inner_class_count

/-- The function enum_handler. -/
def enum_handler (fuel : Nat) (parser : lily_parse_state) (_multi : Nat) :
    Except Stop lily_parse_state := do
  NEED_CURRENT_TOK parser tk_word
  raise_if (parser.lex.label ≠ "class")
  let parser ← NEED_NEXT_TOK parser tk_word
  ensure_valid_class parser parser.lex.label
  let (enum_class, symtab) := lily_new_class parser.symtab parser.lex.label
  let parser := next_token { parser with symtab := symtab }
  let block ← current_block parser
  let save_generics := block.generic_count
  let (generics_used, parser) ←
    if parser.lex.token = tk_left_bracket then collect_generics fuel parser 0
    else pure (0, parser)
  let symtab := lily_update_symtab_generics parser.symtab (some enum_class) generics_used
  let symtab := lily_make_constructor_return_type symtab
  let parser := { parser with symtab := symtab }
  let result_type := parser.symtab.root_type
  NEED_CURRENT_TOK parser tk_left_curly
  let parser := next_token parser
  let is_scoped : Bool := parser.lex.token = tk_colon_colon
  let (inner_class_count, parser) ← enum_variants fuel parser enum_class is_scoped 0
  raise_if (inner_class_count < 2)
  let symtab := lily_finish_enum_class parser.symtab enum_class is_scoped result_type
  let symtab := lily_update_symtab_generics symtab none save_generics
  pure (next_token { parser with symtab := symtab })

/-- The search of case_handler for the label among the variants of the match
class: the index of the first variant of that name, or the number of variants
when there is none. -/
def case_find_variant (symtab : lily_symtab) (label : String) : List Nat → Nat → Nat × Option Nat
  | [], i => (i, none)
  | member :: rest, i =>
    match symtab.classes.find? (fun c => c.id == member) with
    | some c => if label = c.name then (i, some member) else case_find_variant symtab label rest (i + 1)
    | none => case_find_variant symtab label rest (i + 1)

/-- The loop of case_handler over the values of the variant: i runs from 1 to
the subtype count of the variant type, each value is decomposed into a new
var. -/
def case_decompose_vars : Nat → lily_parse_state → Option lily_type → lily_type → Nat →
    Except Stop lily_parse_state
  | 0, _, _, _, _ => .error .out_of_fuel
  | fuel + 1, parser, match_input_type, variant_type, i =>
    if i < variant_type.subtype_count then do
      let input_type ← deref (variant_type.subtypes.get? i)
      let input_type ← deref input_type
      let (var_type, parser) ← calculate_decompose_type parser match_input_type input_type
        parser.type_stack_pos
      let (_, parser) ← get_named_var parser var_type 0
      if i ≠ variant_type.subtype_count - 1 then
        NEED_CURRENT_TOK parser tk_comma
      case_decompose_vars fuel parser match_input_type variant_type (i + 1)
    else pure parser

/-- The second half of case_handler, after the variant is found and recorded:
the values of the variant are decomposed and the colon is read. -/
def case_values (fuel : Nat) (parser : lily_parse_state) (match_input_type : Option lily_type)
    (case_class : Option Nat) : Except Stop lily_parse_state := do
  let case_class ← deref case_class
  let case_class ← class_deref parser.symtab case_class
  let variant_type ← deref case_class.variant_type
  let parser ←
    if variant_type.subtype_count ≠ 0 then do
      let parser ← NEED_NEXT_TOK parser tk_left_parenth
      let parser ← NEED_NEXT_TOK parser tk_word
      let parser ← case_decompose_vars fuel parser match_input_type variant_type 1
      NEED_CURRENT_TOK parser tk_right_parenth
      pure parser
    else pure parser
  let parser ← NEED_NEXT_TOK parser tk_colon
  pure (next_token parser)

/-- The function case_handler. -/
def case_handler (fuel : Nat) (parser : lily_parse_state) (_multi : Nat) :
    Except Stop lily_parse_state := do
  let block ← current_block parser
  raise_if (block.block_type ≠ BLOCK_MATCH)
  let match_input_type ← deref block.match_sym
  let match_type ← deref match_input_type
  let match_class ← class_deref parser.symtab match_type.cls
  NEED_CURRENT_TOK parser tk_word
  let (i, case_class) := case_find_variant parser.symtab parser.lex.label
    match_class.variant_members 0
  raise_if (i = match_class.variant_members.length)
  let (added, parser) := lily_emit_add_match_case parser i
  raise_if (added = 0)
  case_values fuel parser match_input_type case_class

mutual

/-- The function statement: one statement, or with multi set statements until
a token that starts none. -/
def statement : Nat → lily_parse_state → Nat → Except Stop lily_parse_state
  | 0, _, _ => .error .out_of_fuel
  | fuel + 1, parser, multi => do
    let token := parser.lex.token
    if token = tk_word then
      let key_id := keyword_by_name parser.lex.label
      let parser ←
        if key_id ≠ -1 then
          handlers fuel key_id (next_token parser) multi
        else
          match lily_class_by_name parser.symtab parser.lex.label with
          | (symtab, some lclass) => do
            let parser := next_token { parser with symtab := symtab }
            if parser.lex.token = tk_colon_colon then do
              let parser ← expression_static_call parser lclass
              let parser := next_token parser
              let parser ← expression_raw fuel parser ST_WANT_OPERATOR
              pure (lily_emit_eval_expr parser)
            else do
              let (cls_type, parser) ← collect_var_type fuel parser (some lclass) {}
              parse_decl fuel parser cls_type
          | (_, none) => do
            let parser ← expression fuel parser
            pure (lily_emit_eval_expr parser)
      if multi ≠ 0 then statement fuel parser multi else pure parser
    else if token = tk_integer ∨ token = tk_double ∨ token = tk_double_quote ∨
        token = tk_left_parenth ∨ token = tk_left_bracket ∨ token = tk_tuple_open ∨
        token = tk_prop_word then do
      let parser ← expression fuel parser
      let parser := lily_emit_eval_expr parser
      if multi ≠ 0 then statement fuel parser multi else pure parser
    else if multi ≠ 0 then pure parser
    else raise_syntax
termination_by structural fuel => fuel

/-- The table handlers: the handler of each keyword, by keyword id. -/
def handlers : Nat → Int → lily_parse_state → Nat → Except Stop lily_parse_state
  | 0, _, _, _ => .error .out_of_fuel
  | fuel + 1, key_id, parser, multi =>
    if key_id = KEY_IF then if_handler fuel parser multi
    else if key_id = KEY_DO then do_handler fuel parser multi
    else if key_id = KEY_VAR then var_handler fuel parser multi
    else if key_id = KEY_FOR then for_handler fuel parser multi
    else if key_id = KEY_TRY then try_handler fuel parser multi
    else if key_id = KEY_CASE then case_handler fuel parser multi
    else if key_id = KEY_ELSE then else_handler fuel parser multi
    else if key_id = KEY_ELIF then elif_handler fuel parser multi
    else if key_id = KEY_ENUM then enum_handler fuel parser multi
    else if key_id = KEY_WHILE then while_handler fuel parser multi
    else if key_id = KEY_RAISE then raise_handler fuel parser multi
    else if key_id = KEY_MATCH then match_handler fuel parser multi
    else if key_id = KEY_BREAK then break_handler parser multi
    else if key_id = KEY_CLASS then class_handler fuel parser multi
    else if key_id = KEY_DEFINE then define_handler fuel parser multi
    else if key_id = KEY_RETURN then return_handler fuel parser multi
    else if key_id = KEY_EXCEPT then except_handler fuel parser multi
    else if key_id = KEY__FILE__ then do_keyword fuel parser KEY__FILE__
    else if key_id = KEY__LINE__ then do_keyword fuel parser KEY__LINE__
    else if key_id = KEY_CONTINUE then continue_handler parser multi
    else if key_id = KEY__FUNCTION__ then do_keyword fuel parser KEY__FUNCTION__
    else .error .undefined_behavior
termination_by structural fuel => fuel

/-- The function parse_multiline_block_body. -/
def parse_multiline_block_body : Nat → lily_parse_state → Nat → Except Stop lily_parse_state
  | 0, _, _ => .error .out_of_fuel
  | fuel + 1, parser, multi => do
    raise_if (multi = 0)
    let parser := next_token parser
    let parser ←
      if parser.lex.token ≠ tk_right_curly then statement fuel parser 1 else pure parser
    NEED_CURRENT_TOK parser tk_right_curly
    pure (next_token parser)
termination_by structural fuel => fuel

/-- The loop of if_handler over the elif and else of a single-line if. -/
def if_handler_tail : Nat → lily_parse_state → Except Stop lily_parse_state
  | 0, _ => .error .out_of_fuel
  | fuel + 1, parser =>
    if parser.lex.token = tk_word then
      let key_id := keyword_by_name parser.lex.label
      if key_id = KEY_ELIF ∨ key_id = KEY_ELSE then do
        let parser ← handlers fuel key_id (next_token parser) 0
        if_handler_tail fuel parser
      else pure parser
    else pure parser
termination_by structural fuel => fuel

/-- The function if_handler. -/
def if_handler : Nat → lily_parse_state → Nat → Except Stop lily_parse_state
  | 0, _, _ => .error .out_of_fuel
  | fuel + 1, parser, multi => do
    let parser := lily_emit_enter_block parser BLOCK_IF
    let parser ← expression fuel parser
    let parser := lily_emit_eval_expr parser
    NEED_CURRENT_TOK parser tk_colon
    let parser := next_token parser
    let parser ←
      if parser.lex.token = tk_left_curly then parse_multiline_block_body fuel parser multi
      else do
        let parser ← statement fuel parser 0
        if_handler_tail fuel parser
    lily_emit_leave_block parser
termination_by structural fuel => fuel

/-- The function elif_handler. -/
def elif_handler : Nat → lily_parse_state → Nat → Except Stop lily_parse_state
  | 0, _, _ => .error .out_of_fuel
  | fuel + 1, parser, multi => do
    let parser := lily_emit_change_block_to parser BLOCK_IF_ELIF
    let parser ← expression fuel parser
    let parser := lily_emit_eval_expr parser
    NEED_CURRENT_TOK parser tk_colon
    statement fuel (next_token parser) multi
termination_by structural fuel => fuel

/-- The function else_handler. -/
def else_handler : Nat → lily_parse_state → Nat → Except Stop lily_parse_state
  | 0, _, _ => .error .out_of_fuel
  | fuel + 1, parser, multi => do
    let parser := lily_emit_change_block_to parser BLOCK_IF_ELSE
    NEED_CURRENT_TOK parser tk_colon
    statement fuel (next_token parser) multi
termination_by structural fuel => fuel

/-- The function while_handler. -/
def while_handler : Nat → lily_parse_state → Nat → Except Stop lily_parse_state
  | 0, _, _ => .error .out_of_fuel
  | fuel + 1, parser, multi => do
    let parser := lily_emit_enter_block parser BLOCK_WHILE
    let parser ← expression fuel parser
    let parser := lily_emit_eval_expr parser
    NEED_CURRENT_TOK parser tk_colon
    let parser := next_token parser
    let parser ←
      if parser.lex.token = tk_left_curly then parse_multiline_block_body fuel parser multi
      else statement fuel parser 0
    lily_emit_leave_block parser
termination_by structural fuel => fuel

/-- The function for_handler (lily_emit_finalize_for_in is not modelled). -/
def for_handler : Nat → lily_parse_state → Nat → Except Stop lily_parse_state
  | 0, _, _ => .error .out_of_fuel
  | fuel + 1, parser, multi => do
    NEED_CURRENT_TOK parser tk_word
    let parser := lily_emit_enter_block parser BLOCK_FOR_IN
    let parser ←
      match lily_var_by_name parser.symtab parser.lex.label with
      | none => do
        let cls ← class_deref parser.symtab (lily_class_by_id parser.symtab SYM_CLASS_INTEGER)
        let (_, symtab) := lily_try_new_var parser.symtab cls.type parser.lex.label 0
        pure { parser with symtab := symtab }
      | some loop_var =>
        match loop_var.type with
        | none => .error .undefined_behavior
        | some t => if t.cls ≠ SYM_CLASS_INTEGER then raise_syntax else pure parser
    let parser ← NEED_NEXT_TOK parser tk_word
    raise_if (parser.lex.label ≠ "in")
    let parser := next_token parser
    let parser ← parse_for_range_value fuel parser "(for start)"
    NEED_CURRENT_TOK parser tk_three_dots
    let parser := next_token parser
    let parser ← parse_for_range_value fuel parser "(for end)"
    let parser ←
      if parser.lex.token = tk_word then do
        raise_if (parser.lex.label ≠ "by")
        parse_for_range_value fuel (next_token parser) "(for step)"
      else pure parser
    NEED_CURRENT_TOK parser tk_colon
    let parser := next_token parser
    let parser ←
      if parser.lex.token = tk_left_curly then parse_multiline_block_body fuel parser multi
      else statement fuel parser 0
    lily_emit_leave_block parser
termination_by structural fuel => fuel

/-- The function do_handler. -/
def do_handler : Nat → lily_parse_state → Nat → Except Stop lily_parse_state
  | 0, _, _ => .error .out_of_fuel
  | fuel + 1, parser, multi => do
    let parser := lily_emit_enter_block parser BLOCK_DO_WHILE
    NEED_CURRENT_TOK parser tk_colon
    let parser := next_token parser
    let parser ←
      if parser.lex.token = tk_left_curly then parse_multiline_block_body fuel parser multi
      else statement fuel parser 0
    NEED_CURRENT_TOK parser tk_word
    raise_if (parser.lex.label ≠ "while")
    let parser := next_token parser
    let parser ← expression fuel parser
    let parser := lily_emit_eval_expr parser
    lily_emit_leave_block parser
termination_by structural fuel => fuel

/-- The function except_handler (lily_emit_except is not modelled). The raise
for a class that is no exception class has the directive `%s` in its format and
no argument for it. -/
def except_handler : Nat → lily_parse_state → Nat → Except Stop lily_parse_state
  | 0, _, _ => .error .out_of_fuel
  | fuel + 1, parser, _multi => do
    NEED_CURRENT_TOK parser tk_word
    let (symtab, exception_class) := lily_class_by_name parser.symtab parser.lex.label
    let parser := { parser with symtab := symtab }
    let exception_class ← match exception_class with
      | none => raise_syntax
      | some c => pure c
    let (symtab, exception_base) := lily_class_by_name parser.symtab "Exception"
    let parser := { parser with symtab := symtab }
    let is_valid := lily_check_right_inherits_or_is parser.symtab
      (parser.symtab.classes.length + 1) exception_base exception_class
    raise_without_argument_if (is_valid = false)
    let parser := next_token parser
    let parser ←
      if parser.lex.token = tk_word then do
        raise_if (parser.lex.label ≠ "as")
        let parser ← NEED_NEXT_TOK parser tk_word
        raise_if ((lily_var_by_name parser.symtab parser.lex.label).isSome)
        let cls ← class_deref parser.symtab exception_class
        let (_, symtab) := lily_try_new_var parser.symtab cls.type parser.lex.label 0
        pure (next_token { parser with symtab := symtab })
      else pure parser
    NEED_CURRENT_TOK parser tk_colon
    let parser := lily_emit_change_block_to parser BLOCK_TRY_EXCEPT
    let parser := next_token parser
    if parser.lex.token ≠ tk_right_curly then statement fuel parser 1 else pure parser
termination_by structural fuel => fuel

/-- The loop of try_handler over the except clauses of a single-line try. -/
def try_handler_tail : Nat → lily_parse_state → Nat → Except Stop lily_parse_state
  | 0, _, _ => .error .out_of_fuel
  | fuel + 1, parser, multi =>
    if parser.lex.token = tk_word then
      if parser.lex.label = "except" then do
        let parser ← except_handler fuel (next_token parser) multi
        try_handler_tail fuel parser multi
      else pure parser
    else pure parser
termination_by structural fuel => fuel

/-- The function try_handler (lily_emit_try is not modelled). -/
def try_handler : Nat → lily_parse_state → Nat → Except Stop lily_parse_state
  | 0, _, _ => .error .out_of_fuel
  | fuel + 1, parser, multi => do
    let parser := lily_emit_enter_block parser BLOCK_TRY
    NEED_CURRENT_TOK parser tk_colon
    let parser := next_token parser
    let parser ←
      if parser.lex.token = tk_left_curly then parse_multiline_block_body fuel parser multi
      else do
        let parser ← statement fuel parser 0
        try_handler_tail fuel parser multi
    let parser := { parser with emit := { parser.emit with patch_pos := parser.emit.patch_pos - 1 } }
    lily_emit_leave_block parser
termination_by structural fuel => fuel

/-- The function class_handler. -/
def class_handler : Nat → lily_parse_state → Nat → Except Stop lily_parse_state
  | 0, _, _ => .error .out_of_fuel
  | fuel + 1, parser, multi => do
    NEED_CURRENT_TOK parser tk_word
    ensure_valid_class parser parser.lex.label
    let (created_class, symtab) := lily_new_class parser.symtab parser.lex.label
    let parser := { parser with symtab := symtab }
    let parser ← parse_function fuel parser (some created_class)
    let parser ←
      if parser.lex.token = tk_lt then parse_inheritance fuel parser created_class
      else pure parser
    NEED_CURRENT_TOK parser tk_left_curly
    let parser := { parser with class_depth := (parser.class_depth + 1) % 65536 }
    let parser ← parse_multiline_block_body fuel parser multi
    let parser := { parser with class_depth := (parser.class_depth + 65535) % 65536 }
    let parser := { parser with symtab := lily_finish_class parser.symtab created_class }
    lily_emit_leave_block parser
termination_by structural fuel => fuel

/-- The function match_handler. -/
def match_handler : Nat → lily_parse_state → Nat → Except Stop lily_parse_state
  | 0, _, _ => .error .out_of_fuel
  | fuel + 1, parser, multi => do
    raise_if (multi = 0)
    let parser := lily_emit_enter_block parser BLOCK_MATCH
    let parser ← expression fuel parser
    let parser := lily_emit_eval_match_expr parser
    NEED_CURRENT_TOK parser tk_colon
    let parser ← NEED_NEXT_TOK parser tk_left_curly
    let parser ← parse_multiline_block_body fuel parser multi
    lily_emit_leave_block parser
termination_by structural fuel => fuel

/-- The function define_handler. -/
def define_handler : Nat → lily_parse_state → Nat → Except Stop lily_parse_state
  | 0, _, _ => .error .out_of_fuel
  | fuel + 1, parser, multi => do
    let parser ← parse_function fuel parser none
    NEED_CURRENT_TOK parser tk_left_curly
    let parser ← parse_multiline_block_body fuel parser multi
    lily_emit_leave_block parser
termination_by structural fuel => fuel

end

/-! ## Sample inputs -/

/-- A class without members. -/
def plain_class (name : String) (id flags : Nat) (template_count : Int)
    (type : Option lily_type) : lily_class :=
  { name := name, id := id, flags := flags, template_count := template_count, type := type,
    parent := none, properties := [], variant_members := [], variant_type := none,
    call_start := [] }

/-- The default type of a class without generics. -/
def simple_type (id : Nat) : lily_type := lily_type.mk id [] 0 0

/-- Modelled from the spec: the builtin classes under the ids of section 6.
integer, double and string are valid hash keys; list takes one type, hash two,
function and tuple any number. -/
def stock_classes : List lily_class :=
  [ plain_class "integer" SYM_CLASS_INTEGER CLS_VALID_HASH_KEY 0 (some (simple_type 0)),
    plain_class "double" SYM_CLASS_DOUBLE CLS_VALID_HASH_KEY 0 (some (simple_type 1)),
    plain_class "string" SYM_CLASS_STRING CLS_VALID_HASH_KEY 0 (some (simple_type 2)),
    plain_class "function" SYM_CLASS_FUNCTION 0 (-1) none,
    plain_class "any" SYM_CLASS_ANY 0 0 (some (simple_type 4)),
    plain_class "list" SYM_CLASS_LIST 0 1 none,
    plain_class "hash" SYM_CLASS_HASH 0 2 none,
    plain_class "tuple" SYM_CLASS_TUPLE 0 (-1) none,
    plain_class "" SYM_CLASS_TEMPLATE 0 0 none,
    plain_class "package" SYM_CLASS_PACKAGE 0 0 (some (simple_type 9)) ]

/-- A word token. -/
def word (label : String) : lex_item := { token := tk_word, label := label }

/-- A property word token, written with a leading at-sign in the source. -/
def prop_word (label : String) : lex_item := { token := tk_prop_word, label := label }

/-- A token without a label. -/
def tok (t : lily_token) : lex_item := { token := t }

/-- A parser at the start of a statement of the main function: empty type stack
of the initial size 4, the given classes and visible generics, the lexer on the
first token of the input. -/
def parser_on (classes : List lily_class) (generic_count : Nat) (input : List lex_item) :
    lily_parse_state :=
  next_token
    { type_stack := fun _ => none, type_stack_pos := 0, type_stack_size := 4,
      class_depth := 0, next_lambda_id := 0,
      default_call_type := some (lily_type.mk SYM_CLASS_FUNCTION [none] 0 0),
      ast_pool := { saved := [], active := false, pushed := [] },
      lex := { token := tk_invalid, label := "", signed := none, input := input },
      emit := { blocks := [{ block_type := BLOCK_FUNCTION, self := none, match_sym := none,
                             match_cases := [], generic_count := 0, function_var := none }],
                function_depth := 1, top_function_ret := none, current_class := none,
                patch_pos := 0 },
      symtab := { classes := classes, var_chain := [], generic_count := generic_count,
                  root_type := none, next_register_spot := 0, next_readonly_spot := 0,
                  function_depth := 1 } }

/-- The type a run returns, without the parser. -/
def result_type {α : Type} (r : Except Stop (α × lily_parse_state)) : Except Stop α :=
  match r with
  | .ok (t, _) => .ok t
  | .error e => .error e

/-- How a run of a statement or expression ends: the reason it stopped, or
the token the lexer is on and how many tokens are still to come. -/
def outcome (r : Except Stop lily_parse_state) : Except Stop (lily_token × Nat) :=
  match r with
  | .ok parser => .ok (parser.lex.token, parser.lex.input.length)
  | .error e => .error e

/-! ## Predicates and readings the theorems are stated with -/

/-- The part of the type stack below the position is kept, and so is the position. -/
def Frame (p p' : lily_parse_state) : Prop :=
  p'.type_stack_pos = p.type_stack_pos ∧ p'.type_stack_size < 65536 ∧
    ∀ j, j < p.type_stack_pos → p'.type_stack j = p.type_stack j

/-- Nothing of the type stack changes. -/
def SameStack (p p' : lily_parse_state) : Prop :=
  p'.type_stack = p.type_stack ∧ p'.type_stack_pos = p.type_stack_pos ∧
    p'.type_stack_size = p.type_stack_size

/-- What the loop of inner_type_collector keeps: the cells below its start,
a position at or above its start, and the variant flag. -/
def LoopFrame (start : Nat) (l : tc_locals) (p : lily_parse_state) (l' : tc_locals)
    (p' : lily_parse_state) : Prop :=
  start ≤ p'.type_stack_pos ∧ p'.type_stack_size < 65536 ∧
    (∀ j, j < start → p'.type_stack j = p.type_stack j) ∧
    l'.flags.CV_VARIANT_FUNC = l.flags.CV_VARIANT_FUNC

/-- A parser reading the parameters of the constructor of a class Foo (id 10,
no generics): the type the constructor returns is set, the class body is not
entered yet. -/
def constructor_params (input : List lex_item) : lily_parse_state :=
  let parser := parser_on (stock_classes ++ [plain_class "Foo" 10 0 0 (some (simple_type 10))])
    0 input
  { parser with symtab := { parser.symtab with root_type := some (simple_type 10) } }

/-- The properties of the classes, class by class. -/
def class_properties (symtab : lily_symtab) : List (List lily_prop_entry) :=
  symtab.classes.map (fun c => c.properties)

/-- Neither a var nor a property is made between two parsers. -/
def Quiet (p p' : lily_parse_state) : Prop :=
  p'.symtab.var_chain = p.symtab.var_chain ∧
    class_properties p'.symtab = class_properties p.symtab

/-- The class the current word of the lexer names, when it names one. -/
def param_class (parser : lily_parse_state) : Option lily_class :=
  match lily_class_by_name parser.symtab parser.lex.label with
  | (symtab, some cls) =>
    match class_deref symtab cls with
    | .ok c => some c
    | .error _ => none
  | (_, none) => none

/-- The names of the vars and, class by class, of the properties a run leaves. -/
def names_made {α : Type} (r : Except Stop (α × lily_parse_state)) :
    Except Stop (List String × List (List String)) :=
  match r with
  | .ok (_, parser) =>
    .ok (parser.symtab.var_chain.map (fun v => v.name),
         (class_properties parser.symtab).map (fun ps => ps.map (fun e => e.name)))
  | .error e => .error e

/-- The names of the properties of each class a statement leaves. -/
def properties_left (r : Except Stop lily_parse_state) : Except Stop (List (List String)) :=
  match r with
  | .ok parser => .ok ((class_properties parser.symtab).map (fun ps => ps.map (fun e => e.name)))
  | .error e => .error e

/-- The constructor parameter `integer @x`, the lexer on its type. -/
def prop_word_param : lily_parse_state :=
  constructor_params [word "integer", prop_word "x", tok tk_right_parenth]

/-- The constructor parameter `integer x`, the lexer on its type. -/
def word_param : lily_parse_state :=
  constructor_params [word "integer", word "x", tok tk_right_parenth]

mutual

/-- The generic positions that occur in a type, at any depth, in the order they
are met. -/
def type_generics : lily_type → List Nat
  | lily_type.mk cls subtypes template_pos _ =>
    if cls = SYM_CLASS_TEMPLATE then [template_pos] else subtypes_generics subtypes
termination_by structural type => type

/-- The generic positions that occur in a type that may be NULL. -/
def slot_generics : Option lily_type → List Nat
  | none => []
  | some type => type_generics type
termination_by structural type => type

/-- The generic positions that occur in a list of types. -/
def subtypes_generics : List (Option lily_type) → List Nat
  | [] => []
  | t :: rest => slot_generics t ++ subtypes_generics rest
termination_by structural subtypes => subtypes

end

/-- The generic positions that occur in count cells of a type stack from start
on. -/
def cells_generics (stack : Nat → Option lily_type) (start count : Nat) : List Nat :=
  subtypes_generics ((List.range count).map (fun j => stack (start + j)))

/-- A generic map marks the positions it had marked and those of a list, and
every marked position is below the maximum. -/
def Marks (st st' : (Nat → Bool) × Nat) (gs : List Nat) : Prop :=
  (∀ g, st'.1 g = true ↔ (st.1 g = true ∨ g ∈ gs)) ∧
    ((∀ g, st.1 g = true → g < st.2) → ∀ g, st'.1 g = true → g < st'.2)

/-- The generic positions a variant uses, in ascending order, each once. -/
def generics_ascending (gs : List Nat) : List Nat :=
  Finset.sort (fun a b => a ≤ b) gs.toFinset

/-- A parser reading the fields of the variant Pair (id 11) of an enum class
Both[A, B] (id 10), the lexer on the first field. -/
def variant_fields (input : List lex_item) : lily_parse_state :=
  parser_on
    (stock_classes ++
      [{ plain_class "Both" 10 0 2
           (some (lily_type.mk 10 [some (generic_type 0), some (generic_type 1)] 0 0)) with
         variant_members := [11] },
       { plain_class "Pair" 11 CLS_VARIANT_CLASS 0 (some (simple_type 11)) with
         parent := some 10 }])
    2 input

/-- The constructor type a statement leaves on the variant class of a name, and
the default type it leaves on the class of another name. -/
def variant_type_left (r : Except Stop lily_parse_state) (variant enum : String) :
    Except Stop (Option lily_type × Option lily_type) :=
  match r with
  | .ok parser =>
    .ok (((parser.symtab.classes.find? (fun c => c.name == variant)).map
            (fun c => c.variant_type)).getD none,
         ((parser.symtab.classes.find? (fun c => c.name == enum)).map
            (fun c => c.type)).getD none)
  | .error e => .error e

/-- The fields `B, integer, B)` of the variant Pair of Both[A, B], the lexer on
the first field. -/
def variant_sample : lily_parse_state :=
  variant_fields [word "B", tok tk_comma, word "integer", tok tk_comma, word "B",
    tok tk_right_parenth]

/-- The names of the variants of a match class, in the order of its members; a
member that is no class of the symtab has no name. -/
def member_names (symtab : lily_symtab) (members : List Nat) : List (Option String) :=
  members.map (fun m => (symtab.classes.find? (fun c => c.id == m)).map (fun c => c.name))

/-- The position of the first variant of a name among the members, or the
number of members when no variant has the name. -/
def variant_index (symtab : lily_symtab) (members : List Nat) (label : String) : Nat :=
  (member_names symtab members).findIdx (fun n => decide (n = some label))

/-- The enum class of `enum class Option[A] { Some(A), None }`, with id 10 and
the variants 11 and 12. -/
def option_enum : lily_class :=
  { plain_class "Option" 10 CLS_ENUM_CLASS 1
      (some (lily_type.mk 10 [some (generic_type 0)] 0 0)) with
    variant_members := [11, 12] }

/-- The classes of `enum class Option[A] { Some(A), None }`: the enum and its
variants Some (11) and None (12). -/
def option_classes : List lily_class :=
  stock_classes ++
    [option_enum,
     { plain_class "Some" 11 CLS_VARIANT_CLASS 1 (some (simple_type 11)) with
       parent := some 10,
       variant_type := some (lily_type.mk SYM_CLASS_FUNCTION
         [some (lily_type.mk 11 [some (generic_type 0)] 0 0), some (generic_type 0)] 0 0) },
     { plain_class "None" 12 CLS_VARIANT_CLASS 0 (some (simple_type 12)) with
       parent := some 10, variant_type := some (simple_type 12) }]

/-- The type Option[integer]. -/
def option_of_integer : lily_type :=
  lily_type.mk 10 [some (simple_type SYM_CLASS_INTEGER)] 0 0

/-- The block of a match on a value of type Option[integer]; covered are the
variants already matched. -/
def match_block (covered : List Nat) : lily_block :=
  { block_type := BLOCK_MATCH, self := none, match_sym := some (some option_of_integer),
    match_cases := covered, generic_count := 0, function_var := none }

/-- A parser inside a match block on a value of type Option[integer], the
lexer on the word after `case`. -/
def in_match (covered : List Nat) (input : List lex_item) : lily_parse_state :=
  let parser := parser_on option_classes 0 input
  { parser with
      emit := { parser.emit with blocks := match_block covered :: parser.emit.blocks } }

/-- The declarations `enum class Option[A] { Some(A), None }` and
`Option[integer] x = None`, then `match x: {` and the given cases, then `}`. -/
def match_program (cases : List lex_item) : List lex_item :=
  [word "enum", word "class", word "Option", tok tk_left_bracket, word "A",
   tok tk_right_bracket, tok tk_left_curly,
   word "Some", tok tk_left_parenth, word "A", tok tk_right_parenth, tok tk_comma,
   word "None", tok tk_right_curly,
   word "Option", tok tk_left_bracket, word "integer", tok tk_right_bracket, word "x",
   tok tk_equal, word "None",
   word "match", word "x", tok tk_colon, tok tk_left_curly] ++ cases ++ [tok tk_right_curly]

/-- The case `case Some(s):`. -/
def case_some (name : String) : List lex_item :=
  [word "case", word "Some", tok tk_left_parenth, word name, tok tk_right_parenth, tok tk_colon]

/-- The pool after expression_comma_arrow accepted a comma or an arrow: the
innermost open tree has the given kind and one more argument, and no value is
active. -/
def after_separator (parser : lily_parse_state) (tt : lily_tree_type) (args : Nat)
    (outer : List lily_ast) : lily_parse_state :=
  { parser with
      ast_pool := { parser.ast_pool with
        saved := { tree_type := tt, args_collected := args + 1 } :: outer, active := false } }

/-- A bracket literal as a statement: `[`, the given tokens, `]`. -/
def bracket_literal (inner : List lex_item) : List lex_item :=
  [tok tk_left_bracket] ++ inner ++ [tok tk_right_bracket]

/-- A parser whose innermost open tree is of the given kind with the given
number of collected arguments, a value active, the lexer on the given token. -/
def in_tree (tt : lily_tree_type) (args : Nat) (token : lily_token) : lily_parse_state :=
  let parser := parser_on stock_classes 0 [tok token]
  { parser with
      ast_pool := { parser.ast_pool with
        saved := [{ tree_type := tt, args_collected := args }], active := true } }

/-- The guard of get_named_var for a function declared in a class: the var is
to be readonly, a class is being declared, and the class of the block has a
property of the current label. -/
def method_name_taken (parser : lily_parse_state) (flags : Nat) : Prop :=
  (flags &&& VAR_IS_READONLY) ≠ 0 ∧ parser.class_depth ≠ 0 ∧
    ∃ self_type, block_self_type parser = .ok (some self_type) ∧
      (lily_find_property parser.symtab (parser.symtab.classes.length + 1)
        self_type.cls parser.lex.label).isSome

/-- The guard of get_named_var does not apply or finds no property: the var is
not readonly, or no class is being declared, or the class of the block has no
property of the current label. -/
def method_name_free (parser : lily_parse_state) (flags : Nat) : Prop :=
  (flags &&& VAR_IS_READONLY) = 0 ∨ parser.class_depth = 0 ∨
    ∃ self_type, block_self_type parser = .ok (some self_type) ∧
      (lily_find_property parser.symtab (parser.symtab.classes.length + 1)
        self_type.cls parser.lex.label).isNone

/-- The body of a class Foo (id 10) that has the property x, the lexer on the
name of a function declared with `define`. -/
def class_body_with_property (input : List lex_item) : lily_parse_state :=
  let parser := parser_on
    (stock_classes ++
      [{ plain_class "Foo" 10 0 0 (some (simple_type 10)) with
         properties := [{ name := "x", type := some (simple_type SYM_CLASS_INTEGER), id := 0,
                          flags := 0 }] }])
    0 input
  { parser with
      class_depth := 1,
      emit := { parser.emit with
        blocks := { block_type := BLOCK_FUNCTION ||| BLOCK_CLASS,
                    self := some (some (simple_type 10)),
                    match_sym := none, match_cases := [], generic_count := 0,
                    function_var := none } :: parser.emit.blocks } }

/-- Whether a run of get_named_var raised SyntaxError, and whether a var of the
current label was in scope before it. -/
def named_var_outcome (parser : lily_parse_state) (flags : Nat) : Bool × Bool :=
  ((lily_var_by_name parser.symtab parser.lex.label).isSome,
   match get_named_var parser none flags with
   | .error (.raised .lily_SyntaxError) => true
   | _ => false)

/-- The result of a helper of expression_raw that cannot fail in itself, as the
helper returns it: the parser and the state ST_WANT_OPERATOR. -/
def then_want_operator (r : Except Stop lily_parse_state) : Except Stop (lily_parse_state × Nat) :=
  match r with
  | .ok parser => .ok (parser, ST_WANT_OPERATOR)
  | .error e => .error e

/-- The declaration `integer a = a`: the var a is in scope, at depth 1, when its
initializer is read. -/
def self_assigned : List lex_item :=
  [word "integer", word "a", tok tk_equal, word "a"]

/-- How expression_word ends, without the parser: the new state, or the reason
it stopped. -/
def word_outcome (r : Except Stop (lily_parse_state × Nat)) : Except Stop Nat :=
  match r with
  | .ok (_, state) => .ok state
  | .error e => .error e

/-- A parser in the main function with one var a of type integer in scope,
with the given flags and function depth, the lexer on the word a. -/
def with_var_a (flags : Nat) (depth : Int) : lily_parse_state :=
  let parser := parser_on stock_classes 0 [word "a"]
  { parser with
      symtab := { parser.symtab with
        var_chain := [{ name := "a", type := some (simple_type SYM_CLASS_INTEGER), flags := flags,
                        reg_spot := 0, function_depth := depth, parent := none }] } }

/-- The function f with a local x and, nested in it, the function g that
declares y with the given initializer; before f the global z is declared. -/
def nested_define (value : String) : List lex_item :=
  [word "integer", word "z", tok tk_equal, tok tk_integer,
   word "define", word "f", tok tk_left_parenth, tok tk_right_parenth, tok tk_left_curly,
   word "integer", word "x", tok tk_equal, tok tk_integer,
   word "define", word "g", tok tk_left_parenth, tok tk_right_parenth, tok tk_left_curly,
   word "integer", word "y", tok tk_equal, word value,
   tok tk_right_curly, tok tk_right_curly]

/-- A class declaration without parameters: `class Name()` and what follows. -/
def class_decl (name : String) (rest : List lex_item) : List lex_item :=
  [word "class", word name, tok tk_left_parenth, tok tk_right_parenth] ++ rest

/-- The parser of parse_decl after a name was declared and its `=` was seen:
the declared var (or property) and the assignment are pushed and the lexer is
on the first token of the initializer. -/
def at_decl_value (parser : lily_parse_state) (var : Option Nat) : lily_parse_state :=
  let ap :=
    match var with
    | some _ =>
      if parser.emit.function_depth = 1 then lily_ast_push parser.ast_pool tree_global_var
      else lily_ast_push parser.ast_pool tree_local_var
    | none => lily_ast_push parser.ast_pool tree_property
  next_token { parser with ast_pool := lily_ast_push_binary_op ap expr_assign }

/-- The tokens at which parse_decl stops after an initializer. -/
def ends_decl (token : lily_token) : Prop :=
  token = tk_word ∨ token = tk_prop_word ∨ token = tk_end_tag ∨ token = tk_inner_eof ∨
    token = tk_right_curly ∨ token = tk_final_eof

instance ends_decl_decidable (token : lily_token) : Decidable (ends_decl token) := by
  unfold ends_decl
  infer_instance

/-- The vars of the chain after a run, the oldest first: name, type and
function depth of each. -/
def vars_after (r : Except Stop lily_parse_state) :
    Except Stop (List (String × Option lily_type × Int)) :=
  match r with
  | .ok parser =>
    .ok (parser.symtab.var_chain.reverse.map (fun v => (v.name, v.type, v.function_depth)))
  | .error e => .error e

/-- The declaration of a and b in one statement: the given first tokens, then
`a = 1, b = 2`. -/
def decl_a_b (first : List lex_item) : List lex_item :=
  first ++ [word "a", tok tk_equal, tok tk_integer, tok tk_comma, word "b", tok tk_equal,
    tok tk_integer]

/-- The parser of parse_decl on the name a of `a = 1, b = 2`. -/
def on_a_b : lily_parse_state := parser_on stock_classes 0 (decl_a_b [])

/-- The parser after get_named_var declared the name the lexer is on. -/
def name_declared (parser : lily_parse_state) (type : Option lily_type) : lily_parse_state :=
  { parser with
      symtab := (lily_try_new_var parser.symtab type parser.lex.label SYM_NOT_INITIALIZED).2,
      lex := lily_lexer parser.lex }

/-- An enum class Pair with the variants One, of the given fields, and Two. -/
def enum_pair (fields : List lex_item) : List lex_item :=
  [word "enum", word "class", word "Pair", tok tk_left_curly, word "One", tok tk_left_parenth] ++
    fields ++ [tok tk_right_parenth, tok tk_comma, word "Two", tok tk_right_curly]

/-- A bracketed type: the name of the class, `[`, the types, `]`. -/
def bracketed (name : String) (inner : List lex_item) : List lex_item :=
  [word name, tok tk_left_bracket] ++ inner ++ [tok tk_right_bracket]

/-- The two types `integer, string`. -/
def integer_string : List lex_item := [word "integer", tok tk_comma, word "string"]

/-- The declaration of a var a of the given type, with an initializer. -/
def decl_of (type : List lex_item) : List lex_item :=
  type ++ [word "a", tok tk_equal, tok tk_integer]

/-- A parser of inner_type_collector inside the brackets of a type, the lexer
on the first token after `[`. -/
def in_brackets (inner : List lex_item) : lily_parse_state :=
  parser_on stock_classes 0 (inner ++ [tok tk_right_bracket])

/-- The two types `any, string`. -/
def any_string : List lex_item := [word "any", tok tk_comma, word "string"]

/-- The id, the flags and the template count of the classes, class by class. -/
def class_arities (symtab : lily_symtab) : List (Nat × Nat × Int) :=
  symtab.classes.map (fun c => (c.id, c.flags, c.template_count))

/-- No class is made between two parsers, and no class changes its id, its
flags or its template count. -/
def SameClasses (p p' : lily_parse_state) : Prop :=
  class_arities p'.symtab = class_arities p.symtab

/-- The locals of inner_type_collector when its loop starts inside brackets. -/
def bracket_locals (flags : cv_flags) : tc_locals :=
  { state := TC_WANT_VALUE, flags := tc_enter_flags flags, i := 0, type_flags := 0,
    have_arrow := false, have_dots := false }

/-- One pass of the loop of enum_handler, up to the count of the variant: the
`::` of a scoped enum, the name, the new variant class, its fields if it has
any. -/
def enum_variant_pass (fuel : Nat) (parser : lily_parse_state) (enum_class : Nat)
    (is_scoped : Bool) : Except Stop lily_parse_state := do
  let parser ←
    if is_scoped then do
      NEED_CURRENT_TOK parser tk_colon_colon
      pure (next_token parser)
    else pure parser
  NEED_CURRENT_TOK parser tk_word
  let (symtab, found) := lily_class_by_name parser.symtab parser.lex.label
  raise_if (found.isSome)
  let (variant_class, symtab) := lily_new_variant_class symtab enum_class parser.lex.label
  let parser := next_token { parser with symtab := symtab }
  let (variant_type, parser) ←
    if parser.lex.token = tk_left_parenth then do
      let parser := next_token parser
      raise_if (parser.lex.token = tk_right_parenth)
      let (t, parser) ← inner_type_collector fuel parser variant_class
        { CV_VARIANT_FUNC := true }
      pure (some t, next_token parser)
    else pure (none, parser)
  pure { parser with
    symtab := lily_finish_variant_class parser.symtab variant_class variant_type }

/-- The variants the loop of enum_handler reads, in order: for each pass of the
loop whether it began on `::`, and the name of the variant. The reading of
enum_variants on the same parser. -/
def variants_read : Nat → lily_parse_state → Nat → Bool → Except Stop (List (Bool × String))
  | 0, _, _, _ => .error .out_of_fuel
  | fuel + 1, parser, enum_class, is_scoped =>
    match enum_variant_pass fuel parser enum_class is_scoped with
    | .error e => .error e
    | .ok after =>
      let entry : Bool × String :=
        (decide (parser.lex.token = tk_colon_colon),
         if is_scoped then (next_token parser).lex.label else parser.lex.label)
      if after.lex.token = tk_comma then
        match variants_read fuel (next_token after) enum_class is_scoped with
        | .error e => .error e
        | .ok rest => .ok (entry :: rest)
      else if after.lex.token = tk_right_curly then .ok [entry]
      else
        match variants_read fuel after enum_class is_scoped with
        | .error e => .error e
        | .ok rest => .ok (entry :: rest)

/-- The head of enum_handler, up to the first token after `{`: the enum class
made, the type of the enum, the generic count to restore, and the parser on
that token. -/
def enum_header (fuel : Nat) (parser : lily_parse_state) :
    Except Stop (Nat × Option lily_type × Nat × lily_parse_state) := do
  NEED_CURRENT_TOK parser tk_word
  raise_if (parser.lex.label ≠ "class")
  let parser ← NEED_NEXT_TOK parser tk_word
  ensure_valid_class parser parser.lex.label
  let (enum_class, symtab) := lily_new_class parser.symtab parser.lex.label
  let parser := next_token { parser with symtab := symtab }
  let block ← current_block parser
  let save_generics := block.generic_count
  let (generics_used, parser) ←
    if parser.lex.token = tk_left_bracket then collect_generics fuel parser 0
    else pure (0, parser)
  let symtab := lily_update_symtab_generics parser.symtab (some enum_class) generics_used
  let symtab := lily_make_constructor_return_type symtab
  let parser := { parser with symtab := symtab }
  let result_type := parser.symtab.root_type
  NEED_CURRENT_TOK parser tk_left_curly
  pure (enum_class, result_type, save_generics, next_token parser)

/-- The end of enum_handler, after the variants: the enum class is finished,
the generics of the block are restored and the lexer passes the `}`. -/
def enum_finished (parser : lily_parse_state) (enum_class : Nat) (is_scoped : Bool)
    (result_type : Option lily_type) (save_generics : Nat) : lily_parse_state :=
  next_token { parser with
    symtab := lily_update_symtab_generics
      (lily_finish_enum_class parser.symtab enum_class is_scoped result_type)
      none save_generics }

/-- An enum class declaration: `enum class Color {`, the variants, `}`. -/
def enum_color (variants : List lex_item) : List lex_item :=
  [word "enum", word "class", word "Color", tok tk_left_curly] ++ variants ++
    [tok tk_right_curly]

/-- The flags and the variants of the class of the given name after a run. -/
def enum_left (r : Except Stop lily_parse_state) (name : String) :
    Except Stop (Option (Nat × List Nat)) :=
  match r with
  | .ok parser =>
    .ok ((parser.symtab.classes.find? (fun c => c.name == name)).map
      (fun c => (c.flags, c.variant_members)))
  | .error e => .error e

/-- A parser of enum_handler on the `class` of an enum class declaration. -/
def on_enum (variants : List lex_item) : lily_parse_state :=
  next_token (parser_on stock_classes 0 (enum_color variants))

/-- The parser of enum_handler on the first token after the `{` of
`enum class Color {`: Color (id 10) is made and has its type. -/
def enum_first (variants : List lex_item) : lily_parse_state :=
  let named := next_token (on_enum variants)
  let made := next_token { named with symtab := (lily_new_class named.symtab "Color").2 }
  next_token { made with
    symtab := lily_make_constructor_return_type
      (lily_update_symtab_generics made.symtab (some 10) 0) }

/-- The little-endian value of a list of bytes: the first byte is the least
significant one. -/
def pack_le : List Nat → Nat
  | [] => 0
  | b :: rest => b + 256 * pack_le rest

/-- Byte i of a value, the least significant byte being byte 0. -/
def byte_at (value i : Nat) : Nat := value / 256 ^ i % 256

/-- A name of ASCII characters other than NUL. -/
def ascii_name (name : String) : Prop :=
  ∀ c ∈ name.toList, 0 < c.toNat ∧ c.toNat < 128

instance ascii_name_decidable (name : String) : Decidable (ascii_name name) := by
  unfold ascii_name
  infer_instance

/-! ## Formatting of numbers -/

/-- The decimal digits of a number, the most significant first; the fuel bounds
their number. -/
def decimal_digits : Nat → Nat → List Nat → List Nat
  | 0, _, acc => acc
  | fuel + 1, n, acc =>
    if n < 10 then n :: acc else decimal_digits fuel (n / 10) (n % 10 :: acc)

/-- The character of a decimal digit. -/
def digit_char (d : Nat) : Char := Char.ofNat (48 + d)

/-- The conversion `%d` of the C library for an int. -/
def fmt_d (i : Int) : String :=
  let digits := (decimal_digits (i.natAbs + 1) i.natAbs []).map digit_char
  String.mk (if i < 0 then '-' :: digits else digits)

/-! ## The parser as a whole -/

/-- The enum lily_parse_mode. -/
inductive lily_parse_mode where
  | pm_init | pm_parse | pm_execute
deriving DecidableEq, Repr

open lily_parse_mode

/-- The struct lily_function_val as far as a traceback reads it: the name of
the class (or NULL), the name for traces, and the code, NULL for a function
that is not written in the language. -/
structure lily_function_val where
  class_name : Option String
  trace_name : String
  code : Option (List Nat)
deriving DecidableEq, Repr

/-- Modelled from the spec: a frame of the VM (section 4.6): the function that
runs in it and the line number kept for the traceback; lily_vm.h is not under
src/. -/
structure lily_vm_stack_entry where
  function : lily_function_val
  line_num : Nat
deriving DecidableEq, Repr

/-- Modelled from the spec: the VM as far as the parser and the traceback read
it: the frames, and how many of them are in use. -/
structure lily_vm_state where
  function_stack : List lily_vm_stack_entry
  function_stack_pos : Nat
deriving DecidableEq, Repr

/-- Modelled from the spec: the raiser (section 4.1): the kind of the error
raised, the message in its buffer, the line adjustment, and jump_pos, the
number of handlers in the array jumps that are set up; lily_raiser.h is not
under src/. -/
structure lily_raiser where
  error_code : lily_error
  message : String
  line_adjust : Nat
  jump_pos : Nat := 0
deriving DecidableEq, Repr

/-- Modelled from the spec: an entry of the lexer (section 4.2): the name of
the source it reads. -/
structure lily_lex_entry where
  filename : String
deriving DecidableEq, Repr

/-- Modelled from the spec: the input modes of the lexer (section 4.2). -/
inductive lily_lex_mode where
  | lm_no_tags | lm_tags
deriving DecidableEq, Repr

open lily_lex_mode

/-- The struct lily_parse_state with the fields that the reading of single
statements leaves out: the mode, the vm and the raiser, and of the lexer the
mode, the entries (innermost first) and the line number. -/
structure lily_parse_state_ext where
  parser : lily_parse_state
  mode : lily_parse_mode
  vm : lily_vm_state
  raiser : lily_raiser
  lex_mode : lily_lex_mode
  entries : List lily_lex_entry
  line_num : Nat

/-- The number a list of decimal digits stands for. -/
def digits_value (ds : List Nat) : Nat := ds.foldl (fun a d => 10 * a + d) 0

/-! ## The command line (lily_main.c) -/

/-- The globals of lily_main.c that process_args writes: is_file (zero until
written), do_tags and to_process (NULL until written). -/
structure cli_globals where
  is_file : Nat := 0
  do_tags : Nat := 0
  to_process : Option String := none
deriving DecidableEq, Repr

/-- How process_args ends: through usage, which prints the help and exits, or
by returning with the globals as they then are. -/
inductive cli_exit where
  | usage
  | returned (globals : cli_globals)
deriving DecidableEq, Repr

/-- The loop of process_args from index i on; the fuel is the number of
arguments still to look at. -/
def process_args_loop (argv : List String) : Nat → Nat → cli_globals → cli_exit
  | 0, _, g => .returned g
  | fuel + 1, i, g =>
    match argv.get? i with
    | none => .returned g
    | some arg =>
      if arg = "-h" then .usage
      else if arg = "-t" then process_args_loop argv fuel (i + 1) { g with do_tags := 1 }
      else if arg = "-s" then
        let i := i + 1
        if i = argv.length then .usage
        else
          let g := { g with to_process := argv.get? i }
          if i + 1 ≠ argv.length then .usage
          else .returned { g with is_file := 0 }
      else
        let g := { g with to_process := argv.get? i }
        if i + 1 ≠ argv.length then .usage
        else .returned { g with is_file := 1 }

/-- The function process_args; argc is the length of argv. -/
def process_args (argv : List String) : cli_exit :=
  process_args_loop argv argv.length 1 {}

/-- The arguments after the name of the program. -/
def options_of (argv : List String) : List String := argv.drop 1

/-- What process_args does with the arguments from the one at hand on, read as
a list: the reading the loop is compared with. -/
def scan_options : List String → cli_globals → cli_exit
  | [], g => .returned g
  | arg :: rest, g =>
    if arg = "-h" then .usage
    else if arg = "-t" then scan_options rest { g with do_tags := 1 }
    else if arg = "-s" then
      match rest with
      | [p] => .returned { g with to_process := some p, is_file := 0 }
      | _ => .usage
    else
      match rest with
      | [] => .returned { g with to_process := some arg, is_file := 1 }
      | _ => .usage

/-- The value of do_tags after n arguments `-t`. -/
def tags_after (n : Nat) : Nat := if n = 0 then 0 else 1

/-! ## Lambdas -/

/-- The call `snprintf(lambda_name, 32, "*lambda_%d", id)`: at most 31
characters are kept. -/
def lambda_name (id : Nat) : String :=
  String.mk (("*lambda_" ++ fmt_d (id : Int)).toList.take 31)

/-- The opening of lily_parser_lambda_eval, up to the block of the lambda: the
name is printed from next_lambda_id, the counter (a uint16_t) is incremented,
the var of the lambda is created with the default call type and the block is
entered. The rest of the function (the arguments, the body, the type of the
lambda) does not write the counter. Returns the var of the lambda. -/
def lambda_eval_declare (parser : lily_parse_state) : lily_var × lily_parse_state :=
  let name := lambda_name parser.next_lambda_id
  let parser := { parser with next_lambda_id := (parser.next_lambda_id + 1) % 65536 }
  let (lambda_var, symtab) :=
    lily_try_new_var parser.symtab parser.default_call_type name VAR_IS_READONLY
  (lambda_var, lily_emit_enter_block { parser with symtab := symtab }
    (BLOCK_LAMBDA ||| BLOCK_FUNCTION))

/-- The parser before its k-th lambda (counted from 0), where between the
lambdas the parser does what the function between says. -/
def before_lambda (between : Nat → lily_parse_state → lily_parse_state) :
    Nat → lily_parse_state → lily_parse_state
  | 0, parser => between 0 parser
  | k + 1, parser =>
    between (k + 1) (lambda_eval_declare (before_lambda between k parser)).2

/-- The name given to the k-th lambda of a parser. -/
def lambda_name_at (between : Nat → lily_parse_state → lily_parse_state) (k : Nat)
    (parser : lily_parse_state) : String :=
  (lambda_eval_declare (before_lambda between k parser)).1.name

/-- A parser of the main function whose counter of lambdas stands at id. -/
def with_lambda_id (id : Nat) : lily_parse_state :=
  { parser_on stock_classes 0 [] with next_lambda_id := id }

/-! ## Traceback (lily_main.c) -/

/-- Modelled from the spec: lily_name_for_error, the name of an error kind
(section 4.1). -/
def lily_name_for_error : lily_error → String
  | .lily_SyntaxError => "SyntaxError"
  | .lily_ImportError => "ImportError"
  | .lily_EncodingError => "EncodingError"
  | .lily_NoMemoryError => "NoMemoryError"
  | .lily_DivisionByZeroError => "DivisionByZeroError"
  | .lily_IndexError => "IndexError"
  | .lily_BadTypecastError => "BadTypecastError"
  | .lily_NoReturnError => "NoReturnError"
  | .lily_ValueError => "ValueError"
  | .lily_RecursionError => "RecursionError"
  | .lily_KeyError => "KeyError"
  | .lily_FormatError => "FormatError"

/-- The line traceback_to_file prints for one frame. -/
def traceback_frame_line (entry : lily_vm_stack_entry) : String :=
  let (class_name, separator) :=
    match entry.function.class_name with
    | none => ("", "")
    | some name => (name, "::")
  if entry.function.code = none then
    "    Function " ++ class_name ++ separator ++ entry.function.trace_name ++ " [builtin]\n"
  else
    "    Function " ++ class_name ++ separator ++ entry.function.trace_name ++ " at line " ++
      fmt_d (entry.line_num : Int) ++ "\n"

/-- The loop of traceback_to_file over the frames: called with i + 1 it prints
the frame at index i and goes on below it. -/
def traceback_frames (vm_stack : List lily_vm_stack_entry) : Nat → String → Except Stop String
  | 0, out => .ok out
  | i + 1, out =>
    match vm_stack.get? i with
    | none => .error .undefined_behavior
    | some entry => traceback_frames vm_stack i (out ++ traceback_frame_line entry)

/-- The loop of traceback_to_file that skips the entries of lambdas. -/
def skip_lambda_entries : List lily_lex_entry → Except Stop lily_lex_entry
  | [] => .error .undefined_behavior
  | iter :: prev => if iter.filename = "[lambda]" then skip_lambda_entries prev else .ok iter

/-- The function traceback_to_file: the text it writes to the file. -/
def traceback_to_file (st : lily_parse_state_ext) : Except Stop String :=
  let raiser := st.raiser
  let out := lily_name_for_error raiser.error_code
  let out := if raiser.message ≠ "" then out ++ ": " ++ raiser.message else out ++ "\n"
  if st.mode = pm_parse then
    let fixed_line_num := if raiser.line_adjust = 0 then st.line_num else raiser.line_adjust
    match skip_lambda_entries st.entries with
    | .error e => .error e
    | .ok iter =>
      .ok (out ++ "Where: File \"" ++ iter.filename ++ "\" at line " ++
        fmt_d (fixed_line_num : Int) ++ "\n")
  else if st.mode = pm_execute then
    traceback_frames st.vm.function_stack st.vm.function_stack_pos (out ++ "Traceback:\n")
  else .ok out

/-- Modelled from the spec: the call of a function pushes a frame (section
4.6): the new frame is the entry at function_stack_pos, above the frames of
its callers, and frame 0 is that of __main__. -/
def vm_push_frame (vm : lily_vm_state) (entry : lily_vm_stack_entry) : lily_vm_state :=
  { function_stack := vm.function_stack.take vm.function_stack_pos ++ [entry],
    function_stack_pos := vm.function_stack_pos + 1 }

/-- The texts of a list, one after the other. -/
def texts (ls : List String) : String := ls.foldr (fun l rest => l ++ rest) ""

/-- The first lines of a traceback: the name of the error with its message. -/
def traceback_head (raiser : lily_raiser) : String :=
  let out := lily_name_for_error raiser.error_code
  if raiser.message ≠ "" then out ++ ": " ++ raiser.message else out ++ "\n"

/-- A function written in the language. -/
def native_function (name : String) : lily_function_val :=
  { class_name := none, trace_name := name, code := some [] }

/-- A function that is not written in the language. -/
def foreign_function (name : String) : lily_function_val :=
  { class_name := none, trace_name := name, code := none }

/-- A run that stopped in execute mode with the given frames, frame 0 first. -/
def stopped_in (frames : List lily_vm_stack_entry) : lily_parse_state_ext :=
  { parser := parser_on stock_classes 0 [],
    mode := pm_execute,
    vm := frames.foldl vm_push_frame { function_stack := [], function_stack_pos := 0 },
    raiser := { error_code := .lily_ValueError, message := "Bad.\n", line_adjust := 0 },
    lex_mode := .lm_no_tags,
    entries := [{ filename := "a.lly" }],
    line_num := 7 }

/-- The statement `for i in <range>: a = 1` after the declaration of the
integers a and b and of the function f that takes an integer and returns
one. -/
def for_loop_over (range : List lex_item) : List lex_item :=
  [word "integer", word "a", tok tk_equal, tok tk_integer,
   word "integer", word "b", tok tk_equal, tok tk_integer,
   word "define", word "f", tok tk_left_parenth, word "integer", word "x", tok tk_arrow,
     word "integer", tok tk_right_parenth, tok tk_left_curly, word "return", word "x",
     tok tk_right_curly,
   word "for", word "i", word "in"] ++ range ++
  [tok tk_colon, word "a", tok tk_equal, tok tk_integer]

/-- The tokens of `(a = 10)`. -/
def assign_in_parenth : List lex_item :=
  [tok tk_left_parenth, word "a", tok tk_equal, tok tk_integer, tok tk_right_parenth]

/-- The tokens of `f(a = 10)`. -/
def assign_in_call : List lex_item :=
  [word "f", tok tk_left_parenth, word "a", tok tk_equal, tok tk_integer, tok tk_right_parenth]

/-- A parser with the integer a in scope, the lexer on the first token of the
input. -/
def range_value_on (input : List lex_item) : lily_parse_state :=
  let parser := parser_on stock_classes 0 input
  { parser with
      symtab := { parser.symtab with
        var_chain := [{ name := "a", type := some (simple_type SYM_CLASS_INTEGER), flags := 0,
                        reg_spot := 0, function_depth := 1, parent := none }],
        next_register_spot := 1 } }

/-- The names of the vars in scope after a run, the most recent first. -/
def var_names (r : Except Stop lily_parse_state) : Except Stop (List String) :=
  match r with
  | .ok parser => .ok (parser.symtab.var_chain.map (fun v => v.name))
  | .error e => .error e

/-- Between two parsers only the type stack differs. -/
def OnlyStack (p p' : lily_parse_state) : Prop :=
  p'.symtab = p.symtab ∧ p'.lex = p.lex ∧ p'.emit = p.emit ∧ p'.ast_pool = p.ast_pool ∧
    p'.class_depth = p.class_depth

/-- The declarations
`enum class Shape { Rect(integer, integer), Dot(integer), Blank }` and
`Shape x = Blank`, then `match x: {` and the given cases, then `}`. -/
def shape_program (cases : List lex_item) : List lex_item :=
  [word "enum", word "class", word "Shape", tok tk_left_curly,
   word "Rect", tok tk_left_parenth, word "integer", tok tk_comma, word "integer",
     tok tk_right_parenth, tok tk_comma,
   word "Dot", tok tk_left_parenth, word "integer", tok tk_right_parenth, tok tk_comma,
   word "Blank", tok tk_right_curly,
   word "Shape", word "x", tok tk_equal, word "Blank",
   word "match", word "x", tok tk_colon, tok tk_left_curly] ++ cases ++ [tok tk_right_curly]

/-- The names of a case, separated by commas. -/
def case_names : List String → List lex_item
  | [] => []
  | [n] => [word n]
  | n :: rest => word n :: tok tk_comma :: case_names rest

/-- The case `case V(x1, ..., xn):` from the name of the variant on. -/
def case_with (variant : String) (names : List String) : List lex_item :=
  [word variant, tok tk_left_parenth] ++ case_names names ++
    [tok tk_right_parenth, tok tk_colon]

/-- The classes of `enum class Shape { Rect(integer, integer), Dot(integer), Blank }`:
the enum (10) and its variants Rect (11), Dot (12) and Blank (13). -/
def shape_classes : List lily_class :=
  stock_classes ++
    [{ plain_class "Shape" 10 CLS_ENUM_CLASS 0 (some (simple_type 10)) with
       variant_members := [11, 12, 13] },
     { plain_class "Rect" 11 CLS_VARIANT_CLASS 0 (some (simple_type 11)) with
       parent := some 10,
       variant_type := some (lily_type.mk SYM_CLASS_FUNCTION
         [some (simple_type 11), some (simple_type SYM_CLASS_INTEGER),
          some (simple_type SYM_CLASS_INTEGER)] 0 0) },
     { plain_class "Dot" 12 CLS_VARIANT_CLASS 0 (some (simple_type 12)) with
       parent := some 10,
       variant_type := some (lily_type.mk SYM_CLASS_FUNCTION
         [some (simple_type 12), some (simple_type SYM_CLASS_INTEGER)] 0 0) },
     { plain_class "Blank" 13 CLS_VARIANT_CLASS 0 (some (simple_type 13)) with
       parent := some 10, variant_type := some (simple_type 13) }]

/-- A parser inside a match block on a value of type Shape, no variant covered
yet, the lexer on the word after `case`. -/
def in_shape_match (input : List lex_item) : lily_parse_state :=
  let parser := parser_on shape_classes 0 input
  { parser with
      emit := { parser.emit with blocks :=
        { block_type := BLOCK_MATCH, self := none, match_sym := some (some (simple_type 10)),
          match_cases := [], generic_count := 0, function_var := none } ::
        parser.emit.blocks } }

/-- The names and types of the vars in scope after a run, the most recent
first. -/
def vars_declared (r : Except Stop lily_parse_state) :
    Except Stop (List (String × Option lily_type)) :=
  match r with
  | .ok parser => .ok (parser.symtab.var_chain.map (fun v => (v.name, v.type)))
  | .error e => .error e

/-! ## Message buffer (lily_msgbuf.c)

A C string is the list of its bytes before the NUL. The block of the message is
a list of cells, `none` for a byte that was never written. -/

/-- What the C library does where the code cannot tell: the largest block that
lily_malloc and lily_realloc give, and the text of strerror_r for an errno
value. -/
structure c_library where
  room : Nat
  strerror : Int → List Nat

/-- The struct lily_msgbuf; pos and size are uint16_t. -/
structure lily_msgbuf where
  message : List (Option Nat)
  pos : Nat
  size : Nat
  truncated : Nat
deriving DecidableEq, Repr

/-- The function lily_new_msgbuf; NULL when the block of 64 bytes cannot be
had. -/
def lily_new_msgbuf (lib : c_library) : Option lily_msgbuf :=
  if 64 ≤ lib.room then
    some { message := some 0 :: List.replicate 63 none, pos := 0, size := 64, truncated := 0 }
  else none

/-- The function try_resize_msgbuf: the block is reallocated to new_size bytes,
the bytes beyond the old block not written yet, and new_size is stored in the
16-bit field. Returns 1, or 0 when the block cannot be had. -/
def try_resize_msgbuf (lib : c_library) (msgbuf : lily_msgbuf) (new_size : Nat) :
    Nat × lily_msgbuf :=
  if new_size ≤ lib.room then
    (1, { msgbuf with
            message := msgbuf.message.take new_size ++
              List.replicate (new_size - msgbuf.message.length) none,
            size := new_size % 65536 })
  else (0, { msgbuf with truncated := 1 })

/-- The call strlen on a block: the index of the first NUL. Reading a byte that
was never written, or past the block, is undefined. -/
def c_strlen : List (Option Nat) → Except Stop Nat
  | [] => .error .undefined_behavior
  | none :: _ => .error .undefined_behavior
  | some b :: rest =>
    if b = 0 then .ok 0
    else
      match c_strlen rest with
      | .ok n => .ok (n + 1)
      | .error e => .error e

/-- The call memcpy(block + at, bytes, n): the bytes must fit in the block. -/
def c_memcpy (block : List (Option Nat)) (at_ : Nat) (bytes : List Nat) :
    Except Stop (List (Option Nat)) :=
  if at_ + bytes.length ≤ block.length then
    .ok (block.take at_ ++ bytes.map some ++ block.drop (at_ + bytes.length))
  else .error .undefined_behavior

/-- The call strcat(block, str): str and a NUL are written from the first NUL
of the block on. -/
def c_strcat (block : List (Option Nat)) (str : List Nat) : Except Stop (List (Option Nat)) :=
  match c_strlen block with
  | .error e => .error e
  | .ok k => c_memcpy block k (str ++ [0])

/-- The bytes of the C string in a block. -/
def c_string (block : List (Option Nat)) : Except Stop (List Nat) :=
  match c_strlen block with
  | .error e => .error e
  | .ok k => .ok ((block.take k).map (fun c => c.getD 0))

/-- The function lily_msgbuf_add. -/
def lily_msgbuf_add (lib : c_library) (msgbuf : lily_msgbuf) (str : List Nat) :
    Except Stop lily_msgbuf :=
  let len := str.length
  if msgbuf.truncated ≠ 0 then .ok msgbuf
  else
    let (ok, msgbuf) :=
      if msgbuf.pos + len + 1 > msgbuf.size then
        try_resize_msgbuf lib msgbuf (msgbuf.pos + len + 1)
      else (1, msgbuf)
    if ok = 0 then .ok msgbuf
    else
      match c_strcat msgbuf.message str with
      | .error e => .error e
      | .ok message => .ok { msgbuf with message := message, pos := (msgbuf.pos + len) % 65536 }

/-- The function lily_msgbuf_add_text_range: the bytes of text from start up
to stop. -/
def lily_msgbuf_add_text_range (lib : c_library) (msgbuf : lily_msgbuf) (text : List Nat)
    (start stop : Nat) : Except Stop lily_msgbuf :=
  let range := stop - start
  if msgbuf.truncated ≠ 0 then .ok msgbuf
  else
    let (ok, msgbuf) :=
      if msgbuf.pos + range + 1 > msgbuf.size then
        try_resize_msgbuf lib msgbuf (msgbuf.pos + range + 1)
      else (1, msgbuf)
    if ok = 0 then .ok msgbuf
    else if stop < start ∨ text.length < stop then .error .undefined_behavior
    else
      match c_memcpy msgbuf.message msgbuf.pos ((text.drop start).take range) with
      | .error e => .error e
      | .ok message =>
        let pos := (msgbuf.pos + range) % 65536
        if pos < message.length then
          .ok { msgbuf with message := message.set pos (some 0), pos := pos }
        else .error .undefined_behavior

/-- The function lily_msgbuf_add_char. -/
def lily_msgbuf_add_char (lib : c_library) (msgbuf : lily_msgbuf) (c : Nat) :
    Except Stop lily_msgbuf :=
  lily_msgbuf_add lib msgbuf (if c = 0 then [] else [c])

/-- The character that follows the backslash when lily_msgbuf_escape_add_str
escapes a byte, and 0 for a byte it copies. -/
def escape_char (ch : Nat) : Nat :=
  if ch = 10 then 110
  else if ch = 13 then 114
  else if ch = 9 then 116
  else if ch = 39 then 39
  else if ch = 34 then 34
  else if ch = 92 then 92
  else if ch = 8 then 98
  else if ch = 7 then 97
  else 0

/-- The loop of lily_msgbuf_escape_add_str from index i on, with the bytes from
start up to i still to be added; the fuel is the number of bytes to come. -/
def escape_loop (lib : c_library) (str : List Nat) :
    Nat → Nat → Nat → lily_msgbuf → Except Stop lily_msgbuf
  | 0, i, start, msgbuf =>
    if i ≠ start then lily_msgbuf_add_text_range lib msgbuf str start i else .ok msgbuf
  | fuel + 1, i, start, msgbuf =>
    match str.get? i with
    | none => .error .undefined_behavior
    | some ch =>
      if escape_char ch ≠ 0 then
        match (if i ≠ start then lily_msgbuf_add_text_range lib msgbuf str start i
               else .ok msgbuf) with
        | .error e => .error e
        | .ok msgbuf =>
          match lily_msgbuf_add_char lib msgbuf 92 with
          | .error e => .error e
          | .ok msgbuf =>
            match lily_msgbuf_add_char lib msgbuf (escape_char ch) with
            | .error e => .error e
            | .ok msgbuf => escape_loop lib str fuel (i + 1) (i + 1) msgbuf
      else escape_loop lib str fuel (i + 1) start msgbuf

/-- The function lily_msgbuf_escape_add_str. -/
def lily_msgbuf_escape_add_str (lib : c_library) (msgbuf : lily_msgbuf) (str : List Nat) :
    Except Stop lily_msgbuf :=
  escape_loop lib str str.length 0 0 msgbuf

/-- The function lily_msgbuf_add_int. -/
def lily_msgbuf_add_int (lib : c_library) (msgbuf : lily_msgbuf) (i : Int) :
    Except Stop lily_msgbuf :=
  lily_msgbuf_add lib msgbuf (c_bytes (fmt_d i))

/-- The function lily_msgbuf_reset. -/
def lily_msgbuf_reset (msgbuf : lily_msgbuf) : Except Stop lily_msgbuf :=
  match msgbuf.message with
  | [] => .error .undefined_behavior
  | _ :: rest => .ok { msgbuf with pos := 0, message := some 0 :: rest, truncated := 0 }

/-- The function lily_msgbuf_flush. -/
def lily_msgbuf_flush (msgbuf : lily_msgbuf) : Except Stop lily_msgbuf :=
  match msgbuf.message with
  | [] => .error .undefined_behavior
  | _ :: rest => .ok { msgbuf with pos := 0, message := some 0 :: rest }

/-- The loop of lily_msgbuf_add_type that writes `A, B, ` for the generics of a
function: count passes, the letter going up from ch. -/
def add_generic_letters (lib : c_library) : Nat → Nat → lily_msgbuf → Except Stop lily_msgbuf
  | 0, _, msgbuf => .ok msgbuf
  | count + 1, ch, msgbuf =>
    match lily_msgbuf_add_char lib msgbuf (ch % 256) with
    | .error e => .error e
    | .ok msgbuf =>
      match lily_msgbuf_add lib msgbuf (c_bytes ", ") with
      | .error e => .error e
      | .ok msgbuf => add_generic_letters lib count (ch + 1) msgbuf

/-- The opening lily_msgbuf_add_type writes after the name of the function
class: `[A, B](` when the type has generics, else ` (`. -/
def add_function_open (lib : c_library) (msgbuf : lily_msgbuf) (template_pos : Nat) :
    Except Stop lily_msgbuf :=
  if template_pos ≠ 0 then
    match lily_msgbuf_add lib msgbuf (c_bytes "[") with
    | .error e => .error e
    | .ok msgbuf =>
      match add_generic_letters lib (template_pos - 1) 65 msgbuf with
      | .error e => .error e
      | .ok msgbuf =>
        match lily_msgbuf_add_char lib msgbuf ((65 + (template_pos - 1)) % 256) with
        | .error e => .error e
        | .ok msgbuf => lily_msgbuf_add lib msgbuf (c_bytes "](")
  else lily_msgbuf_add lib msgbuf (c_bytes " (")

/-- The dots lily_msgbuf_add_type writes after the last parameter of a function
that takes a variable number of arguments. -/
def add_varargs_dots (lib : c_library) (msgbuf : lily_msgbuf) (flags : Nat) :
    Except Stop lily_msgbuf :=
  if flags &&& TYPE_IS_VARARGS ≠ 0 then lily_msgbuf_add lib msgbuf (c_bytes "...")
  else .ok msgbuf

mutual

/-- The function lily_msgbuf_add_type. -/
def lily_msgbuf_add_type (lib : c_library) (classes : List lily_class) :
    lily_msgbuf → lily_type → Except Stop lily_msgbuf
  | msgbuf, lily_type.mk cls subtypes template_pos flags =>
    match classes.find? (fun c => c.id == cls) with
    | none => .error .undefined_behavior
    | some c =>
      match lily_msgbuf_add lib msgbuf (c_bytes c.name) with
      | .error e => .error e
      | .ok msgbuf =>
        if cls = SYM_CLASS_FUNCTION then
          match add_function_open lib msgbuf template_pos with
          | .error e => .error e
          | .ok msgbuf =>
            match subtypes with
            | [] => .error .undefined_behavior
            | ret :: args =>
              match (match args with
                     | [] => Except.ok msgbuf
                     | _ :: _ =>
                       match add_type_list lib classes msgbuf args with
                       | .error e => .error e
                       | .ok msgbuf => add_varargs_dots lib msgbuf flags) with
              | .error e => .error e
              | .ok msgbuf =>
                match ret with
                | none => lily_msgbuf_add lib msgbuf (c_bytes ")")
                | some ret =>
                  match lily_msgbuf_add lib msgbuf (c_bytes " => ") with
                  | .error e => .error e
                  | .ok msgbuf =>
                    match lily_msgbuf_add_type lib classes msgbuf ret with
                    | .error e => .error e
                    | .ok msgbuf => lily_msgbuf_add lib msgbuf (c_bytes ")")
        else if cls = SYM_CLASS_TEMPLATE then
          lily_msgbuf_add_char lib msgbuf ((65 + template_pos) % 256)
        else if c.template_count ≠ 0 then
          match lily_msgbuf_add lib msgbuf (c_bytes "[") with
          | .error e => .error e
          | .ok msgbuf =>
            match add_type_list lib classes msgbuf subtypes with
            | .error e => .error e
            | .ok msgbuf => lily_msgbuf_add lib msgbuf (c_bytes "]")
        else .ok msgbuf
termination_by structural _ t => t

/-- The loops of lily_msgbuf_add_type over subtypes: each type is added, with
`, ` after every one but the last. -/
def add_type_list (lib : c_library) (classes : List lily_class) :
    lily_msgbuf → List (Option lily_type) → Except Stop lily_msgbuf
  | msgbuf, [] => .ok msgbuf
  | msgbuf, t :: rest =>
    match add_type_slot lib classes msgbuf t with
    | .error e => .error e
    | .ok msgbuf =>
      match rest with
      | [] => .ok msgbuf
      | _ :: _ =>
        match lily_msgbuf_add lib msgbuf (c_bytes ", ") with
        | .error e => .error e
        | .ok msgbuf => add_type_list lib classes msgbuf rest
termination_by structural _ ts => ts

/-- The call of lily_msgbuf_add_type on a pointer: NULL cannot be read
through. -/
def add_type_slot (lib : c_library) (classes : List lily_class) :
    lily_msgbuf → Option lily_type → Except Stop lily_msgbuf
  | _, none => .error .undefined_behavior
  | msgbuf, some t => lily_msgbuf_add_type lib classes msgbuf t
termination_by structural _ t => t

end

/-- The function msgbuf_add_indent. -/
def msgbuf_add_indent (lib : c_library) : Nat → lily_msgbuf → Except Stop lily_msgbuf
  | 0, msgbuf => .ok msgbuf
  | indent + 1, msgbuf =>
    match lily_msgbuf_add lib msgbuf (c_bytes "|    ") with
    | .error e => .error e
    | .ok msgbuf => msgbuf_add_indent lib indent msgbuf

/-- The function msgbuf_add_errno_string. -/
def msgbuf_add_errno_string (lib : c_library) (msgbuf : lily_msgbuf) (errno_val : Int) :
    Except Stop lily_msgbuf :=
  lily_msgbuf_add lib msgbuf ((lib.strerror errno_val).take 127)

/-- An argument of the variable argument list of lily_msgbuf_add_fmt_va. -/
inductive fmt_arg where
  | str (s : List Nat)
  | int (d : Int)
  | type (t : Option lily_type)

/-- The conversion `%<digits>d` of the C library, for one or two digits between
the percent sign and the d: leading zeros ask for padding with zeros, the rest
is the least width. -/
def fmt_d_width (digits : List Nat) (d : Int) : List Nat :=
  let zero_pad := digits.head? = some 48
  let width := digits_value ((digits.dropWhile (fun c => c == 48)).map (fun c => c - 48))
  let sign : List Nat := if d < 0 then [45] else []
  let body := c_bytes (fmt_d (Int.ofNat d.natAbs))
  let missing := width - (sign.length + body.length)
  if zero_pad then sign ++ List.replicate missing 48 ++ body
  else List.replicate missing 32 ++ sign ++ body

/-- The read fmt[i] on the C string fmt: the NUL at the end can be read, what
comes after it cannot. -/
def fmt_char (fmt : List Nat) (i : Nat) : Except Stop Nat :=
  match fmt.get? i with
  | some c => .ok c
  | none => if i = fmt.length then .ok 0 else .error .undefined_behavior

/-- The read of the digits of a modifier in lily_msgbuf_add_fmt_va, the index i
on the character after the percent sign: the new index, the character there
and the digits in modifier_buf. -/
def fmt_modifier (fmt : List Nat) (i : Nat) (modifier : List Nat) :
    Except Stop (Nat × Nat × List Nat) :=
  match fmt_char fmt i with
  | .error e => .error e
  | .ok c =>
    if 48 ≤ c ∧ c ≤ 57 then
      match fmt_char fmt (i + 1) with
      | .error e => .error e
      | .ok c2 =>
        if 48 ≤ c2 ∧ c2 ≤ 57 then
          match fmt_char fmt (i + 2) with
          | .error e => .error e
          | .ok c3 => .ok (i + 2, c3, [c, c2])
        else .ok (i + 1, c2, [c])
    else .ok (i, c, modifier)

/-- The text before a directive is added: the statement
`if (i != text_start) lily_msgbuf_add_text_range(msgbuf, fmt, text_start, i)`. -/
def fmt_flush (lib : c_library) (msgbuf : lily_msgbuf) (fmt : List Nat) (text_start i : Nat) :
    Except Stop lily_msgbuf :=
  if i ≠ text_start then lily_msgbuf_add_text_range lib msgbuf fmt text_start i
  else .ok msgbuf

/-- What lily_msgbuf_add_fmt_va does for the character c after a percent sign
(and after the digits of a modifier): the arguments left, the digits kept in
modifier_buf and the buffer. -/
def fmt_percent (lib : c_library) (msgbuf : lily_msgbuf) (c : Nat) (modifier : List Nat)
    (args : List fmt_arg) : Except Stop (List fmt_arg × List Nat × lily_msgbuf) :=
  if c = 115 then
    match args with
    | fmt_arg.str str :: args =>
      match lily_msgbuf_add lib msgbuf str with
      | .error e => .error e
      | .ok msgbuf => .ok (args, modifier, msgbuf)
    | _ => .error .undefined_behavior
  else if c = 100 then
    match args with
    | fmt_arg.int d :: args =>
      if modifier = [] then
        match lily_msgbuf_add_int lib msgbuf d with
        | .error e => .error e
        | .ok msgbuf => .ok (args, modifier, msgbuf)
      else
        match lily_msgbuf_add lib msgbuf ((fmt_d_width modifier d).take 127) with
        | .error e => .error e
        | .ok msgbuf => .ok (args, [], msgbuf)
    | _ => .error .undefined_behavior
  else .ok (args, modifier, msgbuf)

/-- What lily_msgbuf_add_fmt_va does for the character c after a caret: the
arguments left and the buffer. -/
def fmt_caret (lib : c_library) (classes : List lily_class) (msgbuf : lily_msgbuf) (c : Nat)
    (args : List fmt_arg) : Except Stop (List fmt_arg × lily_msgbuf) :=
  if c = 84 then
    match args with
    | fmt_arg.type type :: args =>
      match add_type_slot lib classes msgbuf type with
      | .error e => .error e
      | .ok msgbuf => .ok (args, msgbuf)
    | _ => .error .undefined_behavior
  else if c = 73 then
    match args with
    | fmt_arg.int indent :: args =>
      match msgbuf_add_indent lib indent.toNat msgbuf with
      | .error e => .error e
      | .ok msgbuf => .ok (args, msgbuf)
    | _ => .error .undefined_behavior
  else if c = 69 then
    match args with
    | fmt_arg.str str :: args =>
      match lily_msgbuf_escape_add_str lib msgbuf str with
      | .error e => .error e
      | .ok msgbuf => .ok (args, msgbuf)
    | _ => .error .undefined_behavior
  else if c = 82 then
    match args with
    | fmt_arg.int errno_val :: args =>
      match msgbuf_add_errno_string lib msgbuf errno_val with
      | .error e => .error e
      | .ok msgbuf => .ok (args, msgbuf)
    | _ => .error .undefined_behavior
  else .ok (args, msgbuf)

/-- The loop of lily_msgbuf_add_fmt_va from index i on: the index and
text_start it ends with, and the buffer. Every pass moves i on, so fmt.length
+ 1 passes of fuel are enough. -/
def fmt_va_loop (lib : c_library) (classes : List lily_class) (fmt : List Nat) :
    Nat → Nat → Nat → List Nat → List fmt_arg → lily_msgbuf →
      Except Stop (Nat × Nat × lily_msgbuf)
  | 0, _, _, _, _, _ => .error .out_of_fuel
  | fuel + 1, i, text_start, modifier, args, msgbuf =>
    if ¬ i < fmt.length then .ok (i, text_start, msgbuf)
    else
      match fmt_char fmt i with
      | .error e => .error e
      | .ok c =>
        if c = 37 then
          if i + 1 = fmt.length then .ok (i, text_start, msgbuf)
          else
            match fmt_flush lib msgbuf fmt text_start i with
            | .error e => .error e
            | .ok msgbuf =>
              match fmt_modifier fmt (i + 1) modifier with
              | .error e => .error e
              | .ok (i, c, modifier) =>
                match fmt_percent lib msgbuf c modifier args with
                | .error e => .error e
                | .ok (args, modifier, msgbuf) =>
                  fmt_va_loop lib classes fmt fuel (i + 1) (i + 1) modifier args msgbuf
        else if c = 94 then
          match fmt_flush lib msgbuf fmt text_start i with
          | .error e => .error e
          | .ok msgbuf =>
            match fmt_char fmt (i + 1) with
            | .error e => .error e
            | .ok c =>
              match fmt_caret lib classes msgbuf c args with
              | .error e => .error e
              | .ok (args, msgbuf) =>
                fmt_va_loop lib classes fmt fuel (i + 1 + 1) (i + 1 + 1) modifier args msgbuf
        else fmt_va_loop lib classes fmt fuel (i + 1) text_start modifier args msgbuf

/-- The function lily_msgbuf_add_fmt_va; the classes are those the types of
the arguments point to. -/
def lily_msgbuf_add_fmt_va (lib : c_library) (classes : List lily_class)
    (msgbuf : lily_msgbuf) (fmt : List Nat) (var_args : List fmt_arg) :
    Except Stop lily_msgbuf :=
  match fmt_va_loop lib classes fmt (fmt.length + 1) 0 0 [] var_args msgbuf with
  | .error e => .error e
  | .ok (i, text_start, msgbuf) => fmt_flush lib msgbuf fmt text_start i

/-- A C library that gives blocks of up to a million bytes and knows no errno
value. -/
def sample_library : c_library :=
  { room := 1000000, strerror := fun _ => c_bytes "Unknown error" }

/-- The message a run leaves in the buffer, as text. -/
def message_left (r : Except Stop lily_msgbuf) : Except Stop (List Nat) :=
  match r with
  | .error e => .error e
  | .ok msgbuf => c_string msgbuf.message

/-- A new buffer of the sample library. -/
def new_buffer : lily_msgbuf :=
  { message := some 0 :: List.replicate 63 none, pos := 0, size := 64, truncated := 0 }

/-- The buffer holds a text: the block starts with its bytes and a NUL, pos is
its length, the buffer is not truncated and the field size does not exceed the
block. -/
def Holds (msgbuf : lily_msgbuf) (content : List Nat) : Prop :=
  (∃ tail, msgbuf.message = content.map some ++ some 0 :: tail) ∧
    msgbuf.pos = content.length ∧ msgbuf.truncated = 0 ∧
    msgbuf.size ≤ msgbuf.message.length ∧ ∀ b ∈ content, b ≠ 0

/-- What lily_msgbuf_escape_add_str is to add for a string: a backslash and the
escape character for a byte that has one, and every other byte itself. -/
def escaped (str : List Nat) : List Nat :=
  str.flatMap (fun b => if escape_char b ≠ 0 then [92, escape_char b] else [b])

/-- The byte an escape character after a backslash stands for in a string
literal. -/
def unescape_char (e : Nat) : Nat :=
  if e = 110 then 10
  else if e = 114 then 13
  else if e = 116 then 9
  else if e = 98 then 8
  else if e = 97 then 7
  else e

/-- The decoding of the two-byte escapes of a string literal. -/
def unescape : List Nat → List Nat
  | [] => []
  | [b] => [b]
  | b :: e :: rest => if b = 92 then unescape_char e :: unescape rest else b :: unescape (e :: rest)

/-- No byte of the text starts a directive: none is a percent sign or a
caret. -/
def plain_text (text : List Nat) : Prop := ∀ b ∈ text, b ≠ 37 ∧ b ≠ 94

instance (text : List Nat) : Decidable (plain_text text) := by
  unfold plain_text
  infer_instance

/-- The results of the loop of lily_msgbuf_add_fmt_va with the indexes moved
on by p. -/
def fmt_shift (p : Nat) (r : Except Stop (Nat × Nat × lily_msgbuf)) :
    Except Stop (Nat × Nat × lily_msgbuf) :=
  match r with
  | .error e => .error e
  | .ok (i, text_start, msgbuf) => .ok (p + i, p + text_start, msgbuf)

/-! ## The package sys (lily_pkg_sys.c) -/

def VAL_IS_NIL : Nat := 0x200

/-- The struct lily_string_val; refcount and size are uint32_t and the string
is a C string. -/
structure lily_string_val where
  refcount : Nat
  size : Nat
  string : List Nat
deriving DecidableEq, Repr

/-- The struct lily_value as far as lily_pkg_sys.c writes it: the flags, the
type, and of the union the string (NULL until it is set). -/
structure lily_value where
  flags : Nat
  type : Option lily_type
  string : Option lily_string_val
deriving DecidableEq

/-- The struct lily_list_val; the gc entry is NULL. -/
structure lily_list_val where
  refcount : Nat
  elems : List lily_value
  num_values : Nat
  visited : Nat
deriving DecidableEq

/-- The struct lily_package_val; the gc entry is NULL. -/
structure lily_package_val where
  refcount : Nat
  vars : List lily_var
  var_count : Nat
  name : String

/-- What lily_pkg_sys_init leaves behind: the symtab, and the values it bound
to the vars argv and sys (struct lily_var of this development leaves the value
of a var out), NULL while not bound. -/
structure sys_state where
  symtab : lily_symtab
  argv_value : Option lily_list_val
  sys_value : Option lily_package_val

/-- The call lily_malloc: a block while the heap still gives one. The heap is
the number of blocks it still gives. -/
def lily_malloc (heap : Nat) : Bool × Nat :=
  if heap = 0 then (false, 0) else (true, heap - 1)

/-- Modelled from the spec: lily_try_type_from_ids for the ids of list and
string: the type list[string] (section 4.3). -/
def list_of_string : lily_type :=
  lily_type.mk SYM_CLASS_LIST [some (simple_type SYM_CLASS_STRING)] 0 0

/-- Modelled from the spec: lily_try_type_for_class, the default type of a
class. -/
def lily_try_type_for_class (symtab : lily_symtab) (cls : Nat) : Option lily_type :=
  match symtab.classes.find? (fun c => c.id == cls) with
  | some c => c.type
  | none => none

/-- The first loop of bind_stringlist: a value is allocated for each of n
strings, of type string and flagged nil. Returns the heap, the values allocated
and err. -/
def alloc_values (string_type : Option lily_type) : Nat → Nat → Nat × List lily_value × Nat
  | heap, 0 => (heap, [], 0)
  | heap, n + 1 =>
    match lily_malloc heap with
    | (false, heap) => (heap, [], 1)
    | (true, heap) =>
      match alloc_values string_type heap n with
      | (heap, values, err) =>
        (heap, { flags := VAL_IS_NIL, type := string_type, string := none } :: values, err)

/-- The second loop of bind_stringlist over the values and the strings: each
value gets a copy of its string and is not nil any more; the loop ends at the
first string that cannot be allocated. Returns the heap, the values and err. -/
def fill_values : Nat → List lily_value → List (List Nat) →
    Except Stop (Nat × List lily_value × Nat)
  | heap, [], _ => .ok (heap, [], 0)
  | _, _ :: _, [] => .error .undefined_behavior
  | heap, value :: values, str :: stringlist =>
    match lily_malloc heap with
    | (sv, heap) =>
      match lily_malloc heap with
      | (raw_string, heap) =>
        if sv = false ∨ raw_string = false then .ok (heap, value :: values, 1)
        else
          match fill_values heap values stringlist with
          | .error e => .error e
          | .ok (heap, values, err) =>
            .ok (heap,
              { value with
                  flags := 0,
                  string := some { refcount := 1, size := str.length % 2 ^ 32,
                                   string := str } } :: values,
              err)

/-- Clearing the flag VAL_IS_NIL of the most recent var. -/
def newest_var_not_nil (symtab : lily_symtab) : lily_symtab :=
  match symtab.var_chain with
  | [] => symtab
  | v :: rest =>
    { symtab with var_chain := { v with flags := v.flags &&& (2 ^ 64 - 1 - VAL_IS_NIL) } :: rest }

/-- The function bind_stringlist. Returns ok, the heap, the symtab and the
list bound to the var argv (NULL when it was not bound). -/
def bind_stringlist (heap : Nat) (symtab : lily_symtab) (stringlist_size : Nat)
    (stringlist : List (List Nat)) :
    Except Stop (Nat × Nat × lily_symtab × Option lily_list_val) :=
  let list_string_type := list_of_string
  match list_string_type.subtypes.head? with
  | none => .error .undefined_behavior
  | some string_type =>
    let symtab := (lily_try_new_var symtab (some list_string_type) "argv" 0).2
    match lily_malloc heap with
    | (lv, heap) =>
      match lily_malloc heap with
      | (values, heap) =>
        if lv = false ∨ values = false then .ok (0, heap, symtab, none)
        else
          let symtab := newest_var_not_nil symtab
          match alloc_values string_type heap stringlist_size with
          | (heap, values, err) =>
            if err ≠ 0 then
              .ok (0, heap, symtab,
                some { refcount := 1, elems := values, num_values := values.length,
                       visited := 0 })
            else
              match fill_values heap values stringlist with
              | .error e => .error e
              | .ok (heap, values, err) =>
                .ok (if err = 0 then 1 else 0, heap, symtab,
                  some { refcount := 1, elems := values,
                         num_values := stringlist_size % 2 ^ 32, visited := 0 })

/-- The function lily_pkg_sys_init, from `if (bound_var)` on; the symtab is
not NULL, and lily_try_new_var has made the var sys. Returns ok and what is
left behind. The vars made since sys are moved into the package, which has
room for one. -/
def lily_pkg_sys_init (heap : Nat) (symtab : lily_symtab) (argc : Nat)
    (argv : List (List Nat)) : Except Stop (Nat × sys_state) :=
  let package_cls := lily_class_by_id symtab SYM_CLASS_PACKAGE
  let package_type := lily_try_type_for_class symtab package_cls
  let symtab := (lily_try_new_var symtab package_type "sys" 0).2
  let save_chain := symtab.var_chain
  let save_spot := symtab.next_register_spot
  match bind_stringlist heap symtab argc argv with
  | .error e => .error e
  | .ok (ok, heap, symtab, argv_value) =>
    if ok = 0 then .ok (0, { symtab := symtab, argv_value := argv_value, sys_value := none })
    else
      match lily_malloc heap with
      | (pval, heap) =>
        match lily_malloc heap with
        | (package_vars, _) =>
          if pval = false ∨ package_vars = false then
            .ok (0, { symtab := symtab, argv_value := argv_value, sys_value := none })
          else
            let vars := symtab.var_chain.take (symtab.var_chain.length - save_chain.length)
            if vars.length > 1 then .error .undefined_behavior
            else
              let symtab := { symtab with var_chain := save_chain,
                                          next_register_spot := save_spot }
              let name := (save_chain.head?.map (fun v => v.name)).getD ""
              let symtab :=
                match symtab.var_chain with
                | [] => symtab
                | v :: rest =>
                  { symtab with var_chain :=
                      { v with flags := v.flags &&& (2 ^ 64 - 1 - VAL_IS_NIL),
                               package_vars := vars.map (fun x => (x.name, x.type)) } :: rest }
              .ok (1, { symtab := symtab, argv_value := argv_value,
                        sys_value := some { refcount := 1, vars := vars,
                                            var_count := vars.length, name := name } })

/-- A value of the list argv that holds a copy of a string. -/
def string_value (str : List Nat) : lily_value :=
  { flags := 0, type := some (simple_type SYM_CLASS_STRING),
    string := some { refcount := 1, size := str.length, string := str } }

/-- The var sys as lily_pkg_sys_init leaves it. -/
def sys_var_made (symtab : lily_symtab) : lily_var :=
  { name := "sys", type := lily_try_type_for_class symtab SYM_CLASS_PACKAGE, flags := 0,
    reg_spot := symtab.next_register_spot, function_depth := symtab.function_depth,
    parent := none, package_vars := [("argv", some list_of_string)] }

/-- The var argv as lily_pkg_sys_init leaves it in the package. -/
def argv_var_made (symtab : lily_symtab) : lily_var :=
  { name := "argv", type := some list_of_string, flags := 0,
    reg_spot := symtab.next_register_spot + 1, function_depth := symtab.function_depth,
    parent := none }

/-- The bytes of the arguments of a command line. -/
def command_line (args : List String) : List (List Nat) := args.map c_bytes

/-- Modelled from the spec: lily_new_symtab: the builtin classes of section 6
and no global var; the var of __main__ is kept beside the var chain. -/
def lily_new_symtab : lily_symtab :=
  { classes := stock_classes, var_chain := [], generic_count := 0, root_type := none,
    next_register_spot := 0, next_readonly_spot := 0, function_depth := 1 }

/-! ## Parser creation and the main loop -/

/-- The tokens of one class of exception_bootstrap that inherits from
Exception: `class <name> (string message) < Exception(message) {}`. -/
def exception_subclass (name : String) : List lex_item :=
  [word "class", word name, tok tk_left_parenth, word "string", word "message",
   tok tk_right_parenth, tok tk_lt, word "Exception", tok tk_left_parenth, word "message",
   tok tk_right_parenth, tok tk_left_curly, tok tk_right_curly]

/-- The string exception_bootstrap, as the tokens the lexer makes of it. -/
def exception_bootstrap : List lex_item :=
  [word "class", word "Exception", tok tk_left_parenth, word "string", word "message",
   tok tk_right_parenth, tok tk_left_curly,
   word "string", prop_word "message", tok tk_equal, word "message",
   word "list", tok tk_left_bracket, word "tuple", tok tk_left_bracket, word "string",
   tok tk_comma, word "integer", tok tk_right_bracket, tok tk_right_bracket,
   prop_word "traceback", tok tk_equal, tok tk_left_bracket, tok tk_right_bracket,
   tok tk_right_curly] ++
  exception_subclass "DivisionByZeroError" ++ exception_subclass "IndexError" ++
  exception_subclass "BadTypecastError" ++ exception_subclass "NoReturnError" ++
  exception_subclass "ValueError" ++ exception_subclass "RecursionError" ++
  exception_subclass "KeyError" ++ exception_subclass "FormatError"

/-- Modelled from the spec: lily_load_str, lily_load_file and lily_load_special
for the first entry of a lexer: the tokens of the source are all there is to
read. In tagged mode the text before the first code tag is page data, and for a
source without code the token is tk_final_eof right away. -/
def lily_load_first (st : lily_parse_state_ext) (filename : String) (mode : lily_lex_mode)
    (source : List lex_item) : lily_parse_state_ext :=
  let lex := { st.parser.lex with input := source }
  let lex := if mode = lm_tags ∧ source.isEmpty then { lex with token := tk_final_eof } else lex
  { st with parser := { st.parser with lex := lex }, lex_mode := mode,
            entries := [{ filename := filename }], line_num := 0 }

/-- Modelled from the spec: lily_lexer_handle_page_data: the text after an end
tag is page data up to the next code tag; at the end of the source the token is
tk_final_eof. -/
def lily_lexer_handle_page_data (lex : lily_lex_state) : lily_lex_state :=
  if lex.input.isEmpty then { lex with token := tk_final_eof } else lex

/-- Modelled from the spec: whether the lexer has left the entry loaded last:
it does so when it delivers tk_inner_eof. -/
def entry_left (lex : lily_lex_state) : Bool := lex.token = tk_inner_eof

/-- The loop of do_bootstrap over the global seeds: the declaration of each
function is loaded and its prototype is read. The seeds are those of
lily_get_global_seed_chain, which is not under src/. -/
def bootstrap_seeds (fuel : Nat) : List (List lex_item) → lily_parse_state →
    Except Stop lily_parse_state
  | [], parser => .ok parser
  | seed :: rest, parser =>
    let parser := { parser with lex := lily_load_str_inner parser.lex seed }
    let parser := next_token parser
    match parse_prototype fuel parser none with
    | .error e => .error e
    | .ok parser => bootstrap_seeds fuel rest parser

/-- The loop `do { statement(parser, 1); } while (parser->lex->entry != first_entry)`
of do_bootstrap. -/
def bootstrap_statements : Nat → lily_parse_state → Except Stop lily_parse_state
  | 0, _ => .error .out_of_fuel
  | fuel + 1, parser =>
    match statement fuel parser 1 with
    | .error e => .error e
    | .ok parser =>
      if entry_left parser.lex then .ok parser else bootstrap_statements fuel parser

/-- The function do_bootstrap. -/
def do_bootstrap (fuel : Nat) (global_seeds : List (List lex_item)) (parser : lily_parse_state) :
    Except Stop lily_parse_state :=
  match bootstrap_seeds fuel global_seeds parser with
  | .error e => .error e
  | .ok parser =>
    let parser := { parser with lex := lily_load_str_inner parser.lex exception_bootstrap }
    let parser := next_token parser
    bootstrap_statements fuel parser

/-- Modelled from the spec: lily_emit_vm_return, lily_vm_prep, lily_vm_execute
and lily_reset_main: the code of __main__ is closed, run and cleared. What the
run does to the values is outside this development; it is taken to end without
an error, and it declares nothing. -/
def lily_vm_execute (st : lily_parse_state_ext) : Except Stop lily_parse_state_ext :=
  .ok st

/-- The loop `while (1)` of parser_loop. -/
def parser_loop_tokens : Nat → lily_parse_state_ext → Except Stop lily_parse_state_ext
  | 0, _ => .error .out_of_fuel
  | fuel + 1, st =>
    let parser := st.parser
    let token := parser.lex.token
    if token = tk_word then
      match statement fuel parser 1 with
      | .error e => .error e
      | .ok parser => parser_loop_tokens fuel { st with parser := parser }
    else if token = tk_right_curly then
      match lily_emit_leave_block parser with
      | .error e => .error e
      | .ok parser => parser_loop_tokens fuel { st with parser := next_token parser }
    else if token = tk_end_tag ∨ (token = tk_final_eof ∧ st.lex_mode = lm_no_tags) then
      if parser.emit.blocks.length > 1 then raise_syntax
      else
        match lily_vm_execute { st with mode := pm_execute } with
        | .error e => .error e
        | .ok st =>
          let st := { st with mode := pm_parse }
          if token = tk_end_tag then
            let lex := lily_lexer_handle_page_data st.parser.lex
            let st := { st with parser := { st.parser with lex := lex } }
            if lex.token = tk_final_eof then .ok st
            else parser_loop_tokens fuel { st with parser := next_token st.parser }
          else .ok st
    else if token = tk_integer ∨ token = tk_double ∨ token = tk_double_quote ∨
        token = tk_left_parenth ∨ token = tk_left_bracket ∨ token = tk_tuple_open then
      match expression fuel parser with
      | .error e => .error e
      | .ok parser => parser_loop_tokens fuel { st with parser := lily_emit_eval_expr parser }
    else if token = tk_inner_eof then
      parser_loop_tokens fuel { st with parser := next_token parser }
    else raise_syntax

/-- The function parser_loop. -/
def parser_loop (fuel : Nat) (global_seeds : List (List lex_item))
    (st : lily_parse_state_ext) : Except Stop lily_parse_state_ext :=
  match (if st.mode = pm_init then do_bootstrap fuel global_seeds st.parser
         else .ok st.parser) with
  | .error e => .error e
  | .ok parser =>
    let st := { st with parser := next_token parser, mode := pm_parse }
    parser_loop_tokens fuel st

/-- The function lily_new_parse_state; NULL when memory runs out. The heap is
the number of blocks lily_malloc still gives; the states of the other modules
are made by code that is not under src/ and are taken as made. -/
def lily_new_parse_state (heap : Nat) (argc : Nat) (argv : List (List Nat)) :
    Option lily_parse_state_ext :=
  match lily_malloc heap with
  | (parser_block, heap) =>
    if parser_block = false then none
    else
      match lily_malloc heap with
      | (type_stack, heap) =>
        if type_stack = false then none
        else
          match lily_pkg_sys_init heap lily_new_symtab argc argv with
          | .error _ => none
          | .ok (ok, sys) =>
            if ok = 0 then none
            else
              some
                { parser :=
                    { type_stack := fun _ => none, type_stack_pos := 0, type_stack_size := 4,
                      class_depth := 0, next_lambda_id := 0,
                      default_call_type := some (lily_type.mk SYM_CLASS_FUNCTION [none] 0 0),
                      ast_pool := { saved := [], active := false, pushed := [] },
                      lex := { token := tk_invalid, label := "", signed := none, input := [] },
                      emit := { blocks := [{ block_type := BLOCK_FUNCTION, self := none,
                                             match_sym := none, match_cases := [],
                                             generic_count := 0, function_var := none }],
                                function_depth := 1, top_function_ret := none,
                                current_class := none, patch_pos := 0 },
                      symtab := sys.symtab },
                  mode := pm_init,
                  vm := { function_stack := [], function_stack_pos := 0 },
                  raiser := { error_code := .lily_SyntaxError, message := "", line_adjust := 0 },
                  lex_mode := lm_no_tags,
                  entries := [],
                  line_num := 0 }

/-- The head of each entry point, on the path where setjmp returns 0:
`setjmp(parser->raiser->jumps[parser->raiser->jump_pos])` sets up a handler in
the next free cell of the array and `parser->raiser->jump_pos++` counts it. -/
def handler_installed (st : lily_parse_state_ext) : lily_parse_state_ext :=
  { st with raiser := { st.raiser with jump_pos := st.raiser.jump_pos + 1 } }

/-- The function lily_parse_string: the result of the run, ok for the return
value 1 and the error raised for the return value 0. -/
def lily_parse_string (fuel : Nat) (global_seeds : List (List lex_item))
    (st : lily_parse_state_ext) (name : String) (mode : lily_lex_mode)
    (str : List lex_item) : Except Stop lily_parse_state_ext :=
  parser_loop fuel global_seeds (lily_load_first (handler_installed st) name mode str)

/-- The function lily_parse_file. -/
def lily_parse_file (fuel : Nat) (global_seeds : List (List lex_item))
    (st : lily_parse_state_ext) (mode : lily_lex_mode) (filename : String)
    (file : List lex_item) : Except Stop lily_parse_state_ext :=
  let st := lily_load_first (handler_installed st) filename mode file
  if st.parser.lex.token ≠ tk_final_eof then parser_loop fuel global_seeds st
  else .ok st

/-- The function lily_parse_special; the source of the runner is read through
its callback and gives the lexer the same tokens a string would. -/
def lily_parse_special (fuel : Nat) (global_seeds : List (List lex_item))
    (st : lily_parse_state_ext) (mode : lily_lex_mode) (source : List lex_item)
    (filename : String) : Except Stop lily_parse_state_ext :=
  parser_loop fuel global_seeds (lily_load_first (handler_installed st) filename mode source)

/-- The names and ids of the classes declared after the ten builtin ones. -/
def classes_declared (st : lily_parse_state_ext) : List (String × Nat) :=
  (st.parser.symtab.classes.drop 10).map (fun c => (c.name, c.id))

/-- The names and ids of the classes a run has declared after the ten builtin
ones, and the mode the parser is left in. -/
def declared_after (r : Except Stop lily_parse_state_ext) :
    Except Stop (List (String × Nat) × lily_parse_mode) :=
  match r with
  | .ok st => .ok (classes_declared st, st.mode)
  | .error e => .error e

/-- The declarations of the global functions print and show, as the tokens of
`function print(string)` and `function show[A](A)`. -/
def sample_seeds : List (List lex_item) :=
  [[word "function", word "print", tok tk_left_parenth, word "string", tok tk_right_parenth],
   [word "function", word "show", tok tk_left_bracket, word "A", tok tk_right_bracket,
    tok tk_left_parenth, word "A", tok tk_right_parenth]]

/-- The defines SYM_CLASS_EXCEPTION to SYM_CLASS_FORMATERROR of
lily_core_types.h. -/
def SYM_CLASS_EXCEPTION : Nat := 10

def SYM_CLASS_NOMEMORYERROR : Nat := 11

def SYM_CLASS_DBZERROR : Nat := 12

def SYM_CLASS_INDEXERROR : Nat := 13

def SYM_CLASS_BADTCERROR : Nat := 14

def SYM_CLASS_NORETURNERROR : Nat := 15

def SYM_CLASS_VALUEERROR : Nat := 16

def SYM_CLASS_RECURSIONERROR : Nat := 17

def SYM_CLASS_KEYERROR : Nat := 18

def SYM_CLASS_FORMATERROR : Nat := 19

/-- The parser lily_new_parse_state makes for the command line `lily a.lly`
with a hundred blocks in the heap. -/
def parser_made : Option lily_parse_state_ext :=
  lily_new_parse_state 100 2 (command_line ["lily", "a.lly"])

/-- The names and ids of the classes beyond the builtin ones after do_bootstrap
on a parser. -/
def bootstrap_ids (fuel : Nat) (global_seeds : List (List lex_item))
    (st : lily_parse_state_ext) : Except Stop (List (String × Nat)) :=
  match do_bootstrap fuel global_seeds st.parser with
  | .ok parser => .ok ((parser.symtab.classes.drop 10).map (fun c => (c.name, c.id)))
  | .error e => .error e

/-- The id of the class of a name after a run, none where no class has it. -/
def id_of_class (name : String) (ids : Except Stop (List (String × Nat))) : Option Nat :=
  match ids with
  | .ok l => (l.find? (fun c => c.1 = name)).map (fun c => c.2)
  | .error _ => none

/-- The name of the class of an id after a run. -/
def class_of_id (id : Nat) (ids : Except Stop (List (String × Nat))) : Option String :=
  match ids with
  | .ok l => (l.find? (fun c => c.2 = id)).map (fun c => c.1)
  | .error _ => none

/-- The nine exception classes with the ids 10 to 18. -/
def nine_exception_classes : List (String × Nat) :=
  [("Exception", 10), ("DivisionByZeroError", 11), ("IndexError", 12),
   ("BadTypecastError", 13), ("NoReturnError", 14), ("ValueError", 15),
   ("RecursionError", 16), ("KeyError", 17), ("FormatError", 18)]

/-- The program `integer a = 1`. -/
def integer_program : List lex_item :=
  [word "integer", word "a", tok tk_equal, tok tk_integer]

/-- The program `class Point() { }`. -/
def point_program : List lex_item :=
  [word "class", word "Point", tok tk_left_parenth, tok tk_right_parenth, tok tk_left_curly,
   tok tk_right_curly]

/-- Two calls of lily_parse_string, one after the other, on one parser. -/
def parse_two_strings (fuel : Nat) (global_seeds : List (List lex_item))
    (st : lily_parse_state_ext) (first second : List lex_item) :
    Except Stop lily_parse_state_ext :=
  match lily_parse_string fuel global_seeds st "[cli]" lm_no_tags first with
  | .error e => .error e
  | .ok st => lily_parse_string fuel global_seeds st "[cli]" lm_no_tags second

/-! ## Samples for the bounds of the type stack -/

/-- The declaration `enum class Pair[generics] { One(fields), Two }`. -/
def enum_generic (generics fields : List lex_item) : List lex_item :=
  [word "enum", word "class", word "Pair", tok tk_left_bracket] ++ generics ++
  [tok tk_right_bracket, tok tk_left_curly, word "One", tok tk_left_parenth] ++
    fields ++ [tok tk_right_parenth, tok tk_comma, word "Two", tok tk_right_curly]

/-- How many of the generic positions from i on, todo of them, a generic map
marks: the number of cells the second loop of calculate_variant_return writes. -/
def marked_count (generic_map : Nat → Bool) (i todo : Nat) : Nat :=
  ((List.range' i todo).filter (fun g => generic_map g)).length

/-- The size of the type stack after the statement
`if (stack_top + generic_max > parser->type_stack_size) grow_type_stack(parser)`
of calculate_variant_return. -/
def size_for_generics (parser : lily_parse_state) (stack_top generic_max : Nat) : Nat :=
  if stack_top + generic_max > parser.type_stack_size then
    (grow_type_stack parser).type_stack_size
  else parser.type_stack_size

/-- The size of the type stack a run leaves. -/
def stack_size_left (r : Except Stop lily_parse_state) : Except Stop Nat :=
  match r with
  | .ok parser => .ok parser.type_stack_size
  | .error e => .error e

/-! ## Samples for the decomposition of nested types -/

/-- The type `function(` params `)` as tokens. -/
def function_of (params : List lex_item) : List lex_item :=
  [word "function", tok tk_left_parenth] ++ params ++ [tok tk_right_parenth]

/-- The declarations
`enum class Five[A, B, C, D, E] { One(function(A, B, E)), Two }` and
`Five[integer, integer, integer, integer, integer] x = Two`, then `match x: {`
and the given cases, then `}`. -/
def five_program (cases : List lex_item) : List lex_item :=
  [word "enum", word "class", word "Five", tok tk_left_bracket, word "A", tok tk_comma,
   word "B", tok tk_comma, word "C", tok tk_comma, word "D", tok tk_comma, word "E",
   tok tk_right_bracket, tok tk_left_curly,
   word "One", tok tk_left_parenth] ++
  function_of [word "A", tok tk_comma, word "B", tok tk_comma, word "E"] ++
  [tok tk_right_parenth, tok tk_comma, word "Two", tok tk_right_curly,
   word "Five", tok tk_left_bracket, word "integer", tok tk_comma, word "integer",
   tok tk_comma, word "integer", tok tk_comma, word "integer", tok tk_comma, word "integer",
   tok tk_right_bracket, word "x", tok tk_equal, word "Two",
   word "match", word "x", tok tk_colon, tok tk_left_curly] ++ cases ++ [tok tk_right_curly]

/-- The case `case Two: x = x`. -/
def case_two : List lex_item :=
  [word "case", word "Two", tok tk_colon, word "x", tok tk_equal, word "x"]

/-- The case `case One(g): x = x`. -/
def case_one : List lex_item :=
  [word "case", word "One", tok tk_left_parenth, word "g", tok tk_right_parenth, tok tk_colon,
   word "x", tok tk_equal, word "x"]

/-- The type Both[integer, string] of the enum class Both[A, B] with the id 10. -/
def both_of_integer_string : lily_type :=
  lily_type.mk 10 [some (simple_type SYM_CLASS_INTEGER), some (simple_type SYM_CLASS_STRING)] 0 0

/-! ## Readings of the keyword table -/

/-- The position of a name among the names of a table, the length of the
table when it is not there. -/
def table_index (table : List (String × Nat)) (name : String) : Nat :=
  table.findIdx (fun e => decide (e.1 = name))

/-- What a lookup of a name in a table is to give: the index of the name
counted from i, or -1 when the table does not have it. -/
def index_or_minus_one (table : List (String × Nat)) (name : String) (i : Nat) : Int :=
  if table_index table name < table.length then ((i + table_index table name : Nat) : Int)
  else -1

/-- Every entry of a table carries the shorthash of its name, and the
shorthashes ascend strictly. -/
def ascending_table (table : List (String × Nat)) : Prop :=
  (∀ e ∈ table, e.2 = shorthash_for_name e.1) ∧
    List.Pairwise (fun a b : String × Nat => a.2 < b.2) table

/-! ## Readings of a list of generics -/

/-- The name of the generic at a position: the capital letter counted from A. -/
def generic_letter (ch : Nat) : String := String.mk [Char.ofNat (65 + ch)]

/-- The tokens to come are a list of n generics from position ch on: the name
of the position, then `]` after the last name and `,` after every other. -/
def reads_generics : Nat → Nat → List lex_item → Bool
  | _, 0, _ => false
  | ch, n + 1, name :: sep :: rest =>
    decide (name.token = tk_word) && decide (name.label = generic_letter ch) &&
      (if n = 0 then decide (sep.token = tk_right_bracket)
       else decide (sep.token = tk_comma) && reads_generics (ch + 1) n rest)
  | _, _ + 1, _ => false

/-- Modelled from the spec: what the lexer delivers as the label of a word
(section 4.2, identifiers): a name starts with a letter, an underscore or a
byte above 127. -/
def name_label (label : String) : Bool :=
  match label.toList with
  | c :: _ => c.isAlpha || c == '_' || decide (128 ≤ c.toNat)
  | [] => false

/-- Every word among the tokens to come has the label of a name. -/
def words_are_names (input : List lex_item) : Prop :=
  ∀ it ∈ input, it.token = tk_word → name_label it.label = true

/-- The tokens `A, B, ... ]` of a list of n generics from position ch on. -/
def generics_from : Nat → Nat → List lex_item
  | _, 0 => []
  | ch, 1 => [word (generic_letter ch), tok tk_right_bracket]
  | ch, n + 2 => word (generic_letter ch) :: tok tk_comma :: generics_from (ch + 1) (n + 1)

/-- A parser on the `[` of a list of generics, the given tokens to come. -/
def at_generics (input : List lex_item) : lily_parse_state :=
  parser_on stock_classes 0 (tok tk_left_bracket :: input)

/-- The count that collect_generics returns, without the parser. -/
def generics_counted (r : Except Stop (Nat × lily_parse_state)) : Except Stop Nat :=
  match r with
  | .ok (n, _) => .ok n
  | .error e => .error e

/-! ## The frame of type collection, for every flag -/

/-- What the loop of inner_type_collector keeps whatever its flags are: a
position at or above its start, a size within 16 bits, and the cells below its
start. -/
def LoopKept (start : Nat) (p p' : lily_parse_state) : Prop :=
  start ≤ p'.type_stack_pos ∧ p'.type_stack_size < 65536 ∧
    ∀ j, j < start → p'.type_stack j = p.type_stack j

/-- A parser with three cells of the type stack in use, the lexer on the first
of the given tokens. -/
def three_cells_used (classes : List lily_class) (generic_count : Nat)
    (input : List lex_item) : lily_parse_state :=
  { parser_on classes generic_count input with
      type_stack := fun j =>
        if j = 0 then some (simple_type SYM_CLASS_STRING)
        else if j = 1 then some (simple_type SYM_CLASS_INTEGER)
        else if j = 2 then some (simple_type SYM_CLASS_DOUBLE)
        else none,
      type_stack_pos := 3 }

/-- The position of the type stack and its first three cells after a run. -/
def cells_left (r : Except Stop (lily_type × lily_parse_state)) :
    Except Stop (Nat × List (Option lily_type)) :=
  match r with
  | .ok (_, p) => .ok (p.type_stack_pos, [p.type_stack 0, p.type_stack 1, p.type_stack 2])
  | .error e => .error e

/-! ## Readings of the expression loop -/

/-- The trees an expression has pushed or entered, in order, and the token the
lexer is left on. -/
def trees_pushed (r : Except Stop lily_parse_state) :
    Except Stop (List lily_tree_type × lily_token) :=
  match r with
  | .ok parser => .ok (parser.ast_pool.pushed, parser.lex.token)
  | .error e => .error e

/-- The text of a signed number written apart: the parser is on the sign as a
token of its own, and the number without the sign is the next token. -/
def sign_written_apart (parser : lily_parse_state) (sign : lily_token) : lily_parse_state :=
  { parser with
      lex := { token := sign, label := parser.lex.label, signed := none,
               input := { token := parser.lex.token } :: parser.lex.input } }

/-- A number token whose text starts with the given sign. -/
def signed_number (token sign : lily_token) : lex_item :=
  { token := token, signed := some sign }

/-- The parse of a signed number in the want-operator state as the
specification words it: the binary operator of the sign, plus or minus, then
the literal of the number scanned again without the sign, and the state left at
want-operator. -/
def spec_signed_literal (parser : lily_parse_state) (sign : lily_token) :
    lily_parse_state × Nat :=
  ({ parser with
       ast_pool := lily_ast_push
         (lily_ast_push_binary_op parser.ast_pool
           (if sign = tk_minus then expr_minus else expr_plus)) tree_literal,
       lex := { parser.lex with signed := none } }, ST_WANT_OPERATOR)

/-- The declaration `integer a = 1` and the tokens of a statement after it. -/
def after_integer_a (rest : List lex_item) : List lex_item :=
  [word "integer", word "a", tok tk_equal, tok tk_integer] ++ rest

/-! ## Successive calls of the entry points -/

/-- Calls of lily_parse_string on one parser, one after the other, one for each
of the given strings; the run stops at the first call that returns 0. -/
def parse_strings (fuel : Nat) (global_seeds : List (List lex_item)) :
    lily_parse_state_ext → List (List lex_item) → Except Stop lily_parse_state_ext
  | st, [] => .ok st
  | st, str :: rest =>
    match lily_parse_string fuel global_seeds st "[cli]" lm_no_tags str with
    | .error e => .error e
    | .ok st => parse_strings fuel global_seeds st rest

/-- The field jump_pos of the raiser after a run. -/
def jump_pos_left (r : Except Stop lily_parse_state_ext) : Except Stop Nat :=
  match r with
  | .ok st => .ok st.raiser.jump_pos
  | .error e => .error e

/-- Whether a run has left the parser past its first mode and with no block
open beyond the one of __main__, as it is between two calls. -/
def between_calls (r : Except Stop lily_parse_state_ext) : Except Stop Bool :=
  match r with
  | .ok st => .ok (decide (st.mode ≠ pm_init ∧ st.parser.emit.blocks.length ≤ 1))
  | .error e => .error e

/-! ## Sequences of calls on a message buffer -/

/-- A call of one of the functions lily_msgbuf_add, lily_msgbuf_add_char,
lily_msgbuf_add_text_range, lily_msgbuf_reset and lily_msgbuf_flush, with its
arguments. -/
inductive msgbuf_call where
  | add (str : List Nat)
  | add_char (c : Nat)
  | add_text_range (text : List Nat) (start stop : Nat)
  | reset
  | flush

/-- One call on a buffer. -/
def msgbuf_do (lib : c_library) (msgbuf : lily_msgbuf) : msgbuf_call → Except Stop lily_msgbuf
  | .add str => lily_msgbuf_add lib msgbuf str
  | .add_char c => lily_msgbuf_add_char lib msgbuf c
  | .add_text_range text start stop => lily_msgbuf_add_text_range lib msgbuf text start stop
  | .reset => lily_msgbuf_reset msgbuf
  | .flush => lily_msgbuf_flush msgbuf

/-- A sequence of calls on a buffer, one after the other. -/
def msgbuf_run (lib : c_library) : lily_msgbuf → List msgbuf_call → Except Stop lily_msgbuf
  | msgbuf, [] => .ok msgbuf
  | msgbuf, call :: rest =>
    match msgbuf_do lib msgbuf call with
    | .error e => .error e
    | .ok msgbuf => msgbuf_run lib msgbuf rest

/-- The text a call is to add: the string, the character (none for NUL), the
range of the text; nothing for a reset or a flush. -/
def text_added : msgbuf_call → List Nat
  | .add str => str
  | .add_char c => if c = 0 then [] else [c]
  | .add_text_range text start stop => (text.drop start).take (stop - start)
  | .reset => []
  | .flush => []

/-- The text a buffer is to hold after a call: empty after a reset or a flush,
and otherwise the text it held with the text of the call after it. -/
def text_after (content : List Nat) : msgbuf_call → List Nat
  | .reset => []
  | .flush => []
  | call => content ++ text_added call

/-- The text a buffer is to hold after a sequence of calls: everything added
since the last reset or flush. -/
def text_after_all : List Nat → List msgbuf_call → List Nat
  | content, [] => content
  | content, call :: rest => text_after_all (text_after content call) rest

/-- A call has arguments the function can read: C strings without a NUL inside,
and a range that lies in its text. -/
def readable : msgbuf_call → Prop
  | .add str => ∀ b ∈ str, b ≠ 0
  | .add_char _ => True
  | .add_text_range text start stop => start ≤ stop ∧ stop ≤ text.length ∧ ∀ b ∈ text, b ≠ 0
  | .reset => True
  | .flush => True

/-- The number of bytes a sequence of calls adds, resets and flushes counted as
nothing. -/
def bytes_added (calls : List msgbuf_call) : Nat :=
  (calls.map (fun call => (text_added call).length)).sum

/-- The invariant of the buffer: it holds the text, and pos is below size. -/
def Kept (msgbuf : lily_msgbuf) (content : List Nat) : Prop :=
  Holds msgbuf content ∧ msgbuf.pos < msgbuf.size

/-! ## Decomposition of a field with a function type -/

/-- The declarations `enum class Both[A, B] { One(` fields `), Two }` and
`Both[integer, string] x = Two`, then `match x: {` and the given cases, then
`}`. -/
def both_program (fields cases : List lex_item) : List lex_item :=
  [word "enum", word "class", word "Both", tok tk_left_bracket, word "A", tok tk_comma,
   word "B", tok tk_right_bracket, tok tk_left_curly,
   word "One", tok tk_left_parenth] ++ fields ++
  [tok tk_right_parenth, tok tk_comma, word "Two", tok tk_right_curly,
   word "Both", tok tk_left_bracket, word "integer", tok tk_comma, word "string",
   tok tk_right_bracket, word "x", tok tk_equal, word "Two",
   word "match", word "x", tok tk_colon, tok tk_left_curly] ++ cases ++ [tok tk_right_curly]

/-- The declaration of both_program alone, up to the `}` of the enum class. -/
def both_declared (fields : List lex_item) : List lex_item :=
  (both_program fields []).take (11 + fields.length + 4)

/-- The type with the class function and the subtypes A and B that
calculate_variant_return builds as the return of the field type
`function(A, B, integer)` of a variant. -/
def function_a_b : lily_type :=
  lily_type.mk SYM_CLASS_FUNCTION [some (generic_type 0), some (generic_type 1)] 0 0

/-- The field type that the declaration of both_program gives the field
`function(A, B, integer)` of One: the return built for it, then A, B and
integer. -/
def field_of_one : lily_type :=
  lily_type.mk SYM_CLASS_FUNCTION
    [some function_a_b, some (generic_type 0), some (generic_type 1),
     some (simple_type SYM_CLASS_INTEGER)] 0 0

mutual

/-- The decomposed type as the specification words it, for a type that may be
NULL. -/
def spec_decompose_opt (subject : List (Option lily_type)) : Option lily_type → Option lily_type
  | none => none
  | some type => spec_decompose subject type
termination_by structural type => type

/-- The decomposed type as the specification words it: the field type with
every generic at a position p, at any depth, replaced by the subtype at p of
the match subject; a type without generics is left as it is. -/
def spec_decompose (subject : List (Option lily_type)) : lily_type → Option lily_type
  | lily_type.mk cls subtypes template_pos flags =>
    if cls = SYM_CLASS_TEMPLATE then (subject.get? template_pos).getD none
    else some (lily_type.mk cls (spec_decompose_subtypes subject subtypes) template_pos flags)
termination_by structural type => type

/-- The subtypes of a type in spec_decompose, one after the other. -/
def spec_decompose_subtypes (subject : List (Option lily_type)) :
    List (Option lily_type) → List (Option lily_type)
  | [] => []
  | t :: rest => spec_decompose_opt subject t :: spec_decompose_subtypes subject rest
termination_by structural subtypes => subtypes

end

/-! ## Variants that take no values -/

/-- The tokens after the name of a variant that takes no values, for the names
still to come: a comma and the name for each of them, then `}`. -/
def plain_tail : List String → List lex_item
  | [] => [tok tk_right_curly]
  | n :: rest => tok tk_comma :: word n :: plain_tail rest

/-- The symtab after the pass of the loop of enum_handler over a variant that
takes no values: the variant class is made and keeps its default type. -/
def variant_made (symtab : lily_symtab) (enum_class : Nat) (name : String) : lily_symtab :=
  lily_finish_variant_class (lily_new_variant_class symtab enum_class name).2
    (lily_new_variant_class symtab enum_class name).1 none

/-- The parser after the pass of the loop of enum_handler over a variant that
takes no values: the variant class is made, the lexer is on the token after the
name. -/
def variant_passed (parser : lily_parse_state) (enum_class : Nat) (name : String) :
    lily_parse_state :=
  { parser with symtab := variant_made parser.symtab enum_class name,
                lex := lily_lexer parser.lex }

/-! ## Lemmas -/

theorem bind_ok_iff {α β : Type} (x : Except Stop α) (f : α → Except Stop β) (b : β) :
    (x >>= f) = .ok b ↔ ∃ a, x = .ok a ∧ f a = .ok b := by
  cases x with
  | error e => simp [bind, Except.bind]
  | ok a => simp [bind, Except.bind]

theorem pure_ok_iff {α : Type} (a b : α) : (pure a : Except Stop α) = .ok b ↔ a = b := by
  simp [pure, Except.pure]

theorem SameStack.stack_refl (p : lily_parse_state) : SameStack p p := ⟨rfl, rfl, rfl⟩

theorem SameStack.stack_trans {p q r : lily_parse_state} (h1 : SameStack p q) (h2 : SameStack q r) :
    SameStack p r :=
  ⟨h2.1.trans h1.1, h2.2.1.trans h1.2.1, h2.2.2.trans h1.2.2⟩

theorem get_named_var_ok {p p' : lily_parse_state} {ty : Option lily_type} {fl h : Nat}
    (hh : get_named_var p ty fl = .ok (h, p')) :
    h = p.symtab.var_chain.length ∧
      p' = { p with symtab := (lily_try_new_var p.symtab ty p.lex.label fl).2,
                    lex := lily_lexer p.lex } := by
  unfold get_named_var at hh
  simp only [bind_ok_iff, pure_ok_iff, Prod.mk.injEq] at hh
  obtain ⟨_, _, _, _, rfl, rfl⟩ := hh
  exact ⟨rfl, rfl⟩

theorem get_named_var_same {p p' : lily_parse_state} {ty : Option lily_type} {fl h : Nat}
    (hh : get_named_var p ty fl = .ok (h, p')) : SameStack p p' := by
  obtain ⟨_, rfl⟩ := get_named_var_ok hh
  exact ⟨rfl, rfl, rfl⟩

theorem collect_class_same {p p' : lily_parse_state} {cls : Option Nat} {c : Nat}
    (hh : collect_class p cls = .ok (c, p')) : SameStack p p' := by
  unfold collect_class at hh
  split at hh
  · split at hh
    · simp [ raise_syntax] at hh
    · split at hh
      · simp [ raise_syntax] at hh
      · simp only [Except.ok.injEq, Prod.mk.injEq] at hh
        obtain ⟨_, rfl⟩ := hh
        exact ⟨rfl, rfl, rfl⟩
  · simp only [Except.ok.injEq, Prod.mk.injEq] at hh
    obtain ⟨_, rfl⟩ := hh
    exact SameStack.stack_refl _

theorem next_token_same (p : lily_parse_state) : SameStack p (next_token p) := ⟨rfl, rfl, rfl⟩

theorem set_call_var_type_same (p : lily_parse_state) (v : Option Nat) (t : lily_type) :
    SameStack p (set_call_var_type p v t) := by
  unfold set_call_var_type
  split
  · exact ⟨rfl, rfl, rfl⟩
  · exact SameStack.stack_refl p

theorem Frame.of_same_left {p q r : lily_parse_state} (h1 : SameStack p q) (h2 : Frame q r) :
    Frame p r := by
  obtain ⟨a, b, c⟩ := h1
  obtain ⟨d, e, f⟩ := h2
  refine ⟨d.trans b, e, fun j hj => ?_⟩
  rw [f j (by rw [b]; exact hj), a]

theorem Frame.of_same_right {p q r : lily_parse_state} (h1 : Frame p q) (h2 : SameStack q r) :
    Frame p r := by
  obtain ⟨a, b, c⟩ := h2
  obtain ⟨d, e, f⟩ := h1
  refine ⟨b.trans d, by rw [c]; exact e, fun j hj => ?_⟩
  rw [a, f j hj]

theorem SameStack.frame {p q : lily_parse_state} (h : SameStack p q)
    (hs : p.type_stack_size < 65536) : Frame p q := by
  obtain ⟨a, b, c⟩ := h
  exact ⟨b, by rw [c]; exact hs, fun j _ => by rw [a]⟩

theorem stack_write_ok {p p' : lily_parse_state} {i : Nat} {v : Option lily_type}
    (h : stack_write p i v = .ok p') :
    i < p.type_stack_size ∧
      p' = { p with type_stack := fun j => if j = i then v else p.type_stack j } := by
  unfold stack_write at h
  split at h
  · simp only [Except.ok.injEq] at h
    exact ⟨by assumption, h.symm⟩
  · simp at h

theorem push_type_ok {p p' : lily_parse_state} {v : Option lily_type}
    (hs : p.type_stack_size < 65536) (h : push_type p v = .ok p') :
    p.type_stack_pos < p.type_stack_size ∧
      p' = { p with type_stack := fun j => if j = p.type_stack_pos then v else p.type_stack j,
                    type_stack_pos := p.type_stack_pos + 1 } := by
  unfold push_type at h
  split at h
  · simp at h
  · rename_i q hw
    obtain ⟨hlt, rfl⟩ := stack_write_ok hw
    simp only [Except.ok.injEq] at h
    subst h
    refine ⟨hlt, ?_⟩
    simp only [type_stack_pos_incr]
    rw [Nat.mod_eq_of_lt (by omega)]

theorem tc_operator_keeps {p : lily_parse_state} {e : lily_token} {l l1 : tc_locals}
    (h : tc_operator p e l = .ok l1) : l1.flags = l.flags ∧ l1.i = l.i := by
  unfold tc_operator at h
  simp only at h
  repeat' split at h
  all_goals first
    | (simp only [Except.ok.injEq] at h; subst h; exact ⟨rfl, rfl⟩)
    | (simp [ raise_syntax] at h)

theorem tc_word_flags_variant (l : tc_locals) :
    (tc_word_flags l).CV_VARIANT_FUNC = l.flags.CV_VARIANT_FUNC := by
  unfold tc_word_flags
  split <;> rfl

theorem grow_if_full_same (p : lily_parse_state) (hs : p.type_stack_size < 65536) :
    (grow_if_full p).type_stack = p.type_stack ∧
      (grow_if_full p).type_stack_pos = p.type_stack_pos ∧
      (grow_if_full p).type_stack_size < 65536 := by
  unfold grow_if_full
  split
  · exact ⟨rfl, rfl, Nat.mod_lt _ (by decide)⟩
  · exact ⟨rfl, rfl, hs⟩

theorem cvt_frame_step (fuel : Nat)
    (ih : ∀ p cls flags t p', inner_type_collector fuel p cls flags = .ok (t, p') →
      flags.CV_VARIANT_FUNC = false → p.type_stack_size < 65536 → Frame p p') :
    ∀ p cls flags t p', collect_var_type (fuel + 1) p cls flags = .ok (t, p') →
      flags.CV_VARIANT_FUNC = false → p.type_stack_size < 65536 → Frame p p' := by
  intro p cls flags t p' h hv hs
  rw [collect_var_type] at h
  simp only [bind_ok_iff] at h
  obtain ⟨⟨c1, p1⟩, h1, c, h2, _, h3, h⟩ := h
  have s1 := collect_class_same h1
  have hs1 : p1.type_stack_size < 65536 := by rw [s1.2.2]; exact hs
  simp only at h
  split at h
  · split at h
    · simp only [bind_ok_iff, pure_ok_iff, Prod.mk.injEq] at h
      obtain ⟨⟨_, p2⟩, h4, _, rfl⟩ := h
      exact (s1.stack_trans (get_named_var_same h4)).frame hs
    · simp only [pure_ok_iff, Prod.mk.injEq] at h
      obtain ⟨_, rfl⟩ := h
      exact s1.frame hs
  · split at h
    · simp only [bind_ok_iff] at h
      obtain ⟨_, _, ⟨t2, p2⟩, h4, h⟩ := h
      have f2 := ih _ _ _ _ _ h4 hv (by simpa [next_token] using hs1)
      have f3 : Frame p p2 := Frame.of_same_left (s1.stack_trans (next_token_same p1)) f2
      split at h
      · simp only [bind_ok_iff, pure_ok_iff, Prod.mk.injEq] at h
        obtain ⟨⟨_, p3⟩, h5, _, rfl⟩ := h
        exact f3.of_same_right ((next_token_same p2).stack_trans (get_named_var_same h5))
      · simp only [pure_ok_iff, Prod.mk.injEq] at h
        obtain ⟨_, rfl⟩ := h
        exact f3.of_same_right (next_token_same p2)
    · split at h
      · simp only [bind_ok_iff, pure_ok_iff] at h
        obtain ⟨⟨v, p2⟩, h4, _, rfl, _, _, ⟨t3, p3⟩, h5, _, rfl⟩ := h
        have s2 := s1.stack_trans ((get_named_var_same h4).stack_trans (next_token_same p2))
        have f3 := ih _ _ _ _ _ h5 hv (by rw [← s2.2.2] at hs; exact hs)
        exact (Frame.of_same_left s2 f3).of_same_right
          ((set_call_var_type_same _ _ _).stack_trans (next_token_same _))
      · simp only [bind_ok_iff, pure_ok_iff] at h
        obtain ⟨_, rfl, _, _, ⟨t3, p3⟩, h5, _, rfl⟩ := h
        have s2 := s1.stack_trans (next_token_same p1)
        have f3 := ih _ _ _ _ _ h5 hv (by rw [← s2.2.2] at hs; exact hs)
        exact (Frame.of_same_left s2 f3).of_same_right
          ((set_call_var_type_same _ _ _).stack_trans (next_token_same _))

theorem tc_loop_frame_step (fuel : Nat)
    (ih_loop : ∀ start e l p l' p', tc_loop fuel start e l p = .ok (l', p') →
      l.flags.CV_VARIANT_FUNC = false → p.type_stack_size < 65536 →
      start ≤ p.type_stack_pos → LoopFrame start l p l' p')
    (ih_cvt : ∀ p cls flags t p', collect_var_type fuel p cls flags = .ok (t, p') →
      flags.CV_VARIANT_FUNC = false → p.type_stack_size < 65536 → Frame p p') :
    ∀ start e l p l' p', tc_loop (fuel + 1) start e l p = .ok (l', p') →
      l.flags.CV_VARIANT_FUNC = false → p.type_stack_size < 65536 →
      start ≤ p.type_stack_pos → LoopFrame start l p l' p' := by
  intro start e l p l' p' h hv hs hle
  rw [tc_loop] at h
  split at h
  · -- a word: a type is collected
    simp only at h
    split at h
    · simp at h
    · rename_i ty p2 hc
      have hg := grow_if_full_same p hs
      have f2 := ih_cvt _ _ _ _ _ hc (by rw [tc_word_flags_variant]; exact hv) hg.2.2
      obtain ⟨f2a, f2b, f2c⟩ := f2
      rw [hg.2.1] at f2a f2c
      split at h
      · split at h
        · simp at h
        · rename_i p3 hw
          obtain ⟨hlt, rfl⟩ := push_type_ok f2b hw
          have := ih_loop _ _ _ _ _ _ h (by simpa [tc_word_flags_variant] using hv)
            (by simpa using f2b) (by simp only; omega)
          refine ⟨this.1, this.2.1, fun j hj => ?_, ?_⟩
          · rw [this.2.2.1 j hj]
            simp only
            rw [if_neg (by omega), f2c j (by omega), hg.1]
          · rw [this.2.2.2]; simp [tc_word_flags_variant]
      · split at h
        · simp at h
        · rename_i p3 hw
          obtain ⟨hlt, rfl⟩ := stack_write_ok hw
          have := ih_loop _ _ _ _ _ _ h (by simpa [tc_word_flags_variant] using hv)
            (by simpa using f2b) (by simp only; omega)
          refine ⟨this.1, this.2.1, fun j hj => ?_, ?_⟩
          · rw [this.2.2.1 j hj]
            simp only
            rw [if_neg (by omega), f2c j (by omega), hg.1]
          · rw [this.2.2.2]; simp [tc_word_flags_variant]
  · split at h
    · simp at h
    · rename_i l1 hop
      have hk := tc_operator_keeps hop
      split at h
      · simp only [Except.ok.injEq, Prod.mk.injEq] at h
        obtain ⟨rfl, rfl⟩ := h
        exact ⟨hle, hs, fun _ _ => rfl, by rw [hk.1]⟩
      · split at h
        · simp [ raise_syntax] at h
        · have := ih_loop _ _ _ _ _ _ h (by rw [hk.1]; exact hv) hs hle
          exact ⟨this.1, this.2.1, this.2.2.1, by rw [this.2.2.2, hk.1]⟩

theorem grow_for_return_same (p : lily_parse_state) (hs : p.type_stack_size < 65536) :
    (grow_for_return p).type_stack = p.type_stack ∧
      (grow_for_return p).type_stack_pos = p.type_stack_pos ∧
      (grow_for_return p).type_stack_size < 65536 ∧
      (grow_for_return p).lex = p.lex ∧ (grow_for_return p).symtab = p.symtab := by
  unfold grow_for_return
  split
  · exact ⟨rfl, rfl, Nat.mod_lt _ (by decide), rfl, rfl⟩
  · exact ⟨rfl, rfl, hs, rfl, rfl⟩

theorem tc_enter_other {p p1 : lily_parse_state} {cls i : Nat} {e : lily_token}
    {flags : cv_flags} (hne : cls ≠ SYM_CLASS_FUNCTION)
    (h : tc_enter p cls flags = .ok (p1, e, i)) : p1 = p ∧ e = tk_right_bracket ∧ i = 0 := by
  unfold tc_enter at h
  rw [if_neg hne] at h
  simp only [Except.ok.injEq, Prod.mk.injEq] at h
  exact ⟨h.1.symm, h.2.1.symm, h.2.2.symm⟩

theorem push_type_fields {p p' : lily_parse_state} {v : Option lily_type}
    (hs : p.type_stack_size < 65536) (h : push_type p v = .ok p') :
    p.type_stack_pos < p.type_stack_size ∧
      p'.type_stack = (fun j => if j = p.type_stack_pos then v else p.type_stack j) ∧
      p'.type_stack_pos = p.type_stack_pos + 1 ∧
      p'.type_stack_size = p.type_stack_size ∧
      p'.lex = p.lex ∧ p'.symtab = p.symtab ∧ p'.emit = p.emit ∧
      p'.class_depth = p.class_depth := by
  obtain ⟨hlt, rfl⟩ := push_type_ok hs h
  exact ⟨hlt, rfl, rfl, rfl, rfl, rfl, rfl, rfl⟩

theorem tc_enter_function {p p1 : lily_parse_state} {i : Nat} {e : lily_token}
    {flags : cv_flags} (hs : p.type_stack_size < 65536)
    (h : tc_enter p SYM_CLASS_FUNCTION flags = .ok (p1, e, i)) :
    e = tk_right_parenth ∧ p1.type_stack_size < 65536 ∧
      p1.type_stack_pos = p.type_stack_pos + i ∧
      (∀ j, j < p.type_stack_pos → p1.type_stack j = p.type_stack j) ∧
      p1.type_stack p.type_stack_pos =
        (if flags.CV_CLASS_INIT then p.symtab.root_type else none) ∧
      p1.lex = p.lex ∧ p1.symtab = p.symtab ∧
      (adds_self p flags →
        i = 2 ∧ block_self_type p = .ok (p1.type_stack (p.type_stack_pos + 1))) ∧
      (¬adds_self p flags → i = 1) := by
  unfold tc_enter at h
  rw [if_pos rfl] at h
  obtain ⟨g1, g2, g3, g4, g5⟩ := grow_for_return_same p hs
  split at h
  · simp at h
  · rename_i q hq
    obtain ⟨hlt, q1, q2, q3, q4, q5, _, _⟩ := push_type_fields g3 hq
    rw [g2] at q1 q2
    rw [g1] at q1
    split at h
    · rename_i hself
      split at h
      · simp at h
      · rename_i self hb
        split at h
        · simp at h
        · rename_i qq hq2
          obtain ⟨hlt2, r1, r2, r3, r4, r5, _, _⟩ :=
            push_type_fields (by rw [q3]; exact g3) hq2
          simp only [Except.ok.injEq, Prod.mk.injEq] at h
          obtain ⟨rfl, rfl, rfl⟩ := h
          rw [q2] at r1 r2
          refine ⟨rfl, by rw [r3, q3]; exact g3, by rw [r2], fun j hj => ?_, ?_,
            by rw [r4, q4, g4], by rw [r5, q5, g5], ?_, ?_⟩
          · rw [r1, q1]; simp only
            rw [if_neg (by omega), if_neg (by omega)]
          · rw [r1, q1]; simp
          · intro _
            refine ⟨rfl, ?_⟩
            rw [r1]; simpa using hb
          · intro hn; exact absurd hself hn
    · rename_i hself
      simp only [Except.ok.injEq, Prod.mk.injEq] at h
      obtain ⟨rfl, rfl, rfl⟩ := h
      refine ⟨rfl, by rw [q3]; exact g3, by rw [q2], fun j hj => ?_, ?_,
        by rw [q4, g4], by rw [q5, g5], ?_, ?_⟩
      · rw [q1]; simp only
        rw [if_neg (by omega)]
      · rw [q1]; simp
      · intro hy; exact absurd hy hself
      · intro _; rfl

theorem tc_enter_flags_variant (flags : cv_flags) :
    (tc_enter_flags flags).CV_VARIANT_FUNC = flags.CV_VARIANT_FUNC := by
  unfold tc_enter_flags
  split <;> rfl

theorem tc_enter_frame {p p1 : lily_parse_state} {cls i : Nat} {e : lily_token}
    {flags : cv_flags} (hs : p.type_stack_size < 65536)
    (h : tc_enter p cls flags = .ok (p1, e, i)) :
    p1.type_stack_size < 65536 ∧ p.type_stack_pos ≤ p1.type_stack_pos ∧
      (∀ j, j < p.type_stack_pos → p1.type_stack j = p.type_stack j) := by
  by_cases hc : cls = SYM_CLASS_FUNCTION
  · subst hc
    obtain ⟨_, a, b, c, _⟩ := tc_enter_function hs h
    exact ⟨a, by omega, c⟩
  · obtain ⟨rfl, _, _⟩ := tc_enter_other hc h
    exact ⟨hs, le_refl _, fun _ _ => rfl⟩

theorem itc_frame_step (fuel : Nat)
    (ih_loop : ∀ start e l p l' p', tc_loop fuel start e l p = .ok (l', p') →
      l.flags.CV_VARIANT_FUNC = false → p.type_stack_size < 65536 →
      start ≤ p.type_stack_pos → LoopFrame start l p l' p') :
    ∀ p cls flags t p', inner_type_collector (fuel + 1) p cls flags = .ok (t, p') →
      flags.CV_VARIANT_FUNC = false → p.type_stack_size < 65536 → Frame p p' := by
  intro p cls flags t p' h hv hs
  rw [inner_type_collector] at h
  simp only [bind_ok_iff] at h
  obtain ⟨⟨p1, e, i⟩, h1, ⟨l, p2⟩, h2, c, _, _, _, _, _, p3, h3, _, _, h⟩ := h
  simp only [pure_ok_iff, Prod.mk.injEq] at h
  obtain ⟨_, rfl⟩ := h
  obtain ⟨a1, a2, a3⟩ := tc_enter_frame hs h1
  obtain ⟨b1, b2, b3, b4⟩ := ih_loop _ _ _ _ _ _ h2
    (by rw [tc_enter_flags_variant]; exact hv) a1 a2
  simp only [tc_enter_flags_variant, hv] at b4
  unfold tc_variant_return at h3
  rw [b4] at h3
  simp only [Bool.false_eq_true, if_false, Except.ok.injEq] at h3
  subst h3
  exact ⟨rfl, b2, fun j hj => by rw [b3 j hj, a3 j hj]⟩

/-- Frame of type collection: a run that is not the field list of a variant
leaves the position of the type stack and the cells below it as they were. -/
theorem frame_all (fuel : Nat) :
    (∀ start e l p l' p', tc_loop fuel start e l p = .ok (l', p') →
      l.flags.CV_VARIANT_FUNC = false → p.type_stack_size < 65536 →
      start ≤ p.type_stack_pos → LoopFrame start l p l' p') ∧
    (∀ p cls flags t p', inner_type_collector fuel p cls flags = .ok (t, p') →
      flags.CV_VARIANT_FUNC = false → p.type_stack_size < 65536 → Frame p p') ∧
    (∀ p cls flags t p', collect_var_type fuel p cls flags = .ok (t, p') →
      flags.CV_VARIANT_FUNC = false → p.type_stack_size < 65536 → Frame p p') := by
  induction fuel with
  | zero =>
    refine ⟨?_, ?_, ?_⟩
    · intro start e l p l' p' h; simp [tc_loop] at h
    · intro p cls flags t p' h; simp [inner_type_collector] at h
    · intro p cls flags t p' h; simp [collect_var_type] at h
  | succ n ih =>
    exact ⟨tc_loop_frame_step n ih.1 ih.2.2, itc_frame_step n ih.1, cvt_frame_step n ih.2.1⟩

theorem grow_if_full_symtab (p : lily_parse_state) :
    (grow_if_full p).symtab = p.symtab ∧ (grow_if_full p).lex = p.lex := by
  unfold grow_if_full
  split <;> exact ⟨rfl, rfl⟩

/-- A list read cell by cell is the list. -/
theorem cells_list {α : Type} (f : Nat → α) (L : List α)
    (h : ∀ k, k < L.length → L.get? k = some (f k)) : (List.range L.length).map f = L := by
  apply List.ext_get?
  intro n
  by_cases hn : n < L.length
  · rw [h n hn]
    simp [List.getElem?_range hn, hn]
  · have h1 : L.get? n = none := by simp [List.get?_eq_none]; omega
    rw [h1]
    simp; omega

theorem Quiet.quiet_refl (p : lily_parse_state) : Quiet p p := ⟨rfl, rfl⟩

theorem Quiet.quiet_trans {p q r : lily_parse_state} (h1 : Quiet p q) (h2 : Quiet q r) : Quiet p r :=
  ⟨h2.1.trans h1.1, h2.2.trans h1.2⟩

theorem Quiet.of_symtab {p q : lily_parse_state} (h : q.symtab = p.symtab) : Quiet p q := by
  unfold Quiet
  rw [h]
  exact ⟨rfl, rfl⟩

theorem class_update_properties (symtab : lily_symtab) (cls : Nat) (f : lily_class → lily_class)
    (hf : ∀ c, (f c).properties = c.properties) :
    class_properties (class_update symtab cls f) = class_properties symtab ∧
      (class_update symtab cls f).var_chain = symtab.var_chain := by
  refine ⟨?_, rfl⟩
  simp only [class_properties, class_update, List.map_map]
  apply List.map_congr_left
  intro c _
  simp only [Function.comp]
  split
  · exact hf c
  · rfl

theorem lily_class_by_name_quiet (symtab : lily_symtab) (name : String) :
    class_properties (lily_class_by_name symtab name).1 = class_properties symtab ∧
      (lily_class_by_name symtab name).1.var_chain = symtab.var_chain := by
  unfold lily_class_by_name
  split
  · split
    · exact class_update_properties _ _ _ (fun _ => rfl)
    · exact ⟨rfl, rfl⟩
  · exact ⟨rfl, rfl⟩

theorem collect_class_ok {p p' : lily_parse_state} {c : Nat}
    (h : collect_class p none = .ok (c, p')) :
    p.lex.token = tk_word ∧ (lily_class_by_name p.symtab p.lex.label).2 = some c ∧
      p' = next_token { p with symtab := (lily_class_by_name p.symtab p.lex.label).1 } := by
  unfold collect_class at h
  simp only at h
  split at h
  · simp [ raise_syntax] at h
  · rename_i htok
    split at h
    · simp [ raise_syntax] at h
    · rename_i s c2 heq
      simp only [Except.ok.injEq, Prod.mk.injEq] at h
      obtain ⟨rfl, rfl⟩ := h
      rw [heq]
      exact ⟨by simpa using htok, rfl, rfl⟩

theorem collect_class_quiet {p p' : lily_parse_state} {cls : Option Nat} {c : Nat}
    (h : collect_class p cls = .ok (c, p')) : Quiet p p' := by
  cases cls with
  | none =>
    obtain ⟨_, _, rfl⟩ := collect_class_ok h
    have := lily_class_by_name_quiet p.symtab p.lex.label
    exact ⟨this.2, this.1⟩
  | some c0 =>
    unfold collect_class at h
    simp only [Except.ok.injEq, Prod.mk.injEq] at h
    obtain ⟨_, rfl⟩ := h
    exact Quiet.quiet_refl _

theorem variant_fill_symtab (generic_map : Nat → Bool) :
    ∀ todo i j k p k' p', variant_fill generic_map todo i j k p = .ok (k', p') →
      p'.symtab = p.symtab := by
  intro todo
  induction todo with
  | zero =>
    intro i j k p k' p' h
    simp only [variant_fill, Except.ok.injEq, Prod.mk.injEq] at h
    rw [h.2]
  | succ n ih =>
    intro i j k p k' p' h
    rw [variant_fill] at h
    split at h
    · simp only [bind_ok_iff] at h
      obtain ⟨q, hq, h⟩ := h
      obtain ⟨_, rfl⟩ := stack_write_ok hq
      rw [ih _ _ _ _ _ _ h]
    · exact ih _ _ _ _ _ _ h

theorem calculate_variant_return_quiet {p p' : lily_parse_state} {vc start top : Nat}
    {t : lily_type} (h : calculate_variant_return p vc start top = .ok (t, p')) :
    Quiet p p' := by
  unfold calculate_variant_return at h
  simp only [bind_ok_iff] at h
  obtain ⟨⟨gm, gx⟩, _, ⟨k, q⟩, hf, _, _, _, _, h⟩ := h
  simp only [pure_ok_iff, Prod.mk.injEq] at h
  obtain ⟨_, rfl⟩ := h
  have hs := variant_fill_symtab _ _ _ _ _ _ _ _ hf
  have hq : q.symtab = p.symtab := by
    rw [hs]
    split <;> rfl
  have := class_update_properties q.symtab vc
    (fun c => { c with template_count := (k : Int) }) (fun _ => rfl)
  exact ⟨by simp only; rw [this.2, hq], by simp only; rw [this.1, hq]⟩

theorem tc_variant_return_quiet {p p' : lily_parse_state} {flags : cv_flags}
    {vc start i : Nat} (h : tc_variant_return p flags vc start i = .ok p') : Quiet p p' := by
  unfold tc_variant_return at h
  split at h
  · split at h
    · simp at h
    · rename_i t q hq
      obtain ⟨_, rfl⟩ := stack_write_ok h
      exact (calculate_variant_return_quiet hq).quiet_trans (Quiet.of_symtab rfl)
  · simp only [Except.ok.injEq] at h
    subst h
    exact Quiet.quiet_refl _

theorem tc_enter_symtab {p p1 : lily_parse_state} {cls i : Nat} {e : lily_token}
    {flags : cv_flags} (h : tc_enter p cls flags = .ok (p1, e, i)) : p1.symtab = p.symtab := by
  unfold tc_enter at h
  split at h
  · split at h
    · simp at h
    · rename_i q hq
      have hq1 : q.symtab = p.symtab := by
        unfold push_type at hq
        split at hq
        · simp at hq
        · rename_i q0 hq0
          obtain ⟨_, rfl⟩ := stack_write_ok hq0
          simp only [Except.ok.injEq] at hq
          subst hq
          simp only [type_stack_pos_incr, grow_for_return]
          split <;> rfl
      split at h
      · split at h
        · simp at h
        · split at h
          · simp at h
          · rename_i q2 hq2
            simp only [Except.ok.injEq, Prod.mk.injEq] at h
            obtain ⟨rfl, _, _⟩ := h
            unfold push_type at hq2
            split at hq2
            · simp at hq2
            · rename_i q0 hq0
              obtain ⟨_, rfl⟩ := stack_write_ok hq0
              simp only [Except.ok.injEq] at hq2
              subst hq2
              exact hq1
      · simp only [Except.ok.injEq, Prod.mk.injEq] at h
        obtain ⟨rfl, _, _⟩ := h
        exact hq1
  · simp only [Except.ok.injEq, Prod.mk.injEq] at h
    rw [h.1]

theorem push_type_symtab {p p' : lily_parse_state} {v : Option lily_type}
    (h : push_type p v = .ok p') : p'.symtab = p.symtab ∧ p'.lex = p.lex := by
  unfold push_type at h
  split at h
  · simp at h
  · rename_i q0 hq0
    obtain ⟨_, rfl⟩ := stack_write_ok hq0
    simp only [Except.ok.injEq] at h
    subst h
    exact ⟨rfl, rfl⟩

theorem tc_enter_flags_quiet (flags : cv_flags) (ht : flags.CV_TOPLEVEL = false) :
    (tc_enter_flags flags).CV_MAKE_VARS = false ∧ (tc_enter_flags flags).CV_TOPLEVEL = false := by
  simp [tc_enter_flags, ht]

theorem tc_word_flags_quiet (l : tc_locals) (hm : l.flags.CV_MAKE_VARS = false)
    (ht : l.flags.CV_TOPLEVEL = false) :
    (tc_word_flags l).CV_MAKE_VARS = false ∧ (tc_word_flags l).CV_TOPLEVEL = false := by
  unfold tc_word_flags
  split
  · exact ⟨rfl, ht⟩
  · exact ⟨hm, ht⟩

/-- A nested type makes neither a var nor a property. -/
theorem quiet_all (fuel : Nat) :
    (∀ start e l p l' p', tc_loop fuel start e l p = .ok (l', p') →
      l.flags.CV_MAKE_VARS = false → l.flags.CV_TOPLEVEL = false → Quiet p p') ∧
    (∀ p cls flags t p', inner_type_collector fuel p cls flags = .ok (t, p') →
      flags.CV_TOPLEVEL = false → Quiet p p') ∧
    (∀ p cls flags t p', collect_var_type fuel p cls flags = .ok (t, p') →
      flags.CV_MAKE_VARS = false → flags.CV_TOPLEVEL = false → Quiet p p') := by
  induction fuel with
  | zero =>
    refine ⟨?_, ?_, ?_⟩
    · intro start e l p l' p' h; simp [tc_loop] at h
    · intro p cls flags t p' h; simp [inner_type_collector] at h
    · intro p cls flags t p' h; simp [collect_var_type] at h
  | succ n ih =>
    obtain ⟨ih1, ih2, ih3⟩ := ih
    refine ⟨?_, ?_, ?_⟩
    · intro start e l p l' p' h hm ht
      rw [tc_loop] at h
      split at h
      · simp only at h
        split at h
        · simp at h
        · rename_i ty p2 hc
          have hf := tc_word_flags_quiet l hm ht
          have q1 : Quiet p p2 :=
            (Quiet.of_symtab (grow_if_full_symtab p).1).quiet_trans (ih3 _ _ _ _ _ hc hf.1 hf.2)
          split at h
          · split at h
            · simp at h
            · rename_i p3 hw
              have q2 := ih1 _ _ _ _ _ _ h (by simpa using hf.1) (by simpa using hf.2)
              exact (q1.quiet_trans (Quiet.of_symtab (push_type_symtab hw).1)).quiet_trans q2
          · split at h
            · simp at h
            · rename_i p3 hw
              obtain ⟨_, rfl⟩ := stack_write_ok hw
              have q2 := ih1 _ _ _ _ _ _ h (by simpa using hf.1) (by simpa using hf.2)
              exact q1.quiet_trans ((Quiet.of_symtab rfl).quiet_trans q2)
      · split at h
        · simp at h
        · rename_i l1 hop
          have hk := tc_operator_keeps hop
          split at h
          · simp only [Except.ok.injEq, Prod.mk.injEq] at h
            obtain ⟨_, rfl⟩ := h
            exact Quiet.quiet_refl _
          · split at h
            · simp [ raise_syntax] at h
            · exact (Quiet.of_symtab rfl : Quiet p (next_token p)).quiet_trans
                (ih1 _ _ _ _ _ _ h (by rw [hk.1]; exact hm) (by rw [hk.1]; exact ht))
    · intro p cls flags t p' h ht
      rw [inner_type_collector] at h
      simp only [bind_ok_iff] at h
      obtain ⟨⟨p1, e, i⟩, h1, ⟨l, p2⟩, h2, c, _, _, _, _, _, p3, h3, _, _, h⟩ := h
      simp only [pure_ok_iff, Prod.mk.injEq] at h
      obtain ⟨_, rfl⟩ := h
      have hf := tc_enter_flags_quiet flags ht
      have q1 : Quiet p p1 := Quiet.of_symtab (tc_enter_symtab h1)
      have q2 : Quiet p1 p2 := ih1 _ _ _ _ _ _ h2 hf.1 hf.2
      have q3 : Quiet p2 p3 := tc_variant_return_quiet h3
      exact ((q1.quiet_trans q2).quiet_trans q3).quiet_trans (Quiet.of_symtab rfl)
    · intro p cls flags t p' h hm ht
      rw [collect_var_type] at h
      simp only [bind_ok_iff] at h
      obtain ⟨⟨c1, p1⟩, h1, c, h2, _, h3, h⟩ := h
      have q1 := collect_class_quiet h1
      simp only [hm, Bool.false_eq_true, if_false] at h
      split at h
      · simp only [pure_ok_iff, Prod.mk.injEq] at h
        obtain ⟨_, rfl⟩ := h
        exact q1
      · split at h
        · simp only [bind_ok_iff, pure_ok_iff, Prod.mk.injEq] at h
          obtain ⟨_, _, ⟨t2, p2⟩, h4, _, rfl⟩ := h
          exact ((q1.quiet_trans (Quiet.of_symtab rfl : Quiet p1 (next_token p1))).quiet_trans
            (ih2 _ _ _ _ _ h4 ht)).quiet_trans (Quiet.of_symtab rfl)
        · simp only [bind_ok_iff, pure_ok_iff, Prod.mk.injEq] at h
          obtain ⟨_, rfl, _, _, ⟨t3, p3⟩, h5, _, rfl⟩ := h
          exact ((q1.quiet_trans (Quiet.of_symtab rfl : Quiet p1 (next_token p1))).quiet_trans
            (ih2 _ _ _ _ _ h5 ht)).quiet_trans (Quiet.of_symtab rfl)

theorem try_new_var_local (s : lily_symtab) (ty : Option lily_type) (name : String) :
    (lily_try_new_var s ty name 0).2.var_chain = (lily_try_new_var s ty name 0).1 :: s.var_chain ∧
      (lily_try_new_var s ty name 0).1.type = ty ∧
      (lily_try_new_var s ty name 0).1.name = name ∧
      (lily_try_new_var s ty name 0).1.flags = 0 ∧
      (lily_try_new_var s ty name 0).2.classes = s.classes := by
  have h0 : (0 &&& VAR_IS_READONLY) = 0 := by decide
  simp [lily_try_new_var, h0]

theorem lexer_label (lex : lily_lex_state) (it : lex_item)
    (hi : lex.input.head? = some it) (ht : it.token = tk_word ∨ it.token = tk_prop_word) :
    (lily_lexer lex).label = it.label := by
  unfold lily_lexer
  cases hl : lex.input with
  | nil => rw [hl] at hi; simp at hi
  | cons a rest =>
    rw [hl] at hi
    simp only [List.head?_cons, Option.some.injEq] at hi
    subst hi
    simp only
    rw [if_pos ht]

theorem Marks.nil (st : (Nat → Bool) × Nat) : Marks st st [] :=
  ⟨fun g => by simp, fun h => h⟩

theorem Marks.append {a b c : (Nat → Bool) × Nat} {g1 g2 : List Nat}
    (h1 : Marks a b g1) (h2 : Marks b c g2) : Marks a c (g1 ++ g2) := by
  refine ⟨fun g => ?_, fun h => h2.2 (h1.2 h)⟩
  rw [h2.1, h1.1, List.mem_append, or_assoc]

mutual

theorem generics_used_slot (t : Option lily_type) (st st' : (Nat → Bool) × Nat)
    (h : calculate_generics_used t st = .ok st') : Marks st st' (slot_generics t) := by
  cases t with
  | none =>
    simp only [calculate_generics_used, Except.ok.injEq] at h
    subst h
    simp only [slot_generics]
    exact Marks.nil _
  | some ty =>
    simp only [calculate_generics_used] at h
    simp only [slot_generics]
    exact generics_used_type ty st st' h

theorem generics_used_type (t : lily_type) (st st' : (Nat → Bool) × Nat)
    (h : calculate_generics_used_type t st = .ok st') : Marks st st' (type_generics t) := by
  cases t with
  | mk cls subs pos fl =>
    obtain ⟨m, x⟩ := st
    simp only [calculate_generics_used_type] at h
    simp only [type_generics]
    split at h
    · rename_i hc
      rw [if_pos hc]
      split at h
      · simp only [Except.ok.injEq] at h
        subst h
        refine ⟨fun g => ?_, fun hb g hg => ?_⟩
        · simp only [List.mem_singleton]
          by_cases hg : g = pos
          · simp [hg]
          · simp [hg]
        · simp only at hg ⊢
          by_cases hgp : g = pos
          · subst hgp
            split <;> omega
          · rw [if_neg hgp] at hg
            have := hb g hg
            simp only at this
            split <;> omega
      · simp at h
    · rename_i hc
      rw [if_neg hc]
      exact generics_used_subtypes subs (m, x) st' h

theorem generics_used_subtypes (ts : List (Option lily_type)) (st st' : (Nat → Bool) × Nat)
    (h : calculate_generics_used_subtypes ts st = .ok st') :
    Marks st st' (subtypes_generics ts) := by
  cases ts with
  | nil =>
    simp only [calculate_generics_used_subtypes, Except.ok.injEq] at h
    subst h
    simp only [subtypes_generics]
    exact Marks.nil _
  | cons t rest =>
    simp only [calculate_generics_used_subtypes] at h
    simp only [subtypes_generics]
    split at h
    · rename_i st1 h1
      exact (generics_used_slot t st st1 h1).append (generics_used_subtypes rest st1 st' h)
    · simp at h

end

theorem cells_generics_succ (stack : Nat → Option lily_type) (i count : Nat) :
    cells_generics stack i (count + 1) =
      slot_generics (stack i) ++ cells_generics stack (i + 1) count := by
  simp only [cells_generics, List.range_succ_eq_map, List.map_cons, List.map_map,
    subtypes_generics, Nat.add_zero]
  congr 2
  apply List.map_congr_left
  intro a _
  simp only [Function.comp]
  congr 1
  omega

theorem variant_scan_marks (p : lily_parse_state) :
    ∀ count i st st', variant_scan p i count st = .ok st' →
      Marks st st' (cells_generics p.type_stack i count) := by
  intro count
  induction count with
  | zero =>
    intro i st st' h
    simp only [variant_scan, Except.ok.injEq] at h
    subst h
    exact Marks.nil _
  | succ n ih =>
    intro i st st' h
    rw [variant_scan] at h
    simp only [bind_ok_iff] at h
    obtain ⟨t, h1, st1, h2, h3⟩ := h
    rw [cells_generics_succ]
    have ht : t = p.type_stack i := by
      unfold stack_read at h1
      split at h1
      · simp only [Except.ok.injEq] at h1
        exact h1.symm
      · simp at h1
    subst ht
    exact (generics_used_slot _ _ _ h2).append (ih _ _ _ h3)

theorem variant_fill_ok (gm : Nat → Bool) :
    ∀ todo i j k p k' p', variant_fill gm todo i j k p = .ok (k', p') →
      k' = k + ((List.range' i todo).filter (fun g => gm g)).length ∧
      p'.symtab = p.symtab ∧ p'.type_stack_size = p.type_stack_size ∧
      p'.type_stack_pos = p.type_stack_pos ∧
      (∀ c, c < j → p'.type_stack c = p.type_stack c) ∧
      (∀ n, n < ((List.range' i todo).filter (fun g => gm g)).length →
        (((List.range' i todo).filter (fun g => gm g)).map
          (fun g => some (generic_type g))).get? n = some (p'.type_stack (j + n))) := by
  intro todo
  induction todo with
  | zero =>
    intro i j k p k' p' h
    simp only [variant_fill, Except.ok.injEq, Prod.mk.injEq] at h
    obtain ⟨rfl, rfl⟩ := h
    simp
  | succ n ih =>
    intro i j k p k' p' h
    rw [variant_fill] at h
    rw [List.range'_succ]
    split at h
    · rename_i hg
      simp only [bind_ok_iff] at h
      obtain ⟨q, hq, h⟩ := h
      obtain ⟨_, rfl⟩ := stack_write_ok hq
      obtain ⟨a1, a2, a3, a4, a5, a6⟩ := ih _ _ _ _ _ _ h
      rw [List.filter_cons_of_pos (by simpa using hg)]
      simp only [List.length_cons, List.map_cons]
      simp only at a2 a3 a4 a5
      refine ⟨by omega, a2, a3, a4, fun c hc => ?_, fun m hm => ?_⟩
      · rw [a5 c (by omega), if_neg (by omega)]
      · cases m with
        | zero =>
          simp only [List.get?_cons_zero, Nat.add_zero]
          rw [a5 j (by omega), if_pos rfl]
        | succ m =>
          simp only [List.get?_cons_succ]
          rw [a6 m (by omega)]
          congr 2
          omega
    · rename_i hg
      rw [List.filter_cons_of_neg (by simpa using hg)]
      exact ih _ _ _ _ _ _ h

theorem marked_ascending (gm : Nat → Bool) (gmax : Nat) (G : List Nat)
    (h1 : ∀ g, gm g = true ↔ g ∈ G) (h2 : ∀ g, gm g = true → g < gmax) :
    (List.range' 0 gmax).filter (fun g => gm g) = generics_ascending G := by
  rw [← List.range_eq_range']
  unfold generics_ascending
  apply List.eq_of_perm_of_sorted (r := fun a b => a ≤ b)
  · apply List.perm_of_nodup_nodup_toFinset_eq
    · exact (List.nodup_range gmax).filter _
    · exact Finset.sort_nodup _ _
    · rw [Finset.sort_toFinset]
      ext g
      simp only [List.mem_toFinset, List.mem_filter, List.mem_range]
      rw [← h1]
      exact ⟨fun h => h.2, fun h => ⟨h2 g h, h⟩⟩
  · have : List.Pairwise (fun a b => a < b) ((List.range gmax).filter (fun g => gm g)) :=
      (List.pairwise_lt_range gmax).filter _
    exact this.imp (fun h => le_of_lt h)
  · exact Finset.sort_sorted _ _

theorem class_deref_update (symtab : lily_symtab) (cls : Nat) (f : lily_class → lily_class)
    (c : lily_class) (hf : ∀ c, (f c).id = c.id) (h : class_deref symtab cls = .ok c) :
    class_deref (class_update symtab cls f) cls = .ok (f c) := by
  unfold class_deref class_update at *
  simp only
  generalize symtab.classes = cs at h ⊢
  induction cs with
  | nil => simp at h
  | cons a rest ih =>
    simp only [List.map_cons, List.find?_cons] at h ⊢
    by_cases ha : (a.id == cls) = true
    · simp only [ha, if_true] at h ⊢
      simp only [Except.ok.injEq] at h
      subst h
      have : ((f a).id == cls) = true := by rw [hf]; exact ha
      simp [this]
    · simp only [ha] at h ⊢
      simp only [Bool.false_eq_true, if_false, ha]
      exact ih h

/-- What calculate_variant_return returns and leaves: the type of the variant
class over the generics that occur in the cells, ascending and each once; the
cells up to stack_top kept; the number of those generics as template count. -/
theorem calculate_variant_return_ok {p p' : lily_parse_state} {vc start top : Nat}
    {t : lily_type} (h : calculate_variant_return p vc start top = .ok (t, p')) :
    t = lily_type.mk vc
        ((generics_ascending (cells_generics p.type_stack start (top - start))).map
          (fun g => some (generic_type g))) 0 0 ∧
      (∀ c, c ≤ top → p'.type_stack c = p.type_stack c) ∧
      (p.type_stack_size < 65536 → p'.type_stack_size < 65536) ∧
      p'.type_stack_pos = p.type_stack_pos ∧
      ∃ c, class_deref p'.symtab vc = .ok c ∧
        c.template_count =
          ((cells_generics p.type_stack start (top - start)).toFinset.card : Int) := by
  unfold calculate_variant_return at h
  simp only [bind_ok_iff] at h
  obtain ⟨⟨gm, gx⟩, h1, ⟨k, q⟩, h2, _, _, c, h4, h⟩ := h
  simp only [pure_ok_iff, Prod.mk.injEq] at h
  obtain ⟨rfl, rfl⟩ := h
  simp only at h2 h4
  have hm := variant_scan_marks p _ _ _ _ h1
  have hm1 : ∀ g, gm g = true ↔ g ∈ cells_generics p.type_stack start (top - start) := by
    intro g
    have := hm.1 g
    simpa using this
  have hm2 : ∀ g, gm g = true → g < gx := hm.2 (by simp)
  obtain ⟨a1, a2, a3, a4, a5, a6⟩ := variant_fill_ok _ _ _ _ _ _ _ _ h2
  rw [marked_ascending gm gx _ hm1 hm2] at a1 a6
  simp only [Nat.zero_add] at a1
  have hstack : ∀ c, c ≤ top → q.type_stack c = p.type_stack c := by
    intro c hc
    rw [a5 c (by omega)]
    split <;> rfl
  have hsize : p.type_stack_size < 65536 → q.type_stack_size < 65536 := by
    intro hs
    rw [a3]
    split
    · exact Nat.mod_lt _ (by decide)
    · exact hs
  have hpos : q.type_stack_pos = p.type_stack_pos := by
    rw [a4]
    split <;> rfl
  refine ⟨?_, hstack, hsize, hpos, _, class_deref_update _ _ _ _ (fun _ => rfl) h4, ?_⟩
  · simp only [lily_build_ensure_type]
    congr 1
    rw [a1]
    have := cells_list (fun n => q.type_stack (top + 1 + n))
      ((generics_ascending (cells_generics p.type_stack start (top - start))).map
        (fun g => some (generic_type g)))
      (fun n hn => a6 n (by simpa using hn))
    simpa using this
  · simp only
    rw [a1]
    simp [generics_ascending]

theorem need_current_tok_ok {p : lily_parse_state} {e : lily_token} {u : Unit}
    (h : NEED_CURRENT_TOK p e = .ok u) : p.lex.token = e := by
  unfold NEED_CURRENT_TOK at h
  split at h
  · simp [ raise_syntax] at h
  · rename_i hne
    simpa using hne

theorem case_find_variant_index (symtab : lily_symtab) (label : String) :
    ∀ (members : List Nat) (i0 : Nat),
      (case_find_variant symtab label members i0).1 =
          i0 + variant_index symtab members label ∧
        (variant_index symtab members label < members.length →
          (case_find_variant symtab label members i0).2 =
            members.get? (variant_index symtab members label)) := by
  intro members
  induction members with
  | nil => intro i0; simp [case_find_variant, member_names, variant_index]
  | cons m rest ih =>
    intro i0
    simp only [case_find_variant, member_names, variant_index, List.map_cons,
      List.findIdx_cons]
    have ih1 := ih (i0 + 1)
    simp only [member_names, variant_index] at ih1
    cases hf : symtab.classes.find? (fun c => c.id == m) with
    | none =>
      simp only [Option.map_none', reduceCtorEq, decide_False, cond_false]
      refine ⟨by rw [ih1.1]; omega, fun hlt => ?_⟩
      rw [ih1.2 (by simpa using hlt)]
      simp
    | some c =>
      simp only [Option.map_some']
      by_cases hn : label = c.name
      · subst hn
        simp
      · have hd : decide (some c.name = some label) = false := by
          simpa using fun h => hn h.symm
        rw [if_neg hn, hd]
        simp only [cond_false]
        refine ⟨by rw [ih1.1]; omega, fun hlt => ?_⟩
        rw [ih1.2 (by simpa using hlt)]
        simp

theorem variant_index_member (symtab : lily_symtab) (members : List Nat) (label : String) :
    (some label ∈ member_names symtab members ↔
        variant_index symtab members label < members.length) ∧
      (some label ∉ member_names symtab members ↔
        variant_index symtab members label = members.length) := by
  have hlen : (member_names symtab members).length = members.length := by simp [member_names]
  unfold variant_index
  constructor
  · rw [← hlen, List.findIdx_lt_length]
    simp
  · rw [← hlen, List.findIdx_eq_length]
    simp only [decide_eq_false_iff_not]
    exact ⟨fun h x hx he => h (he ▸ hx), fun h hm => h _ hm rfl⟩

/-- The three ways of case_handler on a word in a match block. -/
theorem case_handler_checks (fuel : Nat) (parser : lily_parse_state) (multi : Nat)
    (block : lily_block) (outer : List lily_block) (t : lily_type) (match_class : lily_class)
    (hb : parser.emit.blocks = block :: outer) (hbt : block.block_type = BLOCK_MATCH)
    (hm : block.match_sym = some (some t))
    (hc : class_deref parser.symtab t.cls = .ok match_class)
    (htok : parser.lex.token = tk_word) :
    (some parser.lex.label ∉ member_names parser.symtab match_class.variant_members →
      case_handler fuel parser multi = .error (.raised .lily_SyntaxError)) ∧
    (some parser.lex.label ∈ member_names parser.symtab match_class.variant_members →
      variant_index parser.symtab match_class.variant_members parser.lex.label
        ∈ block.match_cases →
      case_handler fuel parser multi = .error (.raised .lily_SyntaxError)) ∧
    (some parser.lex.label ∈ member_names parser.symtab match_class.variant_members →
      variant_index parser.symtab match_class.variant_members parser.lex.label
        ∉ block.match_cases →
      case_handler fuel parser multi =
        case_values fuel
          (update_block parser (fun b => { b with match_cases := b.match_cases ++
            [variant_index parser.symtab match_class.variant_members parser.lex.label] }))
          (some t)
          (match_class.variant_members.get?
            (variant_index parser.symtab match_class.variant_members parser.lex.label))) := by
  obtain ⟨h1, h2⟩ := case_find_variant_index parser.symtab parser.lex.label
    match_class.variant_members 0
  obtain ⟨m1, m2⟩ := variant_index_member parser.symtab match_class.variant_members
    parser.lex.label
  have hhead : case_handler fuel parser multi =
      (match case_find_variant parser.symtab parser.lex.label match_class.variant_members 0 with
       | (i, case_class) => do
         raise_if (i = match_class.variant_members.length)
         match lily_emit_add_match_case parser i with
         | (added, parser) => do
           raise_if (added = 0)
           case_values fuel parser (some t) case_class) := by
    unfold case_handler
    simp [current_block, hb, hbt, raise_if, hm, deref, hc, NEED_CURRENT_TOK, htok, bind,
      Except.bind]
  rw [hhead]
  generalize hcf : case_find_variant parser.symtab parser.lex.label
    match_class.variant_members 0 = r at h1 h2
  obtain ⟨i, cc⟩ := r
  simp only [Nat.zero_add] at h1 h2
  subst h1
  simp only
  refine ⟨fun hnot => ?_, fun hin hdup => ?_, fun hin hnew => ?_⟩
  · rw [m2.mp hnot]
    simp [raise_if, raise_syntax, bind, Except.bind]
  · have hlt := m1.mp hin
    have hne : ¬ (variant_index parser.symtab match_class.variant_members parser.lex.label =
          match_class.variant_members.length) := by omega
    simp [raise_if, raise_syntax, bind, Except.bind, hne, lily_emit_add_match_case, hb, hdup]
  · have hlt := m1.mp hin
    have hne : ¬ (variant_index parser.symtab match_class.variant_members parser.lex.label =
          match_class.variant_members.length) := by omega
    rw [h2 hlt]
    simp [raise_if, raise_syntax, bind, Except.bind, hne, lily_emit_add_match_case, hb, hnew]

theorem SameClasses.classes_refl (p : lily_parse_state) : SameClasses p p := rfl

theorem SameClasses.classes_trans {p q r : lily_parse_state} (h1 : SameClasses p q)
    (h2 : SameClasses q r) : SameClasses p r :=
  Eq.trans h2 h1

theorem SameClasses.same_symtab {p q : lily_parse_state} (h : q.symtab = p.symtab) :
    SameClasses p q := by
  unfold SameClasses
  rw [h]

theorem SameClasses.of_classes {p q : lily_parse_state}
    (h : q.symtab.classes = p.symtab.classes) : SameClasses p q := by
  unfold SameClasses class_arities
  rw [h]

theorem class_update_arities (symtab : lily_symtab) (cls : Nat) (f : lily_class → lily_class)
    (hf : ∀ c, (f c).id = c.id ∧ (f c).flags = c.flags ∧
      (f c).template_count = c.template_count) :
    class_arities (class_update symtab cls f) = class_arities symtab := by
  simp only [class_arities, class_update, List.map_map]
  apply List.map_congr_left
  intro c _
  simp only [Function.comp]
  split
  · rw [(hf c).1, (hf c).2.1, (hf c).2.2]
  · rfl

theorem lily_class_by_name_arities (symtab : lily_symtab) (name : String) :
    class_arities (lily_class_by_name symtab name).1 = class_arities symtab := by
  unfold lily_class_by_name
  split
  · split
    · exact class_update_arities _ _ _ (fun _ => ⟨rfl, rfl, rfl⟩)
    · rfl
  · rfl

theorem collect_class_classes {p p' : lily_parse_state} {cls : Option Nat} {c : Nat}
    (h : collect_class p cls = .ok (c, p')) : SameClasses p p' := by
  cases cls with
  | none =>
    obtain ⟨_, _, rfl⟩ := collect_class_ok h
    exact lily_class_by_name_arities p.symtab p.lex.label
  | some c0 =>
    unfold collect_class at h
    simp only [Except.ok.injEq, Prod.mk.injEq] at h
    obtain ⟨_, rfl⟩ := h
    exact SameClasses.classes_refl _

theorem get_named_var_classes {p p' : lily_parse_state} {ty : Option lily_type} {fl h : Nat}
    (hh : get_named_var p ty fl = .ok (h, p')) : SameClasses p p' := by
  obtain ⟨_, rfl⟩ := get_named_var_ok hh
  apply SameClasses.of_classes
  simp only [lily_try_new_var]
  split <;> rfl

theorem set_call_var_type_classes (p : lily_parse_state) (v : Option Nat) (t : lily_type) :
    SameClasses p (set_call_var_type p v t) := by
  unfold set_call_var_type
  cases v with
  | none => exact SameClasses.classes_refl _
  | some v => exact SameClasses.of_classes rfl

/-- Without the variant flag, a list of types makes no class and changes
neither the flags nor the template count of one. -/
theorem classes_all (fuel : Nat) :
    (∀ start e l p l' p', tc_loop fuel start e l p = .ok (l', p') →
      l.flags.CV_VARIANT_FUNC = false →
      SameClasses p p' ∧ l'.flags.CV_VARIANT_FUNC = false) ∧
    (∀ p cls flags t p', inner_type_collector fuel p cls flags = .ok (t, p') →
      flags.CV_VARIANT_FUNC = false → SameClasses p p') ∧
    (∀ p cls flags t p', collect_var_type fuel p cls flags = .ok (t, p') →
      flags.CV_VARIANT_FUNC = false → SameClasses p p') := by
  induction fuel with
  | zero =>
    refine ⟨?_, ?_, ?_⟩
    · intro start e l p l' p' h; simp [tc_loop] at h
    · intro p cls flags t p' h; simp [inner_type_collector] at h
    · intro p cls flags t p' h; simp [collect_var_type] at h
  | succ n ih =>
    obtain ⟨ih1, ih2, ih3⟩ := ih
    refine ⟨?_, ?_, ?_⟩
    · intro start e l p l' p' h hv
      rw [tc_loop] at h
      split at h
      · simp only at h
        split at h
        · simp at h
        · rename_i ty p2 hc
          have hf : (tc_word_flags l).CV_VARIANT_FUNC = false := by
            rw [tc_word_flags_variant]; exact hv
          have q1 : SameClasses p p2 :=
            (SameClasses.same_symtab (grow_if_full_symtab p).1).classes_trans
              (ih3 _ _ _ _ _ hc hf)
          split at h
          · split at h
            · simp at h
            · rename_i p3 hw
              have q2 := ih1 _ _ _ _ _ _ h (by simpa using hf)
              exact ⟨(q1.classes_trans
                (SameClasses.same_symtab (push_type_symtab hw).1)).classes_trans q2.1, q2.2⟩
          · split at h
            · simp at h
            · rename_i p3 hw
              obtain ⟨_, rfl⟩ := stack_write_ok hw
              have q2 := ih1 _ _ _ _ _ _ h (by simpa using hf)
              exact ⟨q1.classes_trans ((SameClasses.same_symtab rfl).classes_trans q2.1), q2.2⟩
      · split at h
        · simp at h
        · rename_i l1 hop
          have hk := tc_operator_keeps hop
          split at h
          · simp only [Except.ok.injEq, Prod.mk.injEq] at h
            obtain ⟨rfl, rfl⟩ := h
            exact ⟨SameClasses.classes_refl _, by rw [hk.1]; exact hv⟩
          · split at h
            · simp [ raise_syntax] at h
            · have q2 := ih1 _ _ _ _ _ _ h (by rw [hk.1]; exact hv)
              exact ⟨(SameClasses.same_symtab rfl : SameClasses p (next_token p)).classes_trans
                q2.1, q2.2⟩
    · intro p cls flags t p' h hv
      rw [inner_type_collector] at h
      simp only [bind_ok_iff] at h
      obtain ⟨⟨p1, e, i⟩, h1, ⟨l, p2⟩, h2, c, _, _, _, _, _, p3, h3, _, _, h⟩ := h
      simp only [pure_ok_iff, Prod.mk.injEq] at h
      obtain ⟨_, rfl⟩ := h
      have q1 : SameClasses p p1 := SameClasses.same_symtab (tc_enter_symtab h1)
      obtain ⟨q2, hl⟩ := ih1 _ _ _ _ _ _ h2 (by rw [tc_enter_flags_variant]; exact hv)
      have q3 : p3 = p2 := by
        unfold tc_variant_return at h3
        simp only at h3
        rw [hl] at h3
        simp only [Bool.false_eq_true, if_false, Except.ok.injEq] at h3
        exact h3.symm
      subst q3
      exact (q1.classes_trans q2).classes_trans (SameClasses.same_symtab rfl)
    · intro p cls flags t p' h hv
      rw [collect_var_type] at h
      simp only [bind_ok_iff] at h
      obtain ⟨⟨c1, p1⟩, h1, c, h2, _, h3, h⟩ := h
      have q1 := collect_class_classes h1
      split at h
      · split at h
        · simp only [bind_ok_iff, pure_ok_iff, Prod.mk.injEq] at h
          obtain ⟨⟨v, p2⟩, hg, _, rfl⟩ := h
          exact q1.classes_trans (get_named_var_classes hg)
        · simp only [pure_ok_iff, Prod.mk.injEq] at h
          obtain ⟨_, rfl⟩ := h
          exact q1
      · split at h
        · simp only [bind_ok_iff] at h
          obtain ⟨_, _, ⟨t2, p2⟩, h4, h⟩ := h
          have q2 : SameClasses p1 p2 :=
            (SameClasses.same_symtab rfl : SameClasses p1 (next_token p1)).classes_trans
              (ih2 _ _ _ _ _ h4 hv)
          split at h
          · simp only [bind_ok_iff, pure_ok_iff, Prod.mk.injEq] at h
            obtain ⟨⟨v, p4⟩, hg, _, rfl⟩ := h
            exact (q1.classes_trans q2).classes_trans
              ((SameClasses.same_symtab rfl : SameClasses p2 (next_token p2)).classes_trans
                (get_named_var_classes hg))
          · simp only [pure_ok_iff, Prod.mk.injEq] at h
            obtain ⟨_, rfl⟩ := h
            exact (q1.classes_trans q2).classes_trans (SameClasses.same_symtab rfl)
        · split at h
          · simp only [bind_ok_iff, pure_ok_iff] at h
            obtain ⟨⟨v, p2⟩, h4, _, rfl, _, _, ⟨t3, p3⟩, h5, _, rfl⟩ := h
            have q2 : SameClasses p1 (next_token p2) :=
              (get_named_var_classes h4).classes_trans (SameClasses.same_symtab rfl)
            have q3 := ih2 _ _ _ _ _ h5 hv
            exact ((q1.classes_trans q2).classes_trans q3).classes_trans
              ((set_call_var_type_classes _ _ _).classes_trans (SameClasses.same_symtab rfl))
          · simp only [bind_ok_iff, pure_ok_iff] at h
            obtain ⟨_, rfl, _, _, ⟨t3, p3⟩, h5, _, rfl⟩ := h
            have q3 := ih2 _ _ _ _ _ h5 hv
            exact ((q1.classes_trans (SameClasses.same_symtab rfl :
              SameClasses p1 (next_token p1))).classes_trans q3).classes_trans
              ((set_call_var_type_classes _ _ _).classes_trans (SameClasses.same_symtab rfl))

theorem find_class_arities (cls : Nat) :
    ∀ (L L' : List lily_class),
      L'.map (fun c => (c.id, c.flags, c.template_count)) =
        L.map (fun c => (c.id, c.flags, c.template_count)) →
      ∀ c, L.find? (fun c => c.id == cls) = some c →
        ∃ c', L'.find? (fun c => c.id == cls) = some c' ∧ c'.id = c.id ∧ c'.flags = c.flags ∧
          c'.template_count = c.template_count := by
  intro L
  induction L with
  | nil => intro L' _ c h; simp at h
  | cons a L ih =>
    intro L' hm c h
    cases L' with
    | nil => simp at hm
    | cons a' L' =>
      simp only [List.map_cons, List.cons.injEq, Prod.mk.injEq] at hm
      obtain ⟨⟨e1, e2, e3⟩, hm⟩ := hm
      simp only [List.find?_cons] at h ⊢
      rw [e1]
      split at h
      · rename_i hid
        simp only [Option.some.injEq] at h
        subst h
        exact ⟨a', by simp [hid], e1, e2, e3⟩
      · rename_i hid
        simpa [hid] using ih L' hm c h

/-- A class read through its pointer after a run that keeps the classes has the
flags and the template count it had before. -/
theorem SameClasses.class_kept {p p' : lily_parse_state} (h : SameClasses p p') (cls : Nat)
    (c : lily_class) (hc : class_deref p.symtab cls = .ok c) :
    ∃ c', class_deref p'.symtab cls = .ok c' ∧ c'.id = c.id ∧ c'.flags = c.flags ∧
      c'.template_count = c.template_count := by
  unfold class_deref at hc ⊢
  split at hc
  · rename_i c0 hf
    simp only [Except.ok.injEq] at hc
    subst hc
    obtain ⟨c', h1, h2⟩ := find_class_arities cls _ _ h c0 hf
    exact ⟨c', by rw [h1], h2⟩
  · simp at hc

theorem SameClasses.class_kept_back {p p' : lily_parse_state} (h : SameClasses p p') (cls : Nat)
    (c' : lily_class) (hc : class_deref p'.symtab cls = .ok c') :
    ∃ c, class_deref p.symtab cls = .ok c ∧ c'.id = c.id ∧ c'.flags = c.flags ∧
      c'.template_count = c.template_count := by
  have hsym : SameClasses p' p := Eq.symm h
  obtain ⟨c, h1, h2, h3, h4⟩ := hsym.class_kept cls c' hc
  exact ⟨c, h1, h2.symm, h3.symm, h4.symm⟩

/-- Inside brackets a pass of the loop on a token that is not a word either
refuses the token or leaves the arrow mark and the type flags alone. -/
theorem tc_operator_bracket {p : lily_parse_state} {l l1 : tc_locals}
    (h : tc_operator p tk_right_bracket l = .ok l1) (hb : l1.state ≠ TC_BAD_TOKEN) :
    l1.have_arrow = l.have_arrow ∧ l1.type_flags = l.type_flags := by
  unfold tc_operator at h
  simp only [true_or, or_true, if_true] at h
  repeat' split at h
  all_goals
    simp only [Except.ok.injEq] at h
    subst h
    first | exact ⟨rfl, rfl⟩ | exact absurd rfl hb

/-- The loop of inner_type_collector inside brackets against its reading: no
type is read after an arrow, the cells from the old position on hold the types
in order, and the type flags stay as they are. -/
theorem tc_loop_bracket (fuel : Nat) :
    ∀ start l p l' p', tc_loop fuel start tk_right_bracket l p = .ok (l', p') →
      l.flags.CV_VARIANT_FUNC = false → l.have_arrow = false → p.type_stack_size < 65536 →
      ∃ log, tc_collected fuel start tk_right_bracket l p = .ok log ∧
        (∀ x ∈ log, x.1 = false) ∧
        l'.i = l.i + log.length ∧ l'.type_flags = l.type_flags ∧
        l'.flags.CV_VARIANT_FUNC = false ∧
        p'.type_stack_pos = p.type_stack_pos + log.length ∧
        (∀ k, k < log.length →
          (log.map Prod.snd).get? k = some (p'.type_stack (p.type_stack_pos + k))) ∧
        (∀ j, j < p.type_stack_pos → p'.type_stack j = p.type_stack j) ∧
        (log ≠ [] → p'.type_stack_pos ≤ p'.type_stack_size) ∧
        (log = [] → p'.type_stack_size = p.type_stack_size) ∧
        p'.type_stack_size < 65536 := by
  induction fuel with
  | zero => intro start l p l' p' h; simp [tc_loop] at h
  | succ n ih =>
    intro start l p l' p' h hv ha hs
    rw [tc_loop] at h
    rw [tc_collected]
    split at h
    · rename_i htok
      rw [if_pos htok]
      simp only at h ⊢
      split at h
      · simp at h
      · rename_i ty p2 hc
        try rw [hc]
        try simp only
        have hg := grow_if_full_same p hs
        obtain ⟨f2a, f2b, f2c⟩ := (frame_all n).2.2 _ _ _ _ _ hc
          (by rw [tc_word_flags_variant]; exact hv) hg.2.2
        rw [hg.2.1] at f2a f2c
        try rw [if_pos ha] at h
        try rw [if_pos ha]
        split at h
        · simp at h
        · rename_i p3 hw
          try rw [hw]
          try simp only
          obtain ⟨r0, r1, r2, r3, r4, _⟩ := push_type_fields f2b hw
          obtain ⟨log, hl, b1, b2, b3, b4, b5, b6, b7, b8, b10, b9⟩ := ih _ _ _ _ _ h
            (by simpa [tc_word_flags_variant] using hv) (by simpa using ha)
            (by rw [r3]; exact f2b)
          rw [hl]
          simp only at b2 b3
          rw [r2, f2a] at b5 b6 b7
          refine ⟨_, rfl, ?_, ?_, b3, b4, ?_, ?_, ?_, ?_, by simp, b9⟩
          · intro x hx
            rcases List.mem_cons.mp hx with rfl | hx
            · rfl
            · exact b1 x hx
          · simp only [List.length_cons]; omega
          · simp only [List.length_cons]; omega
          · intro k hk
            cases k with
            | zero =>
              simp only [List.map_cons, List.get?_cons_zero, Nat.add_zero]
              rw [b7 _ (by omega), r1]
              simp [f2a]
            | succ k =>
              simp only [List.map_cons, List.get?_cons_succ]
              simp only [List.length_cons] at hk
              rw [b6 k (by omega)]
              congr 2
              omega
          · intro j hj
            rw [b7 j (by omega), r1]
            simp only
            rw [if_neg (by omega), f2c j hj, hg.1]
          · intro _
            by_cases hlog : log = []
            · subst hlog
              have hsz := b10 rfl
              simp only [List.length_nil, Nat.add_zero] at b5
              rw [hsz, r3, b5]
              omega
            · exact b8 hlog
    · rename_i htok
      rw [if_neg htok]
      split at h
      · simp at h
      · rename_i l1 hop
        try rw [hop]
        try simp only
        have hk := tc_operator_keeps hop
        split at h
        · rename_i hdone
          rw [if_pos hdone]
          simp only [Except.ok.injEq, Prod.mk.injEq] at h
          obtain ⟨rfl, rfl⟩ := h
          have hbk := tc_operator_bracket hop (by rw [hdone]; decide)
          exact ⟨[], rfl, by simp, by simp [hk.2], hbk.2, by rw [hk.1]; exact hv, by simp,
            by simp, by simp, by simp, by simp, hs⟩
        · rename_i hdone
          rw [if_neg hdone]
          split at h
          · simp [ raise_syntax] at h
          · rename_i hbad
            rw [if_neg hbad]
            have hbk := tc_operator_bracket hop hbad
            obtain ⟨log, hl, b1, b2, b3, b4, b5, b6, b7, b8, b10, b9⟩ := ih _ _ _ _ _ h
              (by rw [hk.1]; exact hv) (by rw [hbk.1]; exact ha) hs
            exact ⟨log, hl, b1, by rw [b2, hk.2], by rw [b3, hbk.2], b4, b5, b6, b7, b8, b10,
              b9⟩

/-- Where the reading of a list of types returns, the loop of
inner_type_collector returns too. -/
theorem tc_collected_loop (fuel : Nat) :
    ∀ start e l p log, tc_collected fuel start e l p = .ok log →
      ∃ l' p', tc_loop fuel start e l p = .ok (l', p') := by
  induction fuel with
  | zero => intro start e l p log h; simp [tc_collected] at h
  | succ n ih =>
    intro start e l p log h
    rw [tc_collected] at h
    rw [tc_loop]
    split at h
    · rename_i htok
      try rw [if_pos htok]
      simp only at h ⊢
      split at h
      · simp at h
      · rename_i ty p2 hc
        try rw [hc]
        try simp only
        split at h
        · rename_i ha
          try rw [if_pos ha]
          split at h
          · simp at h
          · rename_i p3 hw
            try rw [hw]
            try simp only
            split at h
            · simp at h
            · rename_i log2 hl
              exact ih _ _ _ _ _ hl
        · rename_i ha
          try rw [if_neg ha]
          split at h
          · simp at h
          · rename_i p3 hw
            try rw [hw]
            try simp only
            split at h
            · simp at h
            · rename_i log2 hl
              exact ih _ _ _ _ _ hl
    · rename_i htok
      try rw [if_neg htok]
      split at h
      · simp at h
      · rename_i l1 hop
        try rw [hop]
        try simp only
        split at h
        · rename_i hdone
          try rw [if_pos hdone]
          exact ⟨_, _, rfl⟩
        · rename_i hdone
          try rw [if_neg hdone]
          split at h
          · simp [ raise_syntax] at h
          · rename_i hbad
            try rw [if_neg hbad]
            exact ih _ _ _ _ _ h

theorem declared_types_bracket (n : Nat) (parser : lily_parse_state) (cls : Nat)
    (flags : cv_flags) (hv : flags.CV_VARIANT_FUNC = false) (hcls : cls ≠ SYM_CLASS_FUNCTION) :
    declared_types (n + 1) parser cls flags =
      tc_collected n parser.type_stack_pos tk_right_bracket (bracket_locals flags) parser := by
  rw [declared_types]
  simp only [hv, Bool.false_eq_true, if_false, tc_enter, hcls, bind, Except.bind,
    bracket_locals]

theorem itc_bracket_error (n : Nat) (parser : lily_parse_state) (cls : Nat)
    (flags : cv_flags) (hv : flags.CV_VARIANT_FUNC = false) (hcls : cls ≠ SYM_CLASS_FUNCTION)
    (e : Stop)
    (h : tc_loop n parser.type_stack_pos tk_right_bracket (bracket_locals flags) parser
      = .error e) :
    inner_type_collector (n + 1) parser cls flags = .error e := by
  rw [inner_type_collector]
  simp only [hv, Bool.false_eq_true, if_false, tc_enter, hcls, bind, Except.bind]
  simp only [bracket_locals] at h
  rw [h]

theorem itc_bracket_ok (n : Nat) (parser : lily_parse_state) (cls : Nat)
    (flags : cv_flags) (hv : flags.CV_VARIANT_FUNC = false) (hcls : cls ≠ SYM_CLASS_FUNCTION)
    (l : tc_locals) (p2 : lily_parse_state)
    (h : tc_loop n parser.type_stack_pos tk_right_bracket (bracket_locals flags) parser
      = .ok (l, p2)) :
    inner_type_collector (n + 1) parser cls flags =
      (do
        let c ← class_deref p2.symtab cls
        raise_if (((p2.type_stack_pos : Int) - (parser.type_stack_pos : Int) ≠ c.template_count) ∧
          c.template_count ≠ -1)
        check_hash_key p2 cls parser.type_stack_pos
        stack_check_range p2 parser.type_stack_pos l.i
        pure (lily_build_ensure_type cls l.type_flags p2.type_stack parser.type_stack_pos l.i,
          { p2 with type_stack_pos := parser.type_stack_pos })) := by
  have hl : l.flags.CV_VARIANT_FUNC = false :=
    ((classes_all n).1 _ _ _ _ _ _ h (by simp [bracket_locals, tc_enter_flags_variant, hv])).2
  rw [inner_type_collector]
  simp only [hv, Bool.false_eq_true, if_false, tc_enter, hcls, bind, Except.bind]
  simp only [bracket_locals] at h
  rw [h]
  simp only [tc_variant_return, hl, Bool.false_eq_true, if_false]

/-- What a run of the loop inside brackets leaves, against the reading of the
same list: as many cells as types were written, holding them in order. -/
theorem bracket_read (n : Nat) (parser : lily_parse_state) (cls : Nat)
    (flags : cv_flags) (hv : flags.CV_VARIANT_FUNC = false) (hcls : cls ≠ SYM_CLASS_FUNCTION)
    (hs : parser.type_stack_size < 65536) (l : tc_locals) (p2 : lily_parse_state)
    (h : tc_loop n parser.type_stack_pos tk_right_bracket (bracket_locals flags) parser
      = .ok (l, p2)) :
    ∃ log, declared_types (n + 1) parser cls flags = .ok log ∧
      (∀ x ∈ log, x.1 = false) ∧
      l.i = log.length ∧ l.type_flags = 0 ∧
      p2.type_stack_pos = parser.type_stack_pos + log.length ∧
      (List.range log.length).map (fun j => p2.type_stack (parser.type_stack_pos + j))
        = log.map Prod.snd ∧
      (log ≠ [] → p2.type_stack_pos ≤ p2.type_stack_size) ∧
      SameClasses parser p2 := by
  have hv0 : (bracket_locals flags).flags.CV_VARIANT_FUNC = false := by
    simp [bracket_locals, tc_enter_flags_variant, hv]
  obtain ⟨log, hl, b1, b2, b3, _, b5, b6, _, b8, _, _⟩ :=
    tc_loop_bracket n _ _ _ _ _ h hv0 rfl hs
  refine ⟨log, ?_, b1, ?_, ?_, b5, ?_, b8, ((classes_all n).1 _ _ _ _ _ _ h hv0).1⟩
  · rw [declared_types_bracket n parser cls flags hv hcls]
    exact hl
  · simpa [bracket_locals] using b2
  · simpa [bracket_locals] using b3
  · have := cells_list (fun j => p2.type_stack (parser.type_stack_pos + j)) (log.map Prod.snd)
      (by simpa using b6)
    simpa using this

/-- Where the reading of a bracketed list returns, the loop returns with what
the reading says. -/
theorem bracket_run (n : Nat) (parser : lily_parse_state) (cls : Nat)
    (flags : cv_flags) (hv : flags.CV_VARIANT_FUNC = false) (hcls : cls ≠ SYM_CLASS_FUNCTION)
    (hs : parser.type_stack_size < 65536) (log : List (Bool × Option lily_type))
    (hd : declared_types (n + 1) parser cls flags = .ok log) :
    ∃ l p2, tc_loop n parser.type_stack_pos tk_right_bracket (bracket_locals flags) parser
        = .ok (l, p2) ∧
      (∀ x ∈ log, x.1 = false) ∧
      l.i = log.length ∧ l.type_flags = 0 ∧
      p2.type_stack_pos = parser.type_stack_pos + log.length ∧
      (List.range log.length).map (fun j => p2.type_stack (parser.type_stack_pos + j))
        = log.map Prod.snd ∧
      (log ≠ [] → p2.type_stack_pos ≤ p2.type_stack_size) ∧
      SameClasses parser p2 := by
  have hd' := hd
  rw [declared_types_bracket n parser cls flags hv hcls] at hd'
  obtain ⟨l, p2, h⟩ := tc_collected_loop n _ _ _ _ _ hd'
  obtain ⟨log2, h1, h2⟩ := bracket_read n parser cls flags hv hcls hs l p2 h
  rw [hd] at h1
  simp only [Except.ok.injEq] at h1
  subst h1
  exact ⟨l, p2, h, h2⟩

theorem build_bracket_type (cls : Nat) (l : tc_locals) (p2 : lily_parse_state) (start : Nat)
    (log : List (Bool × Option lily_type)) (h1 : l.i = log.length) (h2 : l.type_flags = 0)
    (h3 : (List.range log.length).map (fun j => p2.type_stack (start + j)) = log.map Prod.snd) :
    lily_build_ensure_type cls l.type_flags p2.type_stack start l.i =
      lily_type.mk cls (log.map Prod.snd) 0 0 := by
  simp only [lily_build_ensure_type, h1, h2, h3]

theorem stack_check_bracket (p2 : lily_parse_state) (start : Nat)
    (log : List (Bool × Option lily_type)) (h4 : p2.type_stack_pos = start + log.length)
    (h5 : log ≠ [] → p2.type_stack_pos ≤ p2.type_stack_size) :
    stack_check_range p2 start log.length = .ok () := by
  unfold stack_check_range
  by_cases hl : log = []
  · subst hl
    simp
  · have := h5 hl
    rw [if_pos (Or.inr (by omega))]

/-- The arity check of inner_type_collector after a bracketed list, on the
count of types written. -/
theorem arity_check_bracket (p2 : lily_parse_state) (start count : Nat) (tc : Int)
    (h4 : p2.type_stack_pos = start + count) :
    raise_if (((p2.type_stack_pos : Int) - (start : Int) ≠ tc) ∧ tc ≠ -1) =
      if (count : Int) ≠ tc ∧ tc ≠ -1 then .error (.raised .lily_SyntaxError) else .ok () := by
  have : ((p2.type_stack_pos : Int) - (start : Int)) = (count : Int) := by
    rw [h4]; push_cast; ring
  rw [this]
  rfl

theorem bracket_arity (fuel : Nat) (parser : lily_parse_state) (cls : Nat) (flags : cv_flags)
    (c : lily_class) (hv : flags.CV_VARIANT_FUNC = false) (hcls : cls ≠ SYM_CLASS_FUNCTION)
    (hs : parser.type_stack_size < 65536) (hc : class_deref parser.symtab cls = .ok c) :
    (∀ t parser', inner_type_collector fuel parser cls flags = .ok (t, parser') →
      ∃ log, declared_types fuel parser cls flags = .ok log ∧
        t = lily_type.mk cls (log.map Prod.snd) 0 0 ∧
        (c.template_count ≠ -1 → (log.length : Int) = c.template_count)) ∧
    (∀ log, declared_types fuel parser cls flags = .ok log →
      c.template_count ≠ -1 → (log.length : Int) ≠ c.template_count →
      inner_type_collector fuel parser cls flags = .error (.raised .lily_SyntaxError)) ∧
    (∀ log, declared_types fuel parser cls flags = .ok log →
      c.template_count = -1 ∨ (log.length : Int) = c.template_count → cls ≠ SYM_CLASS_HASH →
      ∃ parser', inner_type_collector fuel parser cls flags =
        .ok (lily_type.mk cls (log.map Prod.snd) 0 0, parser')) := by
  cases fuel with
  | zero =>
    refine ⟨fun t parser' h => ?_, fun log h => ?_, fun log h => ?_⟩
    · simp [inner_type_collector] at h
    · simp [declared_types] at h
    · simp [declared_types] at h
  | succ n =>
    refine ⟨fun t parser' h => ?_, fun log hd h1 h2 => ?_, fun log hd h1 h2 => ?_⟩
    · cases hloop : tc_loop n parser.type_stack_pos tk_right_bracket (bracket_locals flags)
          parser with
      | error e => rw [itc_bracket_error n parser cls flags hv hcls e hloop] at h; simp at h
      | ok r =>
        obtain ⟨l, p2⟩ := r
        obtain ⟨log, hd, _, a1, a2, a3, a4, a5, a6⟩ :=
          bracket_read n parser cls flags hv hcls hs l p2 hloop
        rw [itc_bracket_ok n parser cls flags hv hcls l p2 hloop] at h
        simp only [bind_ok_iff, pure_ok_iff, Prod.mk.injEq] at h
        obtain ⟨c', hc', _, hr, _, _, _, _, rfl, _⟩ := h
        obtain ⟨c0, hc0, _, _, e3⟩ := a6.class_kept_back cls c' hc'
        rw [hc] at hc0
        simp only [Except.ok.injEq] at hc0
        subst hc0
        refine ⟨log, hd, build_bracket_type cls l p2 _ log a1 a2 a4, fun hne => ?_⟩
        rw [arity_check_bracket p2 _ log.length _ a3, e3] at hr
        by_contra hcon
        rw [if_pos ⟨hcon, hne⟩] at hr
        simp at hr
    · obtain ⟨l, p2, hloop, _, a1, a2, a3, a4, a5, a6⟩ :=
        bracket_run n parser cls flags hv hcls hs log hd
      obtain ⟨c', hc', _, _, e3⟩ := a6.class_kept cls c hc
      rw [itc_bracket_ok n parser cls flags hv hcls l p2 hloop, hc']
      simp only [bind, Except.bind]
      rw [arity_check_bracket p2 _ log.length _ a3, e3, if_pos ⟨h2, h1⟩]
    · obtain ⟨l, p2, hloop, _, a1, a2, a3, a4, a5, a6⟩ :=
        bracket_run n parser cls flags hv hcls hs log hd
      obtain ⟨c', hc', _, _, e3⟩ := a6.class_kept cls c hc
      rw [itc_bracket_ok n parser cls flags hv hcls l p2 hloop, hc']
      simp only [bind, Except.bind]
      have hno : ¬ ((log.length : Int) ≠ c.template_count ∧ c.template_count ≠ -1) := by
        rintro ⟨x1, x2⟩
        rcases h1 with h1 | h1
        · exact x2 h1
        · exact x1 h1
      rw [arity_check_bracket p2 _ log.length _ a3, e3, if_neg hno]
      simp only [check_hash_key, h2, if_false]
      rw [a1, stack_check_bracket p2 _ log a3 a5]
      simp only [pure, Except.pure]
      rw [← a1, build_bracket_type cls l p2 _ log a1 a2 a4]
      exact ⟨_, rfl⟩

theorem two_types (log : List (Bool × Option lily_type)) (h1 : ∀ x ∈ log, x.1 = false)
    (h2 : log.length = 2) :
    ∃ K V, log = [(false, K), (false, V)] := by
  match log, h1, h2 with
  | [(a, K), (b, V)], h1, _ =>
    have e1 : a = false := h1 (a, K) (by simp)
    have e2 : b = false := h1 (b, V) (by simp)
    subst e1 e2
    exact ⟨K, V, rfl⟩

theorem check_hash_key_eq (p2 : lily_parse_state) (start : Nat) (K : lily_type)
    (kc : lily_class) (h1 : start < p2.type_stack_size) (h2 : p2.type_stack start = some K)
    (h3 : class_deref p2.symtab K.cls = .ok kc) :
    check_hash_key p2 SYM_CLASS_HASH start =
      if (kc.flags &&& CLS_VALID_HASH_KEY) = 0 then .error (.raised .lily_SyntaxError)
      else .ok () := by
  simp [check_hash_key, stack_read, h1, h2, deref, h3, raise_if, raise_syntax, bind,
    Except.bind]

theorem hash_key_checked (fuel : Nat) (parser : lily_parse_state) (flags : cv_flags)
    (c : lily_class) (hv : flags.CV_VARIANT_FUNC = false)
    (hs : parser.type_stack_size < 65536)
    (hc : class_deref parser.symtab SYM_CLASS_HASH = .ok c) (h2 : c.template_count = 2) :
    (∀ t parser', inner_type_collector fuel parser SYM_CLASS_HASH flags = .ok (t, parser') →
      ∃ K V kc, declared_types fuel parser SYM_CLASS_HASH flags
          = .ok [(false, some K), (false, V)] ∧
        class_deref parser.symtab K.cls = .ok kc ∧
        (kc.flags &&& CLS_VALID_HASH_KEY) ≠ 0 ∧
        t = lily_type.mk SYM_CLASS_HASH [some K, V] 0 0) ∧
    (∀ K V kc, declared_types fuel parser SYM_CLASS_HASH flags
        = .ok [(false, some K), (false, V)] →
      class_deref parser.symtab K.cls = .ok kc →
      ((kc.flags &&& CLS_VALID_HASH_KEY) = 0 →
        inner_type_collector fuel parser SYM_CLASS_HASH flags
          = .error (.raised .lily_SyntaxError)) ∧
      ((kc.flags &&& CLS_VALID_HASH_KEY) ≠ 0 →
        ∃ parser', inner_type_collector fuel parser SYM_CLASS_HASH flags
          = .ok (lily_type.mk SYM_CLASS_HASH [some K, V] 0 0, parser'))) := by
  have hcls : SYM_CLASS_HASH ≠ SYM_CLASS_FUNCTION := by decide
  cases fuel with
  | zero =>
    refine ⟨fun t parser' h => ?_, fun K V kc h => ?_⟩
    · simp [inner_type_collector] at h
    · simp [declared_types] at h
  | succ n =>
    refine ⟨fun t parser' h => ?_, fun K V kc hd hk => ?_⟩
    · cases hloop : tc_loop n parser.type_stack_pos tk_right_bracket (bracket_locals flags)
          parser with
      | error e =>
        rw [itc_bracket_error n parser _ flags hv hcls e hloop] at h; simp at h
      | ok r =>
        obtain ⟨l, p2⟩ := r
        obtain ⟨log, hd, a0, a1, a2, a3, a4, a5, a6⟩ :=
          bracket_read n parser _ flags hv hcls hs l p2 hloop
        rw [itc_bracket_ok n parser _ flags hv hcls l p2 hloop] at h
        simp only [bind_ok_iff, pure_ok_iff, Prod.mk.injEq] at h
        obtain ⟨c', hc', _, hr, _, hk, _, _, rfl, _⟩ := h
        obtain ⟨c0, hc0, _, _, e3⟩ := a6.class_kept_back _ c' hc'
        rw [hc] at hc0
        simp only [Except.ok.injEq] at hc0
        subst hc0
        rw [arity_check_bracket p2 _ log.length _ a3, e3, h2] at hr
        have hlen : log.length = 2 := by
          by_contra hcon
          rw [if_pos ⟨by exact_mod_cast hcon, by decide⟩] at hr
          simp at hr
        obtain ⟨K0, V, rfl⟩ := two_types log a0 hlen
        have hcell : p2.type_stack parser.type_stack_pos = K0 := by
          have := congrArg (fun L => L.head?) a4
          simpa [List.range_succ_eq_map] using this
        simp only [check_hash_key, if_true, bind_ok_iff] at hk
        obtain ⟨cell, hread, K, hderef, kc', hkc, hflag⟩ := hk
        have hcell2 : cell = K0 := by
          unfold stack_read at hread
          split at hread
          · simp only [Except.ok.injEq] at hread
            rw [← hread, hcell]
          · simp at hread
        subst hcell2
        have hK : cell = some K := by
          cases cell with
          | none => simp [deref] at hderef
          | some k => simp only [deref, Except.ok.injEq] at hderef; rw [hderef]
        subst hK
        obtain ⟨kc, hkc0, _, e2, _⟩ := a6.class_kept_back _ kc' hkc
        refine ⟨K, V, kc, hd, hkc0, ?_, ?_⟩
        · rw [← e2]
          intro hz
          simp [raise_if, hz, raise_syntax] at hflag
        · exact build_bracket_type _ l p2 _ _ a1 a2 a4
    · obtain ⟨l, p2, hloop, _, a1, a2, a3, a4, a5, a6⟩ :=
        bracket_run n parser _ flags hv hcls hs _ hd
      obtain ⟨c', hc', _, _, e3⟩ := a6.class_kept _ c hc
      obtain ⟨kc', hkc', _, e2, _⟩ := a6.class_kept _ kc hk
      have hcell : p2.type_stack parser.type_stack_pos = some K := by
        have := congrArg (fun L => L.head?) a4
        simpa [List.range_succ_eq_map] using this
      have hlt : parser.type_stack_pos < p2.type_stack_size := by
        have := a5 (by simp)
        simp only [List.length_cons, List.length_nil] at a3
        omega
      have hno : ¬ ((([(false, some K), (false, V)] : List (Bool × Option lily_type)).length
          : Int) ≠ c.template_count ∧ c.template_count ≠ -1) := by
        rw [h2]; simp
      rw [itc_bracket_ok n parser _ flags hv hcls l p2 hloop, hc']
      simp only [bind, Except.bind]
      rw [arity_check_bracket p2 _ _ _ a3, e3, if_neg hno]
      simp only
      rw [check_hash_key_eq p2 _ K kc' hlt hcell hkc', e2]
      refine ⟨fun hz => ?_, fun hnz => ?_⟩
      · rw [if_pos hz]
      · rw [if_neg hnz]
        simp only
        rw [a1, stack_check_bracket p2 _ _ a3 a5]
        simp only [pure, Except.pure]
        rw [← a1, build_bracket_type _ l p2 _ _ a1 a2 a4]
        exact ⟨_, rfl⟩

theorem comma_arrow_cases (parser : lily_parse_state) (state : Nat)
    (tree : lily_ast) (outer : List lily_ast)
    (hactive : parser.ast_pool.active = true)
    (hsaved : parser.ast_pool.saved = tree :: outer) :
    (parser.lex.token = tk_arrow → tree.tree_type = tree_list → tree.args_collected = 0 →
      expression_comma_arrow parser state =
        .ok (after_separator parser tree_hash 0 outer, ST_DEMAND_VALUE)) ∧
    (parser.lex.token = tk_arrow → tree.tree_type = tree_list → tree.args_collected ≠ 0 →
      expression_comma_arrow parser state = .error (.raised .lily_SyntaxError)) ∧
    (parser.lex.token = tk_arrow → tree.tree_type = tree_hash →
      (tree.args_collected % 2 = 0 →
        expression_comma_arrow parser state =
          .ok (after_separator parser tree_hash tree.args_collected outer, ST_DEMAND_VALUE)) ∧
      (tree.args_collected % 2 = 1 →
        expression_comma_arrow parser state = .error (.raised .lily_SyntaxError))) ∧
    (parser.lex.token = tk_comma → tree.tree_type = tree_hash →
      (tree.args_collected % 2 = 1 →
        expression_comma_arrow parser state =
          .ok (after_separator parser tree_hash tree.args_collected outer, ST_DEMAND_VALUE)) ∧
      (tree.args_collected % 2 = 0 →
        expression_comma_arrow parser state = .error (.raised .lily_SyntaxError))) := by
  have hget : lily_ast_get_saved_tree parser.ast_pool = some tree := by
    simp [lily_ast_get_saved_tree, hsaved]
  refine ⟨fun h1 h2 h3 => ?_, fun h1 h2 h3 => ?_, fun h1 h2 => ⟨fun h3 => ?_, fun h3 => ?_⟩,
    fun h1 h2 => ⟨fun h3 => ?_, fun h3 => ?_⟩⟩
  · simp [expression_comma_arrow, raise_if, hactive, hget, deref, h1, h2, h3, bind, Except.bind,
      pure, Except.pure, set_saved_tree_type, hsaved, lily_ast_collect_arg, after_separator]
  · simp [expression_comma_arrow, raise_if, hactive, hget, deref, h1, h2, h3, bind, Except.bind,
      pure, Except.pure, raise_syntax]
  · have h4 : ¬ tree.args_collected % 2 = 1 := by omega
    cases tree with
    | mk tt args =>
      simp only at h2 h3 h4
      subst h2
      simp [expression_comma_arrow, raise_if, hactive, hget, deref, h1, h3, bind,
        Except.bind, pure, Except.pure, hsaved, lily_ast_collect_arg, after_separator]
  · simp [expression_comma_arrow, raise_if, hactive, hget, deref, h1, h2, h3, bind, Except.bind,
      pure, Except.pure, raise_syntax]
  · have h4 : ¬ tree.args_collected % 2 = 0 := by omega
    cases tree with
    | mk tt args =>
      simp only at h2 h3 h4
      subst h2
      simp [expression_comma_arrow, raise_if, hactive, hget, deref, h1, h4, bind,
        Except.bind, pure, Except.pure, hsaved, lily_ast_collect_arg, after_separator]
  · simp [expression_comma_arrow, raise_if, hactive, hget, deref, h1, h2, h3, bind, Except.bind,
      pure, Except.pure, raise_syntax]

theorem parse_decl_pass (fuel : Nat) (parser parser1 : lily_parse_state)
    (type : Option lily_type) (var : Option Nat) (v : Nat) (block : lily_block)
    (hblock : current_block parser = .ok block)
    (hcls : (block.block_type &&& BLOCK_CLASS) = 0)
    (htok : parser.lex.token = tk_word)
    (hname : get_named_var parser type SYM_NOT_INITIALIZED = .ok (v, parser1)) :
    (parser1.lex.token ≠ tk_equal →
      parse_decl_loop (fuel + 1) parser type var = .error (.raised .lily_SyntaxError)) ∧
    (parser1.lex.token = tk_equal →
      (∀ e, expression fuel (at_decl_value parser1 (some v)) = .error e →
        parse_decl_loop (fuel + 1) parser type var = .error e) ∧
      (∀ parser2, expression fuel (at_decl_value parser1 (some v)) = .ok parser2 →
        (type = none ∨ ends_decl parser2.lex.token →
          parse_decl_loop (fuel + 1) parser type var = .ok (lily_emit_eval_expr parser2)) ∧
        (type ≠ none → parser2.lex.token = tk_comma →
          parse_decl_loop (fuel + 1) parser type var =
            parse_decl_loop fuel (next_token (lily_emit_eval_expr parser2)) type (some v)) ∧
        (type ≠ none → ¬ ends_decl parser2.lex.token → parser2.lex.token ≠ tk_comma →
          parse_decl_loop (fuel + 1) parser type var =
            .error (.raised .lily_SyntaxError)))) := by
  refine ⟨fun h => ?_, fun h => ⟨fun e he => ?_, fun parser2 he => ⟨fun h2 => ?_, fun h2 h3 => ?_,
    fun h2 h3 h4 => ?_⟩⟩⟩
  · simp [parse_decl_loop, hblock, hcls, htok, hname, h, raise_if, NEED_CURRENT_TOK, bind,
      Except.bind, pure, Except.pure, raise_syntax]
  · have he' := he
    simp only [at_decl_value] at he'
    simp [parse_decl_loop, hblock, hcls, htok, hname, h, raise_if, NEED_CURRENT_TOK, bind,
      Except.bind, pure, Except.pure, raise_syntax, he']
  · have he' := he
    simp only [at_decl_value] at he'
    have htk : (lily_emit_eval_expr parser2).lex.token = parser2.lex.token := rfl
    simp only [ends_decl] at h2
    simp [parse_decl_loop, hblock, hcls, htok, hname, h, raise_if, NEED_CURRENT_TOK, bind,
      Except.bind, pure, Except.pure, raise_syntax, he', htk]
    intros
    exfalso
    tauto
  · have he' := he
    simp only [at_decl_value] at he'
    have htk : (lily_emit_eval_expr parser2).lex.token = parser2.lex.token := rfl
    have hty : type.isNone = false := by cases type <;> simp_all
    simp [parse_decl_loop, hblock, hcls, htok, hname, h, raise_if, NEED_CURRENT_TOK, bind,
      Except.bind, pure, Except.pure, raise_syntax, he', htk, h3, hty]
  · have he' := he
    simp only [at_decl_value] at he'
    have htk : (lily_emit_eval_expr parser2).lex.token = parser2.lex.token := rfl
    have hty : type.isNone = false := by cases type <;> simp_all
    simp only [ends_decl, not_or] at h3
    simp [parse_decl_loop, hblock, hcls, htok, hname, h, raise_if, NEED_CURRENT_TOK, bind,
      Except.bind, pure, Except.pure, raise_syntax, he', htk, h3, h4, hty]

theorem method_name_check_taken (parser : lily_parse_state) (flags : Nat)
    (h : method_name_taken parser flags) :
    method_name_check parser flags = .error (.raised .lily_SyntaxError) := by
  obtain ⟨h1, h2, t, h3, h4⟩ := h
  unfold method_name_check
  rw [if_pos ⟨h1, h2⟩]
  simp [h3, deref, raise_if, h4, raise_syntax, bind, Except.bind]

theorem method_name_check_free (parser : lily_parse_state) (flags : Nat)
    (h : method_name_free parser flags) : method_name_check parser flags = .ok () := by
  unfold method_name_check
  by_cases hg : (flags &&& VAR_IS_READONLY) ≠ 0 ∧ parser.class_depth ≠ 0
  · rw [if_pos hg]
    rcases h with h | h | ⟨t, h3, h4⟩
    · exact absurd h hg.1
    · exact absurd h hg.2
    · have h5 : (lily_find_property parser.symtab (parser.symtab.classes.length + 1) t.cls
          parser.lex.label).isSome = false := by
        cases hp : lily_find_property parser.symtab (parser.symtab.classes.length + 1) t.cls
          parser.lex.label with
        | none => rfl
        | some e => rw [hp] at h4; simp at h4
      simp [h3, deref, raise_if, h5, bind, Except.bind]
  · rw [if_neg hg]

theorem need_next_tok_eq (parser : lily_parse_state) (e : lily_token) :
    NEED_NEXT_TOK parser e =
      if (next_token parser).lex.token ≠ e then .error (.raised .lily_SyntaxError)
      else .ok (next_token parser) := by
  simp [NEED_NEXT_TOK, next_token, raise_syntax]

theorem enum_handler_after_header (fuel : Nat) (parser first : lily_parse_state) (multi : Nat)
    (enum_class save_generics : Nat) (result_type : Option lily_type)
    (hh : enum_header fuel parser = .ok (enum_class, result_type, save_generics, first)) :
    enum_handler fuel parser multi =
      (do
        let (count, last) ← enum_variants fuel first enum_class
          (decide (first.lex.token = tk_colon_colon)) 0
        raise_if (count < 2)
        pure (enum_finished last enum_class (decide (first.lex.token = tk_colon_colon))
          result_type save_generics)) := by
  unfold enum_header at hh
  unfold enum_handler
  simp only [bind, Except.bind, pure, Except.pure] at hh ⊢
  repeat' split at hh
  all_goals first
    | (simp at hh; done)
    | (simp only [Except.ok.injEq, Prod.mk.injEq] at hh
       obtain ⟨rfl, rfl, rfl, rfl⟩ := hh
       simp only [*, enum_finished]
       try rfl)

theorem enum_variants_step (k : Nat) (parser after : lily_parse_state) (enum_class : Nat)
    (is_scoped : Bool) (n : Nat)
    (hq : enum_variant_pass k parser enum_class is_scoped = .ok after) :
    enum_variants (k + 1) parser enum_class is_scoped n =
      if after.lex.token = tk_comma then
        enum_variants k (next_token after) enum_class is_scoped (n + 1)
      else if after.lex.token = tk_right_curly then .ok (n + 1, after)
      else enum_variants k after enum_class is_scoped (n + 1) := by
  unfold enum_variant_pass at hq
  conv_lhs => rw [enum_variants]
  cases is_scoped
  all_goals
    simp only [bind, Except.bind, pure, Except.pure, Bool.false_eq_true, if_true, if_false]
      at hq ⊢
    repeat' split at hq
  all_goals first
    | (simp at hq; done)
    | (simp only [Except.ok.injEq] at hq
       subst hq
       simp only [*, if_true, if_false]
       try rfl)

theorem enum_variants_step_error (k : Nat) (parser : lily_parse_state) (enum_class : Nat)
    (is_scoped : Bool) (n : Nat) (e : Stop)
    (hq : enum_variant_pass k parser enum_class is_scoped = .error e) :
    enum_variants (k + 1) parser enum_class is_scoped n = .error e := by
  unfold enum_variant_pass at hq
  conv_lhs => rw [enum_variants]
  cases is_scoped
  all_goals
    simp only [bind, Except.bind, pure, Except.pure, Bool.false_eq_true, if_true, if_false]
      at hq ⊢
    repeat' split at hq
  all_goals first
    | (simp at hq; done)
    | (simp only [Except.error.injEq] at hq
       subst hq
       simp only [*, if_true, if_false]
       try rfl)

/-- A pass of the loop of enum_handler begins on `::` in a scoped enum and on a
word in an unscoped one. -/
theorem enum_variant_pass_mark (k : Nat) (parser after : lily_parse_state) (enum_class : Nat)
    (is_scoped : Bool) (hq : enum_variant_pass k parser enum_class is_scoped = .ok after) :
    (is_scoped = true → parser.lex.token = tk_colon_colon) ∧
    (is_scoped = false → parser.lex.token = tk_word) := by
  unfold enum_variant_pass at hq
  cases is_scoped
  · simp only [Bool.false_eq_true, if_false, bind, Except.bind, pure, Except.pure] at hq
    refine ⟨fun h => by simp at h, fun _ => ?_⟩
    split at hq
    · simp at hq
    · rename_i u hn
      exact need_current_tok_ok hn
  · simp only [if_true, bind, Except.bind, pure, Except.pure] at hq
    refine ⟨fun _ => ?_, fun h => by simp at h⟩
    split at hq
    · simp at hq
    · rename_i u hn
      exact need_current_tok_ok hn

/-- The loop of enum_handler against its reading: the count grows by the number
of variants read, at least one, and every pass began on `::` in a scoped enum
and on no `::` in an unscoped one. -/
theorem variants_counted (fuel : Nat) :
    ∀ (parser last : lily_parse_state) (enum_class : Nat) (is_scoped : Bool) (n m : Nat),
      enum_variants fuel parser enum_class is_scoped n = .ok (m, last) →
      ∃ log, variants_read fuel parser enum_class is_scoped = .ok log ∧
        m = n + log.length ∧ log ≠ [] ∧ ∀ x ∈ log, x.1 = is_scoped := by
  induction fuel with
  | zero => intro parser last e sc n m h; simp [enum_variants] at h
  | succ k ih =>
    intro parser last e sc n m h
    cases hq : enum_variant_pass k parser e sc with
    | error err => rw [enum_variants_step_error k parser e sc n err hq] at h; simp at h
    | ok after =>
      rw [enum_variants_step k parser after e sc n hq] at h
      have hmark : decide (parser.lex.token = tk_colon_colon) = sc := by
        have := enum_variant_pass_mark k parser after e sc hq
        cases sc with
        | true => simp [this.1 rfl]
        | false => simp [this.2 rfl]
      rw [variants_read, hq]
      simp only
      split at h
      · rename_i hc
        rw [if_pos hc]
        obtain ⟨log, hl, hm, _, hx⟩ := ih _ _ _ _ _ _ h
        rw [hl]
        refine ⟨_, rfl, by simp only [List.length_cons]; omega, List.cons_ne_nil _ _, ?_⟩
        intro x hx'
        rcases List.mem_cons.mp hx' with rfl | hx'
        · exact hmark
        · exact hx x hx'
      · rename_i hc
        rw [if_neg hc]
        split at h
        · rename_i hr
          rw [if_pos hr]
          simp only [Except.ok.injEq, Prod.mk.injEq] at h
          obtain ⟨rfl, rfl⟩ := h
          refine ⟨_, rfl, rfl, List.cons_ne_nil _ _, ?_⟩
          intro x hx'
          rw [List.mem_singleton.mp hx']
          exact hmark
        · rename_i hr
          rw [if_neg hr]
          obtain ⟨log, hl, hm, _, hx⟩ := ih _ _ _ _ _ _ h
          rw [hl]
          refine ⟨_, rfl, by simp only [List.length_cons]; omega, List.cons_ne_nil _ _, ?_⟩
          intro x hx'
          rcases List.mem_cons.mp hx' with rfl | hx'
          · exact hmark
          · exact hx x hx'

theorem enum_variant_pass_refuses (k : Nat) (parser : lily_parse_state) (enum_class : Nat) :
    (parser.lex.token ≠ tk_colon_colon →
      enum_variant_pass k parser enum_class true = .error (.raised .lily_SyntaxError)) ∧
    (parser.lex.token = tk_colon_colon →
      enum_variant_pass k parser enum_class false = .error (.raised .lily_SyntaxError)) := by
  refine ⟨fun h => ?_, fun h => ?_⟩
  · simp [enum_variant_pass, NEED_CURRENT_TOK, h, bind, Except.bind, raise_syntax]
  · simp [enum_variant_pass, NEED_CURRENT_TOK, h, bind, Except.bind, raise_syntax, pure,
      Except.pure]

theorem c_bytes_ascii (cs : List Char) (h : ∀ c ∈ cs, 0 < c.toNat ∧ c.toNat < 128) :
    cs.flatMap (fun c => (String.utf8EncodeChar c).map UInt8.toNat) = cs.map Char.toNat := by
  induction cs with
  | nil => rfl
  | cons c cs ih =>
    have hc := h c (List.mem_cons_self _ _)
    have ih' := ih (fun d hd => h d (List.mem_cons_of_mem _ hd))
    simp only [List.flatMap_cons, List.map_cons, ih']
    have hv : c.val ≤ 127 := by
      have : c.val.toNat < 128 := hc.2
      exact Nat.le_of_lt_succ this
    have henc : String.utf8EncodeChar c = [c.val.toUInt8] := by
      simp [String.utf8EncodeChar, hv]
    rw [henc]
    have : c.val.toUInt8.toNat = c.toNat := by
      show c.val.toNat % 256 = c.val.toNat
      have : c.val.toNat < 128 := hc.2
      omega
    simp [this]

theorem pack_le_lt (bs : List Nat) (h : ∀ b ∈ bs, b < 256) : pack_le bs < 256 ^ bs.length := by
  induction bs with
  | nil => simp [pack_le]
  | cons b bs ih =>
    have hb := h b (List.mem_cons_self _ _)
    have := ih (fun d hd => h d (List.mem_cons_of_mem _ hd))
    simp only [pack_le, List.length_cons, pow_succ]
    omega

theorem byte_at_pack_le (bs : List Nat) (h : ∀ b ∈ bs, b < 256) (i : Nat) :
    byte_at (pack_le bs) i = bs.getD i 0 := by
  induction bs generalizing i with
  | nil => simp [pack_le, byte_at]
  | cons b bs ih =>
    have hb := h b (List.mem_cons_self _ _)
    have ih' := ih (fun d hd => h d (List.mem_cons_of_mem _ hd))
    cases i with
    | zero => simp [pack_le, byte_at]; omega
    | succ i =>
      have := ih' i
      simp only [byte_at, pack_le, List.getD_cons_succ, pow_succ] at this ⊢
      rw [← this, mul_comm (256 ^ i) 256, ← Nat.div_div_eq_div_mul]
      congr 2
      omega

theorem pack_le_injective (bs cs : List Nat) (hb : ∀ b ∈ bs, 0 < b ∧ b < 256)
    (hc : ∀ c ∈ cs, 0 < c ∧ c < 256) (h : pack_le bs = pack_le cs) : bs = cs := by
  induction bs generalizing cs with
  | nil =>
    cases cs with
    | nil => rfl
    | cons c cs =>
      have := hc c (List.mem_cons_self _ _)
      simp only [pack_le] at h
      omega
  | cons b bs ih =>
    have h1 := hb b (List.mem_cons_self _ _)
    cases cs with
    | nil =>
      simp only [pack_le] at h
      omega
    | cons c cs =>
      have h2 := hc c (List.mem_cons_self _ _)
      simp only [pack_le] at h
      have e1 : b = c := by omega
      have e2 : pack_le bs = pack_le cs := by omega
      rw [e1, ih cs (fun d hd => hb d (List.mem_cons_of_mem _ hd))
        (fun d hd => hc d (List.mem_cons_of_mem _ hd)) e2]

theorem shorthash_loop_ascii (bs : List Nat) (i ret : Nat)
    (h : ∀ b ∈ bs, 0 < b ∧ b < 128) (hi : i ≤ 8) (hret : ret < 256 ^ i) :
    shorthash_loop bs i (8 * i) ret = ret + 256 ^ i * pack_le (bs.take (8 - i)) := by
  induction bs generalizing i ret with
  | nil => simp [shorthash_loop, pack_le]
  | cons b bs ih =>
    have hb := h b (List.mem_cons_self _ _)
    have ih' := fun i ret => ih i ret (fun d hd => h d (List.mem_cons_of_mem _ hd))
    by_cases h8 : i = 8
    · subst h8
      simp [shorthash_loop, pack_le]
    · have hlt : i < 8 := by omega
      have hb0 : ¬ b = 0 := by omega
      have hsh : (uint64_of_char b <<< (8 * i)) % 2 ^ 64 = 256 ^ i * b := by
        have h256 : (2 : Nat) ^ (8 * i) = 256 ^ i := by rw [pow_mul]; norm_num
        have hle : 256 ^ i ≤ 256 ^ 7 := Nat.pow_le_pow_right (by decide) (by omega)
        have hlt2 : 256 ^ i * b < 2 ^ 64 := by
          calc 256 ^ i * b ≤ 256 ^ 7 * b := Nat.mul_le_mul_right _ hle
            _ < 256 ^ 7 * 256 := by
              have := hb.2
              omega
            _ = 2 ^ 64 := by norm_num
        simp only [uint64_of_char, hb.2, if_true, Nat.shiftLeft_eq, h256]
        rw [mul_comm, Nat.mod_eq_of_lt hlt2]
      have hor : ret ||| 256 ^ i * b = ret + 256 ^ i * b := by
        have h256 : (256 : Nat) ^ i = 2 ^ (8 * i) := by rw [pow_mul]; norm_num
        rw [h256] at hret ⊢
        rw [Nat.lor_comm, ← Nat.mul_add_lt_is_or hret b, add_comm]
      have hstep : 8 * i + 8 = 8 * (i + 1) := by ring
      have hret' : ret + 256 ^ i * b < 256 ^ (i + 1) := by
        rw [pow_succ]
        have : 256 ^ i * b ≤ 256 ^ i * 255 := Nat.mul_le_mul_left _ (by omega)
        omega
      have htake : 8 - i = (8 - (i + 1)) + 1 := by omega
      rw [shorthash_loop]
      simp only [hb0, h8, or_self, if_false, hsh, hor, hstep]
      rw [ih' (i + 1) _ (by omega) hret', htake, List.take_succ_cons, pack_le, pow_succ]
      ring

theorem c_bytes_of_ascii (name : String) (h : ascii_name name) :
    c_bytes name = name.toList.map Char.toNat :=
  c_bytes_ascii name.toList h

theorem c_bytes_bounds (name : String) (h : ascii_name name) :
    ∀ b ∈ c_bytes name, 0 < b ∧ b < 128 := by
  intro b hb
  rw [c_bytes_of_ascii name h, List.mem_map] at hb
  obtain ⟨c, hc, rfl⟩ := hb
  exact h c hc

theorem shorthash_ascii (name : String) (h : ascii_name name) :
    shorthash_for_name name = pack_le ((c_bytes name).take 8) := by
  have := shorthash_loop_ascii (c_bytes name) 0 0 (c_bytes_bounds name h) (by omega) (by simp)
  simpa [shorthash_for_name] using this

theorem shorthash_ascii_bytes (name : String) (h : ascii_name name) :
    shorthash_for_name name < 2 ^ 64 ∧
    ∀ i, byte_at (shorthash_for_name name) i =
      if i < min (c_bytes name).length 8 then (c_bytes name).getD i 0 else 0 := by
  have hb : ∀ b ∈ (c_bytes name).take 8, b < 256 := fun b hb =>
    lt_trans (c_bytes_bounds name h b (List.mem_of_mem_take hb)).2 (by decide)
  rw [shorthash_ascii name h]
  refine ⟨?_, fun i => ?_⟩
  · have h1 := pack_le_lt _ hb
    have h2 : ((c_bytes name).take 8).length ≤ 8 := by simp
    calc pack_le ((c_bytes name).take 8) < 256 ^ ((c_bytes name).take 8).length := h1
      _ ≤ 256 ^ 8 := Nat.pow_le_pow_right (by decide) h2
      _ = 2 ^ 64 := by norm_num
  · rw [byte_at_pack_le _ hb]
    by_cases hi : i < min (c_bytes name).length 8
    · rw [if_pos hi]
      have h1 : i < ((c_bytes name).take 8).length := by simpa [min_comm] using hi
      have h2 : i < (c_bytes name).length := by omega
      rw [List.getD_eq_getElem _ _ h1, List.getD_eq_getElem _ _ h2, List.getElem_take]
    · rw [if_neg hi]
      apply List.getD_eq_default
      simp only [List.length_take]
      rw [min_comm]
      omega

theorem shorthash_ascii_injective (name other : String) (h1 : ascii_name name)
    (h2 : ascii_name other) (l1 : (c_bytes name).length ≤ 8) (l2 : (c_bytes other).length ≤ 8)
    (h : shorthash_for_name name = shorthash_for_name other) : name = other := by
  rw [shorthash_ascii name h1, shorthash_ascii other h2, List.take_of_length_le l1,
    List.take_of_length_le l2] at h
  have hb1 : ∀ b ∈ c_bytes name, 0 < b ∧ b < 256 := fun b hb =>
    ⟨(c_bytes_bounds name h1 b hb).1, lt_trans (c_bytes_bounds name h1 b hb).2 (by decide)⟩
  have hb2 : ∀ b ∈ c_bytes other, 0 < b ∧ b < 256 := fun b hb =>
    ⟨(c_bytes_bounds other h2 b hb).1, lt_trans (c_bytes_bounds other h2 b hb).2 (by decide)⟩
  have e := pack_le_injective _ _ hb1 hb2 h
  rw [c_bytes_of_ascii name h1, c_bytes_of_ascii other h2] at e
  have inj : Function.Injective Char.toNat := by
    intro a b hab
    apply Char.ext
    apply UInt32.ext
    exact hab
  have := List.map_injective_iff.mpr inj e
  exact String.ext this

theorem decimal_digits_value :
    ∀ (fuel n : Nat) (acc : List Nat), n < 10 ^ fuel →
      (decimal_digits fuel n acc).foldl (fun a d => 10 * a + d) 0 =
        acc.foldl (fun a d => 10 * a + d) n := by
  intro fuel
  induction fuel with
  | zero =>
    intro n acc h
    have : n = 0 := by simpa using h
    simp [decimal_digits, this]
  | succ fuel ih =>
    intro n acc h
    unfold decimal_digits
    split
    · simp
    · rw [ih (n / 10) _ (by rw [pow_succ] at h; omega)]
      simp only [List.foldl_cons]
      congr 1
      omega

theorem decimal_digits_lt :
    ∀ (fuel n : Nat) (acc : List Nat), (∀ d ∈ acc, d < 10) →
      ∀ d ∈ decimal_digits fuel n acc, d < 10 := by
  intro fuel
  induction fuel with
  | zero => intro n acc h; simpa [decimal_digits] using h
  | succ fuel ih =>
    intro n acc h
    unfold decimal_digits
    split
    · intro d hd
      rcases List.mem_cons.mp hd with rfl | hd
      · assumption
      · exact h d hd
    · apply ih
      intro d hd
      rcases List.mem_cons.mp hd with rfl | hd
      · omega
      · exact h d hd

theorem digit_char_toNat (d : Nat) (h : d < 10) : (digit_char d).toNat - 48 = d := by
  interval_cases d <;> decide

theorem digit_char_ne_minus (d : Nat) (h : d < 10) : digit_char d ≠ '-' := by
  interval_cases d <;> decide

theorem digit_chars_injective :
    ∀ (a b : List Nat), (∀ d ∈ a, d < 10) → (∀ d ∈ b, d < 10) →
      a.map digit_char = b.map digit_char → a = b := by
  intro a
  induction a with
  | nil => intro b _ _ h; cases b <;> simp_all
  | cons x a ih =>
    intro b ha hb h
    cases b with
    | nil => simp at h
    | cons y b =>
      simp only [List.map_cons, List.cons.injEq] at h
      have hx := digit_char_toNat x (ha x (by simp))
      have hy := digit_char_toNat y (hb y (by simp))
      rw [h.1] at hx
      have : x = y := by omega
      rw [this, ih b (fun d hd => ha d (by simp [hd])) (fun d hd => hb d (by simp [hd])) h.2]

/-- The conversion `%d` gives different texts for different numbers that are
not negative. -/
theorem fmt_d_injective (a b : Nat) (h : fmt_d (a : Int) = fmt_d (b : Int)) : a = b := by
  unfold fmt_d at h
  have ha : ¬ ((a : Int) < 0) := by omega
  have hb : ¬ ((b : Int) < 0) := by omega
  simp only [ha, hb, if_false, Int.natAbs_ofNat] at h
  have h1 := digit_chars_injective _ _
    (decimal_digits_lt (a + 1) a [] (by simp)) (decimal_digits_lt (b + 1) b [] (by simp))
    (congrArg String.data h)
  have h2 := congrArg (fun ds => ds.foldl (fun a d => 10 * a + d) 0) h1
  simp only at h2
  have pa : a < 10 ^ (a + 1) :=
    lt_of_lt_of_le (Nat.lt_pow_self (by omega) a) (Nat.pow_le_pow_right (by omega) (by omega))
  have pb : b < 10 ^ (b + 1) :=
    lt_of_lt_of_le (Nat.lt_pow_self (by omega) b) (Nat.pow_le_pow_right (by omega) (by omega))
  rw [decimal_digits_value _ _ _ pa, decimal_digits_value _ _ _ pb] at h2
  simpa using h2

theorem process_args_loop_scan (argv : List String) :
    ∀ (fuel i : Nat) (g : cli_globals), argv.length ≤ i + fuel →
      process_args_loop argv fuel i g = scan_options (argv.drop i) g := by
  intro fuel
  induction fuel with
  | zero =>
    intro i g h
    have : argv.drop i = [] := List.drop_eq_nil_of_le (by omega)
    simp [process_args_loop, this, scan_options]
  | succ fuel ih =>
    intro i g h
    by_cases hi : i < argv.length
    swap
    · have : argv.drop i = [] := List.drop_eq_nil_of_le (by omega)
      have hn : argv.get? i = none := List.get?_eq_none.mpr (by omega)
      rw [this]
      unfold process_args_loop
      rw [hn]
      simp [scan_options]
    have hd : argv.drop i = argv.get ⟨i, hi⟩ :: argv.drop (i + 1) := by
      simp
    have hg : argv.get? i = some (argv.get ⟨i, hi⟩) := List.get?_eq_get hi
    rw [hd]
    unfold process_args_loop
    simp only [hg]
    unfold scan_options
    split
    · rfl
    · split
      · exact ih (i + 1) _ (by omega)
      · split
        · by_cases h1 : i + 1 = argv.length
          · have : argv.drop (i + 1) = [] := List.drop_eq_nil_of_le (by omega)
            simp [h1, this]
          · have hi1 : i + 1 < argv.length := by omega
            have hd1 : argv.drop (i + 1) = argv.get ⟨i + 1, hi1⟩ :: argv.drop (i + 1 + 1) := by
              simp
            have hg1 : argv.get? (i + 1) = some (argv.get ⟨i + 1, hi1⟩) := List.get?_eq_get hi1
            rw [hd1]
            by_cases h2 : i + 1 + 1 = argv.length
            · have : argv.drop (i + 1 + 1) = [] := List.drop_eq_nil_of_le (by omega)
              simp [h1, h2, this, hg1]
            · have hi2 : i + 1 + 1 < argv.length := by omega
              have hd2 : argv.drop (i + 1 + 1) =
                  argv.get ⟨i + 1 + 1, hi2⟩ :: argv.drop (i + 1 + 1 + 1) := by
                simp
              rw [hd2]
              simp [h1, h2]
        · by_cases h1 : i + 1 = argv.length
          · have : argv.drop (i + 1) = [] := List.drop_eq_nil_of_le (by omega)
            simp [h1, this, hg]
          · have hi1 : i + 1 < argv.length := by omega
            have hd1 : argv.drop (i + 1) = argv.get ⟨i + 1, hi1⟩ :: argv.drop (i + 1 + 1) := by
              simp
            rw [hd1]
            simp [h1]

theorem process_args_scan (argv : List String) :
    process_args argv = scan_options (options_of argv) {} :=
  process_args_loop_scan argv argv.length 1 {} (by omega)

theorem scan_options_returned (opts : List String) :
    ∀ (g g' : cli_globals), scan_options opts g = .returned g' →
      ∃ n, (opts = List.replicate n "-t" ∧
              g' = { g with do_tags := if n = 0 then g.do_tags else 1 }) ∨
        ∃ p, (opts = List.replicate n "-t" ++ ["-s", p] ∧
              g' = { is_file := 0, do_tags := if n = 0 then g.do_tags else 1,
                     to_process := some p }) ∨
          (opts = List.replicate n "-t" ++ [p] ∧ p ≠ "-h" ∧ p ≠ "-t" ∧ p ≠ "-s" ∧
              g' = { is_file := 1, do_tags := if n = 0 then g.do_tags else 1,
                     to_process := some p }) := by
  induction opts with
  | nil =>
    intro g g' h
    refine ⟨0, Or.inl ⟨rfl, ?_⟩⟩
    simp [scan_options] at h
    simp [← h]
  | cons a rest ih =>
    intro g g' h
    unfold scan_options at h
    split at h
    · simp at h
    · split at h
      · rename_i ht
        obtain ⟨n, hn⟩ := ih _ _ h
        refine ⟨n + 1, ?_⟩
        rcases hn with ⟨h1, h2⟩ | ⟨p, ⟨h1, h2⟩ | ⟨h1, h2⟩⟩
        · left
          refine ⟨by simp [List.replicate_succ, ht, h1], ?_⟩
          rw [h2]; split <;> simp
        · right
          refine ⟨p, Or.inl ⟨by simp [List.replicate_succ, ht, h1], ?_⟩⟩
          rw [h2]; split <;> simp
        · right
          obtain ⟨a1, a2, a3, a4⟩ := h2
          refine ⟨p, Or.inr ⟨by simp [List.replicate_succ, ht, h1], a1, a2, a3, ?_⟩⟩
          rw [a4]; split <;> simp
      · split at h
        · rename_i hs
          split at h
          · rename_i p
            refine ⟨0, Or.inr ⟨p, Or.inl ⟨by simp [hs], ?_⟩⟩⟩
            simp only [cli_exit.returned.injEq] at h
            simp [← h]
          · simp at h
        · rename_i h1 h2 h3
          split at h
          · refine ⟨0, Or.inr ⟨a, Or.inr ⟨by simp, h1, h2, h3, ?_⟩⟩⟩
            simp only [cli_exit.returned.injEq] at h
            simp [← h]
          · simp at h

theorem scan_options_tags (n : Nat) (rest : List String) :
    ∀ g : cli_globals, scan_options (List.replicate n "-t" ++ rest) g =
      scan_options rest { g with do_tags := if n = 0 then g.do_tags else 1 } := by
  induction n with
  | zero => intro g; simp
  | succ n ih =>
    intro g
    rw [List.replicate_succ, List.cons_append]
    conv_lhs => unfold scan_options
    simp only [String.reduceEq, if_false, if_true, ih]
    congr 1
    split <;> simp

theorem decimal_digits_length :
    ∀ (fuel n k : Nat) (acc : List Nat), n < 10 ^ k → 1 ≤ k →
      (decimal_digits fuel n acc).length ≤ acc.length + k := by
  intro fuel
  induction fuel with
  | zero => intro n k acc _ _; simp [decimal_digits]
  | succ fuel ih =>
    intro n k acc h hk
    unfold decimal_digits
    split
    · simp only [List.length_cons]; omega
    · rename_i hn
      have hk2 : 2 ≤ k := by
        by_contra hc
        have : k = 1 := by omega
        subst this
        simp at h
        omega
      obtain ⟨m, rfl⟩ : ∃ m, k = m + 1 := ⟨k - 1, by omega⟩
      have := ih (n / 10) m (n % 10 :: acc) (by rw [pow_succ] at h; omega) (by omega)
      simp only [List.length_cons] at this
      omega

theorem fmt_d_data (a : Nat) :
    (fmt_d (a : Int)).data = (decimal_digits (a + 1) a []).map digit_char := by
  unfold fmt_d
  have ha : ¬ ((a : Int) < 0) := by omega
  simp only [ha, if_false, Int.natAbs_ofNat]

theorem lambda_name_data (a : Nat) (h : a < 65536) :
    (lambda_name a).data = "*lambda_".data ++ (fmt_d (a : Int)).data := by
  unfold lambda_name
  have hl : (fmt_d (a : Int)).data.length ≤ 5 := by
    rw [fmt_d_data, List.length_map]
    have := decimal_digits_length (a + 1) a 5 [] (by omega) (by omega)
    simpa using this
  show List.take 31 ("*lambda_" ++ fmt_d (a : Int)).data = _
  rw [String.data_append]
  apply List.take_of_length_le
  rw [List.length_append]
  have : "*lambda_".data.length = 8 := by decide
  omega

/-- Two counters below 2^16 with the same lambda name are equal. -/
theorem lambda_name_injective (a b : Nat) (ha : a < 65536) (hb : b < 65536)
    (h : lambda_name a = lambda_name b) : a = b := by
  have h1 := congrArg String.data h
  rw [lambda_name_data a ha, lambda_name_data b hb] at h1
  have h2 := List.append_cancel_left h1
  apply fmt_d_injective
  exact String.ext h2

theorem lambda_eval_declare_counter (parser : lily_parse_state) :
    (lambda_eval_declare parser).2.next_lambda_id = (parser.next_lambda_id + 1) % 65536 := by
  unfold lambda_eval_declare lily_try_new_var
  simp only [VAR_IS_READONLY]
  rfl

theorem lambda_eval_declare_name (parser : lily_parse_state) :
    (lambda_eval_declare parser).1.name = lambda_name parser.next_lambda_id := by
  unfold lambda_eval_declare lily_try_new_var
  simp only [VAR_IS_READONLY]
  rfl

theorem before_lambda_counter (between : Nat → lily_parse_state → lily_parse_state)
    (hb : ∀ k p, (between k p).next_lambda_id = p.next_lambda_id)
    (parser : lily_parse_state) (h16 : parser.next_lambda_id < 65536) :
    ∀ k, (before_lambda between k parser).next_lambda_id =
      (parser.next_lambda_id + k) % 65536 := by
  intro k
  induction k with
  | zero =>
    simp only [before_lambda, hb, Nat.add_zero]
    exact (Nat.mod_eq_of_lt h16).symm
  | succ k ih =>
    simp only [before_lambda, hb, lambda_eval_declare_counter, ih]
    omega

theorem lambda_name_at_eq (between : Nat → lily_parse_state → lily_parse_state)
    (hb : ∀ k p, (between k p).next_lambda_id = p.next_lambda_id)
    (parser : lily_parse_state) (h16 : parser.next_lambda_id < 65536) (k : Nat) :
    lambda_name_at between k parser = lambda_name ((parser.next_lambda_id + k) % 65536) := by
  unfold lambda_name_at
  rw [lambda_eval_declare_name, before_lambda_counter between hb parser h16]

theorem texts_cons (l : String) (ls : List String) : texts (l :: ls) = l ++ texts ls := rfl

theorem texts_append (a b : List String) : texts (a ++ b) = texts a ++ texts b := by
  induction a with
  | nil => simp [texts]
  | cons l a ih => simp only [List.cons_append, texts_cons, ih, String.append_assoc]

theorem traceback_frames_lines (vm_stack : List lily_vm_stack_entry) :
    ∀ (i : Nat) (out : String), i ≤ vm_stack.length →
      traceback_frames vm_stack i out =
        .ok (out ++ texts (((vm_stack.take i).reverse).map traceback_frame_line)) := by
  intro i
  induction i with
  | zero => intro out _; simp [traceback_frames, texts]
  | succ i ih =>
    intro out h
    have hi : i < vm_stack.length := by omega
    unfold traceback_frames
    rw [List.get?_eq_get hi]
    simp only
    rw [ih _ (by omega)]
    have : vm_stack.take (i + 1) = vm_stack.take i ++ [vm_stack.get ⟨i, hi⟩] := by
      rw [List.take_succ]
      simp [hi]
    rw [this, List.reverse_append]
    simp only [List.reverse_cons, List.reverse_nil, List.nil_append, List.singleton_append,
      List.map_cons, texts_cons, String.append_assoc]

theorem push_frames_stack (frames : List lily_vm_stack_entry) :
    ∀ vm : lily_vm_state, vm.function_stack_pos = vm.function_stack.length →
      (frames.foldl vm_push_frame vm).function_stack = vm.function_stack ++ frames ∧
      (frames.foldl vm_push_frame vm).function_stack_pos =
        vm.function_stack.length + frames.length := by
  induction frames with
  | nil => intro vm h; simp [h]
  | cons e frames ih =>
    intro vm h
    have h1 : (vm_push_frame vm e).function_stack = vm.function_stack ++ [e] := by
      simp [vm_push_frame, h]
    have h2 : (vm_push_frame vm e).function_stack_pos =
        (vm_push_frame vm e).function_stack.length := by
      rw [h1]
      simp [vm_push_frame, h]
    obtain ⟨a, b⟩ := ih (vm_push_frame vm e) h2
    simp only [List.foldl_cons, a, b, h1]
    simp
    omega

theorem parse_for_range_value_cases (fuel : Nat) (parser : lily_parse_state) (name : String) :
    (∀ e, expression fuel parser = .error e →
      parse_for_range_value fuel parser name = .error e) ∧
    (∀ p, expression fuel parser = .ok p → p.ast_pool.root_assign = true →
      parse_for_range_value fuel parser name = .error (.raised .lily_SyntaxError)) ∧
    (∀ p cls, expression fuel parser = .ok p → p.ast_pool.root_assign = false →
      class_deref p.symtab SYM_CLASS_INTEGER = .ok cls →
      parse_for_range_value fuel parser name =
        .ok (lily_emit_eval_expr
          { p with symtab := (lily_try_new_var p.symtab cls.type name 0).2 })) := by
  refine ⟨?_, ?_, ?_⟩
  · intro e h
    simp [parse_for_range_value, h, bind, Except.bind]
  · intro p h hr
    simp [parse_for_range_value, h, hr, bind, Except.bind, raise_if, raise_syntax]
  · intro p cls h hr hc
    simp [parse_for_range_value, h, hr, hc, bind, Except.bind, raise_if, lily_class_by_id,
      pure, Except.pure]

theorem OnlyStack.only_refl (p : lily_parse_state) : OnlyStack p p :=
  ⟨rfl, rfl, rfl, rfl, rfl⟩

theorem OnlyStack.only_trans {p q r : lily_parse_state} (h1 : OnlyStack p q)
    (h2 : OnlyStack q r) : OnlyStack p r :=
  ⟨h2.1.trans h1.1, h2.2.1.trans h1.2.1, h2.2.2.1.trans h1.2.2.1,
    h2.2.2.2.1.trans h1.2.2.2.1, h2.2.2.2.2.trans h1.2.2.2.2⟩

theorem stack_write_only_stack {p p' : lily_parse_state} {idx : Nat} {v : Option lily_type}
    (h : stack_write p idx v = .ok p') : OnlyStack p p' := by
  unfold stack_write at h
  split at h
  · simp only [Except.ok.injEq] at h
    subst h
    exact ⟨rfl, rfl, rfl, rfl, rfl⟩
  · simp at h

mutual

theorem decompose_type_only_stack (t : lily_type) (p : lily_parse_state)
    (mt : Option lily_type) (off : Nat) (r : Option lily_type) (p' : lily_parse_state)
    (h : calculate_decompose_type p mt t off = .ok (r, p')) : OnlyStack p p' := by
  cases t with
  | mk cls subs pos fl =>
    simp only [calculate_decompose_type] at h
    split at h
    · split at h
      · simp at h
      · split at h
        · simp at h
        · simp only [Except.ok.injEq, Prod.mk.injEq] at h
          rw [← h.2]
          exact OnlyStack.only_refl p
    · split at h
      · simp at h
      · split at h
        · simp only [Except.ok.injEq, Prod.mk.injEq] at h
          rw [← h.2]
          exact OnlyStack.only_refl p
        · split at h
          · simp at h
          · rename_i p1 h1
            split at h
            · simp at h
            · simp only [Except.ok.injEq, Prod.mk.injEq] at h
              rw [← h.2]
              have := decompose_subtypes_only_stack subs _ _ _ _ h1
              refine OnlyStack.only_trans ?_ this
              split
              · exact ⟨rfl, rfl, rfl, rfl, rfl⟩
              · exact OnlyStack.only_refl p

theorem decompose_subtypes_only_stack (ts : List (Option lily_type)) (p : lily_parse_state)
    (it : Option lily_type) (cell : Nat) (p' : lily_parse_state)
    (h : decompose_subtypes p it ts cell = .ok p') : OnlyStack p p' := by
  match ts with
  | [] =>
    simp only [decompose_subtypes, Except.ok.injEq] at h
    rw [← h]
    exact OnlyStack.only_refl p
  | none :: rest =>
    simp [decompose_subtypes] at h
  | some ty :: rest =>
    simp only [decompose_subtypes] at h
    split at h
    · simp at h
    · rename_i r1 p1 h1
      split at h
      · simp at h
      · rename_i p2 h2
        exact ((decompose_type_only_stack ty _ _ _ _ _ h1).only_trans
          (stack_write_only_stack h2)).only_trans
          (decompose_subtypes_only_stack rest _ _ _ _ h)

end

theorem lily_lexer_label_kept (lex : lily_lex_state) (h1 : (lily_lexer lex).token ≠ tk_word)
    (h2 : (lily_lexer lex).token ≠ tk_prop_word) : (lily_lexer lex).label = lex.label := by
  unfold lily_lexer at h1 h2 ⊢
  cases hin : lex.input with
  | nil => rfl
  | cons it rest =>
    rw [hin] at h1 h2
    simp only at h1 h2 ⊢
    rw [if_neg]
    intro hc
    rcases hc with hc | hc
    · exact h1 hc
    · exact h2 hc

theorem get_named_var_declared (p : lily_parse_state) (vt : Option lily_type) (flags : Nat)
    (h : (lily_var_by_name p.symtab p.lex.label).isSome = true) :
    get_named_var p vt flags = .error (.raised .lily_SyntaxError) := by
  unfold get_named_var
  simp [raise_if, h, bind, Except.bind, raise_syntax]

theorem get_named_var_free (p : lily_parse_state) (vt : Option lily_type)
    (h : lily_var_by_name p.symtab p.lex.label = none) :
    get_named_var p vt 0 =
      .ok (p.symtab.var_chain.length,
        { p with symtab := (lily_try_new_var p.symtab vt p.lex.label 0).2,
                 lex := lily_lexer p.lex }) := by
  unfold get_named_var
  simp [raise_if, h, bind, Except.bind, method_name_check, pure, Except.pure]

theorem new_var_found (symtab : lily_symtab) (vt : Option lily_type) (name : String) :
    (lily_var_by_name (lily_try_new_var symtab vt name 0).2 name).isSome = true := by
  simp [lily_try_new_var, lily_var_by_name, SYM_OUT_OF_SCOPE]

/-- After a name is declared and the lexer has moved on to a token that is no
word, get_named_var finds the name declared: the label is still that name. -/
theorem get_named_var_twice {p p2 p3 : lily_parse_state} {vt vt' : Option lily_type}
    {h : Nat} (hg : get_named_var p vt 0 = .ok (h, p2)) (htok : p2.lex.token = tk_comma)
    (hs : OnlyStack p2 p3) :
    get_named_var p3 vt' 0 = .error (.raised .lily_SyntaxError) := by
  obtain ⟨_, rfl⟩ := get_named_var_ok hg
  apply get_named_var_declared
  rw [hs.1, hs.2.1]
  simp only at htok ⊢
  rw [lily_lexer_label_kept p.lex (by rw [htok]; decide) (by rw [htok]; decide)]
  exact new_var_found _ _ _

/-- A variant with two or more values cannot be decomposed: the loop of
case_handler that is to read two or more names never returns. -/
theorem case_decompose_vars_stuck (fuel : Nat) (parser : lily_parse_state)
    (mt : Option lily_type) (vt : lily_type) (i : Nat) (hi : i + 1 < vt.subtype_count)
    (p' : lily_parse_state) :
    case_decompose_vars fuel parser mt vt i ≠ .ok p' := by
  intro h
  cases fuel with
  | zero => simp [case_decompose_vars] at h
  | succ fuel =>
    unfold case_decompose_vars at h
    rw [if_pos (by omega)] at h
    simp only [bind_ok_iff] at h
    obtain ⟨it, _, it2, _, ⟨ty, p1⟩, h1, ⟨hd, p2⟩, h2, h3⟩ := h
    simp only at h3
    have hne : i ≠ vt.subtype_count - 1 := by omega
    rw [if_pos hne] at h3
    simp only [bind_ok_iff] at h3
    obtain ⟨_, hcomma, h4⟩ := h3
    have htok : p2.lex.token = tk_comma := by
      unfold NEED_CURRENT_TOK at hcomma
      by_contra hc
      simp [hc, raise_syntax] at hcomma
    cases fuel with
    | zero => simp [case_decompose_vars] at h4
    | succ fuel =>
      unfold case_decompose_vars at h4
      rw [if_pos hi] at h4
      simp only [bind_ok_iff] at h4
      obtain ⟨jt, _, jt2, _, ⟨ty2, p3⟩, h5, ⟨hd2, p4⟩, h6, _⟩ := h4
      have hs := decompose_type_only_stack _ _ _ _ _ _ h5
      rw [get_named_var_twice h2 htok hs] at h6
      simp at h6

/-- The values of a variant with two or more values are never read to the
end. -/
theorem case_values_stuck (fuel : Nat) (parser : lily_parse_state) (mt : Option lily_type)
    (cc : Nat) (ccls : lily_class) (vt : lily_type)
    (hcls : class_deref parser.symtab cc = .ok ccls) (hvt : ccls.variant_type = some vt)
    (hn : 3 ≤ vt.subtype_count) (p' : lily_parse_state) :
    case_values fuel parser mt (some cc) ≠ .ok p' := by
  intro h
  unfold case_values at h
  have hne : vt.subtype_count ≠ 0 := by omega
  simp only [deref, hcls, hvt, bind, Except.bind, hne, ne_eq, not_false_eq_true, if_true] at h
  repeat' split at h
  all_goals first
    | (simp at h; done)
    | (have hd := ‹case_decompose_vars _ _ _ vt 1 = Except.ok _›
       exact case_decompose_vars_stuck _ _ _ vt 1 (by omega) _ hd)

theorem case_decompose_vars_done (fuel : Nat) (parser : lily_parse_state)
    (mt : Option lily_type) (vt : lily_type) (i : Nat) (hi : ¬ i < vt.subtype_count) :
    case_decompose_vars (fuel + 1) parser mt vt i = .ok parser := by
  unfold case_decompose_vars
  rw [if_neg hi]
  rfl

/-- The values of a variant with one value: `(x):` with x not yet declared
declares x with the decomposed type of the value. -/
theorem case_values_one_field (fuel : Nat) (parser : lily_parse_state)
    (mt : Option lily_type) (cc : Nat) (ccls : lily_class) (vt field : lily_type)
    (x : String) (rest : List lex_item) (ty : Option lily_type) (p1 : lily_parse_state)
    (hcls : class_deref parser.symtab cc = .ok ccls) (hvt : ccls.variant_type = some vt)
    (hcount : vt.subtype_count = 2) (hfield : vt.subtypes.get? 1 = some (some field))
    (hin : parser.lex.input =
      tok tk_left_parenth :: word x :: tok tk_right_parenth :: tok tk_colon :: rest)
    (hx : lily_var_by_name parser.symtab x = none)
    (hdec : calculate_decompose_type (next_token (next_token parser)) mt field
      parser.type_stack_pos = .ok (ty, p1)) :
    ∃ p', case_values (fuel + 2) parser mt (some cc) = .ok p' ∧
      p'.symtab.var_chain =
        { name := x, type := ty, flags := 0, reg_spot := parser.symtab.next_register_spot,
          function_depth := parser.symtab.function_depth, parent := none } ::
          parser.symtab.var_chain ∧
      p'.lex.input = rest.drop 1 := by
  have hs := decompose_type_only_stack _ _ _ _ _ _ hdec
  have hl1 : lily_lexer parser.lex =
      { token := tk_left_parenth, label := parser.lex.label, signed := none,
        input := word x :: tok tk_right_parenth :: tok tk_colon :: rest } := by
    simp [lily_lexer, hin, tok]
  have hl2 : (next_token (next_token parser)).lex =
      { token := tk_word, label := x, signed := none,
        input := tok tk_right_parenth :: tok tk_colon :: rest } := by
    show lily_lexer (lily_lexer parser.lex) = _
    rw [hl1]
    simp [lily_lexer, word]
  have hp1lex : p1.lex =
      { token := tk_word, label := x, signed := none,
        input := tok tk_right_parenth :: tok tk_colon :: rest } := by
    rw [hs.2.1, hl2]
  have hp1sym : p1.symtab = parser.symtab := by
    rw [hs.1]; rfl
  have hfree : lily_var_by_name p1.symtab p1.lex.label = none := by
    rw [hp1sym, hp1lex]; exact hx
  have hg := get_named_var_free p1 ty hfree
  have hne : vt.subtype_count ≠ 0 := by omega
  have hpos : (next_token (next_token parser)).type_stack_pos = parser.type_stack_pos := rfl
  refine ⟨next_token (next_token { p1 with
        symtab := (lily_try_new_var p1.symtab ty p1.lex.label 0).2,
        lex := lily_lexer p1.lex }), ?_, ?_, ?_⟩
  rotate_left
  · simp [next_token, hp1sym, hp1lex, lily_try_new_var]
  · simp only [next_token, hp1lex, lily_lexer, tok]
    cases rest <;> rfl
  · unfold case_values
    simp only [deref, hcls, hvt, bind, Except.bind, hne, ne_eq, not_false_eq_true, if_true]
    rw [need_next_tok_eq, if_neg (by simp [next_token, hl1])]
    simp only
    rw [need_next_tok_eq, if_neg (by simp [hl2])]
    simp only
    unfold case_decompose_vars
    rw [if_pos (by omega)]
    simp only [hfield, deref, bind, Except.bind, hpos, hdec, hg, hcount]
    rw [case_decompose_vars_done _ _ _ _ _ (by omega)]
    simp only [ne_eq, not_true_eq_false, if_false, pure, Except.pure]
    have ht : (lily_lexer p1.lex).token = tk_right_parenth := by
      rw [hp1lex]; rfl
    have ht2 : (lily_lexer (lily_lexer p1.lex)).token = tk_colon := by
      rw [hp1lex]; rfl
    simp [NEED_CURRENT_TOK, ht, need_next_tok_eq, next_token, ht2]

/-- The values of a variant that has values: a token other than a name after
the `(` raises SyntaxError. -/
theorem case_values_no_name (fuel : Nat) (parser : lily_parse_state)
    (mt : Option lily_type) (cc : Nat) (ccls : lily_class) (vt : lily_type)
    (it : lex_item) (rest : List lex_item)
    (hcls : class_deref parser.symtab cc = .ok ccls) (hvt : ccls.variant_type = some vt)
    (hcount : vt.subtype_count ≠ 0)
    (hin : parser.lex.input = tok tk_left_parenth :: it :: rest)
    (hit : it.token ≠ tk_word) :
    case_values fuel parser mt (some cc) = .error (.raised .lily_SyntaxError) := by
  have hl1 : (next_token parser).lex.token = tk_left_parenth := by
    simp [next_token, lily_lexer, hin, tok]
  have hl2 : (next_token (next_token parser)).lex.token = it.token := by
    simp [next_token, lily_lexer, hin, tok]
  unfold case_values
  simp only [deref, hcls, hvt, bind, Except.bind, hcount, ne_eq, not_false_eq_true, if_true]
  rw [need_next_tok_eq, if_neg (by simp [hl1])]
  simp only
  rw [need_next_tok_eq, if_pos (by rw [hl2]; exact hit)]

/-- The values of a variant with one value: a comma after the name raises
SyntaxError. -/
theorem case_values_second_name (fuel : Nat) (parser : lily_parse_state)
    (mt : Option lily_type) (cc : Nat) (ccls : lily_class) (vt field : lily_type)
    (x : String) (rest : List lex_item) (ty : Option lily_type) (p1 : lily_parse_state)
    (hcls : class_deref parser.symtab cc = .ok ccls) (hvt : ccls.variant_type = some vt)
    (hcount : vt.subtype_count = 2) (hfield : vt.subtypes.get? 1 = some (some field))
    (hin : parser.lex.input = tok tk_left_parenth :: word x :: tok tk_comma :: rest)
    (hx : lily_var_by_name parser.symtab x = none)
    (hdec : calculate_decompose_type (next_token (next_token parser)) mt field
      parser.type_stack_pos = .ok (ty, p1)) :
    case_values (fuel + 2) parser mt (some cc) = .error (.raised .lily_SyntaxError) := by
  have hs := decompose_type_only_stack _ _ _ _ _ _ hdec
  have hl1 : lily_lexer parser.lex =
      { token := tk_left_parenth, label := parser.lex.label, signed := none,
        input := word x :: tok tk_comma :: rest } := by
    simp [lily_lexer, hin, tok]
  have hl2 : (next_token (next_token parser)).lex =
      { token := tk_word, label := x, signed := none,
        input := tok tk_comma :: rest } := by
    show lily_lexer (lily_lexer parser.lex) = _
    rw [hl1]
    simp [lily_lexer, word]
  have hp1lex : p1.lex =
      { token := tk_word, label := x, signed := none, input := tok tk_comma :: rest } := by
    rw [hs.2.1, hl2]
  have hp1sym : p1.symtab = parser.symtab := by
    rw [hs.1]; rfl
  have hfree : lily_var_by_name p1.symtab p1.lex.label = none := by
    rw [hp1sym, hp1lex]; exact hx
  have hg := get_named_var_free p1 ty hfree
  have hne : vt.subtype_count ≠ 0 := by omega
  have hpos : (next_token (next_token parser)).type_stack_pos = parser.type_stack_pos := rfl
  unfold case_values
  simp only [deref, hcls, hvt, bind, Except.bind, hne, ne_eq, not_false_eq_true, if_true]
  rw [need_next_tok_eq, if_neg (by simp [next_token, hl1])]
  simp only
  rw [need_next_tok_eq, if_neg (by simp [hl2])]
  simp only
  unfold case_decompose_vars
  rw [if_pos (by omega)]
  simp only [hfield, deref, bind, Except.bind, hpos, hdec, hg, hcount]
  rw [case_decompose_vars_done _ _ _ _ _ (by omega)]
  simp only [ne_eq, not_true_eq_false, if_false, pure, Except.pure]
  have ht : (lily_lexer p1.lex).token = tk_comma := by
    rw [hp1lex]; rfl
  simp [NEED_CURRENT_TOK, ht, raise_syntax]

theorem c_strlen_content (content : List Nat) (tail : List (Option Nat))
    (h : ∀ b ∈ content, b ≠ 0) :
    c_strlen (content.map some ++ some 0 :: tail) = .ok content.length := by
  induction content with
  | nil => simp [c_strlen]
  | cons b rest ih =>
    have hb : b ≠ 0 := h b (by simp)
    have ih' := ih (fun x hx => h x (by simp [hx]))
    simp only [List.map_cons, List.cons_append, c_strlen, hb, if_false, List.length_cons]
    show (match c_strlen (List.map some rest ++ some 0 :: tail) with
      | Except.ok n => Except.ok (n + 1)
      | Except.error e => Except.error e) = _
    rw [ih']

theorem c_string_content (content : List Nat) (tail : List (Option Nat))
    (h : ∀ b ∈ content, b ≠ 0) :
    c_string (content.map some ++ some 0 :: tail) = .ok content := by
  unfold c_string
  rw [c_strlen_content content tail h]
  simp only
  congr 1
  rw [List.take_left' (by simp)]
  rw [List.map_map]
  exact List.map_id'' (fun _ => rfl) content

theorem set_after_front {α : Type} (a d : List α) (p : Nat) (x : α) (hp : p ≤ a.length)
    (hd : d ≠ []) : ∃ tail, (a ++ d).set p x = a.take p ++ x :: tail := by
  have hsplit : a ++ d = a.take p ++ (a.drop p ++ d) := by
    rw [← List.append_assoc, List.take_append_drop]
  have hne : a.drop p ++ d ≠ [] := by simp [hd]
  obtain ⟨y, ys, hy⟩ := List.exists_cons_of_ne_nil hne
  refine ⟨ys, ?_⟩
  rw [hsplit, hy]
  have hl : (a.take p).length = p := by simp [hp]
  rw [List.set_append]
  simp [hl]

theorem resized_block (lib : c_library) (msgbuf : lily_msgbuf) (content : List Nat)
    (need : Nat) (h : Holds msgbuf content) (hneed : content.length + 1 ≤ need)
    (hroom : need ≤ lib.room) :
    ∃ tail, try_resize_msgbuf lib msgbuf need =
      (1, { msgbuf with message := content.map some ++ some 0 :: tail,
                        size := need % 65536 }) ∧
      (content.map some ++ some 0 :: tail).length = need := by
  obtain ⟨⟨tail, hm⟩, _, _, _, _⟩ := h
  unfold try_resize_msgbuf
  rw [if_pos hroom]
  refine ⟨tail.take (need - (content.length + 1)) ++
    List.replicate (need - msgbuf.message.length) none, ?_, ?_⟩
  · congr 2
    rw [hm]
    rw [List.take_append_eq_append_take]
    simp only [List.length_map]
    rw [List.take_of_length_le (by simp; omega)]
    have : need - content.length = (need - (content.length + 1)) + 1 := by omega
    rw [this, List.take_succ_cons]
    simp
  · rw [hm]
    simp only [List.length_append, List.length_map, List.length_cons, List.length_take,
      List.length_replicate]
    omega

theorem c_memcpy_length (block : List (Option Nat)) (k : Nat) (bytes : List Nat)
    (r : List (Option Nat)) (h : c_memcpy block k bytes = .ok r) : r.length = block.length := by
  unfold c_memcpy at h
  split at h
  · simp only [Except.ok.injEq] at h
    subst h
    simp only [List.length_append, List.length_take, List.length_map, List.length_drop]
    omega
  · simp at h

theorem c_strcat_content (content str : List Nat) (tail : List (Option Nat))
    (h : ∀ b ∈ content, b ≠ 0)
    (hfit : content.length + str.length + 1 ≤ (content.map some ++ some 0 :: tail).length) :
    ∃ tail', c_strcat (content.map some ++ some 0 :: tail) str =
        .ok ((content ++ str).map some ++ some 0 :: tail') ∧
      ((content ++ str).map some ++ some 0 :: tail').length =
        (content.map some ++ some 0 :: tail).length := by
  unfold c_strcat
  rw [c_strlen_content content tail h]
  simp only
  have hm : c_memcpy (content.map some ++ some 0 :: tail) content.length (str ++ [0]) =
      .ok ((content ++ str).map some ++ some 0 ::
        (content.map some ++ some 0 :: tail).drop (content.length + (str ++ [0]).length)) := by
    unfold c_memcpy
    rw [if_pos (by simpa [Nat.add_assoc] using hfit)]
    congr 1
    rw [List.take_left' (by simp)]
    simp
  refine ⟨_, hm, ?_⟩
  exact c_memcpy_length _ _ _ _ hm

/-- Adding a string to a buffer that holds a text, when the text stays below
2^16 bytes and the block can be had: the buffer holds the text with the string
after it. -/
theorem msgbuf_add_holds (lib : c_library) (msgbuf : lily_msgbuf) (content str : List Nat)
    (h : Holds msgbuf content) (hstr : ∀ b ∈ str, b ≠ 0)
    (hlen : content.length + str.length < 65536)
    (hroom : content.length + str.length + 1 ≤ lib.room) :
    ∃ msgbuf', lily_msgbuf_add lib msgbuf str = .ok msgbuf' ∧
      Holds msgbuf' (content ++ str) := by
  have h0 := h
  obtain ⟨⟨tail, hm⟩, hpos, htr, hsize, hnz⟩ := h
  have hnz2 : ∀ b ∈ content ++ str, b ≠ 0 := by
    intro b hb
    rcases List.mem_append.mp hb with hb | hb
    · exact hnz b hb
    · exact hstr b hb
  unfold lily_msgbuf_add
  simp only [htr, ne_eq, not_true_eq_false, if_false]
  by_cases hbig : msgbuf.pos + str.length + 1 > msgbuf.size
  · rw [if_pos hbig]
    obtain ⟨tail1, hr, hl1⟩ := resized_block lib msgbuf content (msgbuf.pos + str.length + 1) h0
      (by omega) (by omega)
    rw [hr]
    simp only [one_ne_zero, if_false]
    obtain ⟨tail2, hc, hl2⟩ := c_strcat_content content str tail1 hnz (by rw [hl1]; omega)
    rw [hc]
    refine ⟨_, rfl, ⟨tail2, rfl⟩, ?_, htr, ?_, hnz2⟩
    · simp only [List.length_append, hpos]
      exact Nat.mod_eq_of_lt hlen
    · simp only
      rw [hl2, hl1]
      exact Nat.mod_le _ _
  · rw [if_neg hbig]
    simp only [one_ne_zero, if_false]
    rw [hm]
    obtain ⟨tail2, hc, hl2⟩ := c_strcat_content content str tail hnz
      (by rw [← hm]; omega)
    rw [hc]
    refine ⟨_, rfl, ⟨tail2, rfl⟩, ?_, htr, ?_, hnz2⟩
    · simp only [List.length_append, hpos]
      exact Nat.mod_eq_of_lt hlen
    · simp only
      rw [hl2, ← hm]
      exact hsize

theorem msgbuf_add_char_holds (lib : c_library) (msgbuf : lily_msgbuf) (content : List Nat)
    (c : Nat) (h : Holds msgbuf content) (hc : c ≠ 0)
    (hlen : content.length + 1 < 65536) (hroom : content.length + 1 + 1 ≤ lib.room) :
    ∃ msgbuf', lily_msgbuf_add_char lib msgbuf c = .ok msgbuf' ∧
      Holds msgbuf' (content ++ [c]) := by
  unfold lily_msgbuf_add_char
  rw [if_neg hc]
  exact msgbuf_add_holds lib msgbuf content [c] h (by simpa using hc) (by simpa using hlen)
    (by simpa using hroom)

/-- Adding a range of a text to a buffer that holds a text, when the block can
be had: pos is the sum modulo 2^16, and the buffer holds that many bytes of the
old text with the range after it. -/
theorem msgbuf_add_text_range_wraps (lib : c_library) (msgbuf : lily_msgbuf)
    (content text : List Nat) (start stop : Nat)
    (h : Holds msgbuf content) (hss : start ≤ stop) (hst : stop ≤ text.length)
    (hnz : ∀ b ∈ (text.drop start).take (stop - start), b ≠ 0)
    (hroom : content.length + (stop - start) + 1 ≤ lib.room) :
    ∃ msgbuf', lily_msgbuf_add_text_range lib msgbuf text start stop = .ok msgbuf' ∧
      Holds msgbuf' ((content ++ (text.drop start).take (stop - start)).take
        ((content.length + (stop - start)) % 65536)) := by
  have h0 := h
  obtain ⟨⟨tail, hm⟩, hpos, htr, hsize, hcz⟩ := h
  have hblen : ((text.drop start).take (stop - start)).length = stop - start := by
    simp only [List.length_take, List.length_drop]
    omega
  have hnz2 : ∀ b ∈ (content ++ (text.drop start).take (stop - start)).take
      ((content.length + (stop - start)) % 65536), b ≠ 0 := by
    intro b hb
    rcases List.mem_append.mp (List.mem_of_mem_take hb) with hb | hb
    · exact hcz b hb
    · exact hnz b hb
  have hmod : (content.length + (stop - start)) % 65536 ≤ content.length + (stop - start) :=
    Nat.mod_le _ _
  have hcond : ¬ (stop < start ∨ text.length < stop) := by omega
  -- the block after the copy, for a block that is long enough
  have hcopy : ∀ tail1 : List (Option Nat),
      content.length + (stop - start) + 1 ≤ (content.map some ++ some 0 :: tail1).length →
      ∃ tail2 blk, c_memcpy (content.map some ++ some 0 :: tail1) content.length
          ((text.drop start).take (stop - start)) = .ok blk ∧
        blk.length = (content.map some ++ some 0 :: tail1).length ∧
        blk.set ((content.length + (stop - start)) % 65536) (some 0) =
          ((content ++ (text.drop start).take (stop - start)).take
            ((content.length + (stop - start)) % 65536)).map some ++ some 0 :: tail2 := by
    intro tail1 hfit
    have hm1 : c_memcpy (content.map some ++ some 0 :: tail1) content.length
        ((text.drop start).take (stop - start)) =
        .ok ((content ++ (text.drop start).take (stop - start)).map some ++
          (content.map some ++ some 0 :: tail1).drop
            (content.length + ((text.drop start).take (stop - start)).length)) := by
      unfold c_memcpy
      rw [if_pos (by rw [hblen]; omega)]
      congr 1
      rw [List.take_left' (by simp)]
      simp
    have hdne : (content.map some ++ some 0 :: tail1).drop
        (content.length + ((text.drop start).take (stop - start)).length) ≠ [] := by
      intro hc
      have := congrArg List.length hc
      simp only [List.length_drop, List.length_nil] at this
      rw [hblen] at this
      omega
    obtain ⟨tail2, ht2⟩ := set_after_front
      ((content ++ (text.drop start).take (stop - start)).map some) _
      ((content.length + (stop - start)) % 65536) (some 0)
      (by simp only [List.length_map, List.length_append, hblen]; exact hmod) hdne
    refine ⟨tail2, _, hm1, c_memcpy_length _ _ _ _ hm1, ?_⟩
    rw [ht2, List.map_take]
  unfold lily_msgbuf_add_text_range
  simp only [htr, ne_eq, not_true_eq_false, if_false]
  by_cases hbig : msgbuf.pos + (stop - start) + 1 > msgbuf.size
  · rw [if_pos hbig]
    obtain ⟨tail1, hr, hl1⟩ := resized_block lib msgbuf content
      (msgbuf.pos + (stop - start) + 1) h0 (by omega) (by omega)
    rw [hr]
    simp only [one_ne_zero, if_false, hcond]
    obtain ⟨tail2, blk, hc, hl2, hset⟩ := hcopy tail1 (by rw [hl1]; omega)
    rw [hpos, hc]
    simp only
    rw [if_pos (by rw [hl2, hl1]; omega)]
    refine ⟨_, rfl, ⟨tail2, hset⟩, ?_, htr, ?_, hnz2⟩
    · simp only [List.length_take, List.length_append, hblen]
      omega
    · simp only [List.length_set]
      rw [hl2, hl1]
      have := Nat.mod_le (msgbuf.pos + (stop - start) + 1) 65536
      omega
  · rw [if_neg hbig]
    simp only [one_ne_zero, if_false, hcond]
    obtain ⟨tail2, blk, hc, hl2, hset⟩ := hcopy tail (by rw [← hm]; omega)
    rw [hpos, hm, hc]
    simp only
    rw [if_pos (by rw [hl2, ← hm]; omega)]
    refine ⟨_, rfl, ⟨tail2, hset⟩, ?_, htr, ?_, hnz2⟩
    · simp only [List.length_take, List.length_append, hblen]
      omega
    · simp only [List.length_set]
      rw [hl2, ← hm]
      exact hsize

/-- Adding a range of a text, when the text in the buffer stays below 2^16
bytes: the buffer holds the old text with the range after it. -/
theorem msgbuf_add_text_range_holds (lib : c_library) (msgbuf : lily_msgbuf)
    (content text : List Nat) (start stop : Nat)
    (h : Holds msgbuf content) (hss : start ≤ stop) (hst : stop ≤ text.length)
    (hnz : ∀ b ∈ text, b ≠ 0)
    (hlen : content.length + (stop - start) < 65536)
    (hroom : content.length + (stop - start) + 1 ≤ lib.room) :
    ∃ msgbuf', lily_msgbuf_add_text_range lib msgbuf text start stop = .ok msgbuf' ∧
      Holds msgbuf' (content ++ (text.drop start).take (stop - start)) := by
  obtain ⟨m, h1, h2⟩ := msgbuf_add_text_range_wraps lib msgbuf content text start stop h hss hst
    (fun b hb => hnz b (List.mem_of_mem_drop (List.mem_of_mem_take hb))) hroom
  refine ⟨m, h1, ?_⟩
  rw [Nat.mod_eq_of_lt hlen] at h2
  rw [List.take_of_length_le] at h2
  · exact h2
  · simp only [List.length_append, List.length_take, List.length_drop]
    omega

theorem escaped_cons (b : Nat) (rest : List Nat) :
    escaped (b :: rest) =
      (if escape_char b ≠ 0 then [92, escape_char b] else [b]) ++ escaped rest := by
  simp [escaped]

theorem escaped_nonzero (str : List Nat) (h : ∀ b ∈ str, b ≠ 0) : ∀ b ∈ escaped str, b ≠ 0 := by
  induction str with
  | nil => simp [escaped]
  | cons x rest ih =>
    intro b hb
    rw [escaped_cons] at hb
    rcases List.mem_append.mp hb with hb | hb
    · split at hb
      · rename_i he
        simp only [List.mem_cons, List.mem_singleton, List.not_mem_nil, or_false] at hb
        rcases hb with rfl | rfl
        · decide
        · exact he
      · simp only [List.mem_singleton] at hb
        subst hb
        exact h b (by simp)
    · exact ih (fun y hy => h y (by simp [hy])) b hb

theorem drop_eq_get_cons (l : List Nat) (i : Nat) (ch : Nat) (h : l.get? i = some ch) :
    l.drop i = ch :: l.drop (i + 1) := by
  have hi : i < l.length := by
    by_contra hc
    rw [List.get?_eq_none.mpr (by omega)] at h
    simp at h
  rw [List.get?_eq_get hi] at h
  simp only [Option.some.injEq] at h
  rw [← h]
  simp

theorem take_drop_succ (l : List Nat) (start i : Nat) (ch : Nat) (hs : start ≤ i)
    (h : l.get? i = some ch) :
    (l.drop start).take (i + 1 - start) = (l.drop start).take (i - start) ++ [ch] := by
  have hi : i < l.length := by
    by_contra hc
    rw [List.get?_eq_none.mpr (by omega)] at h
    simp at h
  have h1 : i + 1 - start = (i - start) + 1 := by omega
  rw [h1, List.take_succ]
  congr 1
  have : (l.drop start).get? (i - start) = some ch := by
    rw [List.get?_eq_getElem?, List.getElem?_drop, ← List.get?_eq_getElem?]
    have : start + (i - start) = i := by omega
    rw [this]
    exact h
  simp only [List.get?_eq_getElem?] at this
  rw [this]
  rfl

/-- The loop of lily_msgbuf_escape_add_str, when the text in the buffer stays
below 2^16 bytes: the bytes from start up to i, which have no escape, and the
escaped bytes from i on are added. -/
theorem escape_loop_holds (lib : c_library) (str : List Nat) (hnz : ∀ b ∈ str, b ≠ 0) :
    ∀ (fuel i start : Nat) (msgbuf : lily_msgbuf) (content : List Nat),
      i + fuel = str.length → start ≤ i → Holds msgbuf content →
      content.length + (i - start) + (escaped (str.drop i)).length < 65536 →
      content.length + (i - start) + (escaped (str.drop i)).length + 1 ≤ lib.room →
      ∃ msgbuf', escape_loop lib str fuel i start msgbuf = .ok msgbuf' ∧
        Holds msgbuf' (content ++ (str.drop start).take (i - start) ++
          escaped (str.drop i)) := by
  intro fuel
  induction fuel with
  | zero =>
    intro i start msgbuf content hi hs h hlen hroom
    have hd : str.drop i = [] := List.drop_eq_nil_of_le (by omega)
    rw [hd] at hlen hroom ⊢
    simp only [escaped, List.flatMap_nil, List.length_nil, Nat.add_zero,
      List.append_nil] at hlen hroom ⊢
    unfold escape_loop
    by_cases hne : i = start
    · subst hne
      simp only [ne_eq, not_true_eq_false, if_false, Nat.sub_self, List.take_zero,
        List.append_nil]
      exact ⟨msgbuf, rfl, h⟩
    · rw [if_pos hne]
      exact msgbuf_add_text_range_holds lib msgbuf content str start i h hs (by omega) hnz
        hlen hroom
  | succ fuel ih =>
    intro i start msgbuf content hi hs h hlen hroom
    have hilt : i < str.length := by omega
    obtain ⟨ch, hch⟩ : ∃ ch, str.get? i = some ch := ⟨_, List.get?_eq_get hilt⟩
    have hdrop := drop_eq_get_cons str i ch hch
    rw [hdrop, escaped_cons] at hlen hroom ⊢
    unfold escape_loop
    simp only [hch]
    by_cases he : escape_char ch ≠ 0
    · rw [if_pos he] at hlen hroom ⊢
      rw [if_pos he]
      simp only [List.length_append, List.length_cons, List.length_nil] at hlen hroom
      -- the bytes before the escape
      have hflush : ∃ m1, (if i ≠ start then lily_msgbuf_add_text_range lib msgbuf str start i
          else Except.ok msgbuf) = .ok m1 ∧
          Holds m1 (content ++ (str.drop start).take (i - start)) := by
        by_cases hne : i = start
        · subst hne
          simp only [ne_eq, not_true_eq_false, if_false, Nat.sub_self, List.take_zero,
            List.append_nil]
          exact ⟨msgbuf, rfl, h⟩
        · rw [if_pos hne]
          exact msgbuf_add_text_range_holds lib msgbuf content str start i h hs (by omega) hnz
            (by omega) (by omega)
      obtain ⟨m1, hm1, hh1⟩ := hflush
      rw [hm1]
      simp only
      have hpl : ((str.drop start).take (i - start)).length = i - start := by
        simp only [List.length_take, List.length_drop]
        omega
      obtain ⟨m2, hm2, hh2⟩ := msgbuf_add_char_holds lib m1 _ 92 hh1 (by decide)
        (by simp only [List.length_append, hpl]; omega)
        (by simp only [List.length_append, hpl]; omega)
      rw [hm2]
      simp only
      obtain ⟨m3, hm3, hh3⟩ := msgbuf_add_char_holds lib m2 _ (escape_char ch) hh2 he
        (by simp only [List.length_append, hpl, List.length_singleton]; omega)
        (by simp only [List.length_append, hpl, List.length_singleton]; omega)
      rw [hm3]
      simp only
      obtain ⟨m4, hm4, hh4⟩ := ih (i + 1) (i + 1) m3 _ (by omega) (le_refl _) hh3
        (by simp only [List.length_append, hpl, List.length_singleton, Nat.sub_self]; omega)
        (by simp only [List.length_append, hpl, List.length_singleton, Nat.sub_self]; omega)
      refine ⟨m4, hm4, ?_⟩
      simpa [List.append_assoc] using hh4
    · rw [if_neg he] at hlen hroom ⊢
      rw [if_neg he]
      simp only [List.length_append, List.length_singleton] at hlen hroom
      obtain ⟨m4, hm4, hh4⟩ := ih (i + 1) start msgbuf content (by omega) (by omega) h
        (by omega) (by omega)
      refine ⟨m4, hm4, ?_⟩
      rw [take_drop_succ str start i ch hs hch] at hh4
      simpa [List.append_assoc] using hh4

theorem unescape_escape_char (b : Nat) (he : escape_char b ≠ 0) :
    unescape_char (escape_char b) = b := by
  by_cases h1 : b = 10
  · subst h1; decide
  by_cases h2 : b = 13
  · subst h2; decide
  by_cases h3 : b = 9
  · subst h3; decide
  by_cases h4 : b = 39
  · subst h4; decide
  by_cases h5 : b = 34
  · subst h5; decide
  by_cases h6 : b = 92
  · subst h6; decide
  by_cases h7 : b = 8
  · subst h7; decide
  by_cases h8 : b = 7
  · subst h8; decide
  exfalso
  apply he
  simp [escape_char, h1, h2, h3, h4, h5, h6, h7, h8]

/-- Decoding the escapes gives the string back. -/
theorem unescape_escaped (str : List Nat) : unescape (escaped str) = str := by
  induction str with
  | nil => simp [escaped, unescape]
  | cons b rest ih =>
    rw [escaped_cons]
    by_cases he : escape_char b ≠ 0
    · rw [if_pos he]
      simp only [List.cons_append, List.nil_append, unescape, if_true,
        unescape_escape_char b he]
      show b :: unescape (escaped rest) = b :: rest
      rw [ih]
    · rw [if_neg he]
      have hb : b ≠ 92 := by
        intro hc
        apply he
        rw [hc]
        decide
      simp only [List.singleton_append]
      cases hr : escaped rest with
      | nil =>
        rw [hr] at ih
        simp only [unescape] at ih ⊢
        rw [← ih]
      | cons e es =>
        rw [hr] at ih
        simp only [unescape, hb, if_false, ih]

/-- For a string without a byte to escape the loop of
lily_msgbuf_escape_add_str comes down to one call of
lily_msgbuf_add_text_range. -/
theorem escape_loop_plain (lib : c_library) (str : List Nat)
    (hplain : ∀ b ∈ str, escape_char b = 0) :
    ∀ (fuel i start : Nat) (msgbuf : lily_msgbuf), i + fuel = str.length →
      escape_loop lib str fuel i start msgbuf =
        if str.length ≠ start then lily_msgbuf_add_text_range lib msgbuf str start str.length
        else .ok msgbuf := by
  intro fuel
  induction fuel with
  | zero =>
    intro i start msgbuf hi
    have : i = str.length := by omega
    subst this
    rfl
  | succ fuel ih =>
    intro i start msgbuf hi
    have hilt : i < str.length := by omega
    have hch : str.get? i = some (str.get ⟨i, hilt⟩) := List.get?_eq_get hilt
    unfold escape_loop
    simp only [hch]
    rw [if_neg (by
      have := hplain _ (List.getElem_mem hilt)
      simpa using this)]
    exact ih (i + 1) start msgbuf (by omega)

theorem holds_message (msgbuf : lily_msgbuf) (content : List Nat) (h : Holds msgbuf content) :
    c_string msgbuf.message = .ok content := by
  obtain ⟨⟨tail, hm⟩, _, _, _, hnz⟩ := h
  rw [hm]
  exact c_string_content content tail hnz

theorem new_buffer_holds : Holds new_buffer [] := by
  refine ⟨⟨List.replicate 63 none, rfl⟩, rfl, rfl, ?_, ?_⟩
  · simp [new_buffer]
  · simp

theorem fmt_char_shift (pre rest : List Nat) (j : Nat) :
    fmt_char (pre ++ rest) (pre.length + j) = fmt_char rest j := by
  unfold fmt_char
  have h1 : (pre ++ rest).get? (pre.length + j) = rest.get? j := by
    simp [List.getElem?_append_right]
  rw [h1]
  cases rest.get? j with
  | some c => rfl
  | none =>
    simp only [List.length_append]
    by_cases hj : j = rest.length
    · simp [hj]
    · rw [if_neg hj, if_neg (by omega)]

theorem fmt_modifier_shift (pre rest : List Nat) (j : Nat) (modifier : List Nat) :
    fmt_modifier (pre ++ rest) (pre.length + j) modifier =
      match fmt_modifier rest j modifier with
      | .error e => .error e
      | .ok (i, c, m) => .ok (pre.length + i, c, m) := by
  unfold fmt_modifier
  rw [fmt_char_shift, Nat.add_assoc, fmt_char_shift, Nat.add_assoc, fmt_char_shift]
  cases fmt_char rest j with
  | error e => rfl
  | ok c =>
    simp only
    split
    · cases fmt_char rest (j + 1) with
      | error e => rfl
      | ok c2 =>
        simp only
        split
        · cases fmt_char rest (j + 2) with
          | error e => rfl
          | ok c3 => rfl
        · rfl
    · rfl

theorem add_text_range_shift (lib : c_library) (msgbuf : lily_msgbuf) (pre rest : List Nat)
    (a b : Nat) :
    lily_msgbuf_add_text_range lib msgbuf (pre ++ rest) (pre.length + a) (pre.length + b) =
      lily_msgbuf_add_text_range lib msgbuf rest a b := by
  unfold lily_msgbuf_add_text_range
  have h1 : pre.length + b - (pre.length + a) = b - a := by omega
  have h2 : (pre.length + b < pre.length + a ∨ (pre ++ rest).length < pre.length + b) ↔
      (b < a ∨ rest.length < b) := by
    simp only [List.length_append]
    omega
  have h3 : (pre ++ rest).drop (pre.length + a) = rest.drop a := by
    rw [List.drop_append_eq_append_drop]
    have : pre.drop (pre.length + a) = [] := List.drop_eq_nil_of_le (by omega)
    rw [this]
    simp
  simp only [h1, h3, h2]

theorem fmt_flush_shift (lib : c_library) (msgbuf : lily_msgbuf) (pre rest : List Nat)
    (a b : Nat) :
    fmt_flush lib msgbuf (pre ++ rest) (pre.length + a) (pre.length + b) =
      fmt_flush lib msgbuf rest a b := by
  unfold fmt_flush
  rw [add_text_range_shift]
  by_cases h : b = a
  · simp [h]
  · rw [if_pos (by omega), if_pos h]

theorem fmt_va_loop_shift (lib : c_library) (classes : List lily_class) (pre rest : List Nat) :
    ∀ (fuel j ts : Nat) (modifier : List Nat) (args : List fmt_arg) (msgbuf : lily_msgbuf),
      fmt_va_loop lib classes (pre ++ rest) fuel (pre.length + j) (pre.length + ts) modifier
          args msgbuf =
        fmt_shift pre.length (fmt_va_loop lib classes rest fuel j ts modifier args msgbuf) := by
  intro fuel
  induction fuel with
  | zero => intro j ts modifier args msgbuf; rfl
  | succ fuel ih =>
    intro j ts modifier args msgbuf
    conv_lhs => unfold fmt_va_loop
    conv_rhs => unfold fmt_va_loop
    have hlt : (pre.length + j < (pre ++ rest).length) ↔ j < rest.length := by
      simp only [List.length_append]; omega
    have hend : (pre.length + j + 1 = (pre ++ rest).length) ↔ j + 1 = rest.length := by
      simp only [List.length_append]; omega
    simp only [hlt, hend, fmt_char_shift, fmt_flush_shift]
    by_cases hj : j < rest.length
    swap
    · simp only [hj, not_false_eq_true, if_true, fmt_shift]
    simp only [hj, not_true_eq_false, if_false]
    cases fmt_char rest j with
    | error e => rfl
    | ok c =>
      simp only
      by_cases h37 : c = 37
      · simp only [h37, if_true]
        by_cases he : j + 1 = rest.length
        · simp only [he, if_true, fmt_shift]
        · simp only [he, if_false]
          cases fmt_flush lib msgbuf rest ts j with
          | error e => rfl
          | ok m1 =>
            simp only
            rw [Nat.add_assoc, fmt_modifier_shift]
            cases fmt_modifier rest (j + 1) modifier with
            | error e => rfl
            | ok r =>
              obtain ⟨i2, c2, m2⟩ := r
              simp only
              cases fmt_percent lib m1 c2 m2 args with
              | error e => rfl
              | ok r2 =>
                obtain ⟨a3, m3, b3⟩ := r2
                simp only
                rw [Nat.add_assoc]
                exact ih (i2 + 1) (i2 + 1) m3 a3 b3
      · simp only [h37, if_false]
        by_cases h94 : c = 94
        · simp only [h94, if_true]
          cases fmt_flush lib msgbuf rest ts j with
          | error e => rfl
          | ok m1 =>
            simp only
            rw [Nat.add_assoc, fmt_char_shift]
            cases fmt_char rest (j + 1) with
            | error e => rfl
            | ok c2 =>
              simp only
              cases fmt_caret lib classes m1 c2 args with
              | error e => rfl
              | ok r2 =>
                obtain ⟨a3, b3⟩ := r2
                simp only
                rw [Nat.add_assoc]
                exact ih (j + 1 + 1) (j + 1 + 1) modifier a3 b3
        · simp only [h94, if_false]
          rw [Nat.add_assoc]
          exact ih (j + 1) ts modifier args msgbuf

/-- One more pass of fuel than the bytes still to read changes nothing. -/
theorem fmt_va_loop_fuel (lib : c_library) (classes : List lily_class) (fmt : List Nat) :
    ∀ (fuel i ts : Nat) (modifier : List Nat) (args : List fmt_arg) (msgbuf : lily_msgbuf),
      fmt.length < i + (fuel + 1) →
      fmt_va_loop lib classes fmt (fuel + 1) i ts modifier args msgbuf =
        fmt_va_loop lib classes fmt (fuel + 1 + 1) i ts modifier args msgbuf := by
  intro fuel
  induction fuel with
  | zero =>
    intro i ts modifier args msgbuf h
    have hi : ¬ i < fmt.length := by omega
    conv_lhs => unfold fmt_va_loop
    conv_rhs => unfold fmt_va_loop
    simp only [hi, not_false_eq_true, if_true]
  | succ fuel ih =>
    intro i ts modifier args msgbuf h
    conv_lhs => unfold fmt_va_loop
    conv_rhs => unfold fmt_va_loop
    by_cases hi : i < fmt.length
    swap
    · simp only [hi, not_false_eq_true, if_true]
    simp only [hi, not_true_eq_false, if_false]
    cases fmt_char fmt i with
    | error e => rfl
    | ok c =>
      simp only
      by_cases h37 : c = 37
      · simp only [h37, if_true]
        by_cases he : i + 1 = fmt.length
        · simp only [he, if_true]
        · simp only [he, if_false]
          cases fmt_flush lib msgbuf fmt ts i with
          | error e => rfl
          | ok m1 =>
            simp only
            cases hm : fmt_modifier fmt (i + 1) modifier with
            | error e => rfl
            | ok r =>
              obtain ⟨i2, c2, m2⟩ := r
              have hi2 : i + 1 ≤ i2 := by
                unfold fmt_modifier at hm
                repeat' split at hm
                all_goals first
                  | (simp at hm; done)
                  | (simp only [Except.ok.injEq, Prod.mk.injEq] at hm; omega)
              simp only
              cases fmt_percent lib m1 c2 m2 args with
              | error e => rfl
              | ok r2 =>
                obtain ⟨a3, m3, b3⟩ := r2
                simp only
                exact ih (i2 + 1) (i2 + 1) m3 a3 b3 (by omega)
      · simp only [h37, if_false]
        by_cases h94 : c = 94
        · simp only [h94, if_true]
          cases fmt_flush lib msgbuf fmt ts i with
          | error e => rfl
          | ok m1 =>
            simp only
            cases fmt_char fmt (i + 1) with
            | error e => rfl
            | ok c2 =>
              simp only
              cases fmt_caret lib classes m1 c2 args with
              | error e => rfl
              | ok r2 =>
                obtain ⟨a3, b3⟩ := r2
                simp only
                exact ih (i + 1 + 1) (i + 1 + 1) modifier a3 b3 (by omega)
        · simp only [h94, if_false]
          exact ih (i + 1) ts modifier args msgbuf (by omega)

theorem fmt_char_at (fmt : List Nat) (i : Nat) (c : Nat) (h : fmt.get? i = some c) :
    fmt_char fmt i = .ok c := by
  unfold fmt_char
  rw [h]

/-- The loop passes over bytes that start no directive. -/
theorem fmt_va_loop_skip (lib : c_library) (classes : List lily_class) (fmt : List Nat) :
    ∀ (k fuel i ts : Nat) (modifier : List Nat) (args : List fmt_arg) (msgbuf : lily_msgbuf),
      i + k ≤ fmt.length →
      (∀ j c, i ≤ j → j < i + k → fmt.get? j = some c → c ≠ 37 ∧ c ≠ 94) →
      fmt_va_loop lib classes fmt (fuel + k) i ts modifier args msgbuf =
        fmt_va_loop lib classes fmt fuel (i + k) ts modifier args msgbuf := by
  intro k
  induction k with
  | zero => intro fuel i ts modifier args msgbuf _ _; rfl
  | succ k ih =>
    intro fuel i ts modifier args msgbuf hlen hplain
    have hi : i < fmt.length := by omega
    have hg : fmt.get? i = some (fmt.get ⟨i, hi⟩) := List.get?_eq_get hi
    obtain ⟨h37, h94⟩ := hplain i _ (le_refl _) (by omega) hg
    have hfuel : fuel + (k + 1) = (fuel + k) + 1 := by omega
    rw [hfuel]
    conv_lhs => unfold fmt_va_loop
    simp only [hi, not_true_eq_false, if_false, fmt_char_at fmt i _ hg, h37, h94]
    rw [ih fuel (i + 1) ts modifier args msgbuf (by omega)
      (fun j c h1 h2 h3 => hplain j c (by omega) (by omega) h3)]
    congr 1
    omega

theorem fmt_va_loop_more_fuel (lib : c_library) (classes : List lily_class) (fmt : List Nat)
    (k : Nat) :
    ∀ (fuel i ts : Nat) (modifier : List Nat) (args : List fmt_arg) (msgbuf : lily_msgbuf),
      fmt.length < i + (fuel + 1) →
      fmt_va_loop lib classes fmt (fuel + 1 + k) i ts modifier args msgbuf =
        fmt_va_loop lib classes fmt (fuel + 1) i ts modifier args msgbuf := by
  induction k with
  | zero => intro fuel i ts modifier args msgbuf _; rfl
  | succ k ih =>
    intro fuel i ts modifier args msgbuf h
    have h1 : fuel + 1 + (k + 1) = (fuel + k) + 1 + 1 := by omega
    have h2 : fuel + 1 + k = (fuel + k) + 1 := by omega
    rw [h1, ← fmt_va_loop_fuel lib classes fmt (fuel + k) i ts modifier args msgbuf (by omega),
      ← h2]
    exact ih fuel i ts modifier args msgbuf h

theorem add_text_range_front (lib : c_library) (msgbuf : lily_msgbuf) (pre rest : List Nat)
    (a b : Nat) (hb : b ≤ pre.length) :
    lily_msgbuf_add_text_range lib msgbuf (pre ++ rest) a b =
      lily_msgbuf_add_text_range lib msgbuf pre a b := by
  unfold lily_msgbuf_add_text_range
  have h2 : (b < a ∨ (pre ++ rest).length < b) ↔ (b < a ∨ pre.length < b) := by
    simp only [List.length_append]
    omega
  have h3 : ((pre ++ rest).drop a).take (b - a) = (pre.drop a).take (b - a) := by
    rw [List.drop_append_eq_append_drop, List.take_append_eq_append_take]
    have : b - a - (pre.drop a).length = 0 := by
      simp only [List.length_drop]; omega
    rw [this]
    simp
  simp only [h2, h3]

theorem fmt_flush_front (lib : c_library) (msgbuf : lily_msgbuf) (pre rest : List Nat)
    (a b : Nat) (hb : b ≤ pre.length) :
    fmt_flush lib msgbuf (pre ++ rest) a b = fmt_flush lib msgbuf pre a b := by
  unfold fmt_flush
  rw [add_text_range_front lib msgbuf pre rest a b hb]

theorem plain_get (pre rest : List Nat) (hp : plain_text pre) (j c : Nat)
    (hj : j < 0 + pre.length) (h : (pre ++ rest).get? j = some c) : c ≠ 37 ∧ c ≠ 94 := by
  have hj2 : j < pre.length := by omega
  have h2 : (pre ++ rest).get? j = pre.get? j := by simp [List.getElem?_append_left hj2]
  rw [h2, List.get?_eq_get hj2] at h
  simp only [Option.some.injEq] at h
  rw [← h]
  exact hp _ (List.getElem_mem hj2)

/-- A text without a directive is added as it is. -/
theorem fmt_va_plain (lib : c_library) (classes : List lily_class) (msgbuf : lily_msgbuf)
    (text : List Nat) (args : List fmt_arg) (hp : plain_text text) :
    lily_msgbuf_add_fmt_va lib classes msgbuf text args =
      fmt_flush lib msgbuf text 0 text.length := by
  unfold lily_msgbuf_add_fmt_va
  have hskip := fmt_va_loop_skip lib classes text text.length 1 0 0 [] args msgbuf (by omega)
    (fun j c _ h2 h3 => by
      have := plain_get text [] hp j c h2 (by simpa using h3)
      exact this)
  have hf : text.length + 1 = 1 + text.length := by omega
  rw [hf, hskip]
  unfold fmt_va_loop
  simp

/-- The text before a caret is added, then the directive is carried out, then
the rest of the format is handled as a format of its own. -/
theorem fmt_va_caret (lib : c_library) (classes : List lily_class) (msgbuf : lily_msgbuf)
    (pre rest : List Nat) (c : Nat) (args : List fmt_arg) (hp : plain_text pre) :
    lily_msgbuf_add_fmt_va lib classes msgbuf (pre ++ 94 :: c :: rest) args =
      match fmt_flush lib msgbuf pre 0 pre.length with
      | .error e => .error e
      | .ok msgbuf =>
        match fmt_caret lib classes msgbuf c args with
        | .error e => .error e
        | .ok (args, msgbuf) => lily_msgbuf_add_fmt_va lib classes msgbuf rest args := by
  unfold lily_msgbuf_add_fmt_va
  have hlen : (pre ++ 94 :: c :: rest).length = pre.length + (rest.length + 2) := by
    simp only [List.length_append, List.length_cons]
  have hskip := fmt_va_loop_skip lib classes (pre ++ 94 :: c :: rest) pre.length
    (rest.length + 2 + 1) 0 0 [] args msgbuf (by rw [hlen]; omega)
    (fun j c' _ h2 h3 => plain_get pre _ hp j c' h2 h3)
  have hf : (pre ++ 94 :: c :: rest).length + 1 = rest.length + 2 + 1 + pre.length := by
    rw [hlen]; omega
  rw [hf, hskip]
  simp only [Nat.zero_add]
  conv_lhs => unfold fmt_va_loop
  have hi : pre.length < (pre ++ 94 :: c :: rest).length := by rw [hlen]; omega
  have hc0 : fmt_char (pre ++ 94 :: c :: rest) pre.length = .ok 94 := by
    have := fmt_char_shift pre (94 :: c :: rest) 0
    simpa [fmt_char] using this
  have hc1 : fmt_char (pre ++ 94 :: c :: rest) (pre.length + 1) = .ok c := by
    have := fmt_char_shift pre (94 :: c :: rest) 1
    simpa [fmt_char] using this
  simp only [hi, not_true_eq_false, if_false, hc0, hc1]
  simp only [if_true]
  rw [fmt_flush_front lib msgbuf pre _ 0 pre.length (le_refl _)]
  cases fmt_flush lib msgbuf pre 0 pre.length with
  | error e => rfl
  | ok m1 =>
    simp only
    cases fmt_caret lib classes m1 c args with
    | error e => rfl
    | ok r =>
      obtain ⟨a2, m2⟩ := r
      simp only
      have hsplit : pre ++ 94 :: c :: rest = (pre ++ [94, c]) ++ rest := by simp
      have hpl : (pre ++ [94, c]).length = pre.length + 1 + 1 := by simp
      have hshift := fmt_va_loop_shift lib classes (pre ++ [94, c]) rest (rest.length + 2) 0 0
        [] a2 m2
      rw [hpl] at hshift
      simp only [Nat.add_zero] at hshift
      rw [hsplit, hshift]
      have hfuel := fmt_va_loop_more_fuel lib classes rest 1 rest.length 0 0 [] a2 m2 (by omega)
      rw [show rest.length + 2 = rest.length + 1 + 1 from rfl, hfuel]
      cases fmt_va_loop lib classes rest (rest.length + 1) 0 0 [] a2 m2 with
      | error e => rfl
      | ok r3 =>
        obtain ⟨i3, t3, m3⟩ := r3
        simp only [fmt_shift]
        rw [← hpl]
        exact fmt_flush_shift lib m3 (pre ++ [94, c]) rest t3 i3

/-- After a percent sign a character that is no digit, no `s` and no `d` does
nothing: no argument is taken and nothing is added. -/
theorem fmt_percent_other (lib : c_library) (msgbuf : lily_msgbuf) (c : Nat)
    (args : List fmt_arg) (hs : c ≠ 115) (hd : c ≠ 100) :
    fmt_percent lib msgbuf c [] args = .ok (args, [], msgbuf) := by
  unfold fmt_percent
  rw [if_neg hs, if_neg hd]

/-- The text before a percent sign is added, then a character after it that
is no digit, no `s` and no `d` is passed over, then the rest of the format is
handled as a format of its own. -/
theorem fmt_va_percent_other (lib : c_library) (classes : List lily_class)
    (msgbuf : lily_msgbuf) (pre rest : List Nat) (c : Nat) (args : List fmt_arg)
    (hp : plain_text pre) (hdig : ¬ (48 ≤ c ∧ c ≤ 57)) (hs : c ≠ 115) (hd : c ≠ 100) :
    lily_msgbuf_add_fmt_va lib classes msgbuf (pre ++ 37 :: c :: rest) args =
      match fmt_flush lib msgbuf pre 0 pre.length with
      | .error e => .error e
      | .ok msgbuf => lily_msgbuf_add_fmt_va lib classes msgbuf rest args := by
  unfold lily_msgbuf_add_fmt_va
  have hlen : (pre ++ 37 :: c :: rest).length = pre.length + (rest.length + 2) := by
    simp only [List.length_append, List.length_cons]
  have hskip := fmt_va_loop_skip lib classes (pre ++ 37 :: c :: rest) pre.length
    (rest.length + 2 + 1) 0 0 [] args msgbuf (by rw [hlen]; omega)
    (fun j c' _ h2 h3 => plain_get pre _ hp j c' h2 h3)
  have hf : (pre ++ 37 :: c :: rest).length + 1 = rest.length + 2 + 1 + pre.length := by
    rw [hlen]; omega
  rw [hf, hskip]
  simp only [Nat.zero_add]
  conv_lhs => unfold fmt_va_loop
  have hi : pre.length < (pre ++ 37 :: c :: rest).length := by rw [hlen]; omega
  have hne : ¬ (pre.length + 1 = (pre ++ 37 :: c :: rest).length) := by rw [hlen]; omega
  have hc0 : fmt_char (pre ++ 37 :: c :: rest) pre.length = .ok 37 := by
    have := fmt_char_shift pre (37 :: c :: rest) 0
    simpa [fmt_char] using this
  have hc1 : fmt_char (pre ++ 37 :: c :: rest) (pre.length + 1) = .ok c := by
    have := fmt_char_shift pre (37 :: c :: rest) 1
    simpa [fmt_char] using this
  have hm : fmt_modifier (pre ++ 37 :: c :: rest) (pre.length + 1) [] =
      .ok (pre.length + 1, c, []) := by
    unfold fmt_modifier
    rw [hc1]
    simp only [hdig, if_false]
  simp only [hi, not_true_eq_false, if_false, hc0, if_true, hne, hm]
  rw [fmt_flush_front lib msgbuf pre _ 0 pre.length (le_refl _)]
  cases fmt_flush lib msgbuf pre 0 pre.length with
  | error e => rfl
  | ok m1 =>
    simp only [fmt_percent_other lib m1 c args hs hd]
    have hsplit : pre ++ 37 :: c :: rest = (pre ++ [37, c]) ++ rest := by simp
    have hpl : (pre ++ [37, c]).length = pre.length + 1 + 1 := by simp
    have hshift := fmt_va_loop_shift lib classes (pre ++ [37, c]) rest (rest.length + 2) 0 0
      [] args m1
    rw [hpl] at hshift
    simp only [Nat.add_zero] at hshift
    rw [hsplit, hshift]
    have hfuel := fmt_va_loop_more_fuel lib classes rest 1 rest.length 0 0 [] args m1 (by omega)
    rw [show rest.length + 2 = rest.length + 1 + 1 from rfl, hfuel]
    cases fmt_va_loop lib classes rest (rest.length + 1) 0 0 [] args m1 with
    | error e => rfl
    | ok r3 =>
      obtain ⟨i3, t3, m3⟩ := r3
      simp only [fmt_shift]
      rw [← hpl]
      exact fmt_flush_shift lib m3 (pre ++ [37, c]) rest t3 i3

/-- The text of a format outside its directives is added as it is, when the
text in the buffer stays below 2^16 bytes. -/
theorem fmt_flush_holds (lib : c_library) (msgbuf : lily_msgbuf) (content text : List Nat)
    (h : Holds msgbuf content) (hnz : ∀ b ∈ text, b ≠ 0)
    (hlen : content.length + text.length < 65536)
    (hroom : content.length + text.length + 1 ≤ lib.room) :
    ∃ msgbuf', fmt_flush lib msgbuf text 0 text.length = .ok msgbuf' ∧
      Holds msgbuf' (content ++ text) := by
  unfold fmt_flush
  by_cases hl : text.length = 0
  · have : text = [] := List.length_eq_zero.mp hl
    subst this
    simp only [List.length_nil, ne_eq, not_true_eq_false, if_false, List.append_nil]
    exact ⟨msgbuf, rfl, h⟩
  · rw [if_pos hl]
    have := msgbuf_add_text_range_holds lib msgbuf content text 0 text.length h (by omega)
      (le_refl _) hnz (by simpa using hlen) (by simpa using hroom)
    simpa using this

theorem alloc_values_ok (ty : Option lily_type) :
    ∀ (n heap heap' : Nat) (values : List lily_value),
      alloc_values ty heap n = (heap', values, 0) →
      values = List.replicate n { flags := VAL_IS_NIL, type := ty, string := none } := by
  intro n
  induction n with
  | zero =>
    intro heap heap' values h
    simp only [alloc_values, Prod.mk.injEq] at h
    simp [← h.2.1]
  | succ n ih =>
    intro heap heap' values h
    unfold alloc_values lily_malloc at h
    by_cases h0 : heap = 0
    · simp [h0] at h
    · simp only [h0, if_false] at h
      cases hr : alloc_values ty (heap - 1) n with
      | mk h1 r =>
        obtain ⟨vs, e⟩ := r
        rw [hr] at h
        simp only [Prod.mk.injEq] at h
        obtain ⟨_, hv, he⟩ := h
        subst he
        rw [← hv, ih _ _ _ hr, List.replicate_succ]

theorem alloc_values_enough (ty : Option lily_type) :
    ∀ (n heap : Nat), n ≤ heap →
      alloc_values ty heap n =
        (heap - n, List.replicate n { flags := VAL_IS_NIL, type := ty, string := none }, 0) := by
  intro n
  induction n with
  | zero => intro heap _; simp [alloc_values]
  | succ n ih =>
    intro heap h
    unfold alloc_values lily_malloc
    have h0 : heap ≠ 0 := by omega
    simp only [h0, if_false]
    rw [ih (heap - 1) (by omega)]
    simp only [List.replicate_succ, Prod.mk.injEq, and_true, true_and]
    omega

theorem fill_values_ok (ty : Option lily_type) :
    ∀ (n heap heap' : Nat) (stringlist : List (List Nat)) (values : List lily_value),
      fill_values heap (List.replicate n { flags := VAL_IS_NIL, type := ty, string := none })
        stringlist = .ok (heap', values, 0) →
      n ≤ stringlist.length ∧
      values = (stringlist.take n).map (fun str =>
        { flags := 0, type := ty,
          string := some { refcount := 1, size := str.length % 2 ^ 32, string := str } }) := by
  intro n
  induction n with
  | zero =>
    intro heap heap' stringlist values h
    simp only [List.replicate_zero, fill_values, Except.ok.injEq, Prod.mk.injEq] at h
    simp [← h.2.1]
  | succ n ih =>
    intro heap heap' stringlist values h
    rw [List.replicate_succ] at h
    cases stringlist with
    | nil => simp [fill_values] at h
    | cons str rest =>
      unfold fill_values at h
      simp only at h
      split at h
      · simp at h
      · split at h
        · simp at h
        · rename_i h2 vs e hr
          simp only [Except.ok.injEq, Prod.mk.injEq] at h
          obtain ⟨_, hv, he⟩ := h
          subst he
          obtain ⟨hn, hvs⟩ := ih _ _ _ _ hr
          refine ⟨by simp only [List.length_cons]; omega, ?_⟩
          rw [← hv, hvs]
          simp

theorem fill_values_enough (ty : Option lily_type) :
    ∀ (n heap : Nat) (stringlist : List (List Nat)), n ≤ stringlist.length → 2 * n ≤ heap →
      fill_values heap (List.replicate n { flags := VAL_IS_NIL, type := ty, string := none })
        stringlist =
      .ok (heap - 2 * n, (stringlist.take n).map (fun str =>
        { flags := 0, type := ty,
          string := some { refcount := 1, size := str.length % 2 ^ 32, string := str } }), 0) := by
  intro n
  induction n with
  | zero => intro heap stringlist _ _; simp [fill_values]
  | succ n ih =>
    intro heap stringlist hl hh
    cases stringlist with
    | nil => simp at hl
    | cons str rest =>
      rw [List.replicate_succ]
      unfold fill_values lily_malloc
      have h0 : heap ≠ 0 := by omega
      have h1 : heap - 1 ≠ 0 := by omega
      simp only [h0, h1, if_false, Bool.true_eq_false, or_self]
      rw [ih (heap - 1 - 1) rest (by simpa using hl) (by omega)]
      simp only [List.take_succ_cons, List.map_cons, Except.ok.injEq, Prod.mk.injEq, and_true,
        true_and]
      omega

theorem bind_stringlist_ok (heap heap' : Nat) (symtab symtab' : lily_symtab) (n ok : Nat)
    (stringlist : List (List Nat)) (lv : Option lily_list_val)
    (h : bind_stringlist heap symtab n stringlist = .ok (ok, heap', symtab', lv))
    (hok : ok ≠ 0) :
    ok = 1 ∧
    symtab' = newest_var_not_nil (lily_try_new_var symtab (some list_of_string) "argv" 0).2 ∧
    n ≤ stringlist.length ∧
    lv = some { refcount := 1,
                elems := (stringlist.take n).map (fun str =>
                  { flags := 0, type := some (simple_type SYM_CLASS_STRING),
                    string := some { refcount := 1, size := str.length % 2 ^ 32,
                                     string := str } }),
                num_values := n % 2 ^ 32, visited := 0 } := by
  unfold bind_stringlist at h
  simp only [list_of_string, lily_type.subtypes, List.head?_cons] at h
  split at h
  · simp only [Except.ok.injEq, Prod.mk.injEq] at h
    exact absurd h.1.symm hok
  · cases ha : alloc_values (some (simple_type SYM_CLASS_STRING))
        (lily_malloc (lily_malloc heap).2).2 n with
    | mk h1 r =>
      obtain ⟨values, err⟩ := r
      rw [ha] at h
      simp only at h
      split at h
      · simp only [Except.ok.injEq, Prod.mk.injEq] at h
        exact absurd h.1.symm hok
      · rename_i herr
        have herr0 : err = 0 := by
          by_contra hc
          exact herr hc
        subst herr0
        have hv := alloc_values_ok _ _ _ _ _ ha
        subst hv
        split at h
        · simp at h
        · rename_i h2 vs e hf
          simp only [Except.ok.injEq, Prod.mk.injEq] at h
          obtain ⟨hk, _, hs, hl⟩ := h
          have he : e = 0 := by
            by_contra hc
            rw [if_neg hc] at hk
            exact hok hk.symm
          subst he
          obtain ⟨hn, hvs⟩ := fill_values_ok _ _ _ _ _ _ hf
          refine ⟨by simpa using hk.symm, by rw [← hs]; rfl, hn, ?_⟩
          rw [← hl, hvs]

theorem bind_stringlist_enough (heap : Nat) (symtab : lily_symtab) (n : Nat)
    (stringlist : List (List Nat)) (hn : n ≤ stringlist.length) (hh : 3 * n + 2 ≤ heap) :
    bind_stringlist heap symtab n stringlist =
      .ok (1, heap - (3 * n + 2),
        newest_var_not_nil (lily_try_new_var symtab (some list_of_string) "argv" 0).2,
        some { refcount := 1,
               elems := (stringlist.take n).map (fun str =>
                 { flags := 0, type := some (simple_type SYM_CLASS_STRING),
                   string := some { refcount := 1, size := str.length % 2 ^ 32,
                                    string := str } }),
               num_values := n % 2 ^ 32, visited := 0 }) := by
  unfold bind_stringlist
  simp only [list_of_string, lily_type.subtypes, List.head?_cons]
  unfold lily_malloc
  have h0 : heap ≠ 0 := by omega
  have h1 : heap - 1 ≠ 0 := by omega
  simp only [h0, h1, if_false, Bool.true_eq_false, or_self]
  rw [alloc_values_enough _ n (heap - 1 - 1) (by omega)]
  simp only [ne_eq, not_true_eq_false, if_false]
  rw [fill_values_enough _ n _ stringlist hn (by omega)]
  simp only [if_true, Except.ok.injEq, Prod.mk.injEq, and_true, true_and]
  omega

theorem sys_init_made (heap0 : Nat) (symtab : lily_symtab) (argc : Nat)
    (argv : List (List Nat)) (lv : Option lily_list_val) (heap : Nat)
    (hb : bind_stringlist heap0
        (lily_try_new_var symtab (lily_try_type_for_class symtab SYM_CLASS_PACKAGE) "sys" 0).2
        argc argv =
      .ok (1, heap,
        newest_var_not_nil (lily_try_new_var
          (lily_try_new_var symtab (lily_try_type_for_class symtab SYM_CLASS_PACKAGE) "sys" 0).2
          (some list_of_string) "argv" 0).2, lv))
    (hh : 2 ≤ heap) :
    lily_pkg_sys_init heap0 symtab argc argv =
      .ok (1, { symtab := { symtab with
                  var_chain := sys_var_made symtab :: symtab.var_chain,
                  next_register_spot := symtab.next_register_spot + 1 },
                argv_value := lv,
                sys_value := some { refcount := 1, vars := [argv_var_made symtab],
                                    var_count := 1, name := "sys" } }) := by
  unfold lily_pkg_sys_init
  simp only [lily_class_by_id, hb]
  unfold lily_malloc
  have h0 : heap ≠ 0 := by omega
  have h1 : heap - 1 ≠ 0 := by omega
  simp only [h0, h1, if_false, Bool.true_eq_false, or_self, one_ne_zero]
  simp [lily_try_new_var, newest_var_not_nil, VAR_IS_READONLY, sys_var_made, argv_var_made,
    VAL_IS_NIL]

theorem sys_init_ok (heap : Nat) (symtab : lily_symtab) (argc : Nat) (argv : List (List Nat))
    (st : sys_state) (h : lily_pkg_sys_init heap symtab argc argv = .ok (1, st)) :
    argc ≤ argv.length ∧
    st = { symtab := { symtab with
             var_chain := sys_var_made symtab :: symtab.var_chain,
             next_register_spot := symtab.next_register_spot + 1 },
           argv_value :=
             some { refcount := 1,
                    elems := (argv.take argc).map (fun str =>
                      { flags := 0, type := some (simple_type SYM_CLASS_STRING),
                        string := some { refcount := 1, size := str.length % 2 ^ 32,
                                         string := str } }),
                    num_values := argc % 2 ^ 32, visited := 0 },
           sys_value := some { refcount := 1, vars := [argv_var_made symtab],
                               var_count := 1, name := "sys" } } := by
  cases hb : bind_stringlist heap
      (lily_try_new_var symtab (lily_try_type_for_class symtab SYM_CLASS_PACKAGE) "sys" 0).2
      argc argv with
  | error e =>
    unfold lily_pkg_sys_init at h
    simp only [lily_class_by_id, hb] at h
    simp at h
  | ok r =>
    obtain ⟨ok, heap1, symtab1, lv⟩ := r
    by_cases hok : ok = 0
    · unfold lily_pkg_sys_init at h
      simp only [lily_class_by_id, hb, hok, if_true] at h
      simp at h
    · obtain ⟨hone, hs, hn, hl⟩ := bind_stringlist_ok _ _ _ _ _ _ _ _ hb hok
      refine ⟨hn, ?_⟩
      by_cases hh : 2 ≤ heap1
      · have hb1 := hb
        rw [hone] at hb1
        rw [hs] at hb1
        have := sys_init_made heap symtab argc argv lv heap1 hb1 hh
        rw [this] at h
        simp only [Except.ok.injEq, Prod.mk.injEq, true_and] at h
        rw [← h, hl]
      · unfold lily_pkg_sys_init at h
        simp only [lily_class_by_id, hb, hok, if_false] at h
        unfold lily_malloc at h
        by_cases h0 : heap1 = 0
        · simp [h0] at h
        · have h1 : heap1 - 1 = 0 := by omega
          simp [h0, h1] at h

theorem sys_init_enough (heap : Nat) (symtab : lily_symtab) (argc : Nat)
    (argv : List (List Nat)) (hn : argc ≤ argv.length) (hh : 3 * argc + 4 ≤ heap) :
    ∃ st, lily_pkg_sys_init heap symtab argc argv = .ok (1, st) :=
  ⟨_, sys_init_made heap symtab argc argv _ (heap - (3 * argc + 2))
    (bind_stringlist_enough heap _ argc argv hn (by omega)) (by omega)⟩

theorem sys_init_flag (heap : Nat) (symtab : lily_symtab) (argc : Nat) (argv : List (List Nat))
    (ok : Nat) (st : sys_state) (h : lily_pkg_sys_init heap symtab argc argv = .ok (ok, st))
    (hok : ok ≠ 0) : ok = 1 := by
  unfold lily_pkg_sys_init at h
  simp only at h
  repeat' split at h
  all_goals first
    | (simp at h; done)
    | (simp only [Except.ok.injEq, Prod.mk.injEq] at h; omega)

theorem new_parse_state_made (heap argc : Nat) (argv : List (List Nat))
    (st : lily_parse_state_ext) (h : lily_new_parse_state heap argc argv = some st) :
    st.mode = pm_init ∧ st.parser.symtab.classes = stock_classes ∧
    st.parser.next_lambda_id = 0 ∧ st.parser.class_depth = 0 := by
  unfold lily_new_parse_state at h
  simp only at h
  repeat' split at h
  all_goals first
    | (simp at h; done)
    | skip
  rename_i ok sys hs hok
  have h1 := sys_init_flag _ _ _ _ _ _ hs hok
  subst h1
  obtain ⟨_, hst⟩ := sys_init_ok _ _ _ _ _ hs
  simp only [Option.some.injEq] at h
  subst h
  subst hst
  exact ⟨rfl, rfl, rfl, rfl⟩

theorem new_parse_state_enough (heap argc : Nat) (argv : List (List Nat))
    (hn : argc ≤ argv.length) (hh : 3 * argc + 6 ≤ heap) :
    ∃ st, lily_new_parse_state heap argc argv = some st := by
  obtain ⟨sys, hs⟩ := sys_init_enough (heap - 1 - 1) lily_new_symtab argc argv hn (by omega)
  have h0 : heap ≠ 0 := by omega
  have h1 : heap - 1 ≠ 0 := by omega
  unfold lily_new_parse_state lily_malloc
  simp [h0, h1, hs]

theorem marked_count_succ (gm : Nat → Bool) (i todo : Nat) :
    marked_count gm i (todo + 1) = (if gm i then 1 else 0) + marked_count gm (i + 1) todo := by
  unfold marked_count
  rw [List.range'_succ, List.filter_cons]
  split
  · simp only [List.length_cons]
    omega
  · simp

theorem variant_fill_in_bounds (gm : Nat → Bool) :
    ∀ todo i j k p, (marked_count gm i todo = 0 ∨ j + marked_count gm i todo ≤ p.type_stack_size) →
      ∃ p', variant_fill gm todo i j k p = .ok (k + marked_count gm i todo, p') ∧
        p'.type_stack_size = p.type_stack_size := by
  intro todo
  induction todo with
  | zero =>
    intro i j k p _
    exact ⟨p, by simp [variant_fill, marked_count], rfl⟩
  | succ n ih =>
    intro i j k p h
    rw [marked_count_succ] at h ⊢
    rw [variant_fill]
    by_cases hg : gm i = true
    · simp only [hg, if_true] at h ⊢
      have hj : j < p.type_stack_size := by omega
      simp only [stack_write, hj, if_true, bind, Except.bind]
      obtain ⟨p', h1, h2⟩ := ih (i + 1) (j + 1) (k + 1)
        { p with type_stack := fun c => if c = j then some (generic_type i) else p.type_stack c }
        (by right; simp only; omega)
      refine ⟨p', ?_, h2⟩
      rw [h1]
      congr 2
      omega
    · simp only [hg, Bool.false_eq_true, if_false, Nat.zero_add] at h ⊢
      exact ih (i + 1) j k p h

theorem variant_fill_out_of_bounds (gm : Nat → Bool) :
    ∀ todo i j k p, 1 ≤ marked_count gm i todo →
      p.type_stack_size < j + marked_count gm i todo →
      variant_fill gm todo i j k p = .error .undefined_behavior := by
  intro todo
  induction todo with
  | zero =>
    intro i j k p h1 _
    simp [marked_count] at h1
  | succ n ih =>
    intro i j k p h1 h2
    rw [marked_count_succ] at h1 h2
    rw [variant_fill]
    by_cases hg : gm i = true
    · simp only [hg, if_true] at h1 h2 ⊢
      by_cases hj : j < p.type_stack_size
      · simp only [stack_write, hj, if_true, bind, Except.bind]
        exact ih (i + 1) (j + 1) (k + 1) _ (by omega) (by simp only; omega)
      · simp [stack_write, hj, bind, Except.bind]
    · simp only [hg, Bool.false_eq_true, if_false, Nat.zero_add] at h1 h2 ⊢
      exact ih (i + 1) j k p h1 h2

theorem variant_return_out_of_bounds (p : lily_parse_state) (vc start top : Nat)
    (gm : Nat → Bool) (gmax : Nat)
    (hscan : variant_scan p start (top - start) (fun _ => false, 0) = .ok (gm, gmax))
    (h1 : 1 ≤ marked_count gm 0 gmax)
    (h2 : size_for_generics p top gmax < top + 1 + marked_count gm 0 gmax) :
    calculate_variant_return p vc start top = .error .undefined_behavior := by
  unfold calculate_variant_return
  simp only [hscan, bind, Except.bind]
  rw [variant_fill_out_of_bounds gm gmax 0 (top + 1) 0 _ h1]
  unfold size_for_generics at h2
  by_cases hg : top + gmax > p.type_stack_size
  · rw [if_pos hg] at h2 ⊢
    exact h2
  · rw [if_neg hg] at h2 ⊢
    exact h2

theorem decompose_generic (parser : lily_parse_state) (m : lily_type)
    (subs : List (Option lily_type)) (pos flags off : Nat) :
    calculate_decompose_type parser (some m) (lily_type.mk SYM_CLASS_TEMPLATE subs pos flags) off =
      match m.subtypes.get? pos with
      | none => .error .undefined_behavior
      | some t => .ok (t, parser) := by
  simp only [calculate_decompose_type, if_true]

theorem decompose_first_generic (parser : lily_parse_state) (match_type : Option lily_type)
    (cls : Nat) (rest : List (Option lily_type)) (g tp flags off : Nat) (c : lily_class)
    (hcls : cls ≠ SYM_CLASS_TEMPLATE) (hc : class_deref parser.symtab cls = .ok c)
    (ht : c.template_count ≠ 0) (hg : rest.length + 1 ≤ g) :
    calculate_decompose_type parser match_type
      (lily_type.mk cls (some (generic_type g) :: rest) tp flags) off =
      .error .undefined_behavior := by
  have hget : (some (generic_type g) :: rest).get? g = none := by
    rw [List.get?_eq_none]
    simp only [List.length_cons]
    omega
  unfold generic_type at hget
  simp only [calculate_decompose_type, if_neg hcls, hc, if_neg ht, decompose_subtypes,
    generic_type, if_true, lily_type.subtypes, hget]

theorem table_index_cons (e : String × Nat) (rest : List (String × Nat)) (name : String) :
    table_index (e :: rest) name =
      if e.1 = name then 0 else table_index rest name + 1 := by
  unfold table_index
  rw [List.findIdx_cons]
  by_cases h : e.1 = name <;> simp [h]

theorem table_index_absent (table : List (String × Nat)) (name : String)
    (h : ∀ e ∈ table, e.1 ≠ name) : table_index table name = table.length := by
  unfold table_index
  rw [List.findIdx_eq_length]
  intro e he
  simpa using h e he

theorem keyword_loop_ascending (name : String) :
    ∀ (table : List (String × Nat)) (i : Nat), ascending_table table →
      keyword_loop name (shorthash_for_name name) table i = index_or_minus_one table name i := by
  intro table
  induction table with
  | nil =>
    intro i _
    simp [keyword_loop, index_or_minus_one, table_index]
  | cons e rest ih =>
    intro i hasc
    obtain ⟨kname, khash⟩ := e
    have hhash : khash = shorthash_for_name kname := hasc.1 (kname, khash) (by simp)
    have hrest : ascending_table rest :=
      ⟨fun e he => hasc.1 e (List.mem_cons_of_mem _ he), (List.pairwise_cons.mp hasc.2).2⟩
    have hlt : ∀ e ∈ rest, khash < e.2 := (List.pairwise_cons.mp hasc.2).1
    rw [keyword_loop]
    unfold index_or_minus_one
    rw [table_index_cons]
    by_cases hn : kname = name
    · have : khash = shorthash_for_name name := by rw [hhash, hn]
      simp [hn, this]
    · simp only [hn, and_false, if_false]
      by_cases hgt : khash > shorthash_for_name name
      · rw [if_pos hgt]
        have habs : ∀ e ∈ rest, e.1 ≠ name := by
          intro e he heq
          have h1 := hlt e he
          have h2 := hasc.1 e (List.mem_cons_of_mem _ he)
          rw [h2, heq] at h1
          omega
        rw [table_index_absent rest name habs]
        simp
      · rw [if_neg hgt, ih (i + 1) hrest]
        unfold index_or_minus_one
        simp only [List.length_cons]
        by_cases hidx : table_index rest name < rest.length
        · rw [if_pos hidx, if_pos (by omega)]
          congr 1
          omega
        · rw [if_neg hidx, if_neg (by omega)]

theorem keywords_ascending : ascending_table keywords := by
  refine ⟨?_, by decide!⟩
  intro e he
  unfold keywords at he
  simp only [List.mem_map] at he
  obtain ⟨n, _, rfl⟩ := he
  rfl

theorem next_token_input (parser : lily_parse_state) (it : lex_item) (rest : List lex_item)
    (h : parser.lex.input = it :: rest) :
    (next_token parser).lex.token = it.token ∧ (next_token parser).lex.input = rest ∧
      (it.token = tk_word → (next_token parser).lex.label = it.label) := by
  unfold next_token lily_lexer
  rw [h]
  refine ⟨rfl, rfl, fun hw => ?_⟩
  simp [hw]

theorem next_token_word (parser : lily_parse_state)
    (h : (next_token parser).lex.token = tk_word) :
    ∃ it rest, parser.lex.input = it :: rest ∧ it.token = tk_word ∧
      (next_token parser).lex.label = it.label ∧ (next_token parser).lex.input = rest := by
  cases hin : parser.lex.input with
  | nil =>
    unfold next_token lily_lexer at h
    rw [hin] at h
    simp at h
  | cons it rest =>
    obtain ⟨h1, h2, h3⟩ := next_token_input parser it rest hin
    rw [h1] at h
    exact ⟨it, rest, rfl, h, h3 h, h2⟩

theorem next_token_of_token (parser : lily_parse_state) (t : lily_token)
    (h : (next_token parser).lex.token = t) (ht : t ≠ tk_final_eof) :
    ∃ it rest, parser.lex.input = it :: rest ∧ it.token = t ∧
      (next_token parser).lex.input = rest := by
  cases hin : parser.lex.input with
  | nil =>
    unfold next_token lily_lexer at h
    rw [hin] at h
    simp only at h
    exact absurd h.symm ht
  | cons it rest =>
    obtain ⟨h1, h2, _⟩ := next_token_input parser it rest hin
    rw [h1] at h
    exact ⟨it, rest, rfl, h, h2⟩

theorem letter_is_name (ch : Nat) (h : name_label (String.mk [Char.ofNat ((65 + ch) % 256)]) = true)
    (hch : ch ≤ 26) : ch ≤ 25 := by
  by_contra hc
  have : ch = 26 := by omega
  subst this
  revert h
  decide

theorem collect_generics_step (fuel : Nat) (parser : lily_parse_state) (ch : Nat) :
    collect_generics (fuel + 1) parser ch =
      if (next_token parser).lex.token ≠ tk_word then .error (.raised .lily_SyntaxError)
      else if (next_token parser).lex.label.toList ≠ [Char.ofNat ((65 + ch) % 256)] then
        .error (.raised .lily_SyntaxError)
      else if (next_token (next_token parser)).lex.token = tk_right_bracket then
        .ok (ch + 1, next_token (next_token (next_token parser)))
      else if (next_token (next_token parser)).lex.token ≠ tk_comma then
        .error (.raised .lily_SyntaxError)
      else collect_generics fuel (next_token (next_token parser)) (ch + 1) := by
  rw [collect_generics]
  simp only [need_next_tok_eq, bind, Except.bind, raise_if, raise_syntax, pure, Except.pure]
  by_cases h1 : (next_token parser).lex.token ≠ tk_word
  · simp [h1]
  · simp only [h1, if_false]
    by_cases h2 : (next_token parser).lex.label.toList = [Char.ofNat ((65 + ch) % 256)]
    · simp only [h2, ne_eq, not_true_eq_false, if_false]
    · simp only [h2, ne_eq, not_false_eq_true, if_true]

theorem generic_letter_list (ch : Nat) (h : ch ≤ 190) :
    (generic_letter ch).toList = [Char.ofNat ((65 + ch) % 256)] := by
  unfold generic_letter
  rw [Nat.mod_eq_of_lt (by omega)]
  rfl

theorem label_of_list (label : String) (ch : Nat) (hch : ch ≤ 190)
    (h : label.toList = [Char.ofNat ((65 + ch) % 256)]) : label = generic_letter ch := by
  unfold generic_letter
  rw [Nat.mod_eq_of_lt (by omega)] at h
  have : label = String.mk label.toList := rfl
  rw [this, h]

theorem collect_generics_accepts :
    ∀ (n ch fuel : Nat) (parser : lily_parse_state),
      reads_generics ch n parser.lex.input = true → n ≤ fuel → ch + n ≤ 26 →
      collect_generics fuel parser ch =
        .ok (ch + n, Nat.iterate next_token (2 * n + 1) parser) := by
  intro n
  induction n with
  | zero =>
    intro ch fuel parser h
    simp [reads_generics] at h
  | succ n ih =>
    intro ch fuel parser h hf hc
    cases fuel with
    | zero => omega
    | succ fuel =>
      cases hin : parser.lex.input with
      | nil => rw [hin] at h; simp [reads_generics] at h
      | cons name rest1 =>
        cases rest1 with
        | nil => rw [hin] at h; simp [reads_generics] at h
        | cons sep rest =>
          rw [hin] at h
          simp only [reads_generics, Bool.and_eq_true, decide_eq_true_eq] at h
          obtain ⟨⟨hw, hl⟩, hsep⟩ := h
          obtain ⟨a1, a2, a3⟩ := next_token_input parser name (sep :: rest) hin
          obtain ⟨b1, b2, _⟩ := next_token_input (next_token parser) sep rest a2
          rw [collect_generics_step]
          rw [if_neg (by rw [a1, hw]; simp)]
          rw [if_neg (by rw [a3 hw, hl, generic_letter_list ch (by omega)]; simp)]
          by_cases hn : n = 0
          · subst hn
            simp only [if_true, decide_eq_true_eq] at hsep
            rw [if_pos (by rw [b1, hsep])]
            rfl
          · simp only [hn, if_false, Bool.and_eq_true, decide_eq_true_eq] at hsep
            rw [if_neg (by rw [b1, hsep.1]; decide), if_neg (by rw [b1, hsep.1]; simp)]
            rw [ih (ch + 1) fuel (next_token (next_token parser)) (by rw [b2]; exact hsep.2)
              (by omega) (by omega)]
            have e1 : ch + 1 + n = ch + (n + 1) := by omega
            have e2 : 2 * (n + 1) + 1 = (2 * n + 1) + 2 := by omega
            rw [e1, e2, Function.iterate_add_apply]
            rfl

theorem collect_generics_reads :
    ∀ (fuel ch : Nat) (parser : lily_parse_state) (m : Nat) (p' : lily_parse_state),
      collect_generics fuel parser ch = .ok (m, p') → ch ≤ 26 →
      words_are_names parser.lex.input →
      ∃ n, 1 ≤ n ∧ m = ch + n ∧ m ≤ 26 ∧ reads_generics ch n parser.lex.input = true ∧
        p' = Nat.iterate next_token (2 * n + 1) parser := by
  intro fuel
  induction fuel with
  | zero =>
    intro ch parser m p' h
    simp [collect_generics] at h
  | succ fuel ih =>
    intro ch parser m p' h hch hnames
    rw [collect_generics_step] at h
    split at h
    · simp at h
    · rename_i h1
      have h1' : (next_token parser).lex.token = tk_word := by simpa using h1
      obtain ⟨name, rest1, hin, hw, hlab, hrest1⟩ := next_token_word parser h1'
      split at h
      · simp at h
      · rename_i h2
        have h2' : (next_token parser).lex.label.toList = [Char.ofNat ((65 + ch) % 256)] := by
          simpa using h2
        have hname : name_label name.label = true := hnames name (by rw [hin]; simp) hw
        have hl : name.label = generic_letter ch := by
          rw [← hlab]
          exact label_of_list _ ch (by omega) h2'
        have hch25 : ch ≤ 25 := by
          apply letter_is_name ch _ hch
          rw [← generic_letter_list ch (by omega)] at h2'
          have : (next_token parser).lex.label = generic_letter ch :=
            label_of_list _ ch (by omega) (by rw [h2', generic_letter_list ch (by omega)])
          rw [hlab] at this
          rw [this] at hname
          unfold generic_letter at hname
          rw [Nat.mod_eq_of_lt (by omega)]
          exact hname
        split at h
        · rename_i h3
          simp only [Except.ok.injEq, Prod.mk.injEq] at h
          obtain ⟨rfl, rfl⟩ := h
          obtain ⟨sep, rest, hin2, hs, _⟩ :=
            next_token_of_token (next_token parser) tk_right_bracket h3 (by decide)
          rw [hrest1] at hin2
          refine ⟨1, le_refl _, rfl, by omega, ?_, rfl⟩
          rw [hin, hin2]
          simp [reads_generics, hw, hl, hs]
        · split at h
          · simp at h
          · rename_i h3 h4
            have h4' : (next_token (next_token parser)).lex.token = tk_comma := by simpa using h4
            obtain ⟨sep, rest, hin2, hs, hrest⟩ :=
              next_token_of_token (next_token parser) tk_comma h4' (by decide)
            rw [hrest1] at hin2
            have hnames2 : words_are_names (next_token (next_token parser)).lex.input := by
              rw [hrest]
              intro it hit
              exact hnames it (by rw [hin, hin2]; simp [hit])
            obtain ⟨n, hn1, hm, hm26, hr, hp⟩ := ih (ch + 1) _ m p' h (by omega) hnames2
            refine ⟨n + 1, by omega, by omega, hm26, ?_, ?_⟩
            · rw [hin, hin2]
              rw [hrest] at hr
              have hn0 : n ≠ 0 := by omega
              simp [reads_generics, hw, hl, hs, hn0, hr]
            · rw [hp]
              have e2 : 2 * (n + 1) + 1 = (2 * n + 1) + 2 := by omega
              rw [e2, Function.iterate_add_apply]
              rfl

theorem collect_generics_total :
    ∀ (fuel ch : Nat) (parser : lily_parse_state), ch ≤ 26 → 27 ≤ fuel + ch →
      words_are_names parser.lex.input →
      (∃ r, collect_generics fuel parser ch = .ok r) ∨
        collect_generics fuel parser ch = .error (.raised .lily_SyntaxError) := by
  intro fuel
  induction fuel with
  | zero =>
    intro ch parser h1 h2
    omega
  | succ fuel ih =>
    intro ch parser hch hfuel hnames
    rw [collect_generics_step]
    split
    · right; rfl
    · rename_i h1
      have h1' : (next_token parser).lex.token = tk_word := by simpa using h1
      obtain ⟨name, rest1, hin, hw, hlab, hrest1⟩ := next_token_word parser h1'
      split
      · right; rfl
      · rename_i h2
        have h2' : (next_token parser).lex.label.toList = [Char.ofNat ((65 + ch) % 256)] := by
          simpa using h2
        have hname : name_label name.label = true := hnames name (by rw [hin]; simp) hw
        have hch25 : ch ≤ 25 := by
          apply letter_is_name ch _ hch
          have : (next_token parser).lex.label = generic_letter ch :=
            label_of_list _ ch (by omega) h2'
          rw [hlab] at this
          rw [this] at hname
          unfold generic_letter at hname
          rw [Nat.mod_eq_of_lt (by omega)]
          exact hname
        split
        · left; exact ⟨_, rfl⟩
        · split
          · right; rfl
          · rename_i h3 h4
            have h4' : (next_token (next_token parser)).lex.token = tk_comma := by simpa using h4
            obtain ⟨sep, rest, hin2, hs, hrest⟩ :=
              next_token_of_token (next_token parser) tk_comma h4' (by decide)
            rw [hrest1] at hin2
            have hnames2 : words_are_names (next_token (next_token parser)).lex.input := by
              rw [hrest]
              intro it hit
              exact hnames it (by rw [hin, hin2]; simp [hit])
            exact ih (ch + 1) _ (by omega) (by omega) hnames2

theorem variant_scan_none (p : lily_parse_state) (i : Nat) (st : (Nat → Bool) × Nat) :
    variant_scan p i 0 st = .ok st := by
  simp [variant_scan]

theorem variant_return_below {p p' : lily_parse_state} {vc start top : Nat} {t : lily_type}
    (h : calculate_variant_return p vc start top = .ok (t, p')) :
    (∀ c, c < start → p'.type_stack c = p.type_stack c) ∧
      (p.type_stack_size < 65536 → p'.type_stack_size < 65536) ∧
      p'.type_stack_pos = p.type_stack_pos := by
  obtain ⟨_, h2, h3, h4, _⟩ := calculate_variant_return_ok h
  refine ⟨fun c hc => ?_, h3, h4⟩
  by_cases hle : start ≤ top
  · exact h2 c (by omega)
  · have h0 : top - start = 0 := by omega
    unfold calculate_variant_return at h
    rw [h0, variant_scan_none] at h
    simp only [bind, Except.bind, variant_fill] at h
    repeat' split at h
    all_goals first
      | (simp at h; done)
      | (simp only [pure, Except.pure, Except.ok.injEq, Prod.mk.injEq] at h
         obtain ⟨_, rfl⟩ := h
         rfl)

theorem cvt_kept_step (fuel : Nat)
    (ih : ∀ p cls flags t p', inner_type_collector fuel p cls flags = .ok (t, p') →
      p.type_stack_size < 65536 → Frame p p') :
    ∀ p cls flags t p', collect_var_type (fuel + 1) p cls flags = .ok (t, p') →
      p.type_stack_size < 65536 → Frame p p' := by
  intro p cls flags t p' h hs
  rw [collect_var_type] at h
  simp only [bind_ok_iff] at h
  obtain ⟨⟨c1, p1⟩, h1, c, h2, _, h3, h⟩ := h
  have s1 := collect_class_same h1
  have hs1 : p1.type_stack_size < 65536 := by rw [s1.2.2]; exact hs
  simp only at h
  split at h
  · split at h
    · simp only [bind_ok_iff, pure_ok_iff, Prod.mk.injEq] at h
      obtain ⟨⟨_, p2⟩, h4, _, rfl⟩ := h
      exact (s1.stack_trans (get_named_var_same h4)).frame hs
    · simp only [pure_ok_iff, Prod.mk.injEq] at h
      obtain ⟨_, rfl⟩ := h
      exact s1.frame hs
  · split at h
    · simp only [bind_ok_iff] at h
      obtain ⟨_, _, ⟨t2, p2⟩, h4, h⟩ := h
      have f2 := ih _ _ _ _ _ h4 (by simpa [next_token] using hs1)
      have f3 : Frame p p2 := Frame.of_same_left (s1.stack_trans (next_token_same p1)) f2
      split at h
      · simp only [bind_ok_iff, pure_ok_iff, Prod.mk.injEq] at h
        obtain ⟨⟨_, p3⟩, h5, _, rfl⟩ := h
        exact f3.of_same_right ((next_token_same p2).stack_trans (get_named_var_same h5))
      · simp only [pure_ok_iff, Prod.mk.injEq] at h
        obtain ⟨_, rfl⟩ := h
        exact f3.of_same_right (next_token_same p2)
    · split at h
      · simp only [bind_ok_iff, pure_ok_iff] at h
        obtain ⟨⟨v, p2⟩, h4, _, rfl, _, _, ⟨t3, p3⟩, h5, _, rfl⟩ := h
        have s2 := s1.stack_trans ((get_named_var_same h4).stack_trans (next_token_same p2))
        have f3 := ih _ _ _ _ _ h5 (by rw [← s2.2.2] at hs; exact hs)
        exact (Frame.of_same_left s2 f3).of_same_right
          ((set_call_var_type_same _ _ _).stack_trans (next_token_same _))
      · simp only [bind_ok_iff, pure_ok_iff] at h
        obtain ⟨_, rfl, _, _, ⟨t3, p3⟩, h5, _, rfl⟩ := h
        have s2 := s1.stack_trans (next_token_same p1)
        have f3 := ih _ _ _ _ _ h5 (by rw [← s2.2.2] at hs; exact hs)
        exact (Frame.of_same_left s2 f3).of_same_right
          ((set_call_var_type_same _ _ _).stack_trans (next_token_same _))

theorem tc_loop_kept_step (fuel : Nat)
    (ih_loop : ∀ start e l p l' p', tc_loop fuel start e l p = .ok (l', p') →
      p.type_stack_size < 65536 → start ≤ p.type_stack_pos → LoopKept start p p')
    (ih_cvt : ∀ p cls flags t p', collect_var_type fuel p cls flags = .ok (t, p') →
      p.type_stack_size < 65536 → Frame p p') :
    ∀ start e l p l' p', tc_loop (fuel + 1) start e l p = .ok (l', p') →
      p.type_stack_size < 65536 → start ≤ p.type_stack_pos → LoopKept start p p' := by
  intro start e l p l' p' h hs hle
  rw [tc_loop] at h
  split at h
  · simp only at h
    split at h
    · simp at h
    · rename_i ty p2 hc
      have hg := grow_if_full_same p hs
      have f2 := ih_cvt _ _ _ _ _ hc hg.2.2
      obtain ⟨f2a, f2b, f2c⟩ := f2
      rw [hg.2.1] at f2a f2c
      split at h
      · split at h
        · simp at h
        · rename_i p3 hw
          obtain ⟨hlt, rfl⟩ := push_type_ok f2b hw
          have := ih_loop _ _ _ _ _ _ h (by simpa using f2b) (by simp only; omega)
          refine ⟨this.1, this.2.1, fun j hj => ?_⟩
          rw [this.2.2 j hj]
          simp only
          rw [if_neg (by omega), f2c j (by omega), hg.1]
      · split at h
        · simp at h
        · rename_i p3 hw
          obtain ⟨hlt, rfl⟩ := stack_write_ok hw
          have := ih_loop _ _ _ _ _ _ h (by simpa using f2b) (by simp only; omega)
          refine ⟨this.1, this.2.1, fun j hj => ?_⟩
          rw [this.2.2 j hj]
          simp only
          rw [if_neg (by omega), f2c j (by omega), hg.1]
  · split at h
    · simp at h
    · rename_i l1 hop
      split at h
      · simp only [Except.ok.injEq, Prod.mk.injEq] at h
        obtain ⟨rfl, rfl⟩ := h
        exact ⟨hle, hs, fun _ _ => rfl⟩
      · split at h
        · simp [ raise_syntax] at h
        · have := ih_loop _ _ _ _ _ _ h hs hle
          exact ⟨this.1, this.2.1, this.2.2⟩

theorem itc_kept_step (fuel : Nat)
    (ih_loop : ∀ start e l p l' p', tc_loop fuel start e l p = .ok (l', p') →
      p.type_stack_size < 65536 → start ≤ p.type_stack_pos → LoopKept start p p') :
    ∀ p cls flags t p', inner_type_collector (fuel + 1) p cls flags = .ok (t, p') →
      p.type_stack_size < 65536 → Frame p p' := by
  intro p cls flags t p' h hs
  rw [inner_type_collector] at h
  simp only [bind_ok_iff] at h
  obtain ⟨⟨p1, e, i⟩, h1, ⟨l, p2⟩, h2, c, _, _, _, _, _, p3, h3, _, _, h⟩ := h
  simp only [pure_ok_iff, Prod.mk.injEq] at h
  obtain ⟨_, rfl⟩ := h
  obtain ⟨a1, a2, a3⟩ := tc_enter_frame hs h1
  obtain ⟨b1, b2, b3⟩ := ih_loop _ _ _ _ _ _ h2 a1 a2
  unfold tc_variant_return at h3
  split at h3
  · split at h3
    · simp at h3
    · rename_i vr q hq
      obtain ⟨c1, c2, c3⟩ := variant_return_below hq
      obtain ⟨_, rfl⟩ := stack_write_ok h3
      refine ⟨rfl, c2 b2, fun j hj => ?_⟩
      simp only
      rw [if_neg (by omega), c1 j hj, b3 j hj, a3 j hj]
  · simp only [Except.ok.injEq] at h3
    subst h3
    exact ⟨rfl, b2, fun j hj => by rw [b3 j hj, a3 j hj]⟩

theorem kept_all (fuel : Nat) :
    (∀ start e l p l' p', tc_loop fuel start e l p = .ok (l', p') →
      p.type_stack_size < 65536 → start ≤ p.type_stack_pos → LoopKept start p p') ∧
    (∀ p cls flags t p', inner_type_collector fuel p cls flags = .ok (t, p') →
      p.type_stack_size < 65536 → Frame p p') ∧
    (∀ p cls flags t p', collect_var_type fuel p cls flags = .ok (t, p') →
      p.type_stack_size < 65536 → Frame p p') := by
  induction fuel with
  | zero =>
    refine ⟨?_, ?_, ?_⟩
    · intro start e l p l' p' h; simp [tc_loop] at h
    · intro p cls flags t p' h; simp [inner_type_collector] at h
    · intro p cls flags t p' h; simp [collect_var_type] at h
  | succ n ih =>
    exact ⟨tc_loop_kept_step n ih.1 ih.2.2, itc_kept_step n ih.1, cvt_kept_step n ih.2.1⟩

theorem token_in_want_operator_ends (fuel : Nat) (m : Bool) (parser : lily_parse_state)
    (h : parser.lex.token = tk_word ∨ parser.lex.token = tk_prop_word ∨
      parser.lex.token = tk_tuple_open) :
    expression_token fuel m parser ST_WANT_OPERATOR = .ok (parser, ST_DONE) := by
  rcases h with h | h | h <;> simp [expression_token, h, tok_expr_op]

theorem number_in_want_operator (fuel : Nat) (m : Bool) (parser : lily_parse_state)
    (h : parser.lex.token = tk_integer ∨ parser.lex.token = tk_double) :
    expression_token fuel m parser ST_WANT_OPERATOR =
      .ok (expression_literal parser ST_WANT_OPERATOR) := by
  rcases h with h | h <;> simp [expression_token, h, tok_expr_op]

theorem unsigned_number_ends (parser : lily_parse_state)
    (h : parser.lex.token = tk_integer ∨ parser.lex.token = tk_double)
    (hs : parser.lex.signed ≠ some tk_plus) (hm : parser.lex.signed ≠ some tk_minus) :
    expression_literal parser ST_WANT_OPERATOR = (parser, ST_DONE) := by
  unfold expression_literal
  have ht : parser.lex.token ≠ tk_double_quote := by
    rcases h with h | h <;> rw [h] <;> decide
  simp only [ht, ne_eq, not_false_eq_true, and_self, if_true]
  cases hsg : parser.lex.signed with
  | none => rfl
  | some sign =>
    rw [hsg] at hs hm
    have h1 : sign ≠ tk_plus := fun hc => hs (by rw [hc])
    have h2 : sign ≠ tk_minus := fun hc => hm (by rw [hc])
    simp [h1, h2]

theorem signed_number_splits (parser : lily_parse_state) (sign : lily_token)
    (h : parser.lex.token = tk_integer ∨ parser.lex.token = tk_double)
    (hs : parser.lex.signed = some sign) (hsign : sign = tk_plus ∨ sign = tk_minus) :
    expression_literal parser ST_WANT_OPERATOR =
      ({ parser with
           ast_pool := lily_ast_push
             (lily_ast_push_binary_op parser.ast_pool
               (if sign = tk_minus then expr_minus else expr_plus)) tree_literal,
           lex := { parser.lex with signed := none } }, ST_WANT_OPERATOR) := by
  unfold expression_literal
  have ht : parser.lex.token ≠ tk_double_quote := by
    rcases h with h | h <;> rw [h] <;> decide
  simp only [ht, ne_eq, not_false_eq_true, and_self, if_true, hs]
  rcases hsign with hsign | hsign <;> simp [hsign]

theorem string_in_want_operator (fuel : Nat) (m : Bool) (parser : lily_parse_state)
    (h : parser.lex.token = tk_double_quote) (state : Nat) :
    expression_token fuel m parser state =
      .ok ({ parser with ast_pool := lily_ast_push parser.ast_pool tree_literal },
        ST_WANT_OPERATOR) := by
  simp [expression_token, h, tok_expr_op, expression_literal]

theorem lambda_in_want_operator (fuel : Nat) (m : Bool) (parser : lily_parse_state)
    (h : parser.lex.token = tk_lambda) :
    (save_depth parser.ast_pool = 0 →
      expression_token fuel m parser ST_WANT_OPERATOR = .ok (parser, ST_DONE)) ∧
    (save_depth parser.ast_pool ≠ 0 →
      expression_token fuel m parser ST_WANT_OPERATOR =
        .ok ({ parser with ast_pool := lily_ast_push parser.ast_pool tree_lambda },
          ST_WANT_OPERATOR)) := by
  refine ⟨fun hd => ?_, fun hd => ?_⟩
  · simp [expression_token, h, tok_expr_op, tok_val_or_end, hd]
  · simp [expression_token, h, tok_expr_op, tok_val_or_end, hd]

theorem sign_apart_first_pass (fuel : Nat) (m : Bool) (parser : lily_parse_state)
    (sign : lily_token) (hsign : sign = tk_plus ∨ sign = tk_minus) :
    expression_token fuel m (sign_written_apart parser sign) ST_WANT_OPERATOR =
      .ok ({ sign_written_apart parser sign with
               ast_pool := lily_ast_push_binary_op parser.ast_pool
                 (if sign = tk_minus then expr_minus else expr_plus) }, ST_DEMAND_VALUE) := by
  rcases hsign with hsign | hsign <;>
    simp [expression_token, sign_written_apart, hsign, tok_expr_op]

theorem number_demanded (fuel : Nat) (m : Bool) (parser : lily_parse_state)
    (h : parser.lex.token = tk_integer ∨ parser.lex.token = tk_double) :
    expression_token fuel m parser ST_DEMAND_VALUE =
      .ok ({ parser with ast_pool := lily_ast_push parser.ast_pool tree_literal },
        ST_WANT_OPERATOR) := by
  rcases h with h | h <;>
    simp [expression_token, h, tok_expr_op, expression_literal, ST_DEMAND_VALUE,
      ST_WANT_OPERATOR]

theorem expression_loop_step (fuel : Nat) (m : Bool) (parser parser' : lily_parse_state)
    (state state' : Nat) (h : expression_token fuel m parser state = .ok (parser', state'))
    (h1 : state' ≠ ST_DONE) (h2 : state' ≠ ST_BAD_TOKEN) :
    expression_loop (fuel + 1) m parser state =
      expression_loop fuel m (next_token parser') state' := by
  rw [expression_loop, h]
  simp only [h1, h2, if_false]

theorem expression_loop_done (fuel : Nat) (m : Bool) (parser parser' : lily_parse_state)
    (state : Nat) (h : expression_token fuel m parser state = .ok (parser', ST_DONE)) :
    expression_loop (fuel + 1) m parser state = .ok parser' := by
  rw [expression_loop, h]
  simp

theorem signed_number_as_written_apart (fuel : Nat) (m : Bool) (parser : lily_parse_state)
    (sign : lily_token) (h : parser.lex.token = tk_integer ∨ parser.lex.token = tk_double)
    (hs : parser.lex.signed = some sign) (hsign : sign = tk_plus ∨ sign = tk_minus) :
    expression_loop (fuel + 1) m parser ST_WANT_OPERATOR =
      expression_loop (fuel + 2) m (sign_written_apart parser sign) ST_WANT_OPERATOR := by
  have hnext : next_token { sign_written_apart parser sign with
      ast_pool := lily_ast_push_binary_op parser.ast_pool
        (if sign = tk_minus then expr_minus else expr_plus) } =
      { parser with
          ast_pool := lily_ast_push_binary_op parser.ast_pool
            (if sign = tk_minus then expr_minus else expr_plus),
          lex := { parser.lex with signed := none } } := by
    rcases h with h | h <;>
      simp [next_token, lily_lexer, sign_written_apart, h]
  rw [expression_loop_step (fuel + 1) m _ _ _ _ (sign_apart_first_pass _ _ _ _ hsign)
    (by decide) (by decide)]
  rw [hnext]
  rw [expression_loop_step fuel m _ _ _ _ (number_demanded _ _ _ (by simpa using h))
    (by decide) (by decide)]
  have hl := expression_loop_step fuel m parser
    { parser with
        ast_pool := lily_ast_push
          (lily_ast_push_binary_op parser.ast_pool
            (if sign = tk_minus then expr_minus else expr_plus)) tree_literal,
        lex := { parser.lex with signed := none } } ST_WANT_OPERATOR ST_WANT_OPERATOR
    (by rw [number_in_want_operator _ _ _ h, signed_number_splits _ _ h hs hsign])
    (by decide) (by decide)
  rw [hl]

theorem dot_token (fuel : Nat) (m : Bool) (parser : lily_parse_state) (state : Nat)
    (h : parser.lex.token = tk_dot) :
    expression_token fuel m parser state = expression_dot fuel parser state := by
  simp [expression_token, h, tok_expr_op]

theorem expression_dot_word (fuel : Nat) (parser : lily_parse_state) (state : Nat)
    (h : (next_token parser).lex.token = tk_word) :
    expression_dot fuel parser state =
      .ok ({ next_token parser with
               ast_pool := lily_ast_push (next_token parser).ast_pool tree_oo_access },
        ST_WANT_OPERATOR) := by
  unfold expression_dot
  simp only [h, if_true]
  rfl

theorem expression_dot_other (fuel : Nat) (parser : lily_parse_state) (state : Nat)
    (h1 : (next_token parser).lex.token ≠ tk_word)
    (h2 : (next_token parser).lex.token ≠ tk_typecast_parenth) :
    expression_dot fuel parser state = .ok (next_token parser, state) := by
  unfold expression_dot
  simp only [h1, h2, if_false]
  rfl

theorem dot_skips_token (fuel : Nat) (m : Bool) (parser : lily_parse_state) (state : Nat)
    (h : parser.lex.token = tk_dot) (h1 : (next_token parser).lex.token ≠ tk_word)
    (h2 : (next_token parser).lex.token ≠ tk_typecast_parenth)
    (hd : state ≠ ST_DONE) (hb : state ≠ ST_BAD_TOKEN) :
    expression_loop (fuel + 1) m parser state =
      expression_loop fuel m (next_token (next_token parser)) state := by
  apply expression_loop_step fuel m parser (next_token parser) state state _ hd hb
  rw [dot_token _ _ _ _ h, expression_dot_other _ _ _ h1 h2]

theorem parser_loop_tokens_raiser :
    ∀ (fuel : Nat) (st st' : lily_parse_state_ext), parser_loop_tokens fuel st = .ok st' →
      st'.raiser = st.raiser := by
  intro fuel
  induction fuel with
  | zero =>
    intro st st' h
    simp [parser_loop_tokens] at h
  | succ fuel ih =>
    intro st st' h
    rw [parser_loop_tokens] at h
    simp only [lily_vm_execute] at h
    repeat' split at h
    all_goals first
      | (exact (ih _ _ h).trans rfl)
      | (simp only [Except.ok.injEq] at h; rw [← h])
      | (simp [ raise_syntax] at h)

theorem parser_loop_raiser (fuel : Nat) (seeds : List (List lex_item))
    (st st' : lily_parse_state_ext) (h : parser_loop fuel seeds st = .ok st') :
    st'.raiser = st.raiser := by
  unfold parser_loop at h
  split at h
  · simp at h
  · simp only at h
    exact (parser_loop_tokens_raiser _ _ _ h).trans rfl

theorem load_first_raiser (st : lily_parse_state_ext) (name : String) (mode : lily_lex_mode)
    (src : List lex_item) :
    (lily_load_first (handler_installed st) name mode src).raiser.jump_pos =
      st.raiser.jump_pos + 1 := rfl

theorem parse_string_jump_pos (fuel : Nat) (seeds : List (List lex_item))
    (st st' : lily_parse_state_ext) (name : String) (mode : lily_lex_mode)
    (str : List lex_item) (h : lily_parse_string fuel seeds st name mode str = .ok st') :
    st'.raiser.jump_pos = st.raiser.jump_pos + 1 := by
  unfold lily_parse_string at h
  rw [parser_loop_raiser _ _ _ _ h]
  rfl

theorem parse_special_jump_pos (fuel : Nat) (seeds : List (List lex_item))
    (st st' : lily_parse_state_ext) (mode : lily_lex_mode) (source : List lex_item)
    (name : String) (h : lily_parse_special fuel seeds st mode source name = .ok st') :
    st'.raiser.jump_pos = st.raiser.jump_pos + 1 := by
  unfold lily_parse_special at h
  rw [parser_loop_raiser _ _ _ _ h]
  rfl

theorem parse_file_jump_pos (fuel : Nat) (seeds : List (List lex_item))
    (st st' : lily_parse_state_ext) (mode : lily_lex_mode) (name : String)
    (file : List lex_item) (h : lily_parse_file fuel seeds st mode name file = .ok st') :
    st'.raiser.jump_pos = st.raiser.jump_pos + 1 := by
  unfold lily_parse_file at h
  simp only at h
  split at h
  · rw [parser_loop_raiser _ _ _ _ h]
    rfl
  · simp only [Except.ok.injEq] at h
    rw [← h]
    rfl

theorem parse_strings_jump_pos (fuel : Nat) (seeds : List (List lex_item)) :
    ∀ (strs : List (List lex_item)) (st st' : lily_parse_state_ext),
      parse_strings fuel seeds st strs = .ok st' →
      st'.raiser.jump_pos = st.raiser.jump_pos + strs.length := by
  intro strs
  induction strs with
  | nil =>
    intro st st' h
    simp only [parse_strings, Except.ok.injEq] at h
    rw [← h]
    rfl
  | cons str rest ih =>
    intro st st' h
    rw [parse_strings] at h
    split at h
    · simp at h
    · rename_i st1 h1
      rw [ih _ _ h, parse_string_jump_pos _ _ _ _ _ _ _ h1, List.length_cons]
      omega

theorem parse_empty_string (fuel : Nat) (seeds : List (List lex_item))
    (st : lily_parse_state_ext) (hm : st.mode ≠ pm_init)
    (hb : st.parser.emit.blocks.length ≤ 1) :
    ∃ st', lily_parse_string (fuel + 1) seeds st "[cli]" lm_no_tags [] = .ok st' ∧
      st'.mode ≠ pm_init ∧ st'.parser.emit.blocks = st.parser.emit.blocks := by
  unfold lily_parse_string parser_loop
  have h1 : (lily_load_first (handler_installed st) "[cli]" lm_no_tags []).mode = st.mode := rfl
  rw [h1, if_neg hm]
  simp only
  rw [parser_loop_tokens]
  have hb' : ¬ st.parser.emit.blocks.length > 1 := by omega
  simp [lily_load_first, handler_installed, next_token, lily_lexer, lily_vm_execute, hb']

theorem parse_empty_strings (fuel : Nat) (seeds : List (List lex_item)) :
    ∀ (n : Nat) (st : lily_parse_state_ext), st.mode ≠ pm_init →
      st.parser.emit.blocks.length ≤ 1 →
      ∃ st', parse_strings (fuel + 1) seeds st (List.replicate n []) = .ok st' ∧
        st'.raiser.jump_pos = st.raiser.jump_pos + n := by
  intro n
  induction n with
  | zero =>
    intro st _ _
    exact ⟨st, rfl, rfl⟩
  | succ n ih =>
    intro st hm hb
    obtain ⟨st1, h1, hm1, hb1⟩ := parse_empty_string fuel seeds st hm hb
    obtain ⟨st2, h2, hj⟩ := ih st1 hm1 (by rw [hb1]; exact hb)
    refine ⟨st2, ?_, ?_⟩
    · rw [List.replicate_succ, parse_strings, h1]
      exact h2
    · rw [hj, parse_string_jump_pos _ _ _ _ _ _ _ h1]
      omega

theorem msgbuf_add_size (lib : c_library) (m m' : lily_msgbuf) (str : List Nat)
    (h : lily_msgbuf_add lib m str = .ok m') (ht : m.truncated = 0) (ht' : m'.truncated = 0) :
    m'.size = if m.pos + str.length + 1 > m.size then (m.pos + str.length + 1) % 65536
      else m.size := by
  unfold lily_msgbuf_add at h
  simp only [ht, ne_eq, not_true_eq_false, if_false] at h
  by_cases hbig : m.pos + str.length + 1 > m.size
  · rw [if_pos hbig] at h ⊢
    unfold try_resize_msgbuf at h
    by_cases hroom : m.pos + str.length + 1 ≤ lib.room
    · rw [if_pos hroom] at h
      simp only [one_ne_zero, if_false] at h
      split at h
      · simp at h
      · simp only [Except.ok.injEq] at h
        rw [← h]
    · rw [if_neg hroom] at h
      simp only [if_true, Except.ok.injEq] at h
      rw [← h] at ht'
      simp at ht'
  · rw [if_neg hbig] at h ⊢
    simp only [one_ne_zero, if_false] at h
    split at h
    · simp at h
    · simp only [Except.ok.injEq] at h
      rw [← h]

theorem msgbuf_add_text_range_size (lib : c_library) (m m' : lily_msgbuf) (text : List Nat)
    (start stop : Nat)
    (h : lily_msgbuf_add_text_range lib m text start stop = .ok m') (ht : m.truncated = 0)
    (ht' : m'.truncated = 0) :
    m'.size = if m.pos + (stop - start) + 1 > m.size then (m.pos + (stop - start) + 1) % 65536
      else m.size := by
  unfold lily_msgbuf_add_text_range at h
  simp only [ht, ne_eq, not_true_eq_false, if_false] at h
  by_cases hbig : m.pos + (stop - start) + 1 > m.size
  · rw [if_pos hbig] at h ⊢
    unfold try_resize_msgbuf at h
    by_cases hroom : m.pos + (stop - start) + 1 ≤ lib.room
    · rw [if_pos hroom] at h
      simp only [one_ne_zero, if_false] at h
      repeat' split at h
      all_goals first
        | (simp at h; done)
        | (simp only [Except.ok.injEq] at h; rw [← h])
    · rw [if_neg hroom] at h
      simp only [if_true, Except.ok.injEq] at h
      rw [← h] at ht'
      simp at ht'
  · rw [if_neg hbig] at h ⊢
    simp only [one_ne_zero, if_false] at h
    repeat' split at h
    all_goals first
      | (simp at h; done)
      | (simp only [Except.ok.injEq] at h; rw [← h])

theorem msgbuf_add_kept (lib : c_library) (msgbuf : lily_msgbuf) (content str : List Nat)
    (h : Kept msgbuf content) (hstr : ∀ b ∈ str, b ≠ 0)
    (hlen : content.length + str.length + 1 < 65536)
    (hroom : content.length + str.length + 1 ≤ lib.room) :
    ∃ msgbuf', lily_msgbuf_add lib msgbuf str = .ok msgbuf' ∧ Kept msgbuf' (content ++ str) := by
  obtain ⟨m', h1, h2⟩ := msgbuf_add_holds lib msgbuf content str h.1 hstr (by omega) hroom
  refine ⟨m', h1, h2, ?_⟩
  have hs := msgbuf_add_size lib msgbuf m' str h1 h.1.2.2.1 h2.2.2.1
  have hp := h.1.2.1
  rw [h2.2.1, hs, List.length_append]
  split
  · rw [Nat.mod_eq_of_lt (by omega)]
    omega
  · omega

theorem msgbuf_add_text_range_kept (lib : c_library) (msgbuf : lily_msgbuf)
    (content text : List Nat) (start stop : Nat)
    (h : Kept msgbuf content) (hss : start ≤ stop) (hst : stop ≤ text.length)
    (hnz : ∀ b ∈ text, b ≠ 0)
    (hlen : content.length + (stop - start) + 1 < 65536)
    (hroom : content.length + (stop - start) + 1 ≤ lib.room) :
    ∃ msgbuf', lily_msgbuf_add_text_range lib msgbuf text start stop = .ok msgbuf' ∧
      Kept msgbuf' (content ++ (text.drop start).take (stop - start)) := by
  obtain ⟨m', h1, h2⟩ := msgbuf_add_text_range_holds lib msgbuf content text start stop h.1
    hss hst hnz (by omega) hroom
  refine ⟨m', h1, h2, ?_⟩
  have hs := msgbuf_add_text_range_size lib msgbuf m' text start stop h1 h.1.2.2.1 h2.2.2.1
  have hp := h.1.2.1
  have hl : ((text.drop start).take (stop - start)).length = stop - start := by
    simp only [List.length_take, List.length_drop]
    omega
  rw [h2.2.1, hs, List.length_append, hl]
  split
  · rw [Nat.mod_eq_of_lt (by omega)]
    omega
  · omega

theorem msgbuf_reset_kept (msgbuf : lily_msgbuf) (content : List Nat) (h : Kept msgbuf content) :
    ∃ msgbuf', lily_msgbuf_reset msgbuf = .ok msgbuf' ∧ Kept msgbuf' [] ∧
      lily_msgbuf_flush msgbuf = .ok msgbuf' := by
  obtain ⟨⟨⟨tail, hm⟩, hpos, htr, hsize, hnz⟩, hlt⟩ := h
  cases hb : msgbuf.message with
  | nil =>
    rw [hb] at hm
    cases content <;> simp at hm
  | cons x rest =>
    refine ⟨{ msgbuf with pos := 0, message := some 0 :: rest, truncated := 0 }, ?_, ?_, ?_⟩
    · unfold lily_msgbuf_reset
      rw [hb]
    · refine ⟨⟨⟨rest, rfl⟩, rfl, rfl, ?_, by simp⟩, ?_⟩
      · simp only [List.length_cons]
        rw [hb] at hsize
        simpa using hsize
      · simp only
        omega
    · unfold lily_msgbuf_flush
      rw [hb]
      simp only [Except.ok.injEq]
      cases msgbuf
      simp only at htr
      simp [htr]

theorem msgbuf_do_kept (lib : c_library) (msgbuf : lily_msgbuf) (content : List Nat)
    (call : msgbuf_call) (h : Kept msgbuf content) (hr : readable call)
    (hlen : content.length + (text_added call).length + 1 < 65536)
    (hroom : content.length + (text_added call).length + 1 ≤ lib.room) :
    ∃ msgbuf', msgbuf_do lib msgbuf call = .ok msgbuf' ∧
      Kept msgbuf' (text_after content call) := by
  cases call with
  | add str => exact msgbuf_add_kept lib msgbuf content str h hr hlen hroom
  | add_char c =>
    simp only [msgbuf_do, text_after, text_added, lily_msgbuf_add_char] at hlen hroom ⊢
    apply msgbuf_add_kept lib msgbuf content _ h _ hlen hroom
    intro b hb
    split at hb
    · simp at hb
    · simp only [List.mem_singleton] at hb
      subst hb
      assumption
  | add_text_range text start stop =>
    simp only [text_added] at hlen hroom
    have hl : ((text.drop start).take (stop - start)).length = stop - start := by
      simp only [List.length_take, List.length_drop]
      have := hr.1
      have := hr.2.1
      omega
    rw [hl] at hlen hroom
    exact msgbuf_add_text_range_kept lib msgbuf content text start stop h hr.1 hr.2.1 hr.2.2
      hlen hroom
  | reset =>
    obtain ⟨m', h1, h2, _⟩ := msgbuf_reset_kept msgbuf content h
    exact ⟨m', h1, h2⟩
  | flush =>
    obtain ⟨m', _, h2, h3⟩ := msgbuf_reset_kept msgbuf content h
    exact ⟨m', h3, h2⟩

theorem text_after_length (content : List Nat) (call : msgbuf_call) :
    (text_after content call).length ≤ content.length + (text_added call).length := by
  cases call <;> simp [text_after, text_added]

theorem msgbuf_run_kept (lib : c_library) :
    ∀ (calls : List msgbuf_call) (msgbuf : lily_msgbuf) (content : List Nat),
      Kept msgbuf content → (∀ call ∈ calls, readable call) →
      content.length + bytes_added calls + 1 < 65536 →
      content.length + bytes_added calls + 1 ≤ lib.room →
      ∃ msgbuf', msgbuf_run lib msgbuf calls = .ok msgbuf' ∧
        Kept msgbuf' (text_after_all content calls) := by
  intro calls
  induction calls with
  | nil =>
    intro msgbuf content h _ _ _
    exact ⟨msgbuf, rfl, h⟩
  | cons call rest ih =>
    intro msgbuf content h hr hlen hroom
    have hb : bytes_added (call :: rest) = (text_added call).length + bytes_added rest := by
      simp [bytes_added]
    rw [hb] at hlen hroom
    obtain ⟨m1, h1, k1⟩ := msgbuf_do_kept lib msgbuf content call h (hr call (by simp))
      (by omega) (by omega)
    have hl := text_after_length content call
    obtain ⟨m2, h2, k2⟩ := ih m1 (text_after content call) k1
      (fun c hc => hr c (List.mem_cons_of_mem _ hc)) (by omega) (by omega)
    refine ⟨m2, ?_, k2⟩
    simp only [msgbuf_run, h1]
    exact h2

theorem msgbuf_add_wraps (lib : c_library) (msgbuf : lily_msgbuf) (content str : List Nat)
    (h : Holds msgbuf content) (hstr : ∀ b ∈ str, b ≠ 0)
    (hroom : content.length + str.length + 1 ≤ lib.room) :
    ∃ msgbuf', lily_msgbuf_add lib msgbuf str = .ok msgbuf' ∧
      msgbuf'.pos = (content.length + str.length) % 65536 ∧
      c_string msgbuf'.message = .ok (content ++ str) := by
  have h0 := h
  obtain ⟨⟨tail, hm⟩, hpos, htr, hsize, hnz⟩ := h
  have hnz2 : ∀ b ∈ content ++ str, b ≠ 0 := by
    intro b hb
    rcases List.mem_append.mp hb with hb | hb
    · exact hnz b hb
    · exact hstr b hb
  unfold lily_msgbuf_add
  simp only [htr, ne_eq, not_true_eq_false, if_false]
  by_cases hbig : msgbuf.pos + str.length + 1 > msgbuf.size
  · rw [if_pos hbig]
    obtain ⟨tail1, hr, hl1⟩ := resized_block lib msgbuf content (msgbuf.pos + str.length + 1) h0
      (by omega) (by omega)
    rw [hr]
    simp only [one_ne_zero, if_false]
    obtain ⟨tail2, hc, hl2⟩ := c_strcat_content content str tail1 hnz (by rw [hl1]; omega)
    rw [hc]
    exact ⟨_, rfl, by simp only [hpos], c_string_content _ _ hnz2⟩
  · rw [if_neg hbig]
    simp only [one_ne_zero, if_false]
    rw [hm]
    obtain ⟨tail2, hc, hl2⟩ := c_strcat_content content str tail hnz
      (by rw [← hm]; omega)
    rw [hc]
    exact ⟨_, rfl, by simp only [hpos], c_string_content _ _ hnz2⟩

theorem new_buffer_kept : Kept new_buffer [] :=
  ⟨new_buffer_holds, by decide⟩

/-- For a field type that is not itself a generic, calculate_decompose_type
does not look at the match type. -/
theorem decompose_ignores_match (parser : lily_parse_state) (m1 m2 : Option lily_type)
    (cls : Nat) (subs : List (Option lily_type)) (tp flags off : Nat)
    (hcls : cls ≠ SYM_CLASS_TEMPLATE) :
    calculate_decompose_type parser m1 (lily_type.mk cls subs tp flags) off =
      calculate_decompose_type parser m2 (lily_type.mk cls subs tp flags) off := by
  simp only [calculate_decompose_type, if_neg hcls]

/-- A field type of a class that takes no types is returned as it is. -/
theorem decompose_plain (parser : lily_parse_state) (m : Option lily_type)
    (cls : Nat) (subs : List (Option lily_type)) (tp flags off : Nat) (c : lily_class)
    (hcls : cls ≠ SYM_CLASS_TEMPLATE) (hc : class_deref parser.symtab cls = .ok c)
    (ht : c.template_count = 0) :
    calculate_decompose_type parser m (lily_type.mk cls subs tp flags) off =
      .ok (some (lily_type.mk cls subs tp flags), parser) := by
  simp only [calculate_decompose_type, if_neg hcls, hc, ht, if_true]

/-- The values of a variant that takes none: the colon is read and the lexer
moves past it. -/
theorem case_values_no_values (fuel : Nat) (parser : lily_parse_state)
    (mt : Option lily_type) (cc : Nat) (ccls : lily_class) (vt : lily_type)
    (rest : List lex_item)
    (hcls : class_deref parser.symtab cc = .ok ccls) (hvt : ccls.variant_type = some vt)
    (hcount : vt.subtype_count = 0) (hin : parser.lex.input = tok tk_colon :: rest) :
    case_values fuel parser mt (some cc) = .ok (next_token (next_token parser)) := by
  have hl1 : (next_token parser).lex.token = tk_colon := by
    simp [next_token, lily_lexer, hin, tok]
  unfold case_values
  simp only [deref, hcls, hvt, bind, Except.bind, hcount, ne_eq, not_true_eq_false, if_false,
    pure, Except.pure]
  rw [need_next_tok_eq, if_neg (by simp [hl1])]

/-- The parser with a variant recorded in the block of the match has the
symtab, the lexer and the type stack it had. -/
theorem update_block_fields (parser : lily_parse_state) (f : lily_block → lily_block) :
    (update_block parser f).symtab = parser.symtab ∧
    (update_block parser f).lex = parser.lex ∧
    (update_block parser f).type_stack_pos = parser.type_stack_pos := by
  unfold update_block
  split <;> exact ⟨rfl, rfl, rfl⟩

theorem class_by_name_none (symtab : lily_symtab) (name : String)
    (h : (lily_class_by_name symtab name).2 = none) :
    lily_class_by_name symtab name = (symtab, none) := by
  unfold lily_class_by_name at h ⊢
  split
  · rename_i ch hch
    rw [hch] at h
    simp only at h
    split
    · rename_i hc
      rw [if_pos hc] at h
      simp at h
    · rfl
  · rename_i hne
    split at h
    · rename_i ch hch
      exact absurd hch (hne ch)
    · simp only at h
      rw [h]

theorem class_update_names (symtab : lily_symtab) (cls : Nat) (g : lily_class → lily_class)
    (hg : ∀ c, (g c).name = c.name) :
    (class_update symtab cls g).classes.map (fun c => c.name) =
      symtab.classes.map (fun c => c.name) ∧
    (class_update symtab cls g).generic_count = symtab.generic_count := by
  refine ⟨?_, rfl⟩
  unfold class_update
  simp only [List.map_map]
  apply List.map_congr_left
  intro c _
  simp only [Function.comp]
  by_cases h : (c.id == cls) = true
  · rw [if_pos h, hg]
  · rw [if_neg h]

theorem variant_made_names (symtab : lily_symtab) (enum_class : Nat) (name : String) :
    (variant_made symtab enum_class name).classes.map (fun c => c.name) =
      symtab.classes.map (fun c => c.name) ++ [name] ∧
    (variant_made symtab enum_class name).generic_count = symtab.generic_count := by
  unfold variant_made lily_finish_variant_class lily_new_variant_class
  simp only
  refine ⟨?_, ?_⟩
  · rw [(class_update_names _ _ _ ?_).1, (class_update_names _ _ _ ?_).1]
    · simp
    · intro c
      rfl
    · intro c
      rfl
  · rfl

theorem fresh_after_variant (symtab : lily_symtab) (enum_class : Nat) (name other : String)
    (h : (lily_class_by_name symtab other).2 = none) (hne : other ≠ name) :
    (lily_class_by_name (variant_made symtab enum_class name) other).2 = none := by
  obtain ⟨hn, hg⟩ := variant_made_names symtab enum_class name
  unfold lily_class_by_name at h ⊢
  split
  · rename_i ch hch
    rw [hch] at h
    simp only at h
    rw [hg]
    split
    · rename_i hc
      rw [if_pos hc] at h
      simp at h
    · rfl
  · rename_i hnot
    split at h
    · rename_i ch hch
      exact absurd hch (hnot ch)
    · simp only [Option.map_eq_none', List.find?_eq_none] at h ⊢
      intro c hc
      have hmem : c.name ∈ (variant_made symtab enum_class name).classes.map (fun c => c.name) :=
        List.mem_map_of_mem _ hc
      rw [hn] at hmem
      rcases List.mem_append.mp hmem with hm | hm
      · obtain ⟨d, hd, hdn⟩ := List.mem_map.mp hm
        have := h d hd
        rw [← hdn]
        exact this
      · simp only [List.mem_singleton] at hm
        rw [hm]
        simpa using fun hc => hne hc.symm

/-- A pass of the loop of enum_handler over a variant that takes no values: the
name is new, no `(` follows; the variant class is made and the lexer is on the
token after the name. -/
theorem plain_variant_pass (k : Nat) (parser : lily_parse_state) (enum_class : Nat)
    (name : String) (it : lex_item) (rest : List lex_item)
    (htok : parser.lex.token = tk_word) (hlabel : parser.lex.label = name)
    (hin : parser.lex.input = it :: rest) (hnp : it.token ≠ tk_left_parenth)
    (hfresh : (lily_class_by_name parser.symtab name).2 = none) :
    enum_variant_pass k parser enum_class false =
      .ok (variant_passed parser enum_class name) := by
  have hl : (lily_lexer parser.lex).token = it.token := by
    simp [lily_lexer, hin]
  unfold enum_variant_pass
  simp only [Bool.false_eq_true, if_false, bind, Except.bind, pure, Except.pure,
    NEED_CURRENT_TOK, htok, ne_eq, not_true_eq_false, hlabel,
    class_by_name_none _ _ hfresh, raise_if, Option.isSome_none, next_token, hl, hnp]
  rfl

/-- The loop of enum_handler over variants that take no values: with the lexer
on the first of the names, a comma and the next name after each of them and `}`
after the last, the names new and different from each other, every variant is
read and counted and the loop returns on the `}`. -/
theorem plain_variants_read (rest : List String) :
    ∀ (name : String) (k : Nat) (parser : lily_parse_state) (enum_class count : Nat)
      (after : List lex_item),
      parser.lex.token = tk_word → parser.lex.label = name →
      parser.lex.input = plain_tail rest ++ after →
      (∀ m ∈ name :: rest, (lily_class_by_name parser.symtab m).2 = none) →
      (name :: rest).Nodup → rest.length + 1 ≤ k →
      ∃ last, enum_variants k parser enum_class false count =
          .ok (count + rest.length + 1, last) ∧
        last.lex.token = tk_right_curly ∧ last.lex.input = after := by
  induction rest with
  | nil =>
    intro name k parser e count after htok hlabel hin hfresh _ hk
    obtain ⟨k, rfl⟩ : ∃ j, k = j + 1 := ⟨k - 1, by simp only [List.length_nil] at hk; omega⟩
    have hin2 : parser.lex.input = tok tk_right_curly :: after := hin
    have hp := plain_variant_pass k parser e name _ _ htok hlabel hin2 (by decide)
      (hfresh name (List.mem_cons_self _ _))
    rw [enum_variants_step k parser _ e false count hp]
    have ht : (variant_passed parser e name).lex.token = tk_right_curly := by
      simp [variant_passed, lily_lexer, hin2, tok]
    have hi : (variant_passed parser e name).lex.input = after := by
      simp [variant_passed, lily_lexer, hin2]
    simp only [ht]
    exact ⟨_, rfl, ht, hi⟩
  | cons m rest ih =>
    intro name k parser e count after htok hlabel hin hfresh hnd hk
    obtain ⟨k, rfl⟩ : ∃ j, k = j + 1 := ⟨k - 1, by simp only [List.length_cons] at hk; omega⟩
    have hin2 : parser.lex.input = tok tk_comma :: word m :: (plain_tail rest ++ after) := hin
    have hp := plain_variant_pass k parser e name _ _ htok hlabel hin2 (by decide)
      (hfresh name (List.mem_cons_self _ _))
    rw [enum_variants_step k parser _ e false count hp]
    have ht : (variant_passed parser e name).lex.token = tk_comma := by
      simp [variant_passed, lily_lexer, hin2, tok]
    simp only [ht, if_true]
    have hnext : (next_token (variant_passed parser e name)).lex =
        { token := tk_word, label := m, signed := none, input := plain_tail rest ++ after } := by
      simp [variant_passed, next_token, lily_lexer, hin2, tok, word]
    obtain ⟨last, h1, h2, h3⟩ := ih m k (next_token (variant_passed parser e name)) e
      (count + 1) after
      (by rw [hnext]) (by rw [hnext]) (by rw [hnext])
      (by
        intro x hx
        have hx2 : x ∈ name :: m :: rest := List.mem_cons_of_mem _ hx
        have hne : x ≠ name := by
          intro hc
          rw [hc] at hx
          exact (List.nodup_cons.mp hnd).1 hx
        exact fresh_after_variant parser.symtab e name x (hfresh x hx2) hne)
      (List.nodup_cons.mp hnd).2
      (by simp only [List.length_cons] at hk; omega)
    refine ⟨last, ?_, h2, h3⟩
    rw [h1]
    simp only [List.length_cons]
    congr 2
    omega

/-- After the head of the declaration, on variants that take no values:
enum_handler raises SyntaxError for one variant and returns for two or more. -/
theorem enum_handler_plain (fuel : Nat) (parser first : lily_parse_state) (multi : Nat)
    (enum_class save_generics : Nat) (result_type : Option lily_type) (name : String)
    (rest : List String) (after : List lex_item)
    (hh : enum_header fuel parser = .ok (enum_class, result_type, save_generics, first))
    (htok : first.lex.token = tk_word) (hlabel : first.lex.label = name)
    (hin : first.lex.input = plain_tail rest ++ after)
    (hfresh : ∀ m ∈ name :: rest, (lily_class_by_name first.symtab m).2 = none)
    (hnd : (name :: rest).Nodup) (hk : rest.length + 1 ≤ fuel) :
    (rest = [] → enum_handler fuel parser multi = .error (.raised .lily_SyntaxError)) ∧
    (rest ≠ [] → ∃ last,
      enum_handler fuel parser multi =
        .ok (enum_finished last enum_class false result_type save_generics) ∧
      last.lex.token = tk_right_curly ∧ last.lex.input = after) := by
  have hsc : decide (first.lex.token = tk_colon_colon) = false := by
    rw [htok]
    decide
  obtain ⟨last, h1, h2, h3⟩ := plain_variants_read rest name fuel first enum_class 0 after
    htok hlabel hin hfresh hnd hk
  rw [enum_handler_after_header fuel parser first multi enum_class save_generics result_type
    hh, hsc, h1]
  refine ⟨fun hr => ?_, fun hr => ⟨last, ?_, h2, h3⟩⟩
  · subst hr
    simp [raise_if, raise_syntax, bind, Except.bind]
  · have hl : ¬ (rest.length + 1 < 2) := by
      cases rest with
      | nil => exact absurd rfl hr
      | cons a b => simp only [List.length_cons]; omega
    simp only [Nat.zero_add, raise_if, hl, if_false, bind, Except.bind, pure, Except.pure]

/-- After the head of the declaration, with `}` right after the `{`:
enum_handler raises SyntaxError. -/
theorem enum_handler_no_variant (fuel : Nat) (parser first : lily_parse_state) (multi : Nat)
    (enum_class save_generics : Nat) (result_type : Option lily_type)
    (hh : enum_header (fuel + 1) parser =
      .ok (enum_class, result_type, save_generics, first))
    (htok : first.lex.token = tk_right_curly) :
    enum_handler (fuel + 1) parser multi = .error (.raised .lily_SyntaxError) := by
  have hsc : decide (first.lex.token = tk_colon_colon) = false := by
    rw [htok]
    decide
  have hp : enum_variant_pass fuel first enum_class false =
      .error (.raised .lily_SyntaxError) := by
    simp [enum_variant_pass, NEED_CURRENT_TOK, htok, raise_syntax, bind, Except.bind, pure,
      Except.pure]
  rw [enum_handler_after_header (fuel + 1) parser first multi enum_class save_generics
    result_type hh, hsc, enum_variants_step_error fuel first enum_class false 0 _ hp]
  rfl

/-- Where enum_handler returns after the head of the declaration, the loop has
read two variants or more. -/
theorem enum_handler_returned (fuel : Nat) (parser first parser' : lily_parse_state)
    (multi : Nat) (enum_class save_generics : Nat) (result_type : Option lily_type)
    (hh : enum_header fuel parser = .ok (enum_class, result_type, save_generics, first))
    (h : enum_handler fuel parser multi = .ok parser') :
    ∃ count last log,
      enum_variants fuel first enum_class (decide (first.lex.token = tk_colon_colon)) 0 =
        .ok (count, last) ∧
      variants_read fuel first enum_class (decide (first.lex.token = tk_colon_colon)) =
        .ok log ∧
      count = log.length ∧ 2 ≤ count := by
  rw [enum_handler_after_header fuel parser first multi enum_class save_generics
    result_type hh] at h
  cases hv : enum_variants fuel first enum_class
      (decide (first.lex.token = tk_colon_colon)) 0 with
  | error e => rw [hv] at h; simp [bind, Except.bind] at h
  | ok r =>
    obtain ⟨count, last⟩ := r
    rw [hv] at h
    obtain ⟨log, h1, h2, _, _⟩ := variants_counted fuel _ _ _ _ _ _ hv
    refine ⟨count, last, log, rfl, h1, by omega, ?_⟩
    by_contra hc
    have hc2 : count < 2 := by omega
    simp [raise_if, hc2, raise_syntax, bind, Except.bind] at h

/-! ## Theorems -/

/-- C4 (the code departs from the claim): the recursive call of
calculate_decompose_type is given the field type itself as its match type, so
for a field type that is not itself a generic the result does not depend on the
match subject at all, and a generic inside the field type is replaced by the
subtype of the field type at its position. A program reaches this: the
declaration `enum class Both[A, B] { One(function(A, B, integer)), Two }` gives
the field of One the function type with the subtypes function[A, B] (the return
built for it), A, B and integer, and after `Both[integer, string] x = Two` the
cases `case One(g): x = x  case Two: x = x` of `match x:` are accepted and
declare g with the function type of the subtypes function[A, B],
function[A, B], A and integer: the A is replaced by the subtype 0 of the field
type and the B by its subtype 1, where the claim has integer and string, the
subtypes of the subject (spec_decompose gives function[integer, string],
integer, string, integer, which is not the type g gets). A field type that is a generic is replaced by the
subtype of the subject at its position (the fields `A` and `B` give g the
types integer and string), and a field type of a class that takes no types is
returned as it is (the field `integer`). -/
theorem C4_decompose_ignores_match_subject :
    variant_type_left (statement 60 (parser_on stock_classes 0
        (both_declared
          (function_of [word "A", tok tk_comma, word "B", tok tk_comma, word "integer"]))) 1)
        "One" "Both" =
      .ok (some (lily_type.mk SYM_CLASS_FUNCTION
              [some (lily_type.mk 11 [some (generic_type 0), some (generic_type 1)] 0 0),
               some field_of_one] 0 0),
           some (lily_type.mk 10 [some (generic_type 0), some (generic_type 1)] 0 0)) ∧
    vars_declared (statement 60 (parser_on stock_classes 0
        (both_program
          (function_of [word "A", tok tk_comma, word "B", tok tk_comma, word "integer"])
          (case_one ++ case_two))) 1) =
      .ok [("g", some (lily_type.mk SYM_CLASS_FUNCTION
              [some function_a_b, some function_a_b, some (generic_type 0),
               some (simple_type SYM_CLASS_INTEGER)] 0 0)),
           ("x", some both_of_integer_string)] ∧
    spec_decompose both_of_integer_string.subtypes field_of_one =
      some (lily_type.mk SYM_CLASS_FUNCTION
        [some (lily_type.mk SYM_CLASS_FUNCTION
           [some (simple_type SYM_CLASS_INTEGER), some (simple_type SYM_CLASS_STRING)] 0 0),
         some (simple_type SYM_CLASS_INTEGER), some (simple_type SYM_CLASS_STRING),
         some (simple_type SYM_CLASS_INTEGER)] 0 0) ∧
    vars_declared (statement 60 (parser_on stock_classes 0
        (both_program
          (function_of [word "A", tok tk_comma, word "B", tok tk_comma, word "integer"])
          (case_one ++ case_two))) 1) ≠
      .ok [("g", spec_decompose both_of_integer_string.subtypes field_of_one),
           ("x", some both_of_integer_string)] ∧
    (∀ (parser : lily_parse_state) (m1 m2 : Option lily_type) (cls : Nat)
        (subs : List (Option lily_type)) (tp flags off : Nat),
      cls ≠ SYM_CLASS_TEMPLATE →
      calculate_decompose_type parser m1 (lily_type.mk cls subs tp flags) off =
        calculate_decompose_type parser m2 (lily_type.mk cls subs tp flags) off) ∧
    (∀ (parser : lily_parse_state) (m : lily_type) (subs : List (Option lily_type))
        (pos flags off : Nat),
      calculate_decompose_type parser (some m)
          (lily_type.mk SYM_CLASS_TEMPLATE subs pos flags) off =
        match m.subtypes.get? pos with
        | none => .error .undefined_behavior
        | some t => .ok (t, parser)) ∧
    (∀ (parser : lily_parse_state) (m : Option lily_type) (cls : Nat)
        (subs : List (Option lily_type)) (tp flags off : Nat) (c : lily_class),
      cls ≠ SYM_CLASS_TEMPLATE → class_deref parser.symtab cls = .ok c →
      c.template_count = 0 →
      calculate_decompose_type parser m (lily_type.mk cls subs tp flags) off =
        .ok (some (lily_type.mk cls subs tp flags), parser)) ∧
    vars_declared (statement 60 (parser_on stock_classes 0
        (both_program [word "A"] (case_one ++ case_two))) 1) =
      .ok [("g", some (simple_type SYM_CLASS_INTEGER)), ("x", some both_of_integer_string)] ∧
    vars_declared (statement 60 (parser_on stock_classes 0
        (both_program [word "B"] (case_one ++ case_two))) 1) =
      .ok [("g", some (simple_type SYM_CLASS_STRING)), ("x", some both_of_integer_string)] ∧
    vars_declared (statement 60 (parser_on stock_classes 0
        (both_program [word "integer"] (case_one ++ case_two))) 1) =
      .ok [("g", some (simple_type SYM_CLASS_INTEGER)), ("x", some both_of_integer_string)] := by
  refine ⟨by decide!, by decide!, by decide!, by decide!, ?_, ?_, ?_, by decide!, by decide!,
    by decide!⟩
  · intro parser m1 m2 cls subs tp flags off hcls
    exact decompose_ignores_match parser m1 m2 cls subs tp flags off hcls
  · intro parser m subs pos flags off
    exact decompose_generic parser m subs pos flags off
  · intro parser m cls subs tp flags off c hcls hc ht
    exact decompose_plain parser m cls subs tp flags off c hcls hc ht

/-- Witness of C4: on the field type of One the result of
calculate_decompose_type is the same for the subject Both[integer, string] and
for the subject Both[string, integer]. -/
theorem C4_decompose_ignores_match_subject_witness :
    calculate_decompose_type (parser_on stock_classes 0 []) (some both_of_integer_string)
        field_of_one 0 =
      calculate_decompose_type (parser_on stock_classes 0 [])
        (some (lily_type.mk 10
          [some (simple_type SYM_CLASS_STRING), some (simple_type SYM_CLASS_INTEGER)] 0 0))
        field_of_one 0 :=
  C4_decompose_ignores_match_subject.2.2.2.2.1 (parser_on stock_classes 0 [])
    (some both_of_integer_string)
    (some (lily_type.mk 10
      [some (simple_type SYM_CLASS_STRING), some (simple_type SYM_CLASS_INTEGER)] 0 0))
    SYM_CLASS_FUNCTION
    [some function_a_b, some (generic_type 0), some (generic_type 1),
     some (simple_type SYM_CLASS_INTEGER)] 0 0 0 (by decide)

/-- C5 (the code departs from the claim): on `function( => list[integer] ...)`
inner_type_collector returns a function type with the varargs flag whose only
subtype is the return type, so it has no parameter at all; and on
`function(list[integer] => integer ...)` the dots are accepted although they
follow the return type and not the list parameter. -/
theorem C5_varargs_after_arrow :
    result_type (inner_type_collector 10
        (parser_on stock_classes 0
          [tok tk_arrow, word "list", tok tk_left_bracket, word "integer", tok tk_right_bracket,
           tok tk_three_dots, tok tk_right_parenth])
        SYM_CLASS_FUNCTION {})
      = .ok (lily_type.mk SYM_CLASS_FUNCTION
          [some (lily_type.mk SYM_CLASS_LIST [some (simple_type SYM_CLASS_INTEGER)] 0 0)]
          0 TYPE_IS_VARARGS) ∧
    result_type (inner_type_collector 10
        (parser_on stock_classes 0
          [word "list", tok tk_left_bracket, word "integer", tok tk_right_bracket, tok tk_arrow,
           word "integer", tok tk_three_dots, tok tk_right_parenth])
        SYM_CLASS_FUNCTION {})
      = .ok (lily_type.mk SYM_CLASS_FUNCTION
          [some (simple_type SYM_CLASS_INTEGER),
           some (lily_type.mk SYM_CLASS_LIST [some (simple_type SYM_CLASS_INTEGER)] 0 0)]
          0 TYPE_IS_VARARGS) := by
  decide!

/-- C6 (the code departs from the claim): after `integer a = 1` the statement
`a.@(integer]` is accepted to the end of the input, the typecast opened by
`.@(` being closed by `]`: expression_dot leaves the typecast tree before the
closing token is read and the loop of expression_raw then skips that token
unchecked. The parenthesis of `a = (1]` is checked and raises SyntaxError. -/
theorem C6_typecast_close_unchecked :
    outcome (statement 40
        (parser_on stock_classes 0
          [word "integer", word "a", tok tk_equal, tok tk_integer,
           word "a", tok tk_dot, tok tk_typecast_parenth, word "integer", tok tk_right_bracket])
        1)
      = .ok (tk_final_eof, 0) ∧
    outcome (statement 40
        (parser_on stock_classes 0
          [word "integer", word "a", tok tk_equal, tok tk_integer,
           word "a", tok tk_equal, tok tk_left_parenth, tok tk_integer, tok tk_right_bracket])
        1)
      = .error (.raised .lily_SyntaxError) := by
  decide!

/-- C7 (the code departs from the claim): in a match block on a value of an
enum class, with the lexer on a word, case_handler raises SyntaxError when the
word is not the name of a variant of the class, and raises SyntaxError when the
variant of that name is covered by a case of the block already. The first case
for a member variant is accepted when the variant takes no value and a colon
follows (the variant is recorded as covered and the lexer moves past the
colon), and when it takes one value and `(x):` follows with x not yet declared
(x is declared besides). For a member variant of two or more values no case is
accepted, whatever the tokens are: `case Rect(w, h):` as the first case of a
match on `enum class Shape { Rect(integer, integer), Dot(integer), Blank }`
raises SyntaxError, while `Dot(d):` and `Blank:` are accepted. A match on
Option[integer] with one case for Some and one for None is accepted to the end
of the input, a second case for Some raises SyntaxError, and so does a case
for a name that is no variant. -/
theorem C7_first_case_of_a_member :
    (∀ (fuel : Nat) (parser : lily_parse_state) (multi : Nat) (block : lily_block)
        (outer : List lily_block) (t : lily_type) (match_class : lily_class),
      parser.emit.blocks = block :: outer → block.block_type = BLOCK_MATCH →
      block.match_sym = some (some t) →
      class_deref parser.symtab t.cls = .ok match_class →
      parser.lex.token = tk_word →
      (some parser.lex.label ∉ member_names parser.symtab match_class.variant_members →
        case_handler fuel parser multi = .error (.raised .lily_SyntaxError)) ∧
      (some parser.lex.label ∈ member_names parser.symtab match_class.variant_members →
        variant_index parser.symtab match_class.variant_members parser.lex.label
          ∈ block.match_cases →
        case_handler fuel parser multi = .error (.raised .lily_SyntaxError)) ∧
      (∀ (cc : Nat) (ccls : lily_class) (vt : lily_type),
        some parser.lex.label ∈ member_names parser.symtab match_class.variant_members →
        variant_index parser.symtab match_class.variant_members parser.lex.label
          ∉ block.match_cases →
        match_class.variant_members.get?
          (variant_index parser.symtab match_class.variant_members parser.lex.label) =
            some cc →
        class_deref parser.symtab cc = .ok ccls → ccls.variant_type = some vt →
        (vt.subtype_count = 0 → ∀ rest, parser.lex.input = tok tk_colon :: rest →
          case_handler fuel parser multi =
            .ok (next_token (next_token
              (update_block parser (fun b => { b with match_cases := b.match_cases ++
                [variant_index parser.symtab match_class.variant_members
                  parser.lex.label] }))))) ∧
        (vt.subtype_count = 2 → ∀ (field : lily_type) (x : String) (rest : List lex_item)
            (ty : Option lily_type) (p1 : lily_parse_state),
          vt.subtypes.get? 1 = some (some field) →
          parser.lex.input =
            tok tk_left_parenth :: word x :: tok tk_right_parenth :: tok tk_colon :: rest →
          lily_var_by_name parser.symtab x = none →
          calculate_decompose_type
            (next_token (next_token
              (update_block parser (fun b => { b with match_cases := b.match_cases ++
                [variant_index parser.symtab match_class.variant_members
                  parser.lex.label] }))))
            (some t) field parser.type_stack_pos = .ok (ty, p1) →
          ∃ p', case_handler (fuel + 2) parser multi = .ok p' ∧
            p'.symtab.var_chain =
              { name := x, type := ty, flags := 0,
                reg_spot := parser.symtab.next_register_spot,
                function_depth := parser.symtab.function_depth, parent := none } ::
                parser.symtab.var_chain ∧
            p'.lex.input = rest.drop 1) ∧
        (3 ≤ vt.subtype_count → ∀ p', case_handler fuel parser multi ≠ .ok p'))) ∧
    outcome (statement 60 (parser_on stock_classes 0
        (shape_program ([word "case"] ++ case_with "Rect" ["w", "h"]))) 1)
      = .error (.raised .lily_SyntaxError) ∧
    outcome (case_handler 10 (in_shape_match (case_with "Rect" ["w", "h"])) 1)
      = .error (.raised .lily_SyntaxError) ∧
    outcome (case_handler 10 (in_shape_match (case_with "Dot" ["d"])) 1)
      = .ok (tk_final_eof, 0) ∧
    outcome (case_handler 10 (in_shape_match [word "Blank", tok tk_colon]) 1)
      = .ok (tk_final_eof, 0) ∧
    outcome (statement 60 (parser_on stock_classes 0
        (match_program (case_some "s" ++ [word "case", word "None", tok tk_colon]))) 1)
      = .ok (tk_final_eof, 0) ∧
    outcome (statement 60 (parser_on stock_classes 0
        (match_program (case_some "s" ++ case_some "u" ++
          [word "case", word "None", tok tk_colon]))) 1)
      = .error (.raised .lily_SyntaxError) ∧
    outcome (statement 60 (parser_on stock_classes 0
        (match_program (case_some "s" ++ [word "case", word "None", tok tk_colon,
          word "case", word "Other", tok tk_colon]))) 1)
      = .error (.raised .lily_SyntaxError) := by
  refine ⟨?_, by decide!, by decide!, by decide!, by decide!, by decide!, by decide!,
    by decide!⟩
  intro fuel parser multi block outer t match_class hb hbt hm hc htok
  have hchk := fun f => case_handler_checks f parser multi block outer t match_class hb hbt
    hm hc htok
  refine ⟨(hchk fuel).1, (hchk fuel).2.1, ?_⟩
  intro cc ccls vt hin hnew hcc hcls hvt
  obtain ⟨hs, hl, hp⟩ := update_block_fields parser (fun b =>
    { b with match_cases := b.match_cases ++
      [variant_index parser.symtab match_class.variant_members parser.lex.label] })
  refine ⟨fun hcount rest hinput => ?_, fun hcount field x rest ty p1 hfield hinput hx hdec => ?_,
    fun hcount p' => ?_⟩
  · rw [(hchk fuel).2.2 hin hnew, hcc]
    exact case_values_no_values fuel _ (some t) cc ccls vt rest (by rw [hs]; exact hcls) hvt
      hcount (by rw [hl]; exact hinput)
  · rw [(hchk (fuel + 2)).2.2 hin hnew, hcc]
    obtain ⟨p', h1, h2, h3⟩ := case_values_one_field fuel _ (some t) cc ccls vt field x rest ty
      p1 (by rw [hs]; exact hcls) hvt hcount hfield (by rw [hl]; exact hinput)
      (by rw [hs]; exact hx) (by rw [hp]; exact hdec)
    rw [hs] at h2
    exact ⟨p', h1, h2, h3⟩
  · rw [(hchk fuel).2.2 hin hnew, hcc]
    exact case_values_stuck fuel _ (some t) cc ccls vt (by rw [hs]; exact hcls) hvt hcount p'

/-- Witness of C7: in a match on Option[integer] where Some is covered, a case
for Some raises SyntaxError, a case for Other raises SyntaxError, and the case
`None:` is accepted, None recorded as covered besides Some. -/
theorem C7_first_case_of_a_member_witness :
    case_handler 10 (in_match [0] (case_some "s").tail) 1
      = .error (.raised .lily_SyntaxError) ∧
    case_handler 10 (in_match [0] [word "Other", tok tk_colon]) 1
      = .error (.raised .lily_SyntaxError) ∧
    case_handler 10 (in_match [0] [word "None", tok tk_colon]) 1
      = .ok (next_token (next_token (in_match [0, 1] [word "None", tok tk_colon]))) :=
  ⟨(C7_first_case_of_a_member.1 10 (in_match [0] (case_some "s").tail) 1 (match_block [0])
      (parser_on option_classes 0 (case_some "s").tail).emit.blocks option_of_integer
      option_enum rfl rfl rfl rfl rfl).2.1 (by decide) (by decide),
   (C7_first_case_of_a_member.1 10 (in_match [0] [word "Other", tok tk_colon]) 1
      (match_block [0]) (parser_on option_classes 0 [word "Other", tok tk_colon]).emit.blocks
      option_of_integer option_enum rfl rfl rfl rfl rfl).1 (by decide),
   ((C7_first_case_of_a_member.1 10 (in_match [0] [word "None", tok tk_colon]) 1
      (match_block [0]) (parser_on option_classes 0 [word "None", tok tk_colon]).emit.blocks
      option_of_integer option_enum rfl rfl rfl rfl rfl).2.2 12
      { plain_class "None" 12 CLS_VARIANT_CLASS 0 (some (simple_type 12)) with
        parent := some 10, variant_type := some (simple_type 12) }
      (simple_type 12) (by decide) (by decide) rfl rfl rfl).1 rfl [] rfl⟩

/-- C8 (the code departs from the claim): the class declaration
`class Foo() { if 1: return new() }` is accepted to the end of the input:
return_handler looks at the innermost block only, which is the `if` block, so
the return inside the constructor is not refused. The same return written
directly in the constructor, `class Foo() { return new() }`, raises
SyntaxError. -/
theorem C8_return_in_nested_block :
    outcome (statement 40
        (parser_on stock_classes 0
          [word "class", word "Foo", tok tk_left_parenth, tok tk_right_parenth,
           tok tk_left_curly,
           word "if", tok tk_integer, tok tk_colon,
           word "return", word "new", tok tk_left_parenth, tok tk_right_parenth,
           tok tk_right_curly])
        1)
      = .ok (tk_final_eof, 0) ∧
    outcome (statement 40
        (parser_on stock_classes 0
          [word "class", word "Foo", tok tk_left_parenth, tok tk_right_parenth,
           tok tk_left_curly,
           word "return", word "new", tok tk_left_parenth, tok tk_right_parenth,
           tok tk_right_curly])
        1)
      = .error (.raised .lily_SyntaxError) := by
  decide!

/-- C9: statement called for a single-line block (multi = 0) raises SyntaxError
whenever the current token is not a word, a literal, `(`, `[`, `<[` or a
property word, for every positive fuel; and the single-line `if 1: }` raises
SyntaxError. -/
theorem C9_single_line_statement_needs_value :
    (∀ (fuel : Nat) (parser : lily_parse_state),
      parser.lex.token ≠ tk_word → parser.lex.token ≠ tk_integer →
      parser.lex.token ≠ tk_double → parser.lex.token ≠ tk_double_quote →
      parser.lex.token ≠ tk_left_parenth → parser.lex.token ≠ tk_left_bracket →
      parser.lex.token ≠ tk_tuple_open → parser.lex.token ≠ tk_prop_word →
      statement (fuel + 1) parser 0 = .error (.raised .lily_SyntaxError)) ∧
    outcome (statement 20
        (parser_on stock_classes 0 [word "if", tok tk_integer, tok tk_colon, tok tk_right_curly])
        1)
      = .error (.raised .lily_SyntaxError) := by
  refine ⟨?_, by decide!⟩
  intro fuel parser h1 h2 h3 h4 h5 h6 h7 h8
  simp [statement, h1, h2, h3, h4, h5, h6, h7, h8, raise_syntax]

/-- Witness of C9: the single-line statement at `}`. -/
theorem C9_single_line_statement_needs_value_witness :
    statement 1 (parser_on stock_classes 0 [tok tk_right_curly]) 0
      = .error (.raised .lily_SyntaxError) :=
  C9_single_line_statement_needs_value.1 0 (parser_on stock_classes 0 [tok tk_right_curly])
    (by decide) (by decide) (by decide) (by decide) (by decide) (by decide) (by decide)
    (by decide)

/-- C10 (counterexample): for the constructor parameter `integer @x`
collect_var_type makes a var named x and no property in any class; and after
the whole declaration `class Foo(integer @x) { }` no class has a property. -/
theorem C10_prop_word_parameter_makes_var :
    names_made (collect_var_type 10 prop_word_param none
        { CV_MAKE_VARS := true, CV_CLASS_INIT := true })
      = .ok (["x"], [[], [], [], [], [], [], [], [], [], [], []]) ∧
    properties_left (statement 40
        (parser_on stock_classes 0
          [word "class", word "Foo", tok tk_left_parenth, word "integer", prop_word "x",
           tok tk_right_parenth, tok tk_left_curly, tok tk_right_curly])
        1)
      = .ok [[], [], [], [], [], [], [], [], [], [], []] := by
  decide!

/-- C10 (amended): when collect_var_type reads a parameter with CV_MAKE_VARS set,
as it is for each parameter of a constructor, one var is put on top of the var
chain, a local (flags 0) of the type read, and the properties of every class
stay as they were: a parameter makes a var whether it is written `@name` or
`name`. For a type without type parameters the var has the name of the token
after the type, word or property word. -/
theorem C10_constructor_parameter_makes_var (fuel : Nat) (parser parser' : lily_parse_state)
    (flags : cv_flags) (t : Option lily_type)
    (hm : flags.CV_MAKE_VARS = true) (ht : flags.CV_TOPLEVEL = false)
    (h : collect_var_type fuel parser none flags = .ok (t, parser')) :
    ∃ v, parser'.symtab.var_chain = v :: parser.symtab.var_chain ∧ v.type = t ∧ v.flags = 0 ∧
      class_properties parser'.symtab = class_properties parser.symtab ∧
      (∀ c it, param_class parser = some c → c.template_count = 0 →
        parser.lex.input.head? = some it →
        (it.token = tk_word ∨ it.token = tk_prop_word) → v.name = it.label) := by
  cases fuel with
  | zero => simp [collect_var_type] at h
  | succ n =>
    rw [collect_var_type] at h
    simp only [bind_ok_iff] at h
    obtain ⟨⟨c1, p1⟩, h1, c, h2, _, h3, h⟩ := h
    obtain ⟨_, hname, hp1⟩ := collect_class_ok h1
    have hq := lily_class_by_name_quiet parser.symtab parser.lex.label
    have hpc : param_class parser = some c := by
      unfold param_class
      rw [hp1] at h2
      simp only [next_token] at h2
      have : lily_class_by_name parser.symtab parser.lex.label =
          ((lily_class_by_name parser.symtab parser.lex.label).1, some c1) := by
        rw [← hname]
      rw [this]
      simp only
      rw [h2]
    have hchain : p1.symtab.var_chain = parser.symtab.var_chain := by rw [hp1]; exact hq.2
    have hprops : class_properties p1.symtab = class_properties parser.symtab := by
      rw [hp1]; exact hq.1
    have hlabel : p1.lex.label = (lily_lexer parser.lex).label := by rw [hp1]; rfl
    simp only [hm, if_true] at h
    split at h
    · rename_i hzero
      simp only [bind_ok_iff, pure_ok_iff, Prod.mk.injEq] at h
      obtain ⟨⟨_, p2⟩, h4, rfl, rfl⟩ := h
      obtain ⟨_, rfl⟩ := get_named_var_ok h4
      have hv := try_new_var_local p1.symtab c.type p1.lex.label
      refine ⟨_, ?_, hv.2.1, hv.2.2.2.1, ?_, ?_⟩
      · simp only
        rw [hv.1, hchain]
      · simp only [class_properties]
        rw [hv.2.2.2.2]
        exact hprops
      · intro c' it _ _ hi hit
        rw [hv.2.2.1, hlabel]
        exact lexer_label _ _ hi hit
    · rename_i hzero
      split at h
      · simp only [bind_ok_iff, pure_ok_iff, Prod.mk.injEq] at h
        obtain ⟨_, _, ⟨t2, p2⟩, h4, ⟨_, p3⟩, h5, rfl, rfl⟩ := h
        obtain ⟨_, rfl⟩ := get_named_var_ok h5
        have q2 := (quiet_all n).2.1 _ _ _ _ _ h4 ht
        simp only [next_token] at q2
        have hv := try_new_var_local p2.symtab (some t2) (lily_lexer p2.lex).label
        refine ⟨_, ?_, hv.2.1, hv.2.2.2.1, ?_, ?_⟩
        · simp only [next_token]
          rw [hv.1, q2.1, hchain]
        · simp only [class_properties, next_token]
          rw [hv.2.2.2.2]
          exact q2.2.trans hprops
        · intro c' it hc' hz
          rw [hpc] at hc'
          simp only [Option.some.injEq] at hc'
          subst hc'
          exact absurd hz hzero
      · simp only [bind_ok_iff, pure_ok_iff, Prod.mk.injEq] at h
        obtain ⟨⟨hd, p2⟩, h4, cv, hcv, _, _, ⟨t3, p3⟩, h5, rfl, rfl⟩ := h
        subst hcv
        simp only at h5 ⊢
        obtain ⟨rfl, hp2⟩ := get_named_var_ok h4
        have hv := try_new_var_local p1.symtab p1.default_call_type p1.lex.label
        have hp2s : p2.symtab = (lily_try_new_var p1.symtab p1.default_call_type p1.lex.label 0).2 := by
          rw [hp2]
        have q2 := (quiet_all n).2.1 _ _ _ _ _ h5 ht
        have q2a : p3.symtab.var_chain =
            (lily_try_new_var p1.symtab p1.default_call_type p1.lex.label 0).1 ::
              parser.symtab.var_chain := by
          rw [q2.1]
          simp only [next_token]
          rw [hp2s, hv.1, hchain]
        have q2b : class_properties p3.symtab = class_properties parser.symtab := by
          rw [q2.2]
          simp only [next_token, class_properties]
          rw [hp2s, hv.2.2.2.2]
          exact hprops
        refine ⟨{ (lily_try_new_var p1.symtab p1.default_call_type p1.lex.label 0).1 with
            type := some t3 }, ?_, rfl, hv.2.2.2.1, ?_, ?_⟩
        · simp only [next_token, set_call_var_type, var_set_type]
          rw [q2a]
          simp [hchain]
        · simp only [next_token, set_call_var_type, var_set_type]
          exact q2b
        · intro c' it hc' hz
          rw [hpc] at hc'
          simp only [Option.some.injEq] at hc'
          subst hc'
          exact absurd hz hzero

/-- Witness of C10: the constructor parameter `integer x` makes a var of type
integer and no property. -/
theorem C10_constructor_parameter_makes_var_witness :
    ∃ t parser',
      collect_var_type 10 word_param none { CV_MAKE_VARS := true, CV_CLASS_INIT := true }
        = .ok (t, parser') ∧
      t = some (simple_type SYM_CLASS_INTEGER) ∧
      ∃ v, parser'.symtab.var_chain = v :: word_param.symtab.var_chain ∧ v.type = t ∧
        v.flags = 0 ∧
        class_properties parser'.symtab = class_properties word_param.symtab ∧
        (∀ c it, param_class word_param = some c → c.template_count = 0 →
          word_param.lex.input.head? = some it →
          (it.token = tk_word ∨ it.token = tk_prop_word) → v.name = it.label) := by
  have hok : result_type (collect_var_type 10 word_param none
      { CV_MAKE_VARS := true, CV_CLASS_INIT := true })
      = .ok (some (simple_type SYM_CLASS_INTEGER)) := by
    decide!
  cases h : collect_var_type 10 word_param none
      { CV_MAKE_VARS := true, CV_CLASS_INIT := true } with
  | error e => rw [h] at hok; simp [result_type] at hok
  | ok r =>
    obtain ⟨t, parser'⟩ := r
    rw [h] at hok
    simp only [result_type, Except.ok.injEq] at hok
    exact ⟨t, parser', rfl, hok,
      C10_constructor_parameter_makes_var 10 _ parser' _ t rfl rfl h⟩

/-- C11 (the code departs from the claim): the type `hash[integer, string]`
written as the field of a variant, in
`enum class Pair { One(hash[integer, string]), Two }`, raises SyntaxError
although integer is a valid hash key, while the same type in a declaration is
accepted: collect_var_type hands its flags on to inner_type_collector, the flag
CV_VARIANT_FUNC among them, and with that flag inner_type_collector reads what
follows `[` as the fields of a variant and refuses the `]`. On the tokens
`integer, string]` it gives hash[integer, string] for the hash class without the
flag and SyntaxError with it. `hash[any, string]` and
`hash[list[integer], string]` raise SyntaxError. Without the flag the claim
holds, for the hash class with its template count 2: where
inner_type_collector returns, two types K, V were written, the class of K
carries the valid-hash-key flag and the type is hash with the subtypes K, V in
that order; and where two types K, V are written, it raises SyntaxError when the
class of K lacks the flag and returns that type when the class carries it. -/
theorem C11_hash_key_and_variant_flag :
    (outcome (statement 40 (parser_on stock_classes 0
        (enum_pair (bracketed "hash" integer_string))) 1)
      = .error (.raised .lily_SyntaxError) ∧
     outcome (statement 40 (parser_on stock_classes 0
        (decl_of (bracketed "hash" integer_string))) 1)
      = .ok (tk_final_eof, 0) ∧
     result_type (inner_type_collector 10 (in_brackets integer_string) SYM_CLASS_HASH
        { CV_VARIANT_FUNC := true })
      = .error (.raised .lily_SyntaxError) ∧
     result_type (inner_type_collector 10 (in_brackets integer_string) SYM_CLASS_HASH {})
      = .ok (lily_type.mk SYM_CLASS_HASH [some (simple_type 0), some (simple_type 2)] 0 0)) ∧
    (outcome (statement 40 (parser_on stock_classes 0
        (decl_of (bracketed "hash" any_string))) 1)
      = .error (.raised .lily_SyntaxError) ∧
     outcome (statement 40 (parser_on stock_classes 0
        (decl_of (bracketed "hash"
          (bracketed "list" [word "integer"] ++ [tok tk_comma, word "string"]))) ) 1)
      = .error (.raised .lily_SyntaxError)) ∧
    (∀ (fuel : Nat) (parser : lily_parse_state) (flags : cv_flags) (c : lily_class),
      flags.CV_VARIANT_FUNC = false → parser.type_stack_size < 65536 →
      class_deref parser.symtab SYM_CLASS_HASH = .ok c → c.template_count = 2 →
      (∀ t parser', inner_type_collector fuel parser SYM_CLASS_HASH flags = .ok (t, parser') →
        ∃ K V kc, declared_types fuel parser SYM_CLASS_HASH flags
            = .ok [(false, some K), (false, V)] ∧
          class_deref parser.symtab K.cls = .ok kc ∧
          (kc.flags &&& CLS_VALID_HASH_KEY) ≠ 0 ∧
          t = lily_type.mk SYM_CLASS_HASH [some K, V] 0 0) ∧
      (∀ K V kc, declared_types fuel parser SYM_CLASS_HASH flags
          = .ok [(false, some K), (false, V)] →
        class_deref parser.symtab K.cls = .ok kc →
        ((kc.flags &&& CLS_VALID_HASH_KEY) = 0 →
          inner_type_collector fuel parser SYM_CLASS_HASH flags
            = .error (.raised .lily_SyntaxError)) ∧
        ((kc.flags &&& CLS_VALID_HASH_KEY) ≠ 0 →
          ∃ parser', inner_type_collector fuel parser SYM_CLASS_HASH flags
            = .ok (lily_type.mk SYM_CLASS_HASH [some K, V] 0 0, parser')))) := by
  refine ⟨by decide!, by decide!, fun fuel parser flags c hv hs hc h2 =>
    hash_key_checked fuel parser flags c hv hs hc h2⟩

/-- Witness of C11: inside the brackets of a hash, `any, string]` raises
SyntaxError and `integer, string]` gives hash[integer, string]. -/
theorem C11_hash_key_and_variant_flag_witness :
    inner_type_collector 10 (in_brackets any_string) SYM_CLASS_HASH {}
      = .error (.raised .lily_SyntaxError) ∧
    (∃ parser', inner_type_collector 10 (in_brackets integer_string) SYM_CLASS_HASH {} =
      .ok (lily_type.mk SYM_CLASS_HASH [some (simple_type 0), some (simple_type 2)] 0 0,
        parser')) :=
  ⟨((C11_hash_key_and_variant_flag.2.2 10 (in_brackets any_string) {}
      (plain_class "hash" SYM_CLASS_HASH 0 2 none) rfl (by decide!) (by rfl) rfl).2
      (simple_type 4) (some (simple_type 2))
      (plain_class "any" SYM_CLASS_ANY 0 0 (some (simple_type 4)))
      (by decide!) (by rfl)).1 (by decide),
   ((C11_hash_key_and_variant_flag.2.2 10 (in_brackets integer_string) {}
      (plain_class "hash" SYM_CLASS_HASH 0 2 none) rfl (by decide!) (by rfl) rfl).2
      (simple_type 0) (some (simple_type 2))
      (plain_class "integer" SYM_CLASS_INTEGER CLS_VALID_HASH_KEY 0 (some (simple_type 0)))
      (by decide!) (by rfl)).2 (by decide)⟩

/-- C12 (the code departs from the claim): tuple has the template count -1, yet
`tuple[integer, string]` written as the field of a variant, in
`enum class Pair { One(tuple[integer, string]), Two }`, raises SyntaxError; the
same type in a declaration is accepted, and so is the variant with the fields
`integer, string`. The flag CV_VARIANT_FUNC reaches the nested call of
inner_type_collector, which then reads the brackets as the fields of a variant
and refuses the `]`: on `integer, string]` it gives tuple[integer, string] for
the tuple class without the flag and SyntaxError with it. `list[]`,
`list[integer, string]` and `hash[integer]` raise SyntaxError, `list[integer]`
and `tuple[]` are accepted. Without the flag the claim holds for every class
other than function, read inside brackets: where inner_type_collector returns,
the type has the types written as its subtypes, in order, and their number is
the template count of the class unless that is -1; where a list of types is
written whose number differs from a template count other than -1, SyntaxError is
raised; and a list of any length is accepted for the template count -1, as is a
list of the length of the template count (the hash class apart, whose key is
checked too). -/
theorem C12_bracket_count_and_variant_flag :
    (outcome (statement 40 (parser_on stock_classes 0
        (enum_pair (bracketed "tuple" integer_string))) 1)
      = .error (.raised .lily_SyntaxError) ∧
     outcome (statement 40 (parser_on stock_classes 0
        (decl_of (bracketed "tuple" integer_string))) 1)
      = .ok (tk_final_eof, 0) ∧
     outcome (statement 40 (parser_on stock_classes 0 (enum_pair integer_string)) 1)
      = .ok (tk_final_eof, 0) ∧
     result_type (inner_type_collector 10 (in_brackets integer_string) SYM_CLASS_TUPLE
        { CV_VARIANT_FUNC := true })
      = .error (.raised .lily_SyntaxError) ∧
     result_type (inner_type_collector 10 (in_brackets integer_string) SYM_CLASS_TUPLE {})
      = .ok (lily_type.mk SYM_CLASS_TUPLE [some (simple_type 0), some (simple_type 2)] 0 0)) ∧
    (outcome (statement 40 (parser_on stock_classes 0 (decl_of (bracketed "list" []))) 1)
      = .error (.raised .lily_SyntaxError) ∧
     outcome (statement 40 (parser_on stock_classes 0
        (decl_of (bracketed "list" integer_string))) 1)
      = .error (.raised .lily_SyntaxError) ∧
     outcome (statement 40 (parser_on stock_classes 0
        (decl_of (bracketed "list" [word "integer"]))) 1)
      = .ok (tk_final_eof, 0) ∧
     outcome (statement 40 (parser_on stock_classes 0
        (decl_of (bracketed "hash" [word "integer"]))) 1)
      = .error (.raised .lily_SyntaxError) ∧
     outcome (statement 40 (parser_on stock_classes 0 (decl_of (bracketed "tuple" []))) 1)
      = .ok (tk_final_eof, 0)) ∧
    (∀ (fuel : Nat) (parser : lily_parse_state) (cls : Nat) (flags : cv_flags) (c : lily_class),
      flags.CV_VARIANT_FUNC = false → cls ≠ SYM_CLASS_FUNCTION →
      parser.type_stack_size < 65536 → class_deref parser.symtab cls = .ok c →
      (∀ t parser', inner_type_collector fuel parser cls flags = .ok (t, parser') →
        ∃ log, declared_types fuel parser cls flags = .ok log ∧
          t = lily_type.mk cls (log.map Prod.snd) 0 0 ∧
          (c.template_count ≠ -1 → (log.length : Int) = c.template_count)) ∧
      (∀ log, declared_types fuel parser cls flags = .ok log →
        c.template_count ≠ -1 → (log.length : Int) ≠ c.template_count →
        inner_type_collector fuel parser cls flags = .error (.raised .lily_SyntaxError)) ∧
      (∀ log, declared_types fuel parser cls flags = .ok log →
        c.template_count = -1 ∨ (log.length : Int) = c.template_count →
        cls ≠ SYM_CLASS_HASH →
        ∃ parser', inner_type_collector fuel parser cls flags =
          .ok (lily_type.mk cls (log.map Prod.snd) 0 0, parser'))) := by
  refine ⟨by decide!, by decide!, fun fuel parser cls flags c hv hcls hs hc =>
    bracket_arity fuel parser cls flags c hv hcls hs hc⟩

/-- Witness of C12: inside the brackets of a list, `integer, string]` and `]`
raise SyntaxError; inside the brackets of a tuple they give
tuple[integer, string] and the tuple without subtypes. -/
theorem C12_bracket_count_and_variant_flag_witness :
    inner_type_collector 10 (in_brackets integer_string) SYM_CLASS_LIST {}
      = .error (.raised .lily_SyntaxError) ∧
    inner_type_collector 10 (in_brackets []) SYM_CLASS_LIST {}
      = .error (.raised .lily_SyntaxError) ∧
    (∃ parser', inner_type_collector 10 (in_brackets integer_string) SYM_CLASS_TUPLE {} =
      .ok (lily_type.mk SYM_CLASS_TUPLE [some (simple_type 0), some (simple_type 2)] 0 0,
        parser')) ∧
    (∃ parser', inner_type_collector 10 (in_brackets []) SYM_CLASS_TUPLE {} =
      .ok (lily_type.mk SYM_CLASS_TUPLE [] 0 0, parser')) :=
  ⟨(C12_bracket_count_and_variant_flag.2.2 10 (in_brackets integer_string) SYM_CLASS_LIST {}
      (plain_class "list" SYM_CLASS_LIST 0 1 none) rfl (by decide) (by decide!) (by rfl)).2.1
      [(false, some (simple_type 0)), (false, some (simple_type 2))] (by decide!) (by decide)
      (by decide),
   (C12_bracket_count_and_variant_flag.2.2 10 (in_brackets []) SYM_CLASS_LIST {}
      (plain_class "list" SYM_CLASS_LIST 0 1 none) rfl (by decide) (by decide!) (by rfl)).2.1
      [] (by decide!) (by decide) (by decide),
   (C12_bracket_count_and_variant_flag.2.2 10 (in_brackets integer_string) SYM_CLASS_TUPLE {}
      (plain_class "tuple" SYM_CLASS_TUPLE 0 (-1) none) rfl (by decide) (by decide!)
      (by rfl)).2.2
      [(false, some (simple_type 0)), (false, some (simple_type 2))] (by decide!)
      (Or.inl rfl) (by decide),
   (C12_bracket_count_and_variant_flag.2.2 10 (in_brackets []) SYM_CLASS_TUPLE {}
      (plain_class "tuple" SYM_CLASS_TUPLE 0 (-1) none) rfl (by decide) (by decide!)
      (by rfl)).2.2
      [] (by decide!) (Or.inl rfl) (by decide)⟩

/-- C13: when expression_comma_arrow meets `=>` or `,` with a value active and a
tree open: on `=>` a list tree that has collected no argument becomes a hash
tree (the value before the arrow is collected as its first argument), and a
list tree that has collected an argument raises SyntaxError; in a hash tree
`=>` is accepted after an even number of collected arguments and raises
SyntaxError after an odd number, and `,` is accepted after an odd number and
raises SyntaxError after an even number. Each accepted separator collects the
active value as the next argument and demands a value. The statement
`[1 => 2, 3 => 4]` is accepted to the end of the input; `[1, 2 => 3]`,
`[1 => 2 => 3]` and `[1 => 2, 3, 4]` raise SyntaxError. -/
theorem C13_list_to_hash_alternation :
    (∀ (parser : lily_parse_state) (state : Nat) (tree : lily_ast) (outer : List lily_ast),
      parser.ast_pool.active = true → parser.ast_pool.saved = tree :: outer →
      (parser.lex.token = tk_arrow → tree.tree_type = tree_list → tree.args_collected = 0 →
        expression_comma_arrow parser state =
          .ok (after_separator parser tree_hash 0 outer, ST_DEMAND_VALUE)) ∧
      (parser.lex.token = tk_arrow → tree.tree_type = tree_list → tree.args_collected ≠ 0 →
        expression_comma_arrow parser state = .error (.raised .lily_SyntaxError)) ∧
      (parser.lex.token = tk_arrow → tree.tree_type = tree_hash →
        (tree.args_collected % 2 = 0 →
          expression_comma_arrow parser state =
            .ok (after_separator parser tree_hash tree.args_collected outer, ST_DEMAND_VALUE)) ∧
        (tree.args_collected % 2 = 1 →
          expression_comma_arrow parser state = .error (.raised .lily_SyntaxError))) ∧
      (parser.lex.token = tk_comma → tree.tree_type = tree_hash →
        (tree.args_collected % 2 = 1 →
          expression_comma_arrow parser state =
            .ok (after_separator parser tree_hash tree.args_collected outer, ST_DEMAND_VALUE)) ∧
        (tree.args_collected % 2 = 0 →
          expression_comma_arrow parser state = .error (.raised .lily_SyntaxError)))) ∧
    outcome (statement 40 (parser_on stock_classes 0
        (bracket_literal [tok tk_integer, tok tk_arrow, tok tk_integer, tok tk_comma,
          tok tk_integer, tok tk_arrow, tok tk_integer])) 1)
      = .ok (tk_final_eof, 0) ∧
    outcome (statement 40 (parser_on stock_classes 0
        (bracket_literal [tok tk_integer, tok tk_comma, tok tk_integer, tok tk_arrow,
          tok tk_integer])) 1)
      = .error (.raised .lily_SyntaxError) ∧
    outcome (statement 40 (parser_on stock_classes 0
        (bracket_literal [tok tk_integer, tok tk_arrow, tok tk_integer, tok tk_arrow,
          tok tk_integer])) 1)
      = .error (.raised .lily_SyntaxError) ∧
    outcome (statement 40 (parser_on stock_classes 0
        (bracket_literal [tok tk_integer, tok tk_arrow, tok tk_integer, tok tk_comma,
          tok tk_integer, tok tk_comma, tok tk_integer])) 1)
      = .error (.raised .lily_SyntaxError) := by
  refine ⟨fun parser state tree outer h1 h2 => comma_arrow_cases parser state tree outer h1 h2,
    by decide!, by decide!, by decide!, by decide!⟩

/-- Witness of C13: `=>` in a list tree without arguments gives a hash tree with
one argument; `=>` in a list tree with one argument, `=>` in a hash tree with
one argument and `,` in a hash tree with two arguments raise SyntaxError. -/
theorem C13_list_to_hash_alternation_witness :
    expression_comma_arrow (in_tree tree_list 0 tk_arrow) ST_WANT_OPERATOR =
      .ok (after_separator (in_tree tree_list 0 tk_arrow) tree_hash 0 [], ST_DEMAND_VALUE) ∧
    expression_comma_arrow (in_tree tree_list 1 tk_arrow) ST_WANT_OPERATOR
      = .error (.raised .lily_SyntaxError) ∧
    expression_comma_arrow (in_tree tree_hash 1 tk_arrow) ST_WANT_OPERATOR
      = .error (.raised .lily_SyntaxError) ∧
    expression_comma_arrow (in_tree tree_hash 2 tk_comma) ST_WANT_OPERATOR
      = .error (.raised .lily_SyntaxError) :=
  ⟨(C13_list_to_hash_alternation.1 (in_tree tree_list 0 tk_arrow) ST_WANT_OPERATOR
      { tree_type := tree_list, args_collected := 0 } [] rfl rfl).1 rfl rfl rfl,
   (C13_list_to_hash_alternation.1 (in_tree tree_list 1 tk_arrow) ST_WANT_OPERATOR
      { tree_type := tree_list, args_collected := 1 } [] rfl rfl).2.1 rfl rfl (by decide),
   ((C13_list_to_hash_alternation.1 (in_tree tree_hash 1 tk_arrow) ST_WANT_OPERATOR
      { tree_type := tree_hash, args_collected := 1 } [] rfl rfl).2.2.1 rfl rfl).2 rfl,
   ((C13_list_to_hash_alternation.1 (in_tree tree_hash 2 tk_comma) ST_WANT_OPERATOR
      { tree_type := tree_hash, args_collected := 2 } [] rfl rfl).2.2.2 rfl rfl).2 rfl⟩

/-- C14: one pass of the loop of parse_decl outside a class body, on a name that
get_named_var declares: the var is declared with the type parse_decl was given;
when the token after the name is not `=`, SyntaxError is raised; when the
expression after `=` fails, parse_decl fails with it; when no type was given
(`var`), parse_decl returns right after that expression, whatever token
follows; with a type, it returns on a token that ends the declaration, goes
round again with the same type after a `,`, and raises SyntaxError on any other
token. The statement `var a = 1, b = 2` stops on the `,` with three tokens left
and only a declared (its type is left to the emitter);
`integer a = 1, b = 2` declares a and b, both of type integer;
`integer a, b = 1`, `integer a =` and `var a` raise SyntaxError. In a class
body, `integer @x = 1, @y = 2` is accepted and `integer @x = 1, @y` raises
SyntaxError. -/
theorem C14_parse_decl_names :
    (∀ (fuel : Nat) (parser parser1 : lily_parse_state) (type : Option lily_type)
        (var : Option Nat) (v : Nat) (block : lily_block),
      current_block parser = .ok block → (block.block_type &&& BLOCK_CLASS) = 0 →
      parser.lex.token = tk_word →
      get_named_var parser type SYM_NOT_INITIALIZED = .ok (v, parser1) →
      parser1 = name_declared parser type ∧
      (parser1.lex.token ≠ tk_equal →
        parse_decl_loop (fuel + 1) parser type var = .error (.raised .lily_SyntaxError)) ∧
      (parser1.lex.token = tk_equal →
        (∀ e, expression fuel (at_decl_value parser1 (some v)) = .error e →
          parse_decl_loop (fuel + 1) parser type var = .error e) ∧
        (∀ parser2, expression fuel (at_decl_value parser1 (some v)) = .ok parser2 →
          (type = none ∨ ends_decl parser2.lex.token →
            parse_decl_loop (fuel + 1) parser type var = .ok (lily_emit_eval_expr parser2)) ∧
          (type ≠ none → parser2.lex.token = tk_comma →
            parse_decl_loop (fuel + 1) parser type var =
              parse_decl_loop fuel (next_token (lily_emit_eval_expr parser2)) type (some v)) ∧
          (type ≠ none → ¬ ends_decl parser2.lex.token → parser2.lex.token ≠ tk_comma →
            parse_decl_loop (fuel + 1) parser type var =
              .error (.raised .lily_SyntaxError))))) ∧
    outcome (statement 40 (parser_on stock_classes 0 (decl_a_b [word "var"])) 0)
      = .ok (tk_comma, 3) ∧
    vars_after (statement 40 (parser_on stock_classes 0 (decl_a_b [word "var"])) 0)
      = .ok [("a", none, 1)] ∧
    outcome (statement 40 (parser_on stock_classes 0 (decl_a_b [word "integer"])) 0)
      = .ok (tk_final_eof, 0) ∧
    vars_after (statement 40 (parser_on stock_classes 0 (decl_a_b [word "integer"])) 0)
      = .ok [("a", some (simple_type 0), 1), ("b", some (simple_type 0), 1)] ∧
    outcome (statement 40 (parser_on stock_classes 0
        [word "integer", word "a", tok tk_comma, word "b", tok tk_equal, tok tk_integer]) 0)
      = .error (.raised .lily_SyntaxError) ∧
    outcome (statement 40 (parser_on stock_classes 0
        [word "integer", word "a", tok tk_equal]) 0)
      = .error (.raised .lily_SyntaxError) ∧
    outcome (statement 40 (parser_on stock_classes 0 [word "var", word "a"]) 0)
      = .error (.raised .lily_SyntaxError) ∧
    outcome (statement 40 (parser_on stock_classes 0 (class_decl "Foo"
        [tok tk_left_curly, word "integer", prop_word "x", tok tk_equal, tok tk_integer,
         tok tk_comma, prop_word "y", tok tk_equal, tok tk_integer, tok tk_right_curly])) 1)
      = .ok (tk_final_eof, 0) ∧
    outcome (statement 40 (parser_on stock_classes 0 (class_decl "Foo"
        [tok tk_left_curly, word "integer", prop_word "x", tok tk_equal, tok tk_integer,
         tok tk_comma, prop_word "y", tok tk_right_curly])) 1)
      = .error (.raised .lily_SyntaxError) := by
  refine ⟨fun fuel parser parser1 type var v block h1 h2 h3 h4 =>
    ⟨(get_named_var_ok h4).2, parse_decl_pass fuel parser parser1 type var v block h1 h2 h3 h4⟩,
    by decide!, by decide!, by decide!, by decide!, by decide!, by decide!, by decide!,
    by decide!, by decide!⟩

/-- Witness of C14: on `a = 1, b = 2` parse_decl without a type returns after
the first expression, the lexer on the `,`; with the type integer it goes round
again after the `,`; and on `a ,` it raises SyntaxError. -/
theorem C14_parse_decl_names_witness :
    (∃ parser2, expression 20 (at_decl_value (name_declared on_a_b none) (some 0))
        = .ok parser2 ∧ parser2.lex.token = tk_comma ∧
      parse_decl_loop 21 on_a_b none none = .ok (lily_emit_eval_expr parser2)) ∧
    (∃ parser2, expression 20
        (at_decl_value (name_declared on_a_b (some (simple_type 0))) (some 0))
        = .ok parser2 ∧
      parse_decl_loop 21 on_a_b (some (simple_type 0)) none =
        parse_decl_loop 20 (next_token (lily_emit_eval_expr parser2)) (some (simple_type 0))
          (some 0)) ∧
    parse_decl_loop 21 (parser_on stock_classes 0 [word "a", tok tk_comma])
      (some (simple_type 0)) none = .error (.raised .lily_SyntaxError) := by
  have hblock : ∀ input, current_block (parser_on stock_classes 0 input) =
      .ok { block_type := BLOCK_FUNCTION, self := none, match_sym := none,
            match_cases := [], generic_count := 0, function_var := none } := fun _ => rfl
  refine ⟨?_, ?_, ?_⟩
  · have hok : outcome (expression 20 (at_decl_value (name_declared on_a_b none) (some 0)))
        = .ok (tk_comma, 3) := by decide!
    cases h : expression 20 (at_decl_value (name_declared on_a_b none) (some 0)) with
    | error e => rw [h] at hok; simp [outcome] at hok
    | ok parser2 =>
      rw [h] at hok
      have htok : parser2.lex.token = tk_comma := by
        simp only [outcome, Except.ok.injEq, Prod.mk.injEq] at hok
        exact hok.1
      exact ⟨parser2, rfl, htok,
        (((C14_parse_decl_names.1 20 on_a_b (name_declared on_a_b none) none none 0 _
          (hblock _) (by decide) (by decide!) (by rfl)).2.2 (by decide!)).2 parser2 h).1
          (Or.inl rfl)⟩
  · have hok : outcome (expression 20
        (at_decl_value (name_declared on_a_b (some (simple_type 0))) (some 0)))
        = .ok (tk_comma, 3) := by decide!
    cases h : expression 20
        (at_decl_value (name_declared on_a_b (some (simple_type 0))) (some 0)) with
    | error e => rw [h] at hok; simp [outcome] at hok
    | ok parser2 =>
      rw [h] at hok
      have htok : parser2.lex.token = tk_comma := by
        simp only [outcome, Except.ok.injEq, Prod.mk.injEq] at hok
        exact hok.1
      exact ⟨parser2, rfl,
        (((C14_parse_decl_names.1 20 on_a_b (name_declared on_a_b (some (simple_type 0)))
          (some (simple_type 0)) none 0 _
          (hblock _) (by decide) (by decide!) (by rfl)).2.2 (by decide!)).2 parser2 h).2.1
          (by simp) htok⟩
  · exact (C14_parse_decl_names.1 20 (parser_on stock_classes 0 [word "a", tok tk_comma])
      (name_declared (parser_on stock_classes 0 [word "a", tok tk_comma])
        (some (simple_type 0)))
      (some (simple_type 0)) none 0 _ (hblock _) (by decide) (by decide!) (by rfl)).2.1
      (by decide!)

/-- C15 (counterexample): in the body of a class Foo that has the property x,
with no var x in scope, get_named_var for a function (flag VAR_IS_READONLY) on
the name x raises SyntaxError, and on the name y it does not. The class
`class Foo() { integer @x = 1 define x() {} }` raises SyntaxError; with the
function named y it is accepted. -/
theorem C15_method_name_of_a_property :
    named_var_outcome (class_body_with_property [word "x", tok tk_left_parenth]) VAR_IS_READONLY
      = (false, true) ∧
    named_var_outcome (class_body_with_property [word "y", tok tk_left_parenth]) VAR_IS_READONLY
      = (false, false) ∧
    outcome (statement 40
        (parser_on stock_classes 0
          [word "class", word "Foo", tok tk_left_parenth, tok tk_right_parenth,
           tok tk_left_curly,
           word "integer", prop_word "x", tok tk_equal, tok tk_integer,
           word "define", word "x", tok tk_left_parenth, tok tk_right_parenth,
           tok tk_left_curly, tok tk_right_curly,
           tok tk_right_curly])
        1)
      = .error (.raised .lily_SyntaxError) ∧
    outcome (statement 40
        (parser_on stock_classes 0
          [word "class", word "Foo", tok tk_left_parenth, tok tk_right_parenth,
           tok tk_left_curly,
           word "integer", prop_word "x", tok tk_equal, tok tk_integer,
           word "define", word "y", tok tk_left_parenth, tok tk_right_parenth,
           tok tk_left_curly, tok tk_right_curly,
           tok tk_right_curly])
        1)
      = .ok (tk_final_eof, 0) := by
  decide!

/-- C15 (amended): get_named_var raises SyntaxError when lily_var_by_name finds a
var with the current label of the lexer; it also raises SyntaxError when none is
found but the var is to be readonly (a function), a class is being declared and
the class of the block has a property of that name; otherwise (no var found, and
the var not readonly, or no class being declared, or no property of that name)
it creates exactly one new var with that name, the given type and the given
flags at the head of the var chain, leaves the classes, the type stack, the
emitter and the AST pool alone, and advances the lexer by one token. -/
theorem C15_get_named_var_outcomes (parser : lily_parse_state) (var_type : Option lily_type)
    (flags : Nat) :
    ((lily_var_by_name parser.symtab parser.lex.label).isSome = true →
      get_named_var parser var_type flags = .error (.raised .lily_SyntaxError)) ∧
    ((lily_var_by_name parser.symtab parser.lex.label).isSome = false →
      method_name_taken parser flags →
      get_named_var parser var_type flags = .error (.raised .lily_SyntaxError)) ∧
    ((lily_var_by_name parser.symtab parser.lex.label).isSome = false →
      method_name_free parser flags →
      ∃ v parser', get_named_var parser var_type flags
          = .ok (parser.symtab.var_chain.length, parser') ∧
        parser'.symtab.var_chain = v :: parser.symtab.var_chain ∧
        v.name = parser.lex.label ∧ v.type = var_type ∧ v.flags = flags ∧
        parser'.symtab.classes = parser.symtab.classes ∧
        parser'.lex = lily_lexer parser.lex ∧
        parser'.type_stack = parser.type_stack ∧ parser'.emit = parser.emit ∧
        parser'.ast_pool = parser.ast_pool) := by
  refine ⟨fun h => ?_, fun h hg => ?_, fun h hg => ?_⟩
  · simp [get_named_var, raise_if, h, raise_syntax, bind, Except.bind]
  · simp [get_named_var, raise_if, h, method_name_check_taken parser flags hg, bind,
      Except.bind]
  · refine ⟨(lily_try_new_var parser.symtab var_type parser.lex.label flags).1,
      { parser with symtab := (lily_try_new_var parser.symtab var_type parser.lex.label flags).2,
                    lex := lily_lexer parser.lex }, ?_, ?_, ?_, ?_, ?_, ?_, rfl, rfl, rfl, rfl⟩
    · simp [get_named_var, raise_if, h, method_name_check_free parser flags hg, bind,
        Except.bind, pure, Except.pure]
    all_goals
      simp only [lily_try_new_var]
      split <;> rfl

/-- Witness of C15: in the body of the class Foo with the property x a function
named x is refused; in the main function the name a, not yet declared, gives
one new var a and the lexer moves to the `=`. -/
theorem C15_get_named_var_outcomes_witness :
    get_named_var (class_body_with_property [word "x", tok tk_left_parenth]) none
        VAR_IS_READONLY
      = .error (.raised .lily_SyntaxError) ∧
    ∃ v parser', get_named_var (parser_on stock_classes 0 [word "a", tok tk_equal]) none 0
        = .ok ((parser_on stock_classes 0 [word "a", tok tk_equal]).symtab.var_chain.length,
               parser') ∧
      parser'.symtab.var_chain
        = v :: (parser_on stock_classes 0 [word "a", tok tk_equal]).symtab.var_chain ∧
      v.name = "a" ∧ parser'.lex.token = tk_equal :=
  ⟨(C15_get_named_var_outcomes (class_body_with_property [word "x", tok tk_left_parenth]) none
      VAR_IS_READONLY).2.1 (by decide)
      ⟨by decide, by decide, simple_type 10, rfl, by decide⟩,
   by
    obtain ⟨v, p', h1, h2, h3, _, _, _, h7, _⟩ :=
      (C15_get_named_var_outcomes (parser_on stock_classes 0 [word "a", tok tk_equal]) none
        0).2.2 (by decide) (Or.inl (by decide))
    exact ⟨v, p', h1, h2, h3, by rw [h7]; rfl⟩⟩

/-- C16 (counterexample): a var a at function depth 1 that is found but still
flagged as not initialized makes expression_word raise SyntaxError; without the
flag it is pushed and the state becomes ST_WANT_OPERATOR. The declaration
`integer a = a` raises SyntaxError. -/
theorem C16_uninitialized_var_refused :
    word_outcome (expression_word (with_var_a SYM_NOT_INITIALIZED 1) ST_DEMAND_VALUE)
      = .error (.raised .lily_SyntaxError) ∧
    word_outcome (expression_word (with_var_a 0 1) ST_DEMAND_VALUE) = .ok ST_WANT_OPERATOR ∧
    outcome (statement 40 (parser_on stock_classes 0 self_assigned) 1)
      = .error (.raised .lily_SyntaxError) := by
  decide!

/-- C16 (amended): for a var that lily_var_by_name finds, expression_word raises
SyntaxError when the var is flagged as not initialized; otherwise it pushes the
var as a global when its function depth is 1 (a var of the package class is
handed to expression_package instead), as a local when its depth equals the
current function depth of the emitter, as a defined function when its depth is
-1, and raises SyntaxError for every other depth: a local of an enclosing
function cannot be used from an inner function. -/
theorem C16_expression_word_scopes (parser : lily_parse_state) (state : Nat) (var : lily_var)
    (h : lily_var_by_name parser.symtab parser.lex.label = some var) :
    ((var.flags &&& SYM_NOT_INITIALIZED) ≠ 0 →
      expression_word parser state = .error (.raised .lily_SyntaxError)) ∧
    ((var.flags &&& SYM_NOT_INITIALIZED) = 0 → var.function_depth = 1 →
      ∀ t, var.type = some t →
        (t.cls ≠ SYM_CLASS_PACKAGE →
          expression_word parser state =
            .ok ({ parser with
                     ast_pool := lily_ast_push_var parser.ast_pool tree_global_var var },
                 ST_WANT_OPERATOR)) ∧
        (t.cls = SYM_CLASS_PACKAGE →
          expression_word parser state = then_want_operator (expression_package parser var))) ∧
    ((var.flags &&& SYM_NOT_INITIALIZED) = 0 → var.function_depth ≠ 1 →
      var.function_depth = parser.emit.function_depth →
      expression_word parser state =
        .ok ({ parser with ast_pool := lily_ast_push_var parser.ast_pool tree_local_var var },
             ST_WANT_OPERATOR)) ∧
    ((var.flags &&& SYM_NOT_INITIALIZED) = 0 → var.function_depth ≠ 1 →
      var.function_depth ≠ parser.emit.function_depth → var.function_depth = -1 →
      expression_word parser state =
        .ok ({ parser with ast_pool := lily_ast_push_var parser.ast_pool tree_defined_func var },
             ST_WANT_OPERATOR)) ∧
    ((var.flags &&& SYM_NOT_INITIALIZED) = 0 → var.function_depth ≠ 1 →
      var.function_depth ≠ parser.emit.function_depth → var.function_depth ≠ -1 →
      expression_word parser state = .error (.raised .lily_SyntaxError)) := by
  refine ⟨fun h1 => ?_, fun h1 h2 t ht => ⟨fun h3 => ?_, fun h3 => ?_⟩, fun h1 h2 h3 => ?_,
    fun h1 h2 h3 h4 => ?_, fun h1 h2 h3 h4 => ?_⟩
  · simp [expression_word, h, h1, raise_syntax]
  · simp [expression_word, h, h1, h2, ht, h3]
  · simp only [expression_word, h, h1, h2, ht, h3, then_want_operator]
    simp
  · have h2' : ¬ parser.emit.function_depth = 1 := h3 ▸ h2
    simp [expression_word, h, h1, h2', h3]
  · have h3' : ¬ (-1 : Int) = parser.emit.function_depth := h4 ▸ h3
    simp [expression_word, h, h1, h3', h4]
  · simp [expression_word, h, h1, h2, h3, h4, raise_syntax]

/-- Witness of C16: in `define f() { integer x = 1 define g() { integer y = x } }`
the use of x raises SyntaxError, and with the global z as the value of y the
functions are accepted; a var of depth 2 met in the main function raises
SyntaxError and a var of depth 1 is pushed as a global. -/
theorem C16_expression_word_scopes_witness :
    outcome (statement 60 (parser_on stock_classes 0 (nested_define "x")) 1)
      = .error (.raised .lily_SyntaxError) ∧
    outcome (statement 60 (parser_on stock_classes 0 (nested_define "z")) 1)
      = .ok (tk_final_eof, 0) ∧
    expression_word (with_var_a 0 2) ST_DEMAND_VALUE = .error (.raised .lily_SyntaxError) ∧
    expression_word (with_var_a 0 1) ST_DEMAND_VALUE =
      .ok ({ with_var_a 0 1 with
               ast_pool := lily_ast_push_var (with_var_a 0 1).ast_pool tree_global_var
                 { name := "a", type := some (simple_type SYM_CLASS_INTEGER), flags := 0,
                   reg_spot := 0, function_depth := 1, parent := none } },
           ST_WANT_OPERATOR) :=
  ⟨by decide!, by decide!,
   (C16_expression_word_scopes (with_var_a 0 2) ST_DEMAND_VALUE
      { name := "a", type := some (simple_type SYM_CLASS_INTEGER), flags := 0,
        reg_spot := 0, function_depth := 2, parent := none } rfl).2.2.2.2
      (by decide) (by decide) (by decide) (by decide),
   ((C16_expression_word_scopes (with_var_a 0 1) ST_DEMAND_VALUE
      { name := "a", type := some (simple_type SYM_CLASS_INTEGER), flags := 0,
        reg_spot := 0, function_depth := 1, parent := none } rfl).2.1
      (by decide) rfl (simple_type SYM_CLASS_INTEGER) rfl).1 (by decide)⟩

/-- C18 (the code departs from the claim): a declaration with two well-formed
variants is not always accepted. `enum class Color { Red(list[integer]), Blue }`
raises SyntaxError, the bracketed type of the field being read as the field list
of a variant, and `enum class Pair[A] { One(A, A), Two }` writes past the type
stack. For the rest the claim holds. Once enum_handler has read the head of the
declaration up to `{`: with `}` right after it SyntaxError is raised; on
variants that take no values, new names different from each other written
with commas between them and `}` after the last, one variant raises SyntaxError
and two or more are accepted, the enum class finished and the lexer past the
`}`; where the loop over the variants returns with a count below 2 SyntaxError
is raised; and wherever enum_handler returns, the loop has read two variants or
more. `enum class Color { Red }`, `enum class Color { }` and
`enum class Color { Red(integer) }` raise SyntaxError; with the variants
`Red, Blue`, with `Red, Blue, Green` and with `Red(integer), Blue` the enum is
accepted and has these variants. -/
theorem C18_enum_two_variants_not_always_accepted :
    outcome (statement 40 (parser_on stock_classes 0
        (enum_color (word "Red" :: tok tk_left_parenth ::
          (bracketed "list" [word "integer"] ++
            [tok tk_right_parenth, tok tk_comma, word "Blue"])))) 1)
      = .error (.raised .lily_SyntaxError) ∧
    outcome (statement 40 (parser_on stock_classes 0
        (enum_generic [word "A"] [word "A", tok tk_comma, word "A"])) 1)
      = .error .undefined_behavior ∧
    (∀ (fuel : Nat) (parser first : lily_parse_state) (multi enum_class save_generics : Nat)
        (result_type : Option lily_type),
      enum_header (fuel + 1) parser = .ok (enum_class, result_type, save_generics, first) →
      first.lex.token = tk_right_curly →
      enum_handler (fuel + 1) parser multi = .error (.raised .lily_SyntaxError)) ∧
    (∀ (fuel : Nat) (parser first : lily_parse_state) (multi enum_class save_generics : Nat)
        (result_type : Option lily_type) (name : String) (rest : List String)
        (after : List lex_item),
      enum_header fuel parser = .ok (enum_class, result_type, save_generics, first) →
      first.lex.token = tk_word → first.lex.label = name →
      first.lex.input = plain_tail rest ++ after →
      (∀ m ∈ name :: rest, (lily_class_by_name first.symtab m).2 = none) →
      (name :: rest).Nodup → rest.length + 1 ≤ fuel →
      (rest = [] → enum_handler fuel parser multi = .error (.raised .lily_SyntaxError)) ∧
      (rest ≠ [] → ∃ last,
        enum_handler fuel parser multi =
          .ok (enum_finished last enum_class false result_type save_generics) ∧
        last.lex.token = tk_right_curly ∧ last.lex.input = after)) ∧
    (∀ (fuel : Nat) (parser first : lily_parse_state) (multi enum_class save_generics : Nat)
        (result_type : Option lily_type),
      enum_header fuel parser = .ok (enum_class, result_type, save_generics, first) →
      (∀ count last,
        enum_variants fuel first enum_class (decide (first.lex.token = tk_colon_colon)) 0
          = .ok (count, last) →
        count < 2 → enum_handler fuel parser multi = .error (.raised .lily_SyntaxError)) ∧
      (∀ parser', enum_handler fuel parser multi = .ok parser' →
        ∃ count last log,
          enum_variants fuel first enum_class (decide (first.lex.token = tk_colon_colon)) 0
            = .ok (count, last) ∧
          variants_read fuel first enum_class (decide (first.lex.token = tk_colon_colon))
            = .ok log ∧
          count = log.length ∧ 2 ≤ count)) ∧
    outcome (statement 40 (parser_on stock_classes 0 (enum_color [word "Red"])) 1)
      = .error (.raised .lily_SyntaxError) ∧
    outcome (statement 40 (parser_on stock_classes 0 (enum_color [])) 1)
      = .error (.raised .lily_SyntaxError) ∧
    outcome (statement 40 (parser_on stock_classes 0
        (enum_color [word "Red", tok tk_left_parenth, word "integer", tok tk_right_parenth])) 1)
      = .error (.raised .lily_SyntaxError) ∧
    enum_left (statement 40 (parser_on stock_classes 0
        (enum_color [word "Red", tok tk_comma, word "Blue"])) 1) "Color"
      = .ok (some (CLS_ENUM_CLASS, [11, 12])) ∧
    enum_left (statement 40 (parser_on stock_classes 0
        (enum_color [word "Red", tok tk_comma, word "Blue", tok tk_comma, word "Green"])) 1)
        "Color"
      = .ok (some (CLS_ENUM_CLASS, [11, 12, 13])) ∧
    enum_left (statement 40 (parser_on stock_classes 0
        (enum_color [word "Red", tok tk_left_parenth, word "integer", tok tk_right_parenth,
          tok tk_comma, word "Blue"])) 1) "Color"
      = .ok (some (CLS_ENUM_CLASS, [11, 12])) := by
  refine ⟨by decide!, by decide!, ?_, ?_, ?_, by decide!, by decide!, by decide!, by decide!,
    by decide!, by decide!⟩
  · intro fuel parser first multi enum_class save_generics result_type hh htok
    exact enum_handler_no_variant fuel parser first multi enum_class save_generics result_type
      hh htok
  · intro fuel parser first multi enum_class save_generics result_type name rest after hh htok
      hlabel hin hfresh hnd hk
    exact enum_handler_plain fuel parser first multi enum_class save_generics result_type name
      rest after hh htok hlabel hin hfresh hnd hk
  · intro fuel parser first multi enum_class save_generics result_type hh
    refine ⟨fun count last hv hc => ?_, fun parser' h => ?_⟩
    · rw [enum_handler_after_header fuel parser first multi enum_class save_generics
        result_type hh, hv]
      simp [raise_if, hc, raise_syntax, bind, Except.bind]
    · exact enum_handler_returned fuel parser first parser' multi enum_class save_generics
        result_type hh h

/-- Witness of C18: enum_handler raises SyntaxError on `class Color { Red }`
and on `class Color { }`, and returns on `class Color { Red, Blue }` with the
lexer at the end of the input. -/
theorem C18_enum_two_variants_not_always_accepted_witness :
    enum_handler 20 (on_enum [word "Red"]) 1 = .error (.raised .lily_SyntaxError) ∧
    enum_handler 20 (on_enum []) 1 = .error (.raised .lily_SyntaxError) ∧
    ∃ last, enum_handler 20 (on_enum [word "Red", tok tk_comma, word "Blue"]) 1 =
        .ok (enum_finished last 10 false (some (simple_type 10)) 0) ∧
      last.lex.token = tk_right_curly ∧ last.lex.input = [] := by
  have hh : ∀ variants, enum_header 20 (on_enum variants) =
      .ok (10, some (simple_type 10), 0, enum_first variants) := fun _ => rfl
  refine ⟨?_, ?_, ?_⟩
  · exact (C18_enum_two_variants_not_always_accepted.2.2.2.1 20 (on_enum [word "Red"])
      (enum_first [word "Red"]) 1 10 0 (some (simple_type 10)) "Red" [] [] (hh _) rfl rfl rfl
      (by decide!) (by decide) (by decide)).1 rfl
  · exact C18_enum_two_variants_not_always_accepted.2.2.1 19 (on_enum []) (enum_first []) 1 10 0
      (some (simple_type 10)) (hh _) rfl
  · exact (C18_enum_two_variants_not_always_accepted.2.2.2.1 20
      (on_enum [word "Red", tok tk_comma, word "Blue"])
      (enum_first [word "Red", tok tk_comma, word "Blue"]) 1 10 0 (some (simple_type 10)) "Red"
      ["Blue"] [] (hh _) rfl rfl rfl (by decide!) (by decide) (by decide)).2 (by decide)

/-- C19: where enum_handler returns, the loop over the variants ran with
is_scoped set exactly when the first token after `{` is `::`, the enum class
was finished with that same is_scoped, and every variant read began on `::` in
a scoped enum and on no `::` in an unscoped one; a pass of the loop of a scoped
enum that does not begin on `::` raises SyntaxError, and so does a pass of the
loop of an unscoped enum that begins on `::`. `enum class Color { ::Red, ::Blue }`
leaves Color flagged as an enum and as scoped, `enum class Color { Red, Blue }`
as an enum only; `{ ::Red, Blue }` and `{ Red, ::Blue }` raise SyntaxError. -/
theorem C19_scoped_enum_marks :
    (∀ (fuel : Nat) (parser first parser' : lily_parse_state)
        (multi enum_class save_generics : Nat) (result_type : Option lily_type),
      enum_header fuel parser = .ok (enum_class, result_type, save_generics, first) →
      enum_handler fuel parser multi = .ok parser' →
      ∃ count last log,
        enum_variants fuel first enum_class (decide (first.lex.token = tk_colon_colon)) 0
          = .ok (count, last) ∧
        parser' = enum_finished last enum_class (decide (first.lex.token = tk_colon_colon))
          result_type save_generics ∧
        variants_read fuel first enum_class (decide (first.lex.token = tk_colon_colon))
          = .ok log ∧
        ∀ x ∈ log, x.1 = decide (first.lex.token = tk_colon_colon)) ∧
    (∀ (k : Nat) (parser : lily_parse_state) (enum_class n : Nat),
      (parser.lex.token ≠ tk_colon_colon →
        enum_variants (k + 1) parser enum_class true n = .error (.raised .lily_SyntaxError)) ∧
      (parser.lex.token = tk_colon_colon →
        enum_variants (k + 1) parser enum_class false n
          = .error (.raised .lily_SyntaxError))) ∧
    enum_left (statement 40 (parser_on stock_classes 0
        (enum_color [tok tk_colon_colon, word "Red", tok tk_comma, tok tk_colon_colon,
          word "Blue"])) 1) "Color"
      = .ok (some (CLS_ENUM_CLASS ||| CLS_ENUM_IS_SCOPED, [11, 12])) ∧
    enum_left (statement 40 (parser_on stock_classes 0
        (enum_color [word "Red", tok tk_comma, word "Blue"])) 1) "Color"
      = .ok (some (CLS_ENUM_CLASS, [11, 12])) ∧
    outcome (statement 40 (parser_on stock_classes 0
        (enum_color [tok tk_colon_colon, word "Red", tok tk_comma, word "Blue"])) 1)
      = .error (.raised .lily_SyntaxError) ∧
    outcome (statement 40 (parser_on stock_classes 0
        (enum_color [word "Red", tok tk_comma, tok tk_colon_colon, word "Blue"])) 1)
      = .error (.raised .lily_SyntaxError) := by
  refine ⟨fun fuel parser first parser' multi enum_class save_generics result_type hh h => ?_,
    fun k parser enum_class n => ⟨fun h => ?_, fun h => ?_⟩,
    by decide!, by decide!, by decide!, by decide!⟩
  · rw [enum_handler_after_header fuel parser first multi enum_class save_generics
      result_type hh] at h
    cases hv : enum_variants fuel first enum_class
        (decide (first.lex.token = tk_colon_colon)) 0 with
    | error e => rw [hv] at h; simp [bind, Except.bind] at h
    | ok r =>
      obtain ⟨count, last⟩ := r
      rw [hv] at h
      obtain ⟨log, h1, _, _, h4⟩ := variants_counted fuel _ _ _ _ _ _ hv
      refine ⟨count, last, log, rfl, ?_, h1, h4⟩
      by_cases hc : count < 2
      · simp [raise_if, hc, raise_syntax, bind, Except.bind] at h
      · simp only [raise_if, hc, if_false, bind, Except.bind, pure, Except.pure,
          Except.ok.injEq] at h
        exact h.symm
  · exact enum_variants_step_error k parser enum_class true n _
      ((enum_variant_pass_refuses k parser enum_class).1 h)
  · exact enum_variants_step_error k parser enum_class false n _
      ((enum_variant_pass_refuses k parser enum_class).2 h)

/-- Witness of C19: enum_handler on `class Color { ::Red, ::Blue }` returns with
the enum finished as scoped; in a scoped enum a variant written `Blue` raises
SyntaxError and in an unscoped enum a variant written `::Blue` does. -/
theorem C19_scoped_enum_marks_witness :
    (∃ last, enum_handler 20
        (on_enum [tok tk_colon_colon, word "Red", tok tk_comma, tok tk_colon_colon,
          word "Blue"]) 1
      = .ok (enum_finished last 10 true (some (simple_type 10)) 0)) ∧
    enum_variants 20 (parser_on stock_classes 0 [word "Blue", tok tk_right_curly]) 10 true 1
      = .error (.raised .lily_SyntaxError) ∧
    enum_variants 20 (parser_on stock_classes 0
        [tok tk_colon_colon, word "Blue", tok tk_right_curly]) 10 false 1
      = .error (.raised .lily_SyntaxError) := by
  refine ⟨?_, ((C19_scoped_enum_marks.2.1 19
      (parser_on stock_classes 0 [word "Blue", tok tk_right_curly]) 10 1).1 (by decide)),
    ((C19_scoped_enum_marks.2.1 19
      (parser_on stock_classes 0 [tok tk_colon_colon, word "Blue", tok tk_right_curly])
      10 1).2 (by decide))⟩
  have hh : enum_header 20 (on_enum [tok tk_colon_colon, word "Red", tok tk_comma,
      tok tk_colon_colon, word "Blue"]) =
      .ok (10, some (simple_type 10), 0, enum_first [tok tk_colon_colon, word "Red",
        tok tk_comma, tok tk_colon_colon, word "Blue"]) := rfl
  have hok : outcome (enum_handler 20 (on_enum [tok tk_colon_colon, word "Red", tok tk_comma,
      tok tk_colon_colon, word "Blue"]) 1) = .ok (tk_final_eof, 0) := by decide!
  cases h : enum_handler 20 (on_enum [tok tk_colon_colon, word "Red", tok tk_comma,
      tok tk_colon_colon, word "Blue"]) 1 with
  | error e => rw [h] at hok; simp [outcome] at hok
  | ok parser' =>
    obtain ⟨count, last, log, _, h2, _, _⟩ := C19_scoped_enum_marks.1 20 _ _ parser' 1 10 0
      (some (simple_type 10)) hh h
    exact ⟨last, by rw [h2]; rfl⟩

/-- C20 (the code departs from the claim): the bytes of a name are read through
`const char *` and converted to uint64_t; where char is signed, a byte from 128
on is sign-extended, so it sets every byte above its own as well. The names
`é` (bytes C3 A9) and `ë` (bytes C3 AB) both have the shorthash
FFFFFFFFFFFFFFC3: byte 1 is FF and not the second byte of the name, the bytes
above the length are not zero, and two different names of two bytes have equal
shorthashes. For a name of ASCII characters other than NUL the claim holds: the
shorthash is below 2^64, its byte i is the i-th byte of the name for i below
the smaller of the length and 8 and zero above that; and two such names of at
most 8 bytes with equal shorthashes are equal. -/
theorem C20_shorthash_sign_extension :
    (c_bytes "é" = [0xC3, 0xA9] ∧ c_bytes "ë" = [0xC3, 0xAB] ∧
      shorthash_for_name "é" = 0xFFFFFFFFFFFFFFC3 ∧
      shorthash_for_name "ë" = 0xFFFFFFFFFFFFFFC3 ∧
      byte_at (shorthash_for_name "é") 1 = 0xFF ∧
      byte_at (shorthash_for_name "é") 7 = 0xFF) ∧
    (∀ name, ascii_name name →
      shorthash_for_name name < 2 ^ 64 ∧
      ∀ i, byte_at (shorthash_for_name name) i =
        if i < min (c_bytes name).length 8 then (c_bytes name).getD i 0 else 0) ∧
    (∀ name other, ascii_name name → ascii_name other →
      (c_bytes name).length ≤ 8 → (c_bytes other).length ≤ 8 →
      shorthash_for_name name = shorthash_for_name other → name = other) := by
  refine ⟨by decide!, shorthash_ascii_bytes, shorthash_ascii_injective⟩

/-- Witness of C20: the shorthash of `define` has the byte 100 (`d`) at 0 and the
byte 0 at 6, the shorthash of `__function__` has the byte 105 (`i`) at 7, and
every ASCII name of at most 8 bytes with the shorthash of `define` is `define`. -/
theorem C20_shorthash_sign_extension_witness :
    (ascii_name "define" ∧ shorthash_for_name "define" < 2 ^ 64 ∧
      byte_at (shorthash_for_name "define") 0 = 100 ∧
      byte_at (shorthash_for_name "__function__") 7 = 105 ∧
      byte_at (shorthash_for_name "define") 6 = 0) ∧
    (∀ other, ascii_name other → (c_bytes other).length ≤ 8 →
      shorthash_for_name other = shorthash_for_name "define" → other = "define") := by
  have hd : ascii_name "define" := by decide
  have hf : ascii_name "__function__" := by decide
  refine ⟨⟨hd, (C20_shorthash_sign_extension.2.1 "define" hd).1, ?_, ?_, ?_⟩,
    fun other h1 h2 h3 =>
      C20_shorthash_sign_extension.2.2 other "define" h1 hd h2 (by decide) h3⟩
  · rw [(C20_shorthash_sign_extension.2.1 "define" hd).2 0]; decide
  · rw [(C20_shorthash_sign_extension.2.1 "__function__" hf).2 7]; decide
  · rw [(C20_shorthash_sign_extension.2.1 "define" hd).2 6]; decide

/-- C21 (counterexample): the parser that lily_new_parse_state returns for the
command line `lily a.lly` is in the mode pm_init and has no class beyond the ten
builtin ones: the exception bootstrap has not been run. lily_parse_file on a
tagged file without code returns on this parser and leaves it so. -/
theorem C21_new_parser_without_exceptions :
    parser_made.map (fun st => (classes_declared st, st.mode)) = some ([], pm_init) ∧
    parser_made.map (fun st =>
        declared_after (lily_parse_file 300 sample_seeds st lm_tags "a.lly" [])) =
      some (.ok ([], pm_init)) := by
  decide!

/-- C21 (amended): a parser that lily_new_parse_state returns is in the mode
pm_init and its classes are the builtin ones, none of the exception classes
among them. The bootstrap is run by the first call of parser_loop, before the
first token of the input is read: for such a parser lily_parse_string is
do_bootstrap on the parser with the handler of the call set up and the input
loaded, followed by the loop over the tokens in the mode pm_parse, and it fails
where do_bootstrap fails;
lily_parse_file does the same unless loading the file has left the token
tk_final_eof, in which case it returns the parser as loaded, still in the mode
pm_init and with the builtin classes only. A parser that is not in the mode
pm_init goes to the loop over the tokens without do_bootstrap. With the global
functions print and show, lily_parse_string on the empty string, on
`integer a = 1` and on `class Point() { }` leaves the nine exception classes
declared, the mode pm_parse; so does lily_parse_file in the untagged mode on
an empty file; and a second lily_parse_string on the same parser declares them
no second time. -/
theorem C21_bootstrap_in_first_parser_loop (heap argc : Nat) (argv : List (List Nat))
    (st : lily_parse_state_ext) (h : lily_new_parse_state heap argc argv = some st) :
    st.mode = pm_init ∧ st.parser.symtab.classes = stock_classes ∧
    (∀ (fuel : Nat) (seeds : List (List lex_item)) (name : String) (mode : lily_lex_mode)
        (str : List lex_item),
      lily_parse_string fuel seeds st name mode str =
        match do_bootstrap fuel seeds
            (lily_load_first (handler_installed st) name mode str).parser with
        | .error e => .error e
        | .ok parser =>
          parser_loop_tokens fuel
            { lily_load_first (handler_installed st) name mode str with
              parser := next_token parser, mode := pm_parse }) ∧
    (∀ (fuel : Nat) (seeds : List (List lex_item)) (mode : lily_lex_mode) (filename : String)
        (file : List lex_item),
      ((lily_load_first (handler_installed st) filename mode file).parser.lex.token ≠
          tk_final_eof →
        lily_parse_file fuel seeds st mode filename file =
          match do_bootstrap fuel seeds
              (lily_load_first (handler_installed st) filename mode file).parser with
          | .error e => .error e
          | .ok parser =>
            parser_loop_tokens fuel
              { lily_load_first (handler_installed st) filename mode file with
                parser := next_token parser, mode := pm_parse }) ∧
      ((lily_load_first (handler_installed st) filename mode file).parser.lex.token =
          tk_final_eof →
        lily_parse_file fuel seeds st mode filename file =
          .ok (lily_load_first (handler_installed st) filename mode file) ∧
        (lily_load_first (handler_installed st) filename mode file).mode = pm_init ∧
        (lily_load_first (handler_installed st) filename mode file).parser.symtab.classes =
          stock_classes)) ∧
    (∀ (fuel : Nat) (seeds : List (List lex_item)) (st2 : lily_parse_state_ext),
      st2.mode ≠ pm_init →
      parser_loop fuel seeds st2 =
        parser_loop_tokens fuel { st2 with parser := next_token st2.parser, mode := pm_parse }) ∧
    parser_made.map (fun st =>
        declared_after (lily_parse_string 300 sample_seeds st "[cli]" lm_no_tags [])) =
      some (.ok (nine_exception_classes, pm_parse)) ∧
    parser_made.map (fun st =>
        declared_after (lily_parse_string 300 sample_seeds st "[cli]" lm_no_tags
          integer_program)) =
      some (.ok (nine_exception_classes, pm_parse)) ∧
    parser_made.map (fun st =>
        declared_after (lily_parse_string 300 sample_seeds st "[cli]" lm_no_tags
          point_program)) =
      some (.ok (nine_exception_classes ++ [("Point", 19)], pm_parse)) ∧
    parser_made.map (fun st =>
        declared_after (lily_parse_file 300 sample_seeds st lm_no_tags "a.lly" [])) =
      some (.ok (nine_exception_classes, pm_parse)) ∧
    parser_made.map (fun st =>
        declared_after (parse_two_strings 300 sample_seeds st integer_program point_program)) =
      some (.ok (nine_exception_classes ++ [("Point", 19)], pm_parse)) := by
  obtain ⟨hm, hc, _, _⟩ := new_parse_state_made heap argc argv st h
  have hload : ∀ (name : String) (mode : lily_lex_mode) (str : List lex_item),
      (lily_load_first (handler_installed st) name mode str).mode = pm_init ∧
      (lily_load_first (handler_installed st) name mode str).parser.symtab.classes =
        stock_classes := by
    intro name mode str
    unfold lily_load_first handler_installed
    exact ⟨hm, hc⟩
  refine ⟨hm, hc, ?_, ?_, ?_, by decide!, by decide!, by decide!, by decide!, by decide!⟩
  · intro fuel seeds name mode str
    unfold lily_parse_string parser_loop
    rw [if_pos (hload name mode str).1]
  · intro fuel seeds mode filename file
    refine ⟨?_, ?_⟩
    · intro ht
      unfold lily_parse_file parser_loop
      simp only
      rw [if_pos ht, if_pos (hload filename mode file).1]
    · intro ht
      refine ⟨?_, hload filename mode file⟩
      unfold lily_parse_file
      simp only
      rw [if_neg (by simpa using ht)]
  · intro fuel seeds st2 hne
    unfold parser_loop
    rw [if_neg hne]

/-- Witness of C21: with twelve blocks in the heap lily_new_parse_state returns a
parser for the command line `lily a.lly`, and that parser is in the mode pm_init
with the builtin classes only. -/
theorem C21_bootstrap_in_first_parser_loop_witness :
    ∃ st, lily_new_parse_state 12 2 (command_line ["lily", "a.lly"]) = some st ∧
      st.mode = pm_init ∧ st.parser.symtab.classes = stock_classes := by
  obtain ⟨st, hst⟩ := new_parse_state_enough 12 2 (command_line ["lily", "a.lly"])
    (by decide) (by decide)
  have h := C21_bootstrap_in_first_parser_loop 12 2 (command_line ["lily", "a.lly"]) st hst
  exact ⟨st, hst, h.1, h.2.1⟩

/-- C22 (the code departs from the claim): exception_bootstrap declares nine
classes and none of them is NoMemoryError, so on the parser that
lily_new_parse_state makes, with the ten builtin classes 0..9 and the global
functions print and show, do_bootstrap gives Exception the id 10 and every other
exception class the id one below its SYM_CLASS_* constant:
DivisionByZeroError=11, IndexError=12, BadTypecastError=13, NoReturnError=14,
ValueError=15, RecursionError=16, KeyError=17, FormatError=18. No class is
named NoMemoryError, the class with the id SYM_CLASS_NOMEMORYERROR is
DivisionByZeroError, the class with the id SYM_CLASS_DBZERROR is IndexError,
and no class has the id SYM_CLASS_FORMATERROR until the program declares one:
after lily_parse_string on `class Point() { }` that id is the id of Point. -/
theorem C22_bootstrap_ids_below_constants :
    parser_made.map (fun st => bootstrap_ids 300 sample_seeds st) =
      some (.ok nine_exception_classes) ∧
    [SYM_CLASS_EXCEPTION, SYM_CLASS_NOMEMORYERROR, SYM_CLASS_DBZERROR, SYM_CLASS_INDEXERROR,
      SYM_CLASS_BADTCERROR, SYM_CLASS_NORETURNERROR, SYM_CLASS_VALUEERROR,
      SYM_CLASS_RECURSIONERROR, SYM_CLASS_KEYERROR, SYM_CLASS_FORMATERROR] =
      [10, 11, 12, 13, 14, 15, 16, 17, 18, 19] ∧
    parser_made.map (fun st =>
        id_of_class "Exception" (bootstrap_ids 300 sample_seeds st)) =
      some (some SYM_CLASS_EXCEPTION) ∧
    parser_made.map (fun st =>
        id_of_class "NoMemoryError" (bootstrap_ids 300 sample_seeds st)) = some none ∧
    (nine_exception_classes.drop 1).map (fun c => (c.1, c.2 + 1)) =
      [("DivisionByZeroError", SYM_CLASS_DBZERROR), ("IndexError", SYM_CLASS_INDEXERROR),
       ("BadTypecastError", SYM_CLASS_BADTCERROR), ("NoReturnError", SYM_CLASS_NORETURNERROR),
       ("ValueError", SYM_CLASS_VALUEERROR), ("RecursionError", SYM_CLASS_RECURSIONERROR),
       ("KeyError", SYM_CLASS_KEYERROR), ("FormatError", SYM_CLASS_FORMATERROR)] ∧
    parser_made.map (fun st =>
        id_of_class "DivisionByZeroError" (bootstrap_ids 300 sample_seeds st)) =
      some (some SYM_CLASS_NOMEMORYERROR) ∧
    parser_made.map (fun st =>
        class_of_id SYM_CLASS_DBZERROR (bootstrap_ids 300 sample_seeds st)) =
      some (some "IndexError") ∧
    parser_made.map (fun st =>
        id_of_class "FormatError" (bootstrap_ids 300 sample_seeds st)) = some (some 18) ∧
    parser_made.map (fun st =>
        class_of_id SYM_CLASS_FORMATERROR (bootstrap_ids 300 sample_seeds st)) = some none ∧
    parser_made.map (fun st =>
        declared_after (lily_parse_string 300 sample_seeds st "[cli]" lm_no_tags
          point_program)) =
      some (.ok (nine_exception_classes ++ [("Point", SYM_CLASS_FORMATERROR)], pm_parse)) := by
  decide!

/-- C23 (counterexample): with the format `a %T b` and the type integer as the
argument, lily_msgbuf_add_fmt_va leaves the message `a  b`: the type is not
printed. `%E` with a string and `%I` with an indentation add nothing either.
The same formats written with a caret give `a integer b`, the escaped string
and the indentation. -/
theorem C23_percent_directives_are_dropped :
    message_left (lily_msgbuf_add_fmt_va sample_library stock_classes new_buffer
      (c_bytes "a %T b") [fmt_arg.type (some (simple_type SYM_CLASS_INTEGER))]) =
      .ok (c_bytes "a  b") ∧
    message_left (lily_msgbuf_add_fmt_va sample_library stock_classes new_buffer
      (c_bytes "a %E b") [fmt_arg.str (c_bytes "x\ny")]) = .ok (c_bytes "a  b") ∧
    message_left (lily_msgbuf_add_fmt_va sample_library stock_classes new_buffer
      (c_bytes "a %I b") [fmt_arg.int 2]) = .ok (c_bytes "a  b") ∧
    message_left (lily_msgbuf_add_fmt_va sample_library stock_classes new_buffer
      (c_bytes "a ^T b") [fmt_arg.type (some (simple_type SYM_CLASS_INTEGER))]) =
      .ok (c_bytes "a integer b") ∧
    message_left (lily_msgbuf_add_fmt_va sample_library stock_classes new_buffer
      (c_bytes "a ^E b") [fmt_arg.str (c_bytes "x\ny")]) = .ok (c_bytes "a x\\ny b") ∧
    message_left (lily_msgbuf_add_fmt_va sample_library stock_classes new_buffer
      (c_bytes "a ^I b") [fmt_arg.int 2]) = .ok (c_bytes "a |    |     b") := by
  decide!

/-- C23 (amended): the custom directives of lily_msgbuf_add_fmt_va are written
with a caret, `^T`, `^I` and `^E`. For a format that has, after a text without
percent sign and caret, a caret and a character: the text is added by
lily_msgbuf_add_text_range, then the directive is carried out with the
arguments at hand, then the rest of the format is handled as a format of its
own with the arguments left. `^T` with a type as the next argument is
lily_msgbuf_add_type of that type, `^E` with a string is
lily_msgbuf_escape_add_str of it, `^I` with an integer is msgbuf_add_indent of
it. A format without percent sign and caret is added as it is; and what is
added as it is comes after the text the buffer holds, as long as the whole
stays below 2^16 bytes and the block can be had. Written with a percent sign,
`%T`, `%E` and `%I` add nothing and take no argument. -/
theorem C23_caret_directives (lib : c_library) (classes : List lily_class)
    (msgbuf : lily_msgbuf) (pre rest : List Nat) (hp : plain_text pre) :
    (∀ (c : Nat) (args : List fmt_arg),
      lily_msgbuf_add_fmt_va lib classes msgbuf (pre ++ 94 :: c :: rest) args =
        match fmt_flush lib msgbuf pre 0 pre.length with
        | .error e => .error e
        | .ok msgbuf =>
          match fmt_caret lib classes msgbuf c args with
          | .error e => .error e
          | .ok (args, msgbuf) => lily_msgbuf_add_fmt_va lib classes msgbuf rest args) ∧
    (∀ (m : lily_msgbuf) (type : Option lily_type) (args : List fmt_arg),
      fmt_caret lib classes m 84 (fmt_arg.type type :: args) =
        match add_type_slot lib classes m type with
        | .error e => .error e
        | .ok m => .ok (args, m)) ∧
    (∀ (m : lily_msgbuf) (str : List Nat) (args : List fmt_arg),
      fmt_caret lib classes m 69 (fmt_arg.str str :: args) =
        match lily_msgbuf_escape_add_str lib m str with
        | .error e => .error e
        | .ok m => .ok (args, m)) ∧
    (∀ (m : lily_msgbuf) (indent : Int) (args : List fmt_arg),
      fmt_caret lib classes m 73 (fmt_arg.int indent :: args) =
        match msgbuf_add_indent lib indent.toNat m with
        | .error e => .error e
        | .ok m => .ok (args, m)) ∧
    (∀ args : List fmt_arg,
      lily_msgbuf_add_fmt_va lib classes msgbuf pre args =
        fmt_flush lib msgbuf pre 0 pre.length) ∧
    (∀ content : List Nat, Holds msgbuf content → (∀ b ∈ pre, b ≠ 0) →
      content.length + pre.length < 65536 → content.length + pre.length + 1 ≤ lib.room →
      ∃ msgbuf', fmt_flush lib msgbuf pre 0 pre.length = .ok msgbuf' ∧
        Holds msgbuf' (content ++ pre) ∧ c_string msgbuf'.message = .ok (content ++ pre)) ∧
    (∀ (c : Nat) (args : List fmt_arg), c = 84 ∨ c = 69 ∨ c = 73 →
      lily_msgbuf_add_fmt_va lib classes msgbuf (pre ++ 37 :: c :: rest) args =
        match fmt_flush lib msgbuf pre 0 pre.length with
        | .error e => .error e
        | .ok msgbuf => lily_msgbuf_add_fmt_va lib classes msgbuf rest args) := by
  refine ⟨?_, ?_, ?_, ?_, ?_, ?_, ?_⟩
  · intro c args
    exact fmt_va_caret lib classes msgbuf pre rest c args hp
  · intro m type args
    rfl
  · intro m str args
    rfl
  · intro m indent args
    rfl
  · intro args
    exact fmt_va_plain lib classes msgbuf pre args hp
  · intro content h hnz hlen hroom
    obtain ⟨m, h1, h2⟩ := fmt_flush_holds lib msgbuf content pre h hnz hlen hroom
    exact ⟨m, h1, h2, holds_message _ _ h2⟩
  · intro c args hc
    apply fmt_va_percent_other lib classes msgbuf pre rest c args hp
    · rcases hc with rfl | rfl | rfl <;> omega
    · rcases hc with rfl | rfl | rfl <;> omega
    · rcases hc with rfl | rfl | rfl <;> omega

/-- Witness of C23: on a new buffer the format `a ^T b` is the text `a `, then
the directive T, then the format ` b`; and the text `a ` alone leaves the
message `a `. -/
theorem C23_caret_directives_witness :
    (lily_msgbuf_add_fmt_va sample_library stock_classes new_buffer
        ([97, 32] ++ 94 :: 84 :: [32, 98])
        [fmt_arg.type (some (simple_type SYM_CLASS_INTEGER))] =
      match fmt_flush sample_library new_buffer [97, 32] 0 ([97, 32] : List Nat).length with
      | .error e => .error e
      | .ok msgbuf =>
        match fmt_caret sample_library stock_classes msgbuf 84
            [fmt_arg.type (some (simple_type SYM_CLASS_INTEGER))] with
        | .error e => .error e
        | .ok (args, msgbuf) =>
          lily_msgbuf_add_fmt_va sample_library stock_classes msgbuf [32, 98] args) ∧
    ∃ msgbuf', fmt_flush sample_library new_buffer [97, 32] 0 ([97, 32] : List Nat).length =
        .ok msgbuf' ∧
      Holds msgbuf' ([] ++ [97, 32]) ∧ c_string msgbuf'.message = .ok ([] ++ [97, 32]) :=
  ⟨(C23_caret_directives sample_library stock_classes new_buffer [97, 32] [32, 98]
      (by decide)).1 84 [fmt_arg.type (some (simple_type SYM_CLASS_INTEGER))],
   (C23_caret_directives sample_library stock_classes new_buffer [97, 32] [32, 98]
      (by decide)).2.2.2.2.2.1 [] new_buffer_holds (by decide) (by decide) (by decide)⟩

/-- C24 (the code departs from the claim): pos and size are uint16_t, so a text
that reaches 2^16 bytes wraps: after a string of 65536 bytes, none of them NUL
or to be escaped, is added to a new buffer, pos is 0 and the message is
empty. For a string without NUL and without a byte to escape, added to a buffer
that holds a text, pos is the sum of the lengths modulo 2^16 and the message is
cut there. For the rest the claim
holds, for every string without NUL added to a buffer that is not truncated and
holds a text, as long as the text with the escaped string stays below 2^16
bytes and the block for it can be had: the buffer then holds the text followed
by the escaped string; the escaped string has, byte for byte and in order, a
backslash and n, r, t, the single quote, the double quote, the backslash, b or
a for a newline, carriage return, tab, single quote, double quote, backslash,
backspace or bell, and the byte itself for every other byte; and decoding the
escapes gives the string back. -/
theorem C24_escape_wraps_at_65536 :
    (∀ (lib : c_library) (str : List Nat), 65537 ≤ lib.room → str.length = 65536 →
      (∀ b ∈ str, b ≠ 0) → (∀ b ∈ str, escape_char b = 0) →
      ∃ msgbuf', lily_msgbuf_escape_add_str lib new_buffer str = .ok msgbuf' ∧
        msgbuf'.pos = 0 ∧ c_string msgbuf'.message = .ok []) ∧
    (∀ (lib : c_library) (msgbuf : lily_msgbuf) (content str : List Nat),
      Holds msgbuf content → content.length < 65536 →
      (∀ b ∈ str, b ≠ 0) → (∀ b ∈ str, escape_char b = 0) →
      content.length + str.length + 1 ≤ lib.room →
      ∃ msgbuf', lily_msgbuf_escape_add_str lib msgbuf str = .ok msgbuf' ∧
        msgbuf'.pos = (content.length + str.length) % 65536 ∧
        c_string msgbuf'.message =
          .ok ((content ++ str).take ((content.length + str.length) % 65536))) ∧
    (∀ (lib : c_library) (msgbuf : lily_msgbuf) (content str : List Nat),
      Holds msgbuf content → (∀ b ∈ str, b ≠ 0) →
      content.length + (escaped str).length < 65536 →
      content.length + (escaped str).length + 1 ≤ lib.room →
      ∃ msgbuf', lily_msgbuf_escape_add_str lib msgbuf str = .ok msgbuf' ∧
        Holds msgbuf' (content ++ escaped str) ∧
        c_string msgbuf'.message = .ok (content ++ escaped str)) ∧
    (∀ str : List Nat, unescape (escaped str) = str) ∧
    escaped [] = [] ∧
    (∀ (b : Nat) (rest : List Nat),
      escaped (b :: rest) =
        (if escape_char b ≠ 0 then [92, escape_char b] else [b]) ++ escaped rest) ∧
    (escape_char 10 = 110 ∧ escape_char 13 = 114 ∧ escape_char 9 = 116 ∧
      escape_char 39 = 39 ∧ escape_char 34 = 34 ∧ escape_char 92 = 92 ∧
      escape_char 8 = 98 ∧ escape_char 7 = 97) ∧
    (∀ b : Nat, b ≠ 10 → b ≠ 13 → b ≠ 9 → b ≠ 39 → b ≠ 34 → b ≠ 92 → b ≠ 8 → b ≠ 7 →
      escape_char b = 0) ∧
    message_left (lily_msgbuf_escape_add_str sample_library new_buffer
      (c_bytes "say \"hi\"\n")) = .ok (c_bytes "say \\\"hi\\\"\\n") := by
  have hplain : ∀ (lib : c_library) (msgbuf : lily_msgbuf) (content str : List Nat),
      Holds msgbuf content → content.length < 65536 →
      (∀ b ∈ str, b ≠ 0) → (∀ b ∈ str, escape_char b = 0) →
      content.length + str.length + 1 ≤ lib.room →
      ∃ msgbuf', lily_msgbuf_escape_add_str lib msgbuf str = .ok msgbuf' ∧
        Holds msgbuf' ((content ++ str).take ((content.length + str.length) % 65536)) := by
    intro lib msgbuf content str h hc hnz hp hroom
    unfold lily_msgbuf_escape_add_str
    rw [escape_loop_plain lib str hp str.length 0 0 msgbuf (by omega)]
    by_cases hl : str.length = 0
    · have : str = [] := List.length_eq_zero.mp hl
      subst this
      simp only [List.length_nil, ne_eq, not_true_eq_false, if_false, Nat.add_zero,
        List.append_nil]
      refine ⟨msgbuf, rfl, ?_⟩
      rw [Nat.mod_eq_of_lt hc, List.take_length]
      exact h
    · rw [if_pos hl]
      have := msgbuf_add_text_range_wraps lib msgbuf content str 0 str.length h (by omega)
        (le_refl _) (by simpa using hnz) (by simpa using hroom)
      simpa using this
  refine ⟨?_, ?_, ?_, unescape_escaped, rfl, escaped_cons, by decide, ?_, by decide!⟩
  · intro lib str hroom hlen hnz hp
    obtain ⟨m, h1, h2⟩ := hplain lib new_buffer [] str new_buffer_holds (by simp) hnz hp
      (by simp only [List.length_nil]; omega)
    refine ⟨m, h1, ?_, ?_⟩
    · have := h2.2.1
      rw [this]
      simp only [List.length_nil, Nat.zero_add, hlen, List.nil_append, List.length_take]
      omega
    · have := holds_message _ _ h2
      rw [this]
      simp only [List.length_nil, Nat.zero_add, hlen, List.nil_append]
      rfl
  · intro lib msgbuf content str h hc hnz hp hroom
    obtain ⟨m, h1, h2⟩ := hplain lib msgbuf content str h hc hnz hp hroom
    refine ⟨m, h1, ?_, holds_message _ _ h2⟩
    rw [h2.2.1]
    simp only [List.length_take, List.length_append]
    have := Nat.mod_le (content.length + str.length) 65536
    omega
  · intro lib msgbuf content str h hnz hlen hroom
    unfold lily_msgbuf_escape_add_str
    obtain ⟨m, h1, h2⟩ := escape_loop_holds lib str hnz str.length 0 0 msgbuf content
      (by omega) (le_refl _) h (by simpa using hlen) (by simpa using hroom)
    simp only [Nat.sub_self, List.take_zero, List.append_nil, List.drop_zero] at h2
    exact ⟨m, h1, h2, holds_message _ _ h2⟩
  · intro b h1 h2 h3 h4 h5 h6 h7 h8
    simp [escape_char, h1, h2, h3, h4, h5, h6, h7, h8]

/-- Witness of C24: 65536 bytes `a` added to a new buffer leave pos 0 and an
empty message, and the string of a, newline and b added to a new buffer leaves
the message of a, backslash, n and b. -/
theorem C24_escape_wraps_at_65536_witness :
    (∃ msgbuf', lily_msgbuf_escape_add_str sample_library new_buffer
          (List.replicate 65536 97) = .ok msgbuf' ∧
        msgbuf'.pos = 0 ∧ c_string msgbuf'.message = .ok []) ∧
    (∃ msgbuf', lily_msgbuf_escape_add_str sample_library new_buffer [97, 10, 98] =
          .ok msgbuf' ∧
        Holds msgbuf' ([] ++ escaped [97, 10, 98]) ∧
        c_string msgbuf'.message = .ok ([] ++ escaped [97, 10, 98])) :=
  ⟨C24_escape_wraps_at_65536.1 sample_library (List.replicate 65536 97) (by decide)
      (List.length_replicate 65536 97)
      (fun b hb => by rw [List.eq_of_mem_replicate hb]; decide)
      (fun b hb => by rw [List.eq_of_mem_replicate hb]; decide),
   C24_escape_wraps_at_65536.2.2.1 sample_library new_buffer [] [97, 10, 98] new_buffer_holds
      (by decide) (by decide) (by decide)⟩

/-- C25 (counterexample): after __main__ has called f from line 9 and f has
called the builtin print from line 3, the traceback names print first, then f,
then __main__: the frame pushed last is printed first, not last. -/
theorem C25_most_recent_frame_first :
    traceback_to_file (stopped_in
      [{ function := native_function "__main__", line_num := 9 },
       { function := native_function "f", line_num := 3 },
       { function := foreign_function "print", line_num := 0 }]) =
    .ok ("ValueError: Bad.\n" ++
         "Traceback:\n" ++
         "    Function print [builtin]\n" ++
         "    Function f at line 3\n" ++
         "    Function __main__ at line 9\n") := by
  decide!

/-- C25 (amended): in execute mode, with function_stack_pos frames in use,
traceback_to_file prints the name of the error with its message, the line
`Traceback:`, and then exactly one line per frame in use, from the frame at
function_stack_pos - 1 down to frame 0, so the most recent frame first: the
line of a frame pushed last stands before the lines of all frames below it. A
frame whose function has no code is printed as `[builtin]` without a line
number, every other frame with its recorded line number. -/
theorem C25_traceback_order (st : lily_parse_state_ext) (hmode : st.mode = pm_execute)
    (hpos : st.vm.function_stack_pos ≤ st.vm.function_stack.length) :
    traceback_to_file st =
      .ok (traceback_head st.raiser ++ "Traceback:\n" ++
        texts (((st.vm.function_stack.take st.vm.function_stack_pos).reverse).map
          traceback_frame_line)) ∧
    (((st.vm.function_stack.take st.vm.function_stack_pos).reverse).map
        traceback_frame_line).length = st.vm.function_stack_pos ∧
    (∀ entry : lily_vm_stack_entry,
      st.vm.function_stack_pos = st.vm.function_stack.length →
      traceback_to_file { st with vm := vm_push_frame st.vm entry } =
        .ok (traceback_head st.raiser ++ "Traceback:\n" ++
          texts (traceback_frame_line entry ::
            (st.vm.function_stack.reverse).map traceback_frame_line))) ∧
    (∀ (name : String) (line : Nat),
      traceback_frame_line { function := foreign_function name, line_num := line } =
        "    Function " ++ name ++ " [builtin]\n") ∧
    (∀ (name : String) (line : Nat),
      traceback_frame_line { function := native_function name, line_num := line } =
        "    Function " ++ name ++ " at line " ++ fmt_d (line : Int) ++ "\n") := by
  have key : ∀ st : lily_parse_state_ext, st.mode = pm_execute →
      st.vm.function_stack_pos ≤ st.vm.function_stack.length →
      traceback_to_file st =
        .ok (traceback_head st.raiser ++ "Traceback:\n" ++
          texts (((st.vm.function_stack.take st.vm.function_stack_pos).reverse).map
            traceback_frame_line)) := by
    intro st hmode hpos
    unfold traceback_to_file
    simp only [hmode]
    rw [traceback_frames_lines _ _ _ hpos]
    rfl
  refine ⟨key st hmode hpos, ?_, ?_, ?_, ?_⟩
  · simp [hpos]
  · intro entry hfull
    have := key { st with vm := vm_push_frame st.vm entry } hmode
      (by simp [vm_push_frame, hfull])
    rw [this]
    have ht : List.take (st.vm.function_stack.length + 1) (st.vm.function_stack ++ [entry]) =
        st.vm.function_stack ++ [entry] := List.take_of_length_le (by simp)
    simp only [vm_push_frame, hfull, List.take_length, ht, List.reverse_append,
      List.reverse_cons, List.reverse_nil, List.nil_append, List.singleton_append, List.map_cons]
  · intro name line
    simp [traceback_frame_line, foreign_function]
  · intro name line
    simp [traceback_frame_line, native_function]

/-- Witness of C25: for the three frames of __main__, f and print the
traceback has three lines after `Traceback:`, that of print first. -/
theorem C25_traceback_order_witness :
    traceback_to_file (stopped_in
      [{ function := native_function "__main__", line_num := 9 },
       { function := native_function "f", line_num := 3 },
       { function := foreign_function "print", line_num := 0 }]) =
      .ok (traceback_head (stopped_in []).raiser ++ "Traceback:\n" ++
        texts ((([{ function := native_function "__main__", line_num := 9 },
       { function := native_function "f", line_num := 3 },
       { function := foreign_function "print", line_num := 0 }] : List lily_vm_stack_entry).reverse).map
          traceback_frame_line)) :=
  (C25_traceback_order (stopped_in
      [{ function := native_function "__main__", line_num := 9 },
       { function := native_function "f", line_num := 3 },
       { function := foreign_function "print", line_num := 0 }]) rfl (by decide)).1

/-- C26 (the code departs from the claim): next_lambda_id is a uint16_t, so the
counter is back at its start after 65536 lambdas, and the lambda evaluated then
gets the name of the first one again: on a new parser the lambdas 0 and 65536
are both named `*lambda_0`. A parser whose counter stands at 65535 names its
next lambda `*lambda_65535` and is left with the counter 0. For the rest the
claim holds: whatever the parser does between two lambdas without writing the
counter, the k-th lambda is named after the counter plus k modulo 65536, and
two lambdas fewer than 65536 apart have different names. -/
theorem C26_lambda_names_repeat
    (between : Nat → lily_parse_state → lily_parse_state)
    (hb : ∀ k p, (between k p).next_lambda_id = p.next_lambda_id)
    (parser : lily_parse_state) (h16 : parser.next_lambda_id < 65536) :
    (lambda_eval_declare (with_lambda_id 0)).1.name = "*lambda_0" ∧
    (lambda_eval_declare (with_lambda_id 65535)).1.name = "*lambda_65535" ∧
    (lambda_eval_declare (with_lambda_id 65535)).2.next_lambda_id = 0 ∧
    (∀ k, lambda_name_at between (k + 65536) parser = lambda_name_at between k parser) ∧
    (∀ k, lambda_name_at between k parser =
      lambda_name ((parser.next_lambda_id + k) % 65536)) ∧
    (∀ i j, i < j → j < i + 65536 →
      lambda_name_at between i parser ≠ lambda_name_at between j parser) := by
  refine ⟨by decide!, by decide!, by decide!, ?_, ?_, ?_⟩
  · intro k
    rw [lambda_name_at_eq between hb parser h16, lambda_name_at_eq between hb parser h16]
    have hk : (parser.next_lambda_id + (k + 65536)) % 65536 =
        (parser.next_lambda_id + k) % 65536 := by omega
    rw [hk]
  · exact lambda_name_at_eq between hb parser h16
  · intro i j hij hj h
    rw [lambda_name_at_eq between hb parser h16, lambda_name_at_eq between hb parser h16] at h
    have := lambda_name_injective _ _ (Nat.mod_lt _ (by omega)) (Nat.mod_lt _ (by omega)) h
    omega

/-- Witness of C26: on a new parser that does nothing else between its
lambdas, the lambda 65536 has the name of the lambda 0, and the lambdas 0 and 1
have different names. -/
theorem C26_lambda_names_repeat_witness :
    lambda_name_at (fun _ p => p) (0 + 65536) (with_lambda_id 0) =
      lambda_name_at (fun _ p => p) 0 (with_lambda_id 0) ∧
    lambda_name_at (fun _ p => p) 0 (with_lambda_id 0) ≠
      lambda_name_at (fun _ p => p) 1 (with_lambda_id 0) :=
  ⟨(C26_lambda_names_repeat (fun _ p => p) (fun _ _ => rfl) (with_lambda_id 0)
      (by decide!)).2.2.2.1 0,
   (C26_lambda_names_repeat (fun _ p => p) (fun _ _ => rfl) (with_lambda_id 0)
      (by decide!)).2.2.2.2.2 0 1 (by decide) (by decide)⟩

/-- C27: where lily_pkg_sys_init returns 1, for strings and a count that fit
their 32-bit fields: the var chain is the chain there was with the var sys on
top, so the var argv is not left in it and a lookup of the name argv finds what
it found before; sys has the type of the package class and holds a package of
exactly one var, the var argv of type list[string]; the list of argv has argc
values, and the value at each index below argc is not nil, has the type string
and holds a copy of the string at that index of the arguments, its size the
length of the string; and the next register spot is the one the symtab had
right after sys was made, one above the spot before the call. With 3 * argc + 4
blocks left in the heap and argc strings given, the function does return 1. -/
theorem C27_sys_package :
    (∀ (heap : Nat) (symtab : lily_symtab) (argc : Nat) (argv : List (List Nat))
        (st : sys_state),
      lily_pkg_sys_init heap symtab argc argv = .ok (1, st) →
      (∀ str ∈ argv, str.length < 2 ^ 32) → argc < 2 ^ 32 →
      st.symtab.var_chain = sys_var_made symtab :: symtab.var_chain ∧
      lily_var_by_name st.symtab "argv" = lily_var_by_name symtab "argv" ∧
      (sys_var_made symtab).name = "sys" ∧
      (sys_var_made symtab).type = lily_try_type_for_class symtab SYM_CLASS_PACKAGE ∧
      (sys_var_made symtab).flags &&& VAL_IS_NIL = 0 ∧
      st.sys_value = some { refcount := 1, vars := [argv_var_made symtab], var_count := 1,
                            name := "sys" } ∧
      (argv_var_made symtab).name = "argv" ∧
      (argv_var_made symtab).type = some list_of_string ∧
      (argv_var_made symtab).flags &&& VAL_IS_NIL = 0 ∧
      argc ≤ argv.length ∧
      (∃ lv : lily_list_val, st.argv_value = some lv ∧ lv.num_values = argc ∧
        lv.elems.length = argc ∧
        ∀ i, i < argc → ∃ str, argv.get? i = some str ∧
          lv.elems.get? i = some (string_value str)) ∧
      st.symtab.next_register_spot =
        (lily_try_new_var symtab (lily_try_type_for_class symtab SYM_CLASS_PACKAGE)
          "sys" 0).2.next_register_spot ∧
      st.symtab.next_register_spot = symtab.next_register_spot + 1) ∧
    (∀ str : List Nat, (string_value str).flags &&& VAL_IS_NIL = 0 ∧
      (string_value str).type = some (simple_type SYM_CLASS_STRING) ∧
      (string_value str).string = some { refcount := 1, size := str.length, string := str }) ∧
    (∀ (heap : Nat) (symtab : lily_symtab) (argc : Nat) (argv : List (List Nat)),
      argc ≤ argv.length → 3 * argc + 4 ≤ heap →
      ∃ st, lily_pkg_sys_init heap symtab argc argv = .ok (1, st)) := by
  refine ⟨?_, ?_, ?_⟩
  · intro heap symtab argc argv st hok hlen hargc
    obtain ⟨hn, hst⟩ := sys_init_ok heap symtab argc argv st hok
    subst hst
    refine ⟨rfl, ?_, rfl, rfl, by simp [sys_var_made], rfl, rfl, rfl,
      by simp [argv_var_made], hn, ?_, ?_, rfl⟩
    · simp [lily_var_by_name, sys_var_made]
    · refine ⟨_, rfl, Nat.mod_eq_of_lt hargc, ?_, ?_⟩
      · simp only [List.length_map, List.length_take]
        omega
      · intro i hi
        have hil : i < argv.length := by omega
        refine ⟨argv.get ⟨i, hil⟩, List.get?_eq_get hil, ?_⟩
        have hs : (argv.get ⟨i, hil⟩).length < 2 ^ 32 := hlen _ (List.get_mem argv i hil)
        simp only [List.get?_eq_getElem?, List.getElem?_map, List.getElem?_take, hi, if_true,
          List.getElem?_eq_getElem hil, Option.map_some', string_value]
        simp only [List.get_eq_getElem] at hs
        rw [Nat.mod_eq_of_lt hs]
        rfl
    · simp [lily_try_new_var, VAR_IS_READONLY]
  · intro str
    exact ⟨by simp [string_value], rfl, rfl⟩
  · intro heap symtab argc argv hn hh
    exact sys_init_enough heap symtab argc argv hn hh

/-- Witness of C27: for the command line `lily a.lly` and a new symtab,
lily_pkg_sys_init returns 1 with ten blocks in the heap, and what it leaves has
sys on top of the empty var chain and the next register spot 1. -/
theorem C27_sys_package_witness :
    ∃ st, lily_pkg_sys_init 10 lily_new_symtab 2 (command_line ["lily", "a.lly"]) = .ok (1, st) ∧
      st.symtab.var_chain = [sys_var_made lily_new_symtab] ∧
      st.symtab.next_register_spot = 1 := by
  obtain ⟨st, hst⟩ := C27_sys_package.2.2 10 lily_new_symtab 2 (command_line ["lily", "a.lly"])
    (by decide) (by decide)
  have h := C27_sys_package.1 10 lily_new_symtab 2 (command_line ["lily", "a.lly"]) st hst
    (by decide) (by decide)
  exact ⟨st, hst, h.1, h.2.2.2.2.2.2.2.2.2.2.2.2⟩

/-- C28 (the code departs from the claim): started without an argument,
process_args returns with to_process still NULL, is_file 0 and do_tags 0: the
loop over the arguments is not entered and nothing sends the run through usage.
The same holds for arguments that are all `-t`, with do_tags 1. main then
passes the NULL on as the text of the program. For the rest the claim holds:
process_args returns only when the arguments after the name of the program are
n times `-t` followed by nothing, by `-s` and one more argument p, or by one
argument p other than `-h`, `-t` and `-s`; in the last two cases to_process is
p, the final argument, is_file is 0 after `-s` and 1 without it, and do_tags is
1 exactly when n is not 0; and on each of these argument vectors it does
return. -/
theorem C28_process_args_without_program :
    process_args ["lily"] = .returned { is_file := 0, do_tags := 0, to_process := none } ∧
    process_args ["lily", "-t"] = .returned { is_file := 0, do_tags := 1, to_process := none } ∧
    process_args ["lily", "-t", "-s", "print(1)"] =
      .returned { is_file := 0, do_tags := 1, to_process := some "print(1)" } ∧
    process_args ["lily", "a.lly"] =
      .returned { is_file := 1, do_tags := 0, to_process := some "a.lly" } ∧
    process_args ["lily", "a.lly", "-t"] = .usage ∧
    process_args ["lily", "-s"] = .usage ∧
    process_args ["lily", "-h"] = .usage ∧
    (∀ (argv : List String) (g : cli_globals), process_args argv = .returned g →
      ∃ n, (options_of argv = List.replicate n "-t" ∧
              g = { is_file := 0, do_tags := tags_after n, to_process := none }) ∨
        ∃ p, (options_of argv = List.replicate n "-t" ++ ["-s", p] ∧
              g = { is_file := 0, do_tags := tags_after n, to_process := some p }) ∨
          (options_of argv = List.replicate n "-t" ++ [p] ∧ p ≠ "-h" ∧ p ≠ "-t" ∧ p ≠ "-s" ∧
              g = { is_file := 1, do_tags := tags_after n, to_process := some p })) ∧
    (∀ (prog : String) (n : Nat),
      process_args (prog :: List.replicate n "-t") =
        .returned { is_file := 0, do_tags := tags_after n, to_process := none }) ∧
    (∀ (prog : String) (n : Nat) (p : String),
      process_args (prog :: (List.replicate n "-t" ++ ["-s", p])) =
        .returned { is_file := 0, do_tags := tags_after n, to_process := some p }) ∧
    (∀ (prog : String) (n : Nat) (p : String), p ≠ "-h" → p ≠ "-t" → p ≠ "-s" →
      process_args (prog :: (List.replicate n "-t" ++ [p])) =
        .returned { is_file := 1, do_tags := tags_after n, to_process := some p }) := by
  refine ⟨by decide, by decide, by decide, by decide, by decide, by decide, by decide,
    ?_, ?_, ?_, ?_⟩
  · intro argv g h
    rw [process_args_scan] at h
    obtain ⟨n, hn⟩ := scan_options_returned _ _ _ h
    exact ⟨n, hn⟩
  · intro prog n
    rw [process_args_scan]
    have := scan_options_tags n [] {}
    simp only [List.append_nil] at this
    simp only [options_of, List.drop_one, List.tail_cons, this]
    rfl
  · intro prog n p
    rw [process_args_scan]
    simp only [options_of, List.drop_one, List.tail_cons, scan_options_tags]
    rfl
  · intro prog n p h1 h2 h3
    rw [process_args_scan]
    simp only [options_of, List.drop_one, List.tail_cons, scan_options_tags]
    simp [scan_options, h1, h2, h3, tags_after]

/-- Witness of C28: `lily -t -t a.lly` returns with the file a.lly and do_tags
set, and a return with the globals of `lily` alone leaves no program. -/
theorem C28_process_args_without_program_witness :
    process_args ("lily" :: (List.replicate 2 "-t" ++ ["a.lly"])) =
        .returned { is_file := 1, do_tags := tags_after 2, to_process := some "a.lly" } ∧
    ∃ n, (options_of ["lily"] = List.replicate n "-t" ∧
            ({} : cli_globals) = { is_file := 0, do_tags := tags_after n, to_process := none }) ∨
        ∃ p, (options_of ["lily"] = List.replicate n "-t" ++ ["-s", p] ∧
              ({} : cli_globals) = { is_file := 0, do_tags := tags_after n, to_process := some p }) ∨
          (options_of ["lily"] = List.replicate n "-t" ++ [p] ∧ p ≠ "-h" ∧ p ≠ "-t" ∧ p ≠ "-s" ∧
              ({} : cli_globals) = { is_file := 1, do_tags := tags_after n, to_process := some p }) :=
  ⟨C28_process_args_without_program.2.2.2.2.2.2.2.2.2.2 "lily" 2 "a.lly" (by decide) (by decide)
      (by decide),
   C28_process_args_without_program.2.2.2.2.2.2.2.1 ["lily"] {} (by decide)⟩

/-- C29 (the code departs from the claim): parse_for_range_value looks at
the root of the expression only. With the integer a in scope it accepts
`(a = 10)` as the start of a range (the lexer is left on the `...` and the var
of the value is made), and after the declarations of the integers a and b and
of a function f the loops
`for i in (a = 10)..11: a = 1`, `for i in f(a = 10)..11: a = 1`,
`for i in 1..(a = 2)`, `for i in 1..5 by (a = 2)` and
`for i in [a = 10][0]..11` are accepted to the end of the input, as
`for i in 1+2..4*4` is. For every parser: parse_for_range_value fails when the
expression fails; when the expression is read, it raises SyntaxError exactly
when the root of the expression is an assignment, and otherwise makes the
integer var of the value and returns. An assignment operator becomes the root
when it is pushed while no parenthesis, bracket or call is open, and does not
when one is open. So the claim holds for an assignment at the root:
`for i in a = 10..11`, `for i in a += 10..5`, `for i in 1..a = 2` and
`for i in 1..5 by a = 2` raise SyntaxError. -/
theorem C29_for_range_root_assignment (fuel : Nat) (parser : lily_parse_state)
    (name : String) :
    (∀ e, expression fuel parser = .error e →
      parse_for_range_value fuel parser name = .error e) ∧
    (∀ p, expression fuel parser = .ok p → p.ast_pool.root_assign = true →
      parse_for_range_value fuel parser name = .error (.raised .lily_SyntaxError)) ∧
    (∀ p cls, expression fuel parser = .ok p → p.ast_pool.root_assign = false →
      class_deref p.symtab SYM_CLASS_INTEGER = .ok cls →
      parse_for_range_value fuel parser name =
        .ok (lily_emit_eval_expr
          { p with symtab := (lily_try_new_var p.symtab cls.type name 0).2 })) ∧
    (∀ (ap : lily_ast_pool) (op : lily_expr_op), is_assign_op op = true → ap.saved = [] →
      (lily_ast_push_binary_op ap op).root_assign = true) ∧
    (∀ (ap : lily_ast_pool) (op : lily_expr_op), ap.saved ≠ [] →
      (lily_ast_push_binary_op ap op).root_assign = ap.root_assign) ∧
    (∀ (ap : lily_ast_pool) (op : lily_expr_op), is_assign_op op = false →
      (lily_ast_push_binary_op ap op).root_assign = ap.root_assign) ∧
    (∀ range ∈ [[word "a", tok tk_equal, tok tk_integer, tok tk_three_dots, tok tk_integer],
                [word "a", tok tk_plus_eq, tok tk_integer, tok tk_three_dots, tok tk_integer],
                [tok tk_integer, tok tk_three_dots, word "a", tok tk_equal, tok tk_integer],
                [tok tk_integer, tok tk_three_dots, tok tk_integer, word "by", word "a",
                 tok tk_equal, tok tk_integer]],
      outcome (statement 50 (parser_on stock_classes 0 (for_loop_over range)) 1) =
        .error (.raised .lily_SyntaxError)) ∧
    (∀ range ∈ [[tok tk_integer, tok tk_plus, tok tk_integer, tok tk_three_dots,
                 tok tk_integer, tok tk_multiply, tok tk_integer],
                assign_in_parenth ++ [tok tk_three_dots, tok tk_integer],
                assign_in_call ++ [tok tk_three_dots, tok tk_integer],
                [tok tk_integer, tok tk_three_dots] ++ assign_in_parenth,
                [tok tk_integer, tok tk_three_dots, tok tk_integer, word "by"] ++
                  assign_in_parenth,
                [tok tk_left_bracket, word "a", tok tk_equal, tok tk_integer,
                 tok tk_right_bracket, tok tk_left_bracket, tok tk_integer,
                 tok tk_right_bracket, tok tk_three_dots, tok tk_integer]],
      outcome (statement 50 (parser_on stock_classes 0 (for_loop_over range)) 1) =
        .ok (tk_final_eof, 0)) ∧
    outcome (parse_for_range_value 50
      (range_value_on (assign_in_parenth ++ [tok tk_three_dots, tok tk_integer]))
      "(for start)") = .ok (tk_three_dots, 1) ∧
    var_names (parse_for_range_value 50
      (range_value_on (assign_in_parenth ++ [tok tk_three_dots, tok tk_integer]))
      "(for start)") = .ok ["(for start)", "a"] := by
  obtain ⟨h1, h2, h3⟩ := parse_for_range_value_cases fuel parser name
  refine ⟨h1, h2, h3, ?_, ?_, ?_, by decide!, by decide!, by decide!, by decide!⟩
  · intro ap op hop hs
    simp [lily_ast_push_binary_op, hop, hs]
  · intro ap op hs
    cases hsv : ap.saved with
    | nil => exact absurd hsv hs
    | cons t rest => simp [lily_ast_push_binary_op, lily_ast_push, hsv]
  · intro ap op hop
    simp [lily_ast_push_binary_op, lily_ast_push, hop]

/-- Witness of C29: on `a = 10 ... 11` with a in scope the expression is read
with an assignment as its root and parse_for_range_value raises SyntaxError; on
`(a = 10) ... 11` the root is no assignment and it returns. -/
theorem C29_for_range_root_assignment_witness :
    parse_for_range_value 50
      (range_value_on [word "a", tok tk_equal, tok tk_integer, tok tk_three_dots,
        tok tk_integer]) "(for start)" = .error (.raised .lily_SyntaxError) ∧
    (lily_ast_push_binary_op { saved := [], active := true, pushed := [] }
      expr_assign).root_assign = true := by
  have hok : outcome (expression 50
      (range_value_on [word "a", tok tk_equal, tok tk_integer, tok tk_three_dots,
        tok tk_integer])) = .ok (tk_three_dots, 1) := by decide!
  have hroot : (match expression 50
      (range_value_on [word "a", tok tk_equal, tok tk_integer, tok tk_three_dots,
        tok tk_integer]) with
      | .ok p => p.ast_pool.root_assign
      | .error _ => false) = true := by decide!
  cases h : expression 50
      (range_value_on [word "a", tok tk_equal, tok tk_integer, tok tk_three_dots,
        tok tk_integer]) with
  | error e => rw [h] at hok; simp [outcome] at hok
  | ok p =>
    rw [h] at hroot
    exact ⟨(C29_for_range_root_assignment 50 _ "(for start)").2.1 p h hroot,
      (C29_for_range_root_assignment 50 (range_value_on []) "").2.2.2.1 _ _ rfl rfl⟩

/-- C30 (the code departs from the claim): for a variant with two or more
values no case is accepted. After the first name the loop of case_handler
checks for the comma but does not move past it, and get_named_var, which reads
the label of the lexer and not the token, finds the name just declared:
`case Rect(w, h):` in a match on
`enum class Shape { Rect(integer, integer), Dot(integer), Blank }` raises
SyntaxError, and whatever the tokens are, the values of a variant with two or
more values are never read to the end. For a variant with one value the claim
holds: `(x):` with x not yet declared declares exactly one var x, of the
decomposed type of the value, on top of the vars there were; a token other
than a name after the `(` raises SyntaxError, and so does a comma after the
name. `case Dot(d):` declares d as an integer, `case Dot():` and
`case Dot(d, e):` raise SyntaxError. -/
theorem C30_case_decomposes_one_value_only :
    outcome (statement 60 (parser_on stock_classes 0
      (shape_program ([word "case"] ++ case_with "Rect" ["w", "h"] ++
        [word "case"] ++ case_with "Dot" ["d"] ++
        [word "case", word "Blank", tok tk_colon]))) 1) =
      .error (.raised .lily_SyntaxError) ∧
    outcome (case_handler 10 (in_shape_match (case_with "Rect" ["w", "h"])) 1) =
      .error (.raised .lily_SyntaxError) ∧
    vars_declared (case_handler 10 (in_shape_match (case_with "Dot" ["d"])) 1) =
      .ok [("d", some (simple_type SYM_CLASS_INTEGER))] ∧
    outcome (case_handler 10 (in_shape_match (case_with "Dot" ["d"])) 1) =
      .ok (tk_final_eof, 0) ∧
    outcome (case_handler 10 (in_shape_match (case_with "Dot" [])) 1) =
      .error (.raised .lily_SyntaxError) ∧
    outcome (case_handler 10 (in_shape_match (case_with "Dot" ["d", "e"])) 1) =
      .error (.raised .lily_SyntaxError) ∧
    (∀ (fuel : Nat) (parser : lily_parse_state) (mt : Option lily_type) (cc : Nat)
        (ccls : lily_class) (vt : lily_type) (p' : lily_parse_state),
      class_deref parser.symtab cc = .ok ccls → ccls.variant_type = some vt →
      3 ≤ vt.subtype_count →
      case_values fuel parser mt (some cc) ≠ .ok p') ∧
    (∀ (fuel : Nat) (parser : lily_parse_state) (mt : Option lily_type) (cc : Nat)
        (ccls : lily_class) (vt field : lily_type) (x : String) (rest : List lex_item)
        (ty : Option lily_type) (p1 : lily_parse_state),
      class_deref parser.symtab cc = .ok ccls → ccls.variant_type = some vt →
      vt.subtype_count = 2 → vt.subtypes.get? 1 = some (some field) →
      parser.lex.input =
        tok tk_left_parenth :: word x :: tok tk_right_parenth :: tok tk_colon :: rest →
      lily_var_by_name parser.symtab x = none →
      calculate_decompose_type (next_token (next_token parser)) mt field
        parser.type_stack_pos = .ok (ty, p1) →
      ∃ p', case_values (fuel + 2) parser mt (some cc) = .ok p' ∧
        p'.symtab.var_chain =
          { name := x, type := ty, flags := 0, reg_spot := parser.symtab.next_register_spot,
            function_depth := parser.symtab.function_depth, parent := none } ::
            parser.symtab.var_chain ∧
        p'.lex.input = rest.drop 1) ∧
    (∀ (fuel : Nat) (parser : lily_parse_state) (mt : Option lily_type) (cc : Nat)
        (ccls : lily_class) (vt : lily_type) (it : lex_item) (rest : List lex_item),
      class_deref parser.symtab cc = .ok ccls → ccls.variant_type = some vt →
      vt.subtype_count ≠ 0 →
      parser.lex.input = tok tk_left_parenth :: it :: rest → it.token ≠ tk_word →
      case_values fuel parser mt (some cc) = .error (.raised .lily_SyntaxError)) ∧
    (∀ (fuel : Nat) (parser : lily_parse_state) (mt : Option lily_type) (cc : Nat)
        (ccls : lily_class) (vt field : lily_type) (x : String) (rest : List lex_item)
        (ty : Option lily_type) (p1 : lily_parse_state),
      class_deref parser.symtab cc = .ok ccls → ccls.variant_type = some vt →
      vt.subtype_count = 2 → vt.subtypes.get? 1 = some (some field) →
      parser.lex.input = tok tk_left_parenth :: word x :: tok tk_comma :: rest →
      lily_var_by_name parser.symtab x = none →
      calculate_decompose_type (next_token (next_token parser)) mt field
        parser.type_stack_pos = .ok (ty, p1) →
      case_values (fuel + 2) parser mt (some cc) = .error (.raised .lily_SyntaxError)) := by
  refine ⟨by decide!, by decide!, by decide!, by decide!, by decide!, by decide!,
    ?_, ?_, ?_, ?_⟩
  · intro fuel parser mt cc ccls vt p' h1 h2 h3
    exact case_values_stuck fuel parser mt cc ccls vt h1 h2 h3 p'
  · intro fuel parser mt cc ccls vt field x rest ty p1 h1 h2 h3 h4 h5 h6 h7
    exact case_values_one_field fuel parser mt cc ccls vt field x rest ty p1 h1 h2 h3 h4 h5 h6 h7
  · intro fuel parser mt cc ccls vt it rest h1 h2 h3 h4 h5
    exact case_values_no_name fuel parser mt cc ccls vt it rest h1 h2 h3 h4 h5
  · intro fuel parser mt cc ccls vt field x rest ty p1 h1 h2 h3 h4 h5 h6 h7
    exact case_values_second_name fuel parser mt cc ccls vt field x rest ty p1 h1 h2 h3 h4 h5
      h6 h7

/-- Witness of C30: in a match on a Shape, the values `(w, h):` of Rect are not
read to a parser that has the lexer at the end of the input, and the values
`(d):` of Dot are read, leaving the var d of type integer. -/
theorem C30_case_decomposes_one_value_only_witness :
    case_values 10 (in_shape_match (case_with "Rect" ["w", "h"])) (some (simple_type 10))
        (some 11) ≠ .ok (in_shape_match []) ∧
    ∃ p', case_values (8 + 2) (in_shape_match (case_with "Dot" ["d"]))
        (some (simple_type 10)) (some 12) = .ok p' ∧
      p'.symtab.var_chain =
        [{ name := "d", type := some (simple_type SYM_CLASS_INTEGER), flags := 0,
           reg_spot := 0, function_depth := 1, parent := none }] ∧
      p'.lex.input = [] :=
  ⟨C30_case_decomposes_one_value_only.2.2.2.2.2.2.1 10
      (in_shape_match (case_with "Rect" ["w", "h"])) (some (simple_type 10)) 11
      { plain_class "Rect" 11 CLS_VARIANT_CLASS 0 (some (simple_type 11)) with
        parent := some 10,
        variant_type := some (lily_type.mk SYM_CLASS_FUNCTION
          [some (simple_type 11), some (simple_type SYM_CLASS_INTEGER),
           some (simple_type SYM_CLASS_INTEGER)] 0 0) }
      (lily_type.mk SYM_CLASS_FUNCTION
          [some (simple_type 11), some (simple_type SYM_CLASS_INTEGER),
           some (simple_type SYM_CLASS_INTEGER)] 0 0)
      (in_shape_match []) rfl rfl (by decide),
   C30_case_decomposes_one_value_only.2.2.2.2.2.2.2.1 8
      (in_shape_match (case_with "Dot" ["d"])) (some (simple_type 10)) 12
      { plain_class "Dot" 12 CLS_VARIANT_CLASS 0 (some (simple_type 12)) with
        parent := some 10,
        variant_type := some (lily_type.mk SYM_CLASS_FUNCTION
          [some (simple_type 12), some (simple_type SYM_CLASS_INTEGER)] 0 0) }
      (lily_type.mk SYM_CLASS_FUNCTION
          [some (simple_type 12), some (simple_type SYM_CLASS_INTEGER)] 0 0)
      (simple_type SYM_CLASS_INTEGER) "d" [] (some (simple_type SYM_CLASS_INTEGER))
      (next_token (next_token (in_shape_match (case_with "Dot" ["d"]))))
      rfl rfl (by decide) rfl rfl rfl rfl⟩

/-- C31 (the code departs from the claim): calculate_variant_return writes the
generics of a variant into the cells from stack_top + 1 on, but grows the type
stack only when stack_top + generic_max is above its size, and then only once.
On the initial stack of 4 cells the declarations
`enum class Pair[A] { One(A, A), Two }` and
`enum class Pair[A] { One(integer, A), Two }` write the generic A into cell 4:
the cells 0 to 2 hold the return and the two fields, stack_top is 3,
generic_max is 1, 3 + 1 is not above 4, so the stack is not grown and the
write goes one cell past its end. For every run of the loop that writes the
generics: when the cells it is to write, from j on, one for every marked
position, lie within the size of the stack, it writes them and returns; when
there is a cell to write and they reach past the size, a write outside the
block is made. calculate_variant_return runs this loop from stack_top + 1 on
the size left by its one test, so it writes outside the block whenever a
generic is used and that size is below stack_top + 1 + the number of generics
used. `One(A)`, `One(A, A, A)` (the stack is grown to 8 while the fields are
read) and, for Pair[A, B], `One(A, B)` (generic_max is 2 and the stack is
grown) are declared within the block. -/
theorem C31_variant_generics_past_the_stack :
    (parser_on stock_classes 0 []).type_stack_size = 4 ∧
    outcome (statement 40 (parser_on stock_classes 0
      (enum_generic [word "A"] [word "A", tok tk_comma, word "A"])) 1) =
      .error .undefined_behavior ∧
    outcome (statement 40 (parser_on stock_classes 0
      (enum_generic [word "A"] [word "integer", tok tk_comma, word "A"])) 1) =
      .error .undefined_behavior ∧
    (∀ (gm : Nat → Bool) (todo i j k : Nat) (p : lily_parse_state),
      marked_count gm i todo = 0 ∨ j + marked_count gm i todo ≤ p.type_stack_size →
      ∃ p', variant_fill gm todo i j k p = .ok (k + marked_count gm i todo, p') ∧
        p'.type_stack_size = p.type_stack_size) ∧
    (∀ (gm : Nat → Bool) (todo i j k : Nat) (p : lily_parse_state),
      1 ≤ marked_count gm i todo → p.type_stack_size < j + marked_count gm i todo →
      variant_fill gm todo i j k p = .error .undefined_behavior) ∧
    (∀ (p : lily_parse_state) (vc start top : Nat) (gm : Nat → Bool) (gmax : Nat),
      variant_scan p start (top - start) (fun _ => false, 0) = .ok (gm, gmax) →
      1 ≤ marked_count gm 0 gmax →
      size_for_generics p top gmax < top + 1 + marked_count gm 0 gmax →
      calculate_variant_return p vc start top = .error .undefined_behavior) ∧
    outcome (statement 40 (parser_on stock_classes 0
      (enum_generic [word "A"] [word "A"])) 1) = .ok (tk_final_eof, 0) ∧
    stack_size_left (statement 40 (parser_on stock_classes 0
      (enum_generic [word "A"] [word "A", tok tk_comma, word "A", tok tk_comma, word "A"])) 1) =
      .ok 8 ∧
    stack_size_left (statement 40 (parser_on stock_classes 0
      (enum_generic [word "A", tok tk_comma, word "B"] [word "A", tok tk_comma, word "B"])) 1) =
      .ok 8 := by
  refine ⟨rfl, by decide!, by decide!, ?_, ?_, ?_, by decide!, by decide!, by decide!⟩
  · intro gm todo i j k p h
    exact variant_fill_in_bounds gm todo i j k p h
  · intro gm todo i j k p h1 h2
    exact variant_fill_out_of_bounds gm todo i j k p h1 h2
  · intro p vc start top gm gmax hscan h1 h2
    exact variant_return_out_of_bounds p vc start top gm gmax hscan h1 h2

/-- Witness of C31: with the generic A marked and the stack of 4 cells, the
loop that is to write from cell 4 on writes outside the block, and the loop
that is to write from cell 3 on writes its one cell. -/
theorem C31_variant_generics_past_the_stack_witness :
    variant_fill (fun g => decide (g = 0)) 1 0 4 0 (parser_on stock_classes 0 []) =
      .error .undefined_behavior ∧
    ∃ p', variant_fill (fun g => decide (g = 0)) 1 0 3 0 (parser_on stock_classes 0 []) =
      .ok (0 + marked_count (fun g => decide (g = 0)) 0 1, p') ∧
      p'.type_stack_size = (parser_on stock_classes 0 []).type_stack_size :=
  ⟨C31_variant_generics_past_the_stack.2.2.2.2.1 (fun g => decide (g = 0)) 1 0 4 0
      (parser_on stock_classes 0 []) (by decide) (by decide),
   C31_variant_generics_past_the_stack.2.2.2.1 (fun g => decide (g = 0)) 1 0 3 0
      (parser_on stock_classes 0 []) (by decide)⟩

/-- C32 (the code departs from the claim): the recursive call of
calculate_decompose_type is given the field type itself as its match type, so
a generic inside a field type is an index into the subtypes of the type around
it and not into those of the match subject. For the subject
Both[integer, string] of `enum class Both[A, B]` the field type B is read at
index 1 of the subject and gives string, and for the field type list[A] the A
is read at index 0 of list[A]; but for the field type list[B] the B is read at
index 1 of list[B], which has one subtype: the read is outside the subtypes.
Whatever the match type is, a field type of a class with generics whose first
subtype is a generic at a position that is not below the number of its subtypes
is read outside its subtypes; a field type that is a generic is read at its
position in the match type. A program reaches this: after
`enum class Five[A, B, C, D, E] { One(function(A, B, E)), Two }` and
`Five[integer, integer, integer, integer, integer] x = Two`, in
`match x: { case Two: x = x  case One(g): x = x }` the case of One reads index
4 of the four subtypes of the function type; without the case of One the match
raises SyntaxError for the missing case and reads nothing. -/
theorem C32_decompose_index_past_the_subtypes :
    outcome (statement 60 (parser_on stock_classes 0 (five_program (case_two ++ case_one))) 1) =
      .error .undefined_behavior ∧
    outcome (statement 60 (parser_on stock_classes 0 (five_program case_two)) 1) =
      .error (.raised .lily_SyntaxError) ∧
    result_type (calculate_decompose_type (variant_fields []) (some both_of_integer_string)
        (lily_type.mk SYM_CLASS_LIST [some (generic_type 1)] 0 0) 0) =
      .error .undefined_behavior ∧
    result_type (calculate_decompose_type (variant_fields []) (some both_of_integer_string)
        (generic_type 1) 0) = .ok (some (simple_type SYM_CLASS_STRING)) ∧
    result_type (calculate_decompose_type (variant_fields []) (some both_of_integer_string)
        (lily_type.mk SYM_CLASS_LIST [some (generic_type 0)] 0 0) 0) =
      .ok (some (lily_type.mk SYM_CLASS_LIST [some (generic_type 0)] 0 0)) ∧
    (∀ (parser : lily_parse_state) (m : lily_type) (subs : List (Option lily_type))
        (pos flags off : Nat),
      calculate_decompose_type parser (some m)
          (lily_type.mk SYM_CLASS_TEMPLATE subs pos flags) off =
        match m.subtypes.get? pos with
        | none => .error .undefined_behavior
        | some t => .ok (t, parser)) ∧
    (∀ (parser : lily_parse_state) (match_type : Option lily_type) (cls : Nat)
        (rest : List (Option lily_type)) (g tp flags off : Nat) (c : lily_class),
      cls ≠ SYM_CLASS_TEMPLATE → class_deref parser.symtab cls = .ok c →
      c.template_count ≠ 0 → rest.length + 1 ≤ g →
      calculate_decompose_type parser match_type
          (lily_type.mk cls (some (generic_type g) :: rest) tp flags) off =
        .error .undefined_behavior) := by
  refine ⟨by decide!, by decide!, by decide!, by decide!, by decide!, ?_, ?_⟩
  · intro parser m subs pos flags off
    exact decompose_generic parser m subs pos flags off
  · intro parser match_type cls rest g tp flags off c h1 h2 h3 h4
    exact decompose_first_generic parser match_type cls rest g tp flags off c h1 h2 h3 h4

/-- Witness of C32: for the list class of the builtin classes, the field type
list[B] is read outside its subtypes whatever the match type is. -/
theorem C32_decompose_index_past_the_subtypes_witness :
    ∃ c, class_deref (variant_fields []).symtab SYM_CLASS_LIST = .ok c ∧
      c.template_count ≠ 0 ∧
      calculate_decompose_type (variant_fields []) (some both_of_integer_string)
          (lily_type.mk SYM_CLASS_LIST [some (generic_type 1)] 0 0) 0 =
        .error .undefined_behavior := by
  have hc : ∃ c, class_deref (variant_fields []).symtab SYM_CLASS_LIST = .ok c ∧
      c.template_count ≠ 0 := ⟨_, rfl, by decide⟩
  obtain ⟨c, h1, h2⟩ := hc
  exact ⟨c, h1, h2,
    C32_decompose_index_past_the_subtypes.2.2.2.2.2.2 (variant_fields [])
      (some both_of_integer_string) SYM_CLASS_LIST [] 1 0 0 0 c (by decide) h1 h2 (by decide)⟩

/-- C33: for every name keyword_by_name returns the index of the name in the
keyword table, and -1 when the table does not have it. The table has the names
if, do, var, for, try, case, else, elif, enum, while, raise, match, break,
class, define, return, except, __file__, __line__, continue and __function__
in this order, so these get the indices 0 to 20, and every other name gets -1.
The shorthashes of the table ascend strictly, and for every table whose
entries carry the shorthashes of their names in strictly ascending order the
loop, with its early exit, finds a name exactly when the table has it. A table
that is not in ascending order loses a keyword through the early exit: in the
table of `do` and `if`, in this order, the name `if` is not found. -/
theorem C33_keyword_by_name_is_index :
    (∀ name : String, keyword_by_name name = index_or_minus_one keywords name 0) ∧
    keywords.map (fun e => e.1) =
      ["if", "do", "var", "for", "try", "case", "else", "elif", "enum", "while", "raise",
       "match", "break", "class", "define", "return", "except", "__file__", "__line__",
       "continue", "__function__"] ∧
    keywords.map (fun e => keyword_by_name e.1) =
      [0, 1, 2, 3, 4, 5, 6, 7, 8, 9, 10, 11, 12, 13, 14, 15, 16, 17, 18, 19, 20] ∧
    (∀ name : String, (∀ e ∈ keywords, e.1 ≠ name) → keyword_by_name name = -1) ∧
    ascending_table keywords ∧
    (∀ (table : List (String × Nat)) (name : String) (i : Nat), ascending_table table →
      keyword_loop name (shorthash_for_name name) table i = index_or_minus_one table name i) ∧
    keyword_loop "if" (shorthash_for_name "if")
      [("do", shorthash_for_name "do"), ("if", shorthash_for_name "if")] 0 = -1 := by
  have hall : ∀ name : String, keyword_by_name name = index_or_minus_one keywords name 0 :=
    fun name => keyword_loop_ascending name keywords 0 keywords_ascending
  refine ⟨hall, by decide!, by decide!, ?_, keywords_ascending, ?_, by decide!⟩
  · intro name h
    rw [hall name]
    unfold index_or_minus_one
    rw [table_index_absent keywords name h, if_neg (by omega)]
  · intro table name i h
    exact keyword_loop_ascending name table i h

/-- Witness of C33: `print` is none of the names of the table, and
keyword_by_name gives -1 for it. -/
theorem C33_keyword_by_name_is_index_witness :
    (∀ e ∈ keywords, e.1 ≠ "print") ∧ keyword_by_name "print" = -1 :=
  ⟨by decide!, C33_keyword_by_name_is_index.2.2.2.1 "print" (by decide!)⟩

/-- C34: with the lexer on the `[`, collect_generics accepts exactly the lists
in which the k-th name is the k-th capital letter alone, each name followed by
`,` and the last by `]`. Such a list of n names, n from 1 to 26, is accepted
with the count n, the lexer moved past the `]`. Where collect_generics returns
a count m, on tokens whose words are names as the lexer delivers them, m is
from 1 to 26 and the tokens are such a list of m names. On such tokens, with
fuel for 27 passes, every other list raises SyntaxError: `[]`, `[B]`,
`[A, C]`, `[AB]`, `[A B]` and `[A,]` do; `[A]`, `[A, B]` and the list of all
26 letters give 1, 2 and 26. -/
theorem C34_collect_generics_lists :
    (∀ (n ch fuel : Nat) (parser : lily_parse_state),
      reads_generics ch n parser.lex.input = true → n ≤ fuel → ch + n ≤ 26 →
      collect_generics fuel parser ch =
        .ok (ch + n, Nat.iterate next_token (2 * n + 1) parser)) ∧
    (∀ (fuel : Nat) (parser : lily_parse_state) (m : Nat) (p' : lily_parse_state),
      collect_generics fuel parser 0 = .ok (m, p') → words_are_names parser.lex.input →
      1 ≤ m ∧ m ≤ 26 ∧ reads_generics 0 m parser.lex.input = true ∧
        p' = Nat.iterate next_token (2 * m + 1) parser) ∧
    (∀ (fuel : Nat) (parser : lily_parse_state), 27 ≤ fuel →
      words_are_names parser.lex.input →
      (∀ n, reads_generics 0 n parser.lex.input = false) →
      collect_generics fuel parser 0 = .error (.raised .lily_SyntaxError)) ∧
    (∀ n ∈ [1, 2, 26], reads_generics 0 n (generics_from 0 n) = true ∧
      generics_counted (collect_generics 30 (at_generics (generics_from 0 n)) 0) = .ok n) ∧
    (∀ list ∈ [[tok tk_right_bracket],
               [word "B", tok tk_right_bracket],
               [word "A", tok tk_comma, word "C", tok tk_right_bracket],
               [word "AB", tok tk_right_bracket],
               [word "A", word "B", tok tk_right_bracket],
               [word "A", tok tk_comma, tok tk_right_bracket]],
      generics_counted (collect_generics 30 (at_generics list) 0) =
        .error (.raised .lily_SyntaxError)) := by
  refine ⟨collect_generics_accepts, ?_, ?_, by decide!, by decide!⟩
  · intro fuel parser m p' h hn
    obtain ⟨n, h1, h2, h3, h4, h5⟩ := collect_generics_reads fuel 0 parser m p' h (by omega) hn
    have : m = n := by omega
    subst this
    exact ⟨h1, h3, h4, h5⟩
  · intro fuel parser hf hn hno
    rcases collect_generics_total fuel 0 parser (by omega) (by omega) hn with ⟨⟨m, p'⟩, h⟩ | h
    · obtain ⟨n, h1, h2, h3, h4, h5⟩ :=
        collect_generics_reads fuel 0 parser m p' h (by omega) hn
      rw [hno n] at h4
      exact absurd h4 (by decide)
    · exact h

/-- Witness of C34: the tokens `A, B]` are a list of two generics and
collect_generics returns 2 on them; the tokens `A]`, all of them names where
they are words, are found to be a list of one generic from the count 1 that
collect_generics returns. -/
theorem C34_collect_generics_lists_witness :
    collect_generics 5 (at_generics (generics_from 0 2)) 0 =
      .ok (0 + 2, Nat.iterate next_token (2 * 2 + 1) (at_generics (generics_from 0 2))) ∧
    reads_generics 0 1 (at_generics (generics_from 0 1)).lex.input = true :=
  ⟨C34_collect_generics_lists.1 2 0 5 (at_generics (generics_from 0 2)) (by decide)
      (by decide) (by decide),
   (C34_collect_generics_lists.2.1 5 (at_generics (generics_from 0 1)) 1 _
      (C34_collect_generics_lists.1 1 0 5 (at_generics (generics_from 0 1)) (by decide)
        (by decide) (by decide))
      (by
        intro it hit hw
        have : it = word (generic_letter 0) ∨ it = tok tk_right_bracket := by
          simpa [at_generics, parser_on, next_token, lily_lexer, generics_from] using hit
        rcases this with rfl | rfl
        · decide
        · exact absurd hw (by decide))).2.2.1⟩

/-- C35: where inner_type_collector returns, for whatever class and flags
(the field list of a variant included) and however its types are nested, the
position of the type stack is the one at entry and every cell below that
position holds what it held; the size is taken to be within its 16 bits at
entry. With three cells in use, `integer, list[string]]` read for a hash,
`integer, function(list[integer] => string) => string)` read for a function
and the field list `B, integer, B)` of a variant all return with the position
3 and the three cells as they were. -/
theorem C35_type_stack_frame :
    (∀ (fuel : Nat) (parser parser' : lily_parse_state) (cls : Nat) (flags : cv_flags)
        (t : lily_type),
      inner_type_collector fuel parser cls flags = .ok (t, parser') →
      parser.type_stack_size < 65536 →
      parser'.type_stack_pos = parser.type_stack_pos ∧
        ∀ j, j < parser.type_stack_pos → parser'.type_stack j = parser.type_stack j) ∧
    cells_left (inner_type_collector 20
        (three_cells_used stock_classes 0
          ([word "integer", tok tk_comma] ++ bracketed "list" [word "string"] ++
            [tok tk_right_bracket]))
        SYM_CLASS_HASH {}) =
      .ok (3, [some (simple_type SYM_CLASS_STRING), some (simple_type SYM_CLASS_INTEGER),
               some (simple_type SYM_CLASS_DOUBLE)]) ∧
    cells_left (inner_type_collector 20
        (three_cells_used stock_classes 0
          [word "integer", tok tk_comma, word "function", tok tk_left_parenth, word "list",
           tok tk_left_bracket, word "integer", tok tk_right_bracket, tok tk_arrow,
           word "string", tok tk_right_parenth, tok tk_arrow, word "string",
           tok tk_right_parenth])
        SYM_CLASS_FUNCTION {}) =
      .ok (3, [some (simple_type SYM_CLASS_STRING), some (simple_type SYM_CLASS_INTEGER),
               some (simple_type SYM_CLASS_DOUBLE)]) ∧
    cells_left (inner_type_collector 20
        { three_cells_used [] 0 [] with
            lex := variant_sample.lex, symtab := variant_sample.symtab }
        11 { CV_VARIANT_FUNC := true }) =
      .ok (3, [some (simple_type SYM_CLASS_STRING), some (simple_type SYM_CLASS_INTEGER),
               some (simple_type SYM_CLASS_DOUBLE)]) := by
  refine ⟨?_, by decide!, by decide!, by decide!⟩
  intro fuel parser parser' cls flags t h hs
  obtain ⟨h1, _, h3⟩ := (kept_all fuel).2.1 parser cls flags t parser' h hs
  exact ⟨h1, h3⟩

/-- Witness of C35: with three cells in use, inner_type_collector returns on
`integer, list[string]]` read for a hash, and the position is 3 again. -/
theorem C35_type_stack_frame_witness :
    ∃ t parser', inner_type_collector 20
        (three_cells_used stock_classes 0
          ([word "integer", tok tk_comma] ++ bracketed "list" [word "string"] ++
            [tok tk_right_bracket]))
        SYM_CLASS_HASH {} = .ok (t, parser') ∧
      parser'.type_stack_pos = 3 ∧
      parser'.type_stack 0 = some (simple_type SYM_CLASS_STRING) := by
  have hok : result_type (inner_type_collector 20
      (three_cells_used stock_classes 0
        ([word "integer", tok tk_comma] ++ bracketed "list" [word "string"] ++
          [tok tk_right_bracket]))
      SYM_CLASS_HASH {}) =
      .ok (lily_type.mk SYM_CLASS_HASH [some (simple_type SYM_CLASS_INTEGER),
        some (lily_type.mk SYM_CLASS_LIST [some (simple_type SYM_CLASS_STRING)] 0 0)] 0 0) := by
    decide!
  cases h : inner_type_collector 20
      (three_cells_used stock_classes 0
        ([word "integer", tok tk_comma] ++ bracketed "list" [word "string"] ++
          [tok tk_right_bracket]))
      SYM_CLASS_HASH {} with
  | error e => rw [h] at hok; simp [result_type] at hok
  | ok r =>
    obtain ⟨t, parser'⟩ := r
    have hf := C35_type_stack_frame.1 20 _ parser' SYM_CLASS_HASH {} t h (by decide)
    exact ⟨t, parser', rfl, hf.1, hf.2 0 (by decide)⟩

/-- C36: in the want-operator state a word, a property word and `<[` end the
expression with nothing pushed, a number without a sign ends it, and a number
with a sign is split into a binary operator and a literal. A string literal,
however, is pushed as a value in the want-operator state as in any other, and
so is a lambda when a tree is open: the expression `"a" "b"` leaves two
literals in the pool with no operator between them and is accepted as a
statement, and `(1 {||})` leaves a literal and a lambda side by side; `1 1`
stops on the second number with one literal pushed. -/
theorem C36_want_operator_pushes_no_value :
    (∀ (fuel : Nat) (m : Bool) (parser : lily_parse_state),
      parser.lex.token = tk_word ∨ parser.lex.token = tk_prop_word ∨
        parser.lex.token = tk_tuple_open →
      expression_token fuel m parser ST_WANT_OPERATOR = .ok (parser, ST_DONE)) ∧
    (∀ (fuel : Nat) (m : Bool) (parser : lily_parse_state),
      parser.lex.token = tk_integer ∨ parser.lex.token = tk_double →
      parser.lex.signed ≠ some tk_plus → parser.lex.signed ≠ some tk_minus →
      expression_token fuel m parser ST_WANT_OPERATOR = .ok (parser, ST_DONE)) ∧
    (∀ (fuel : Nat) (m : Bool) (parser : lily_parse_state) (sign : lily_token),
      parser.lex.token = tk_integer ∨ parser.lex.token = tk_double →
      parser.lex.signed = some sign → sign = tk_plus ∨ sign = tk_minus →
      expression_token fuel m parser ST_WANT_OPERATOR =
        .ok ({ parser with
                 ast_pool := lily_ast_push
                   (lily_ast_push_binary_op parser.ast_pool
                     (if sign = tk_minus then expr_minus else expr_plus)) tree_literal,
                 lex := { parser.lex with signed := none } }, ST_WANT_OPERATOR)) ∧
    (∀ (fuel : Nat) (m : Bool) (parser : lily_parse_state),
      parser.lex.token = tk_double_quote →
      expression_token fuel m parser ST_WANT_OPERATOR =
        .ok ({ parser with ast_pool := lily_ast_push parser.ast_pool tree_literal },
          ST_WANT_OPERATOR)) ∧
    (∀ (fuel : Nat) (m : Bool) (parser : lily_parse_state),
      parser.lex.token = tk_lambda → save_depth parser.ast_pool ≠ 0 →
      expression_token fuel m parser ST_WANT_OPERATOR =
        .ok ({ parser with ast_pool := lily_ast_push parser.ast_pool tree_lambda },
          ST_WANT_OPERATOR)) ∧
    (∀ (fuel : Nat) (m : Bool) (parser : lily_parse_state),
      parser.lex.token = tk_lambda → save_depth parser.ast_pool = 0 →
      expression_token fuel m parser ST_WANT_OPERATOR = .ok (parser, ST_DONE)) ∧
    trees_pushed (expression 20
        (parser_on stock_classes 0 [tok tk_double_quote, tok tk_double_quote])) =
      .ok ([tree_literal, tree_literal], tk_final_eof) ∧
    outcome (statement 40
        (parser_on stock_classes 0 [tok tk_double_quote, tok tk_double_quote]) 1) =
      .ok (tk_final_eof, 0) ∧
    trees_pushed (expression 20
        (parser_on stock_classes 0
          [tok tk_left_parenth, tok tk_integer, tok tk_lambda, tok tk_right_parenth])) =
      .ok ([tree_parenth, tree_literal, tree_lambda], tk_final_eof) ∧
    trees_pushed (expression 20
        (parser_on stock_classes 0 [tok tk_integer, tok tk_integer])) =
      .ok ([tree_literal], tk_integer) ∧
    trees_pushed (expression 20
        (parser_on stock_classes 0 [tok tk_integer, signed_number tk_integer tk_plus])) =
      .ok ([tree_literal, tree_binary, tree_literal], tk_final_eof) := by
  refine ⟨fun fuel m parser h => token_in_want_operator_ends fuel m parser h, ?_, ?_,
    fun fuel m parser h => string_in_want_operator fuel m parser h ST_WANT_OPERATOR,
    fun fuel m parser h hd => (lambda_in_want_operator fuel m parser h).2 hd,
    fun fuel m parser h hd => (lambda_in_want_operator fuel m parser h).1 hd,
    by decide!, by decide!, by decide!, by decide!, by decide!⟩
  · intro fuel m parser h hs hm
    rw [number_in_want_operator fuel m parser h, unsigned_number_ends parser h hs hm]
  · intro fuel m parser sign h hs hsign
    rw [number_in_want_operator fuel m parser h, signed_number_splits parser sign h hs hsign]

/-- Witness of C36: on the parser that has read the first string of `"a" "b"`
and stands on the second in the want-operator state, the second string is
pushed as a literal. -/
theorem C36_want_operator_pushes_no_value_witness :
    (next_token (parser_on stock_classes 0
        [tok tk_double_quote, tok tk_double_quote])).lex.token = tk_double_quote ∧
    expression_token 5 false
        (next_token (parser_on stock_classes 0 [tok tk_double_quote, tok tk_double_quote]))
        ST_WANT_OPERATOR =
      .ok ({ next_token (parser_on stock_classes 0
                [tok tk_double_quote, tok tk_double_quote]) with
               ast_pool := lily_ast_push
                 (next_token (parser_on stock_classes 0
                   [tok tk_double_quote, tok tk_double_quote])).ast_pool tree_literal },
        ST_WANT_OPERATOR) :=
  ⟨by decide, C36_want_operator_pushes_no_value.2.2.2.1 5 false _ (by decide)⟩

/-- C37: in the want-operator state an integer or double token whose text
starts with `+` or `-` is parsed as spec_signed_literal words it: the binary
operator plus or minus is pushed, then the literal scanned again without the
sign, and the state stays want-operator;
the rest of the expression is parsed exactly as it is from the text with the
sign written apart as a token of its own, so `1+1` leaves the same trees pushed
as `1 + 1`. An integer or double token without a sign ends the expression there
with nothing pushed. -/
theorem C37_signed_literal_is_operator_and_literal :
    (∀ (fuel : Nat) (m : Bool) (parser : lily_parse_state) (sign : lily_token),
      parser.lex.token = tk_integer ∨ parser.lex.token = tk_double →
      parser.lex.signed = some sign → sign = tk_plus ∨ sign = tk_minus →
      expression_token fuel m parser ST_WANT_OPERATOR =
        .ok (spec_signed_literal parser sign)) ∧
    (∀ (fuel : Nat) (m : Bool) (parser : lily_parse_state) (sign : lily_token),
      parser.lex.token = tk_integer ∨ parser.lex.token = tk_double →
      parser.lex.signed = some sign → sign = tk_plus ∨ sign = tk_minus →
      expression_loop (fuel + 1) m parser ST_WANT_OPERATOR =
        expression_loop (fuel + 2) m (sign_written_apart parser sign) ST_WANT_OPERATOR) ∧
    (∀ (fuel : Nat) (m : Bool) (parser : lily_parse_state),
      parser.lex.token = tk_integer ∨ parser.lex.token = tk_double →
      parser.lex.signed ≠ some tk_plus → parser.lex.signed ≠ some tk_minus →
      expression_loop (fuel + 1) m parser ST_WANT_OPERATOR = .ok parser) ∧
    trees_pushed (expression 20 (parser_on stock_classes 0
        [tok tk_integer, signed_number tk_integer tk_plus])) =
      trees_pushed (expression 20
        (parser_on stock_classes 0 [tok tk_integer, tok tk_plus, tok tk_integer])) ∧
    trees_pushed (expression 20 (parser_on stock_classes 0
        [tok tk_integer, signed_number tk_integer tk_plus])) =
      .ok ([tree_literal, tree_binary, tree_literal], tk_final_eof) ∧
    trees_pushed (expression 20 (parser_on stock_classes 0
        [tok tk_double, signed_number tk_double tk_minus])) =
      trees_pushed (expression 20
        (parser_on stock_classes 0 [tok tk_double, tok tk_minus, tok tk_double])) ∧
    trees_pushed (expression 20 (parser_on stock_classes 0 [tok tk_integer, tok tk_integer])) =
      .ok ([tree_literal], tk_integer) := by
  refine ⟨?_, fun fuel m parser sign h hs hsign =>
      signed_number_as_written_apart fuel m parser sign h hs hsign, ?_,
    by decide!, by decide!, by decide!, by decide!⟩
  · intro fuel m parser sign h hs hsign
    rw [number_in_want_operator fuel m parser h, signed_number_splits parser sign h hs hsign]
    rfl
  · intro fuel m parser h hs hm
    apply expression_loop_done
    rw [number_in_want_operator fuel m parser h, unsigned_number_ends parser h hs hm]

/-- Witness of C37: after the first number of `1+1` the parser stands on the
token `+1` in the want-operator state, and the loop of expression_raw runs
from there as it does from `+` and `1` written apart. -/
theorem C37_signed_literal_is_operator_and_literal_witness :
    (next_token (parser_on stock_classes 0
        [tok tk_integer, signed_number tk_integer tk_plus])).lex.token = tk_integer ∧
    (next_token (parser_on stock_classes 0
        [tok tk_integer, signed_number tk_integer tk_plus])).lex.signed = some tk_plus ∧
    expression_loop (5 + 1) false
        (next_token (parser_on stock_classes 0
          [tok tk_integer, signed_number tk_integer tk_plus])) ST_WANT_OPERATOR =
      expression_loop (5 + 2) false
        (sign_written_apart
          (next_token (parser_on stock_classes 0
            [tok tk_integer, signed_number tk_integer tk_plus])) tk_plus) ST_WANT_OPERATOR :=
  ⟨by decide, by decide,
   C37_signed_literal_is_operator_and_literal.2.1 5 false _ tk_plus (Or.inl (by decide))
     (by decide) (Or.inl rfl)⟩

/-- C38: expression_dot on a `.` followed by a word pushes the member access
and asks for an operator, in whatever state it is called, so `.x` with no value
before it is accepted. Followed by a token that is neither a word nor `.@(`,
expression_dot raises nothing and returns with the state it was given, and
the loop of expression_raw then reads past that token without looking at it:
`a."x" + 2` leaves the trees of `a + 2` and is accepted as a statement, and
`a.+ a` ends the expression at the second `a` with the `+` dropped. -/
theorem C38_dot_needs_value_and_member :
    (∀ (fuel : Nat) (parser : lily_parse_state) (state : Nat),
      (next_token parser).lex.token = tk_word →
      expression_dot fuel parser state =
        .ok ({ next_token parser with
                 ast_pool := lily_ast_push (next_token parser).ast_pool tree_oo_access },
          ST_WANT_OPERATOR)) ∧
    (∀ (fuel : Nat) (parser : lily_parse_state) (state : Nat),
      (next_token parser).lex.token ≠ tk_word →
      (next_token parser).lex.token ≠ tk_typecast_parenth →
      expression_dot fuel parser state = .ok (next_token parser, state)) ∧
    (∀ (fuel : Nat) (m : Bool) (parser : lily_parse_state) (state : Nat),
      parser.lex.token = tk_dot →
      (next_token parser).lex.token ≠ tk_word →
      (next_token parser).lex.token ≠ tk_typecast_parenth →
      state ≠ ST_DONE → state ≠ ST_BAD_TOKEN →
      expression_loop (fuel + 1) m parser state =
        expression_loop fuel m (next_token (next_token parser)) state) ∧
    trees_pushed (expression 20 (range_value_on [word "a", tok tk_dot, word "x"])) =
      .ok ([tree_global_var, tree_oo_access], tk_final_eof) ∧
    trees_pushed (expression 20 (range_value_on [tok tk_dot, word "x"])) =
      .ok ([tree_oo_access], tk_final_eof) ∧
    trees_pushed (expression 20
        (range_value_on [word "a", tok tk_dot, tok tk_double_quote, tok tk_plus,
          tok tk_integer])) =
      .ok ([tree_global_var, tree_binary, tree_literal], tk_final_eof) ∧
    trees_pushed (expression 20 (range_value_on [word "a", tok tk_plus, tok tk_integer])) =
      .ok ([tree_global_var, tree_binary, tree_literal], tk_final_eof) ∧
    trees_pushed (expression 20
        (range_value_on [word "a", tok tk_dot, tok tk_plus, word "a"])) =
      .ok ([tree_global_var], tk_word) ∧
    outcome (statement 40
        (parser_on stock_classes 0
          (after_integer_a [word "a", tok tk_dot, tok tk_double_quote, tok tk_plus,
            tok tk_integer])) 1) =
      .ok (tk_final_eof, 0) ∧
    outcome (statement 40
        (parser_on stock_classes 0
          (after_integer_a [tok tk_left_parenth, tok tk_dot, word "x",
            tok tk_right_parenth])) 1) =
      .ok (tk_final_eof, 0) := by
  refine ⟨fun fuel parser state h => expression_dot_word fuel parser state h,
    fun fuel parser state h1 h2 => expression_dot_other fuel parser state h1 h2,
    fun fuel m parser state h h1 h2 hd hb => dot_skips_token fuel m parser state h h1 h2 hd hb,
    by decide!, by decide!, by decide!, by decide!, by decide!, by decide!, by decide!⟩

/-- Witness of C38: after `a` of `a."x" + 2` the parser stands on the `.` in
the want-operator state; the string follows, and the loop of expression_raw
goes on from the `+` after it in the same state. -/
theorem C38_dot_needs_value_and_member_witness :
    (next_token (range_value_on [word "a", tok tk_dot, tok tk_double_quote, tok tk_plus,
        tok tk_integer])).lex.token = tk_dot ∧
    (next_token (next_token (next_token (range_value_on
        [word "a", tok tk_dot, tok tk_double_quote, tok tk_plus,
          tok tk_integer])))).lex.token = tk_plus ∧
    expression_loop (5 + 1) false
        (next_token (range_value_on [word "a", tok tk_dot, tok tk_double_quote, tok tk_plus,
          tok tk_integer])) ST_WANT_OPERATOR =
      expression_loop 5 false
        (next_token (next_token (next_token (range_value_on
          [word "a", tok tk_dot, tok tk_double_quote, tok tk_plus, tok tk_integer]))))
        ST_WANT_OPERATOR :=
  ⟨by decide!, by decide!,
   C38_dot_needs_value_and_member.2.2.1 5 false _ ST_WANT_OPERATOR (by decide!) (by decide!)
     (by decide!) (by decide) (by decide)⟩

/-- C39: each of lily_parse_string, lily_parse_file and lily_parse_special
sets up one handler and counts it in jump_pos of the raiser, and where the
call returns 1 jump_pos is one more than at entry: nothing takes the handler
out again. Calls one after the other on one parser add one each, so the calls
on n empty strings all return 1 and leave jump_pos raised by n, for every n:
it is not bounded. The parser is made with jump_pos 0; after the three strings
of nothing, `integer a = 1` and `class Point() { }` it is 3, and after
lily_parse_file on a tagged file with no code, where parser_loop is not
entered, it is 1. -/
theorem C39_handler_depth_after_parse :
    (∀ (fuel : Nat) (seeds : List (List lex_item)) (st st' : lily_parse_state_ext)
        (name : String) (mode : lily_lex_mode) (str : List lex_item),
      lily_parse_string fuel seeds st name mode str = .ok st' →
      st'.raiser.jump_pos = st.raiser.jump_pos + 1) ∧
    (∀ (fuel : Nat) (seeds : List (List lex_item)) (st st' : lily_parse_state_ext)
        (mode : lily_lex_mode) (name : String) (file : List lex_item),
      lily_parse_file fuel seeds st mode name file = .ok st' →
      st'.raiser.jump_pos = st.raiser.jump_pos + 1) ∧
    (∀ (fuel : Nat) (seeds : List (List lex_item)) (st st' : lily_parse_state_ext)
        (mode : lily_lex_mode) (source : List lex_item) (name : String),
      lily_parse_special fuel seeds st mode source name = .ok st' →
      st'.raiser.jump_pos = st.raiser.jump_pos + 1) ∧
    (∀ (fuel : Nat) (seeds : List (List lex_item)) (strs : List (List lex_item))
        (st st' : lily_parse_state_ext),
      parse_strings fuel seeds st strs = .ok st' →
      st'.raiser.jump_pos = st.raiser.jump_pos + strs.length) ∧
    (∀ (fuel : Nat) (seeds : List (List lex_item)) (n : Nat) (st : lily_parse_state_ext),
      st.mode ≠ pm_init → st.parser.emit.blocks.length ≤ 1 →
      ∃ st', parse_strings (fuel + 1) seeds st (List.replicate n []) = .ok st' ∧
        st'.raiser.jump_pos = st.raiser.jump_pos + n) ∧
    parser_made.map (fun st => st.raiser.jump_pos) = some 0 ∧
    parser_made.map (fun st =>
        jump_pos_left (parse_strings 300 sample_seeds st [[], integer_program, point_program])) =
      some (.ok 3) ∧
    parser_made.map (fun st =>
        between_calls (lily_parse_string 300 sample_seeds st "[cli]" lm_no_tags
          integer_program)) =
      some (.ok true) ∧
    parser_made.map (fun st =>
        jump_pos_left (lily_parse_file 300 sample_seeds st lm_tags "page.html" [])) =
      some (.ok 1) := by
  refine ⟨fun fuel seeds st st' name mode str h =>
      parse_string_jump_pos fuel seeds st st' name mode str h,
    fun fuel seeds st st' mode name file h =>
      parse_file_jump_pos fuel seeds st st' mode name file h,
    fun fuel seeds st st' mode source name h =>
      parse_special_jump_pos fuel seeds st st' mode source name h,
    fun fuel seeds strs st st' h => parse_strings_jump_pos fuel seeds strs st st' h,
    fun fuel seeds n st hm hb => parse_empty_strings fuel seeds n st hm hb,
    by decide!, by decide!, by decide!, by decide!⟩

/-- Witness of C39: lily_parse_string on `integer a = 1` returns 1 on the
parser as it is made, and jump_pos of the raiser, 0 before, is 1 after. -/
theorem C39_handler_depth_after_parse_witness :
    ∃ st st', parser_made = some st ∧
      lily_parse_string 300 sample_seeds st "[cli]" lm_no_tags integer_program = .ok st' ∧
      st.raiser.jump_pos = 0 ∧ st'.raiser.jump_pos = 0 + 1 := by
  have h0 : parser_made.map (fun st => st.raiser.jump_pos) = some 0 := by decide!
  have hok : parser_made.map (fun st =>
      between_calls (lily_parse_string 300 sample_seeds st "[cli]" lm_no_tags
        integer_program)) = some (.ok true) := by decide!
  cases hp : parser_made with
  | none => rw [hp] at h0; simp at h0
  | some st =>
    rw [hp] at h0 hok
    simp only [Option.map_some', Option.some.injEq] at h0 hok
    cases h : lily_parse_string 300 sample_seeds st "[cli]" lm_no_tags integer_program with
    | error e => rw [h] at hok; simp [between_calls] at hok
    | ok st' =>
      have hj := C39_handler_depth_after_parse.1 300 sample_seeds st st' "[cli]" lm_no_tags
        integer_program h
      exact ⟨st, st', rfl, h, h0, by rw [hj, h0]⟩

/-- C40: pos and size are uint16_t, so the invariant does not hold for
messages of any length: after lily_msgbuf_add of a string of 65536 bytes on a
new buffer, the block for it had, the message is that string and pos is 0, not
its length; in general pos is the length modulo 2^16. Below that the invariant
holds: a new buffer has it, and for every sequence of calls of lily_msgbuf_add,
lily_msgbuf_add_char, lily_msgbuf_add_text_range, lily_msgbuf_reset and
lily_msgbuf_flush with readable arguments on a buffer that has it, where the
text held, the bytes added and the terminator stay below 2^16 bytes and the
blocks can be had, every call returns and the buffer has the invariant for the
text added since the last reset or flush: pos is the length of the message,
pos is below size, and the message is that text. -/
theorem C40_msgbuf_invariant_wraps_at_65536 :
    (∀ (lib : c_library) (str : List Nat), 65537 ≤ lib.room → str.length = 65536 →
      (∀ b ∈ str, b ≠ 0) →
      ∃ msgbuf', lily_msgbuf_add lib new_buffer str = .ok msgbuf' ∧
        msgbuf'.pos = 0 ∧ c_string msgbuf'.message = .ok str) ∧
    (∀ (lib : c_library) (msgbuf : lily_msgbuf) (content str : List Nat),
      Holds msgbuf content → (∀ b ∈ str, b ≠ 0) →
      content.length + str.length + 1 ≤ lib.room →
      ∃ msgbuf', lily_msgbuf_add lib msgbuf str = .ok msgbuf' ∧
        msgbuf'.pos = (content.length + str.length) % 65536 ∧
        c_string msgbuf'.message = .ok (content ++ str)) ∧
    (∀ (lib : c_library) (calls : List msgbuf_call) (msgbuf : lily_msgbuf)
        (content : List Nat),
      Kept msgbuf content → (∀ call ∈ calls, readable call) →
      content.length + bytes_added calls + 1 < 65536 →
      content.length + bytes_added calls + 1 ≤ lib.room →
      ∃ msgbuf', msgbuf_run lib msgbuf calls = .ok msgbuf' ∧
        Kept msgbuf' (text_after_all content calls)) ∧
    (∀ (msgbuf : lily_msgbuf) (content : List Nat), Kept msgbuf content →
      msgbuf.pos = content.length ∧ msgbuf.pos < msgbuf.size ∧
        c_string msgbuf.message = .ok content) ∧
    Kept new_buffer [] ∧
    message_left (msgbuf_run sample_library new_buffer
        [.add (c_bytes "ab"), .add_char 99, .add_text_range (c_bytes "hello") 1 3]) =
      .ok (c_bytes "abcel") ∧
    message_left (msgbuf_run sample_library new_buffer
        [.add (c_bytes "ab"), .flush, .add_char 99, .reset,
         .add_text_range (c_bytes "hello") 1 3, .add (c_bytes "m")]) =
      .ok (c_bytes "elm") := by
  refine ⟨?_, fun lib msgbuf content str h hstr hroom =>
      msgbuf_add_wraps lib msgbuf content str h hstr hroom,
    fun lib calls msgbuf content h hr hlen hroom =>
      msgbuf_run_kept lib calls msgbuf content h hr hlen hroom,
    fun msgbuf content h => ⟨h.1.2.1, h.2, holds_message msgbuf content h.1⟩,
    new_buffer_kept, by decide!, by decide!⟩
  intro lib str hroom hlen hnz
  obtain ⟨m, h1, h2, h3⟩ := msgbuf_add_wraps lib new_buffer [] str new_buffer_holds hnz
    (by rw [hlen, List.length_nil]; omega)
  refine ⟨m, h1, ?_, ?_⟩
  · rw [h2, hlen, List.length_nil, Nat.zero_add, Nat.mod_self]
  · rw [h3, List.nil_append]

/-- Witness of C40: the calls that add `ab`, flush, add `c`, reset and add the
range 1 to 3 of `hello` and then `m` all return on a new buffer, and leave it
with pos 3, below size, and the message `elm`; and a string of 65536 bytes `a`
added to a new buffer leaves pos 0 with the message of 65536 bytes. -/
theorem C40_msgbuf_invariant_wraps_at_65536_witness :
    (∃ msgbuf', msgbuf_run sample_library new_buffer
          [.add (c_bytes "ab"), .flush, .add_char 99, .reset,
           .add_text_range (c_bytes "hello") 1 3, .add (c_bytes "m")] = .ok msgbuf' ∧
        Kept msgbuf' (c_bytes "elm")) ∧
    (∃ msgbuf', lily_msgbuf_add sample_library new_buffer (List.replicate 65536 97) =
          .ok msgbuf' ∧
        msgbuf'.pos = 0 ∧ c_string msgbuf'.message = .ok (List.replicate 65536 97)) :=
  ⟨C40_msgbuf_invariant_wraps_at_65536.2.2.1 sample_library
      [.add (c_bytes "ab"), .flush, .add_char 99, .reset,
       .add_text_range (c_bytes "hello") 1 3, .add (c_bytes "m")] new_buffer []
      C40_msgbuf_invariant_wraps_at_65536.2.2.2.2.1
      (by
        intro call hc
        simp only [List.mem_cons, List.mem_singleton, List.not_mem_nil, or_false] at hc
        rcases hc with rfl | rfl | rfl | rfl | rfl | rfl
        · intro b hb
          have : b = 97 ∨ b = 98 := by simpa [c_bytes, String.utf8EncodeChar] using hb
          omega
        · trivial
        · trivial
        · trivial
        · refine ⟨by decide, by decide, ?_⟩
          intro b hb
          have : b = 104 ∨ b = 101 ∨ b = 108 ∨ b = 111 := by
            simpa [c_bytes, String.utf8EncodeChar] using hb
          omega
        · intro b hb
          have : b = 109 := by simpa [c_bytes, String.utf8EncodeChar] using hb
          omega)
      (by decide) (by decide),
   C40_msgbuf_invariant_wraps_at_65536.1 sample_library (List.replicate 65536 97) (by decide)
      (List.length_replicate 65536 97)
      (fun b hb => by rw [List.eq_of_mem_replicate hb]; decide)⟩

end Lily
